import Mathlib

/-!
# Cluster routing core of rueidis: a shallow embedding

The development follows `cluster.go`.  The client struct becomes the record
`ClusterClient`; every method becomes a function that takes the client and
returns the updated client.  Everything the client cannot decide by itself
(what a connection answers, what the connection factory returns, in which
order a Go map is iterated) is read from a `World`, whose fields are functions
of the history of effects performed so far, so that any sequential behaviour
of the servers is an instance.  The history is the field `trace` of the
client, newest event first.

Loops written with `goto` are unrolled with a fuel argument.  A run that
exhausts its fuel yields `Exec.fuel`, a Go panic yields `Exec.panic`.

The model is sequential: one caller at a time.  A `go` statement is recorded
in the history as the spawn of the goroutine (`Event.Close`,
`Event.goRefresh`); the body of the goroutine is not run inside the method
that spawns it.  The read/write lock of the client has no effect on a single
caller and is left out.

A dedicated session (`DedicatedClusterClient`) carries the client with it; a
run of the user callback is a strategy over the results seen so far, and an
`Outcome` keeps the session both at a return and at a panic.

The hash repository of `om/hash_repo.go` is embedded over an abstract server
state; the Lua text `saveScript` is run on a store of hashes, with Lua numbers
modelled on strings of decimal digits.

The script handle of `lua.go` records its calls in a history of its own.  The
functions of `rueidiscompat/command.go` are pure; the operations on `float64`
that they use are gathered in the record `Floats`.
-/

namespace Rueidis

/-! ## Outcomes -/

/-- Outcome of running a piece of Go code: normal return, panic, or not
finished within the fuel given. -/
inductive Exec (α : Type) where
  | ret (a : α)
  | panic (msg : String)
  | fuel
  deriving Repr

/-! ## Go maps with string keys -/

/-- A Go `map[string]V`, kept as an association list with distinct keys. -/
abbrev GoMap (V : Type) := List (String × V)

namespace GoMap

/-- Go `m[k]` in the two-value form: `get? m k` is `some v` when present. -/
def get? {V : Type} (m : GoMap V) (k : String) : Option V :=
  match m with
  | [] => none
  | (k', v) :: rest => if k' = k then some v else get? rest k

/-- Go `m[k] = v`. -/
def set {V : Type} (m : GoMap V) (k : String) (v : V) : GoMap V :=
  match m with
  | [] => [(k, v)]
  | (k', v') :: rest => if k' = k then (k, v) :: rest else (k', v') :: set rest k v

/-- Go `delete(m, k)`. -/
def delete {V : Type} (m : GoMap V) (k : String) : GoMap V :=
  match m with
  | [] => []
  | (k', v') :: rest => if k' = k then rest else (k', v') :: delete rest k

/-- Key list of the map. -/
def keys {V : Type} (m : GoMap V) : List String := m.map Prod.fst

end GoMap

/-- Iteration order of a Go `range` over a map: the order is not fixed by the
language.  `permute choice n l` takes, `n` times, the element at position
`choice k % length` out of what is left; every order of `l` is obtained for
some `choice` when `n = l.length`. -/
def permute {α : Type} (choice : Nat → Nat) : Nat → Nat → List α → List α
  | 0, _, _ => []
  | n + 1, k, l =>
    match l[choice k % l.length]? with
    | none => []
    | some a => a :: permute choice n (k + 1) (l.eraseIdx (choice k % l.length))

/-! ## Collaborators outside the source tree -/

/-- Modelled from the spec: `proto.Message`, the decoded reply (§6.3 uses its
string, integer and array parts; `typ` is the byte that tells the kind of
reply, `'_'` for nil). -/
inductive Message where
  | mk (typ : Char) (string : String) (integer : Int) (values : List Message)
  deriving Repr

namespace Message

/-- Field `Type`. -/
def typ : Message → Char
  | mk t _ _ _ => t

/-- Field `String`. -/
def string : Message → String
  | mk _ s _ _ => s

/-- Field `Integer` (an int64). -/
def integer : Message → Int
  | mk _ _ i _ => i

/-- Field `Values`. -/
def values : Message → List Message
  | mk _ _ _ vs => vs

/-- The zero value `proto.Message{}`. -/
def zero : Message := mk (Char.ofNat 0) "" 0 []

/-- An integer reply. -/
def int (i : Int) : Message := mk ':' "" i []

/-- A string reply. -/
def str (s : String) : Message := mk '$' s 0 []

/-- An array reply. -/
def arr (vs : List Message) : Message := mk '*' "" 0 vs

/-- A nil reply. -/
def null : Message := mk '_' "" 0 []

/-- Modelled from the spec: method `IsNil`. -/
def IsNil (m : Message) : Bool := m.typ = '_'

end Message

/-- Modelled from the spec: `proto.RedisError`, the classifier of §6.1
(`is_moved → addr?`, `is_ask → addr?`, `is_try_again`, `is_no_script`,
`is_nil`). -/
inductive RedisError where
  | moved (addr : String)
  | ask (addr : String)
  | tryAgain
  | noScript
  | nil
  | other (msg : String)
  deriving DecidableEq, Repr

namespace RedisError

/-- Classifier `IsMoved`. -/
def IsMoved : RedisError → Option String
  | moved a => some a
  | _ => none

/-- Classifier `IsAsk`. -/
def IsAsk : RedisError → Option String
  | ask a => some a
  | _ => none

/-- Classifier `IsTryAgain`. -/
def IsTryAgain : RedisError → Bool
  | tryAgain => true
  | _ => false

/-- Classifier `IsNoScript`. -/
def IsNoScript : RedisError → Bool
  | noScript => true
  | _ => false

/-- Classifier `IsNil`: the reply was nil. -/
def IsNil : RedisError → Bool
  | nil => true
  | _ => false

/-- A routing error is one of MOVED, ASK, TRYAGAIN. -/
def isRouting (e : RedisError) : Bool :=
  e.IsMoved.isSome || e.IsAsk.isSome || e.IsTryAgain

end RedisError

/-- Go `error` values that occur in the client and in the repository; `redis e`
is a server-reported error carried as an `error` value. -/
inductive Error where
  | ErrNoNodes
  | ErrNoSlot
  | ErrConnClosing
  | ErrVersionMismatch
  | redis (e : RedisError)
  | other (msg : String)
  deriving DecidableEq, Repr

/-- Modelled from the spec: `proto.Result`, a reply value, a server-reported
error, or a client-side error. -/
inductive Result where
  | val (m : Message)
  | redisErr (e : RedisError)
  | err (e : Error)
  deriving Repr

namespace Result

/-- Modelled from the spec: `proto.NewErrResult`. -/
def NewErrResult (e : Error) : Result := err e

/-- Modelled from the spec: `Result.RedisError`, `as_error()` of §6.1: the
server-reported error of the reply, if it is one. -/
def RedisError : Result → Option Rueidis.RedisError
  | redisErr e => some e
  | _ => none

/-- True when the result is a MOVED, ASK or TRYAGAIN error. -/
def isRouting (r : Result) : Bool :=
  match r.RedisError with
  | some e => e.isRouting
  | none => false

end Result

/-- Modelled from the spec: `cmds.InitSlot`, the sentinel `ANY_SLOT` of §3,
the first value outside the slot ring. -/
def InitSlot : Nat := 16384

/-- Modelled from the spec: a built command (`cmds.SCompleted`, and
`cmds.SCacheable`, `cmds.Completed`, `cmds.Cacheable` which have the same
layout): its words and the slot tag of §6.2. -/
structure Command where
  cs : List String
  ks : Nat
  deriving DecidableEq, Repr

namespace Command

/-- Method `Slot`. -/
def Slot (c : Command) : Nat := c.ks

/-- Method `Commands`. -/
def Commands (c : Command) : List String := c.cs

end Command

/-- Modelled from the spec: `cmds.SlotCmd`, the topology query. -/
def SlotCmd : Command := ⟨["CLUSTER", "SLOTS"], InitSlot⟩

/-- Modelled from the spec: `cmds.AskingCmd`, the `ASKING` preamble. -/
def AskingCmd : Command := ⟨["ASKING"], InitSlot⟩

/-- A connection handle (`conn` interface value, never nil). -/
structure Conn where
  id : Nat
  deriving DecidableEq, Repr

/-- A wire handle (`wire` interface value, never nil), borrowed from a
connection by a dedicated session. -/
structure Wire where
  id : Nat
  deriving DecidableEq, Repr

/-- Effects of the client on its collaborators.  `Slots cc` is the topology
query `cc.Do(cmds.SlotCmd)` of `_refresh`; `Close cc` is `go cc.Close()`;
`goRefresh` is `go c.refresh()`, whose body runs outside the calling method;
`Acquire cc wr` is `cc.Acquire()` returning `wr`, `Store cc wr` is
`cc.Store(wr)`, `WireDo` and `WireDoMulti` are submissions on a wire. -/
inductive Event where
  | connFn (addr : String) (cc : Conn)
  | Dial (cc : Conn)
  | Close (cc : Conn)
  | Slots (cc : Conn)
  | Do (cc : Conn) (cmd : Command)
  | DoMulti (cc : Conn) (multi : List Command)
  | DoCache (cc : Conn) (cmd : Command) (ttl : Nat)
  | goRefresh
  | Gosched
  | Put (cs : List String)
  | Acquire (cc : Conn) (wr : Wire)
  | Store (cc : Conn) (wr : Wire)
  | WireDo (wr : Wire) (cmd : Command)
  | WireDoMulti (wr : Wire) (multi : List Command)
  deriving DecidableEq, Repr

/-- Everything outside the client.  Each field receives the history so far
(newest first).  `Slots` is the outcome of the topology query
`cc.Do(cmds.SlotCmd).Value()`, the pair of a reply and an error. -/
structure World where
  connFn : List Event → String → Conn
  Dial : List Event → Conn → Option Error
  Do : List Event → Conn → Command → Result
  Slots : List Event → Conn → Message × Option Error
  DoMulti : List Event → Conn → List Command → List Result
  DoCache : List Event → Conn → Command → Nat → Result
  rangeOrder : List Event → Nat → Nat

/-- The slot vector `[16384]conn`; `none` is a nil entry. -/
abbrev Slots := Nat → Option Conn

/-- Go `slots[i] = p`. -/
def Slots.set (slots : Slots) (i : Nat) (p : Option Conn) : Slots :=
  fun j => if j = i then p else slots j

/-- The client struct: configuration, topology snapshot, and the history. -/
structure ClusterClient where
  InitAddress : List String
  slots : Slots
  conns : GoMap Conn
  trace : List Event

namespace ClusterClient

/-- Record one effect. -/
def log (c : ClusterClient) (e : Event) : ClusterClient :=
  { c with trace := e :: c.trace }

/-- Go `range m` at the current history. -/
def range {V : Type} (w : World) (c : ClusterClient) (m : GoMap V) : List (String × V) :=
  permute (w.rangeOrder c.trace) m.length 0 m

end ClusterClient

/-! ## `parseSlots` -/

/-- Slot group of one primary: replica addresses and owned ranges. -/
structure group where
  nodes : List String
  slots : List (Int × Int)
  deriving Repr

/-- Go `vs[i]`: panics when `i` is out of range. -/
def index (vs : List Message) (i : Nat) : Exec Message :=
  match vs[i]? with
  | some m => Exec.ret m
  | none => Exec.panic "index out of range"

/-- Address of a node array: `fmt.Sprintf("%s:%d", n.Values[0].String, n.Values[1].Integer)`. -/
def nodeAddr (n : Message) : Exec String :=
  match index n.values 0 with
  | Exec.ret h =>
    match index n.values 1 with
    | Exec.ret p => Exec.ret (h.string ++ ":" ++ toString p.integer)
    | Exec.panic m => Exec.panic m
    | Exec.fuel => Exec.fuel
  | Exec.panic m => Exec.panic m
  | Exec.fuel => Exec.fuel

/-- The loop `for i := 2; i < len(v.Values); i++` of `parseSlots`, run over
`v.Values[2:]`. -/
def parseNodes : List Message → List String → Exec (List String)
  | [], nodes => Exec.ret nodes
  | n :: rest, nodes =>
    match nodeAddr n with
    | Exec.ret dst => parseNodes rest (nodes ++ [dst])
    | Exec.panic m => Exec.panic m
    | Exec.fuel => Exec.fuel

/-- Lines 194-202 of `parseSlots`: the group `g` of `master`, created with
its node list when the primary is seen for the first time. -/
def lookupGroup (v : Message) (groups : GoMap group) (master : String) : Exec group :=
  match groups.get? master with
  | some g => Exec.ret g
  | none =>
    match parseNodes (v.values.drop 2) [] with
    | Exec.ret nodes => Exec.ret ⟨nodes, []⟩
    | Exec.panic m => Exec.panic m
    | Exec.fuel => Exec.fuel

/-- Body of the loop of `parseSlots` for one element `v` of the reply. -/
def parseSlot (v : Message) (groups : GoMap group) : Exec (GoMap group) :=
  match index v.values 2 with
  | Exec.ret m2 =>
    match nodeAddr m2 with
    | Exec.ret master =>
      match lookupGroup v groups master with
      | Exec.ret g =>
        match index v.values 0, index v.values 1 with
        | Exec.ret lo, Exec.ret hi =>
          Exec.ret (groups.set master { g with slots := g.slots ++ [(lo.integer, hi.integer)] })
        | _, _ => Exec.panic "index out of range"
      | Exec.panic m => Exec.panic m
      | Exec.fuel => Exec.fuel
    | Exec.panic m => Exec.panic m
    | Exec.fuel => Exec.fuel
  | Exec.panic m => Exec.panic m
  | Exec.fuel => Exec.fuel

/-- The loop of `parseSlots` over `slots.Values`. -/
def parseSlotsLoop : List Message → GoMap group → Exec (GoMap group)
  | [], groups => Exec.ret groups
  | v :: rest, groups =>
    match parseSlot v groups with
    | Exec.ret groups1 => parseSlotsLoop rest groups1
    | Exec.panic m => Exec.panic m
    | Exec.fuel => Exec.fuel

/-- `parseSlots`: the slot groups of a topology reply, keyed by primary. -/
def parseSlots (slots : Message) : Exec (GoMap group) :=
  parseSlotsLoop slots.values []

/-! ## `init` -/

/-- The loop of `init` over the remaining initial addresses; `err` is the
error variable of the function. -/
def initLoop (w : World) : List String → Option Error → ClusterClient →
    (Option Conn × Option Error) × ClusterClient
  | [], err, c => ((none, err), c)
  | addr :: rest, _, c =>
    let cc := w.connFn c.trace addr
    let c1 := c.log (Event.connFn addr cc)
    let err := w.Dial c1.trace cc
    let c2 := c1.log (Event.Dial cc)
    match err with
    | none =>
      let c3 :=
        match c2.conns.get? addr with
        | some prev => c2.log (Event.Close prev)
        | none => c2
      ((some cc, none), { c3 with conns := c3.conns.set addr cc })
    | some e => initLoop w rest (some e) c2

/-- Method `init`. -/
def init (w : World) (c : ClusterClient) : (Option Conn × Option Error) × ClusterClient :=
  if c.InitAddress.length = 0 then ((none, some Error.ErrNoNodes), c)
  else initLoop w c.InitAddress none c

/-! ## `_refresh` -/

/-- Local variables of `_refresh` that live across the query loop. -/
structure QueryVars where
  reply : Message
  err : Option Error
  dead : List String

/-- The loop `for addr, cc := range c.conns` that issues the topology query
(lines 102-108): a failure is recorded in `dead`, a success breaks. -/
def queryLoop (w : World) : List (String × Conn) → QueryVars → ClusterClient →
    QueryVars × ClusterClient
  | [], v, c => (v, c)
  | (addr, cc) :: rest, v, c =>
    let r := w.Slots c.trace cc
    let c1 := c.log (Event.Slots cc)
    match r.2 with
    | some e => queryLoop w rest ⟨r.1, some e, v.dead ++ [addr]⟩ c1
    | none => (⟨r.1, none, v.dead⟩, c1)

/-- The loop over `dead` (lines 113-118): each address still in `conns` is
deleted and its connection closed in the background. -/
def removeDead : List String → ClusterClient → ClusterClient
  | [], c => c
  | addr :: rest, c =>
    match c.conns.get? addr with
    | some cc => removeDead rest ({ c with conns := c.conns.delete addr }.log (Event.Close cc))
    | none => removeDead rest c

/-- The loop `for addr := range groups` (lines 138-140): one factory
connection per primary. -/
def newMasters (w : World) : List (String × group) → GoMap Conn → ClusterClient →
    GoMap Conn × ClusterClient
  | [], masters, c => (masters, c)
  | (addr, _) :: rest, masters, c =>
    let cc := w.connFn c.trace addr
    newMasters w rest (masters.set addr cc) (c.log (Event.connFn addr cc))

/-- The loop `for addr, cc := range c.conns` (lines 145-151): a known
connection of a primary is reused, any other is collected in `removes`. -/
def reuseConns : List (String × Conn) → GoMap Conn → List Conn → GoMap Conn × List Conn
  | [], masters, removes => (masters, removes)
  | (addr, cc) :: rest, masters, removes =>
    match masters.get? addr with
    | some _ => reuseConns rest (masters.set addr cc) removes
    | none => reuseConns rest masters (removes ++ [cc])

/-- The loop `for i := slot[0]; i <= slot[1]; i++` (lines 157-159), `n` being
the number of iterations left; `slots[i]` panics outside the array. -/
def fillRange (p : Option Conn) : Nat → Int → Slots → Exec Slots
  | 0, _, slots => Exec.ret slots
  | n + 1, i, slots =>
    if 0 ≤ i ∧ i < 16384 then fillRange p n (i + 1) (slots.set i.toNat p)
    else Exec.panic "index out of range"

/-- The loop `for _, slot := range g.slots` (lines 156-160). -/
def fillGroup (p : Option Conn) : List (Int × Int) → Slots → Exec Slots
  | [], slots => Exec.ret slots
  | slot :: rest, slots =>
    match fillRange p (slot.2 - slot.1 + 1).toNat slot.1 slots with
    | Exec.ret slots1 => fillGroup p rest slots1
    | Exec.panic m => Exec.panic m
    | Exec.fuel => Exec.fuel

/-- The loop `for addr, g := range groups` (lines 155-161). -/
def fillSlots (masters : GoMap Conn) : List (String × group) → Slots → Exec Slots
  | [], slots => Exec.ret slots
  | (addr, g) :: rest, slots =>
    match fillGroup (masters.get? addr) g.slots slots with
    | Exec.ret slots1 => fillSlots masters rest slots1
    | Exec.panic m => Exec.panic m
    | Exec.fuel => Exec.fuel

/-- The loop `for _, cc := range removes` (lines 168-170). -/
def closeAll : List Conn → ClusterClient → ClusterClient
  | [], c => c
  | cc :: rest, c => closeAll rest (c.log (Event.Close cc))

/-- Lines 134-172 of `_refresh`: parse the reply, build the new snapshot,
install it, close what was dropped, return nil. -/
def rebuild (w : World) (reply : Message) (c : ClusterClient) :
    Exec (Option Error × ClusterClient) :=
  match parseSlots reply with
  | Exec.ret groups =>
    let m := newMasters w (c.range w groups) [] c
    let c1 := m.2
    let r := reuseConns (c1.range w c1.conns) m.1 []
    let masters := r.1
    let removes := r.2
    match fillSlots masters (c1.range w groups) (fun _ => none) with
    | Exec.ret slots =>
      let c2 := { c1 with slots := slots, conns := masters }
      Exec.ret (none, closeAll removes c2)
    | Exec.panic msg => Exec.panic msg
    | Exec.fuel => Exec.fuel
  | Exec.panic msg => Exec.panic msg
  | Exec.fuel => Exec.fuel

/-- Method `_refresh` from the label `retry`, with the current values of the
variables `reply` and `err`; each `goto retry` uses one unit of fuel. -/
def _refreshRetry (w : World) : Nat → Message → Option Error → ClusterClient →
    Exec (Option Error × ClusterClient)
  | 0, _, _, _ => Exec.fuel
  | n + 1, reply, err, c =>
    let q := queryLoop w (c.range w c.conns) ⟨reply, err, []⟩ c
    let v := q.1
    let c1 := if v.dead.length ≠ 0 then removeDead v.dead q.2 else q.2
    match v.err with
    | some e => Exec.ret (some e, c1)
    | none =>
      if v.reply.values.length = 0 then
        match init w c1 with
        | ((_, some e), c2) => Exec.ret (some e, c2)
        | ((_, none), c2) => _refreshRetry w n v.reply none c2
      else rebuild w v.reply c1

/-- Method `_refresh`. -/
def _refresh (w : World) (n : Nat) (c : ClusterClient) : Exec (Option Error × ClusterClient) :=
  _refreshRetry w n Message.zero none c

/-- Method `refresh`: `c.sc.Do(c._refresh)`; with a single caller the
single-flight gate runs the function. -/
def refresh (w : World) (n : Nat) (c : ClusterClient) : Exec (Option Error × ClusterClient) :=
  _refresh w n c

/-! ## `_pick`, `pick`, `pickOrNew` -/

/-- Method `_pick`: the first connection of `conns` for `InitSlot`, else the
entry of the slot vector (an index past the array panics). -/
def _pick (w : World) (slot : Nat) (c : ClusterClient) : Exec (Option Conn) :=
  if slot = InitSlot then
    match c.range w c.conns with
    | [] => Exec.ret none
    | (_, cc) :: _ => Exec.ret (some cc)
  else if slot < 16384 then Exec.ret (c.slots slot)
  else Exec.panic "index out of range"

/-- Method `pick`. -/
def pick (w : World) (n : Nat) (slot : Nat) (c : ClusterClient) :
    Exec (Except Error Conn × ClusterClient) :=
  match _pick w slot c with
  | Exec.ret (some p) => Exec.ret (Except.ok p, c)
  | Exec.ret none =>
    match refresh w n c with
    | Exec.ret (some err, c1) => Exec.ret (Except.error err, c1)
    | Exec.ret (none, c1) =>
      match _pick w slot c1 with
      | Exec.ret (some p) => Exec.ret (Except.ok p, c1)
      | Exec.ret none => Exec.ret (Except.error Error.ErrNoSlot, c1)
      | Exec.panic m => Exec.panic m
      | Exec.fuel => Exec.fuel
    | Exec.panic m => Exec.panic m
    | Exec.fuel => Exec.fuel
  | Exec.panic m => Exec.panic m
  | Exec.fuel => Exec.fuel

/-- Method `pickOrNew`. -/
def pickOrNew (w : World) (addr : String) (c : ClusterClient) : Conn × ClusterClient :=
  match c.conns.get? addr with
  | some p => (p, c)
  | none =>
    let p := w.connFn c.trace addr
    let c1 := c.log (Event.connFn addr p)
    (p, { c1 with conns := c1.conns.set addr p })

/-! ## `Do`, `DoCache` -/

/-- The two labels of `Do` and `DoCache` that are jumped to; `process` carries
the value of `resp`. -/
inductive Label where
  | retry
  | process (resp : Result)

/-- Method `Do` from a label; each jump uses one unit of fuel. -/
def DoFrom (w : World) (cmd : Command) : Nat → Label → ClusterClient →
    Exec (Result × ClusterClient)
  | 0, _, _ => Exec.fuel
  | n + 1, Label.retry, c =>
    match pick w n cmd.Slot c with
    | Exec.ret (Except.error err, c1) =>
      Exec.ret (Result.NewErrResult err, c1.log (Event.Put cmd.Commands))
    | Exec.ret (Except.ok cc, c1) =>
      DoFrom w cmd n (Label.process (w.Do c1.trace cc cmd)) (c1.log (Event.Do cc cmd))
    | Exec.panic m => Exec.panic m
    | Exec.fuel => Exec.fuel
  | n + 1, Label.process resp, c =>
    match resp.RedisError with
    | some err =>
      match err.IsMoved with
      | some addr =>
        let c1 := c.log Event.goRefresh
        let p := pickOrNew w addr c1
        DoFrom w cmd n (Label.process (w.Do p.2.trace p.1 cmd)) (p.2.log (Event.Do p.1 cmd))
      | none =>
        match err.IsAsk with
        | some addr =>
          let p := pickOrNew w addr c
          match (w.DoMulti p.2.trace p.1 [AskingCmd, cmd])[1]? with
          | some resp1 =>
            DoFrom w cmd n (Label.process resp1) (p.2.log (Event.DoMulti p.1 [AskingCmd, cmd]))
          | none => Exec.panic "index out of range"
        | none =>
          if err.IsTryAgain then DoFrom w cmd n Label.retry (c.log Event.Gosched)
          else Exec.ret (resp, c.log (Event.Put cmd.Commands))
    | none => Exec.ret (resp, c.log (Event.Put cmd.Commands))

/-- Method `Do`. -/
def Do (w : World) (n : Nat) (cmd : Command) (c : ClusterClient) : Exec (Result × ClusterClient) :=
  DoFrom w cmd n Label.retry c

/-- Method `DoCache` from a label; each jump uses one unit of fuel. -/
def DoCacheFrom (w : World) (cmd : Command) (ttl : Nat) : Nat → Label → ClusterClient →
    Exec (Result × ClusterClient)
  | 0, _, _ => Exec.fuel
  | n + 1, Label.retry, c =>
    match pick w n cmd.Slot c with
    | Exec.ret (Except.error err, c1) =>
      Exec.ret (Result.NewErrResult err, c1.log (Event.Put cmd.Commands))
    | Exec.ret (Except.ok cc, c1) =>
      DoCacheFrom w cmd ttl n (Label.process (w.DoCache c1.trace cc cmd ttl))
        (c1.log (Event.DoCache cc cmd ttl))
    | Exec.panic m => Exec.panic m
    | Exec.fuel => Exec.fuel
  | n + 1, Label.process resp, c =>
    match resp.RedisError with
    | some err =>
      match err.IsMoved with
      | some addr =>
        let c1 := c.log Event.goRefresh
        let p := pickOrNew w addr c1
        DoCacheFrom w cmd ttl n (Label.process (w.DoCache p.2.trace p.1 cmd ttl))
          (p.2.log (Event.DoCache p.1 cmd ttl))
      | none =>
        match err.IsAsk with
        | some addr =>
          let p := pickOrNew w addr c
          match (w.DoMulti p.2.trace p.1 [AskingCmd, cmd])[1]? with
          | some resp1 =>
            DoCacheFrom w cmd ttl n (Label.process resp1)
              (p.2.log (Event.DoMulti p.1 [AskingCmd, cmd]))
          | none => Exec.panic "index out of range"
        | none =>
          if err.IsTryAgain then DoCacheFrom w cmd ttl n Label.retry (c.log Event.Gosched)
          else Exec.ret (resp, c.log (Event.Put cmd.Commands))
    | none => Exec.ret (resp, c.log (Event.Put cmd.Commands))

/-- Method `DoCache`. -/
def DoCache (w : World) (n : Nat) (cmd : Command) (ttl : Nat) (c : ClusterClient) :
    Exec (Result × ClusterClient) :=
  DoCacheFrom w cmd ttl n Label.retry c

/-! ## Observations used in the statements -/

/-- The answer given to the newest topology query of a history. -/
def lastTopology (w : World) : List Event → Option (Message × Option Error)
  | [] => none
  | Event.Slots cc :: tr => some (w.Slots tr cc)
  | _ :: tr => lastTopology w tr

namespace Message

/-- Lower slot of an entry of the topology reply: `v.Values[0].Integer`. -/
def lo (v : Message) : Int := (v.values.getD 0 zero).integer

/-- Upper slot of an entry of the topology reply: `v.Values[1].Integer`. -/
def hi (v : Message) : Int := (v.values.getD 1 zero).integer

/-- Address `host:port` of a node array. -/
def addr (n : Message) : String :=
  (n.values.getD 0 zero).string ++ ":" ++ toString (n.values.getD 1 zero).integer

/-- Primary address of an entry of the topology reply, from `v.Values[2]`. -/
def primary (v : Message) : String := (v.values.getD 2 zero).addr

/-- Slot `i` lies in the range `[lo, hi]` of the entry. -/
def covers (v : Message) (i : Nat) : Prop := v.lo ≤ (i : Int) ∧ (i : Int) ≤ v.hi

instance (v : Message) (i : Nat) : Decidable (v.covers i) := by
  unfold covers; exact inferInstance

/-- The ranges of two entries do not overlap. -/
def disjoint (v1 v2 : Message) : Prop := v1.hi < v2.lo ∨ v2.hi < v1.lo

instance (v1 v2 : Message) : Decidable (v1.disjoint v2) := by
  unfold disjoint; exact inferInstance

end Message

/-- Ranges recorded for a primary in the slot groups. -/
def rangesOf (G : GoMap group) (a : String) : List (Int × Int) :=
  match G.get? a with
  | some g => g.slots
  | none => []

/-- Some range of the list contains the slot. -/
def inRanges (rs : List (Int × Int)) (j : Nat) : Prop :=
  ∃ r ∈ rs, r.1 ≤ (j : Int) ∧ (j : Int) ≤ r.2

/-- Every range is empty or lies inside the slot vector. -/
def rangesInBounds (rs : List (Int × Int)) : Prop :=
  ∀ r ∈ rs, r.2 < r.1 ∨ (0 ≤ r.1 ∧ r.2 < 16384)

instance (rs : List (Int × Int)) : Decidable (rangesInBounds rs) := by
  unfold rangesInBounds; exact inferInstance

/-- Creation of a connection by the factory, or its background shutdown. -/
def Event.isLifecycle : Event → Bool
  | Event.connFn _ _ => true
  | Event.Close _ => true
  | _ => false

/-- Effects that a topology refresh can perform. -/
def Event.isRefresh : Event → Bool
  | Event.connFn _ _ => true
  | Event.Dial _ => true
  | Event.Close _ => true
  | Event.Slots _ => true
  | _ => false

/-- The client `c'` is `c` after further effects, each satisfying `P`. -/
def Extends (P : Event → Bool) (c c' : ClusterClient) : Prop :=
  ∃ added : List Event, c'.trace = added ++ c.trace ∧ ∀ e ∈ added, P e = true

/-- The recycling of a command buffer, `c.Cmd.Put`. -/
def Event.isPut : Event → Bool
  | Event.Put _ => true
  | _ => false

/-- History after `k` rounds of submitting `cmd` to `cc`, receiving TRYAGAIN
and yielding, on top of `tr`. -/
def tryAgainRounds (cc : Conn) (cmd : Command) : Nat → List Event → List Event
  | 0, tr => tr
  | k + 1, tr => tryAgainRounds cc cmd k (Event.Gosched :: Event.Do cc cmd :: tr)

/-- A submission to a connection by the dispatcher: `Do`, `DoMulti`, `DoCache`. -/
def Event.isSubmit : Event → Bool
  | Event.Do _ _ => true
  | Event.DoMulti _ _ => true
  | Event.DoCache _ _ _ => true
  | _ => false

/-- The client after `Do` has followed one `MOVED addr`: refresh spawned,
command submitted to `pickOrNew(addr)`. -/
def movedHop (w : World) (cmd : Command) (addr : String) (c : ClusterClient) : ClusterClient :=
  (pickOrNew w addr (c.log Event.goRefresh)).2.log
    (Event.Do (pickOrNew w addr (c.log Event.goRefresh)).1 cmd)

/-- The reply to the submission of `movedHop`. -/
def movedReply (w : World) (cmd : Command) (addr : String) (c : ClusterClient) : Result :=
  w.Do (pickOrNew w addr (c.log Event.goRefresh)).2.trace
    (pickOrNew w addr (c.log Event.goRefresh)).1 cmd

/-- The client after `DoCache` has followed one `MOVED addr`. -/
def movedHopCache (w : World) (cmd : Command) (ttl : Nat) (addr : String) (c : ClusterClient) :
    ClusterClient :=
  (pickOrNew w addr (c.log Event.goRefresh)).2.log
    (Event.DoCache (pickOrNew w addr (c.log Event.goRefresh)).1 cmd ttl)

/-- The reply to the submission of `movedHopCache`. -/
def movedReplyCache (w : World) (cmd : Command) (ttl : Nat) (addr : String)
    (c : ClusterClient) : Result :=
  w.DoCache (pickOrNew w addr (c.log Event.goRefresh)).2.trace
    (pickOrNew w addr (c.log Event.goRefresh)).1 cmd ttl

/-! ## Concrete worlds used to exercise the statements -/

/-- An entry `[lo, hi, [host, port]]` of a topology reply. -/
def entry (lo hi : Int) (host : String) (port : Int) : Message :=
  Message.arr [Message.int lo, Message.int hi, Message.arr [Message.str host, Message.int port]]

/-- A small topology: primaries `a:1` and `c:3` on the first eight slots of
the ring, the rest of the ring uncovered. -/
def miniReply : Message := Message.arr [entry 0 3 "a" 1, entry 4 7 "c" 3]

/-- Connection handles of the scenarios: one per address. -/
def connOf (addr : String) : Conn :=
  if addr = "a:1" then ⟨1⟩ else if addr = "b:2" then ⟨2⟩ else if addr = "c:3" then ⟨3⟩
  else if addr = "d:4" then ⟨4⟩ else if addr = "e:5" then ⟨5⟩ else ⟨0⟩

/-- A reply `OK`. -/
def okResult : Result := Result.val (Message.str "OK")

/-- A world with the small topology: `a:1` refuses the dial, every node
answers the topology query with `miniReply` and any other submission with
`OK`. -/
def miniWorld : World where
  connFn := fun _ addr => connOf addr
  Dial := fun _ cc => if cc = ⟨1⟩ then some (Error.other "connection refused") else none
  Do := fun _ _ _ => okResult
  Slots := fun _ _ => (miniReply, none)
  DoMulti := fun _ _ multi => multi.map fun _ => okResult
  DoCache := fun _ _ _ _ => okResult
  rangeOrder := fun _ _ => 0

/-- A client before `init`, with the seed list of the bootstrapping scenario. -/
def bootClient : ClusterClient := ⟨["a:1", "b:2"], fun _ => none, [], []⟩

/-- The topology of the bootstrapping scenario of §8: `[0,8191]` on `a:1`,
`[8192,16383]` on `c:3`. -/
def bootReply : Message := Message.arr [entry 0 8191 "a" 1, entry 8192 16383 "c" 3]

/-- The world of the bootstrapping scenario: `a:1` refuses the dial, every
node answers the topology query with `bootReply`. -/
def bootWorld : World := { miniWorld with Slots := fun _ _ => (bootReply, none) }

/-- A world in which no node can be reached: every dial and every topology
query fails. -/
def downWorld : World :=
  { miniWorld with
    Dial := fun _ _ => some (Error.other "connection refused")
    Slots := fun _ _ => (Message.zero, some (Error.other "connection refused")) }

/-- A client whose whole ring is owned by `a:1`. -/
def routedClient : ClusterClient :=
  ⟨["a:1"], fun _ => some (connOf "a:1"), [("a:1", connOf "a:1")], []⟩

/-- A command `GET k` whose key hashes to slot 5000. -/
def getCmd : Command := ⟨["GET", "k"], 5000⟩

/-- The world of the MOVED scenario: `a:1` answers `MOVED d:4`, every other
node answers `OK`. -/
def movedWorld : World :=
  { miniWorld with
    Do := fun _ cc _ =>
      if cc = connOf "a:1" then Result.redisErr (RedisError.moved "d:4") else okResult
    DoCache := fun _ cc _ _ =>
      if cc = connOf "a:1" then Result.redisErr (RedisError.moved "d:4") else okResult }

/-- The world of the ASK scenario: `a:1` answers `ASK e:5`, every other node
answers `OK`. -/
def askWorld : World :=
  { miniWorld with
    Do := fun _ cc _ =>
      if cc = connOf "a:1" then Result.redisErr (RedisError.ask "e:5") else okResult
    DoCache := fun _ cc _ _ =>
      if cc = connOf "a:1" then Result.redisErr (RedisError.ask "e:5") else okResult }

/-- The world of the TRYAGAIN scenario: a node answers TRYAGAIN until the
dispatcher has yielded twice, then `OK`. -/
def tryAgainWorld : World :=
  { miniWorld with
    Do := fun tr _ _ =>
      if tr.count Event.Gosched < 2 then Result.redisErr RedisError.tryAgain else okResult }

/-- A world that redirects forever: every submission is answered
`MOVED d:4`, also inside a pipeline. -/
def movedLoopWorld : World :=
  { miniWorld with
    Do := fun _ _ _ => Result.redisErr (RedisError.moved "d:4")
    DoMulti := fun _ _ multi => multi.map fun _ => Result.redisErr (RedisError.moved "d:4")
    DoCache := fun _ _ _ _ => Result.redisErr (RedisError.moved "d:4") }

/-- A world that asks forever: every submission is answered `ASK e:5`, also
inside a pipeline. -/
def askLoopWorld : World :=
  { miniWorld with
    Do := fun _ _ _ => Result.redisErr (RedisError.ask "e:5")
    DoMulti := fun _ _ multi => multi.map fun _ => Result.redisErr (RedisError.ask "e:5")
    DoCache := fun _ _ _ _ => Result.redisErr (RedisError.ask "e:5") }

/-- A world that answers `MOVED d:4` until 34 refreshes have been spawned, and
`OK` afterwards. -/
def movedManyWorld : World :=
  { miniWorld with
    Do := fun tr _ _ =>
      if tr.count Event.goRefresh < 34 then Result.redisErr (RedisError.moved "d:4")
      else okResult
    DoCache := fun tr _ _ _ =>
      if tr.count Event.goRefresh < 34 then Result.redisErr (RedisError.moved "d:4")
      else okResult }

/-! ## The dedicated session -/

/-- The wires of the connections: everything outside a dedicated session that
the `World` does not already give.  Each field receives the history so far. -/
structure Wires where
  Acquire : List Event → Conn → Wire
  Do : List Event → Wire → Command → Result
  DoMulti : List Event → Wire → List Command → List Result

/-- The struct `DedicatedClusterClient`; `Cmd` is the pool of the client, whose
`Put` is recorded in the history of the client. -/
structure DedicatedClusterClient where
  client : ClusterClient
  conn : Option Conn
  wire : Option Wire
  slot : Nat

/-- Outcome of a method of the session: normal return or panic, each with the
session as it is at that point, or not finished within the fuel given.  When
the panic comes from inside `pick`, the session is the one before the call. -/
inductive Outcome (α : Type) where
  | ret (a : α) (d : DedicatedClusterClient)
  | panic (msg : String) (d : DedicatedClusterClient)
  | fuel

namespace DedicatedClusterClient

/-- Record one effect in the history of the client. -/
def log (d : DedicatedClusterClient) (e : Event) : DedicatedClusterClient :=
  { d with client := d.client.log e }

/-- Method `check`. -/
def check (slot : Nat) (d : DedicatedClusterClient) : Outcome Unit :=
  if slot = InitSlot then Outcome.ret () d
  else if d.slot = InitSlot then Outcome.ret () { d with slot := slot }
  else if d.slot ≠ slot then Outcome.panic "cross slot command in Dedicated is prohibited" d
  else Outcome.ret () d

/-- Method `acquire`. -/
def acquire (w : World) (ww : Wires) (n : Nat) (d : DedicatedClusterClient) :
    Outcome (Option Error) :=
  match d.wire with
  | some _ => Outcome.ret none d
  | none =>
    if d.slot = InitSlot then
      Outcome.panic "the first command in DedicatedClusterClient should contain the slot key" d
    else
      match pick w n d.slot d.client with
      | Exec.ret (Except.error err, c1) => Outcome.ret (some err) { d with client := c1, conn := none }
      | Exec.ret (Except.ok cc, c1) =>
        let wr := ww.Acquire c1.trace cc
        Outcome.ret none
          { d with client := c1.log (Event.Acquire cc wr), conn := some cc, wire := some wr }
      | Exec.panic m => Outcome.panic m d
      | Exec.fuel => Outcome.fuel

/-- Method `release`; `c.conn.Store` on a nil connection panics. -/
def release (d : DedicatedClusterClient) : Outcome Unit :=
  match d.wire with
  | some wr =>
    match d.conn with
    | some cc => Outcome.ret () (d.log (Event.Store cc wr))
    | none => Outcome.panic "nil pointer dereference" d
  | none => Outcome.ret () d

/-- Method `Do` of the session. -/
def Do (w : World) (ww : Wires) (n : Nat) (cmd : Command) (d : DedicatedClusterClient) :
    Outcome Result :=
  match check cmd.Slot d with
  | Outcome.ret _ d1 =>
    match acquire w ww n d1 with
    | Outcome.ret (some err) d2 => Outcome.ret (Result.NewErrResult err) d2
    | Outcome.ret none d2 =>
      match d2.wire with
      | some wr =>
        let resp := ww.Do d2.client.trace wr cmd
        Outcome.ret resp ((d2.log (Event.WireDo wr cmd)).log (Event.Put cmd.Commands))
      | none => Outcome.panic "nil pointer dereference" d2
    | Outcome.panic m d2 => Outcome.panic m d2
    | Outcome.fuel => Outcome.fuel
  | Outcome.panic m d1 => Outcome.panic m d1
  | Outcome.fuel => Outcome.fuel

/-- The loop `for _, cmd := range multi { c.check(cmd.Slot()) }` of `DoMulti`. -/
def checkAll : List Command → DedicatedClusterClient → Outcome Unit
  | [], d => Outcome.ret () d
  | cmd :: rest, d =>
    match check cmd.Slot d with
    | Outcome.ret _ d1 => checkAll rest d1
    | Outcome.panic m d1 => Outcome.panic m d1
    | Outcome.fuel => Outcome.fuel

/-- The loop `for _, cmd := range multi { c.Cmd.Put(cmd.Commands()) }` of
`DoMulti`. -/
def putAll : List Command → DedicatedClusterClient → DedicatedClusterClient
  | [], d => d
  | cmd :: rest, d => putAll rest (d.log (Event.Put cmd.Commands))

/-- Method `DoMulti` of the session. -/
def DoMulti (w : World) (ww : Wires) (n : Nat) (multi : List Command)
    (d : DedicatedClusterClient) : Outcome (List Result) :=
  if multi.length = 0 then Outcome.ret [] d
  else
    match checkAll multi d with
    | Outcome.ret _ d1 =>
      match acquire w ww n d1 with
      | Outcome.ret none d2 =>
        match d2.wire with
        | some wr =>
          let resp := ww.DoMulti d2.client.trace wr multi
          Outcome.ret resp (putAll multi (d2.log (Event.WireDoMulti wr multi)))
        | none => Outcome.panic "nil pointer dereference" d2
      | Outcome.ret (some err) d2 =>
        Outcome.ret (List.replicate multi.length (Result.NewErrResult err)) (putAll multi d2)
      | Outcome.panic m d2 => Outcome.panic m d2
      | Outcome.fuel => Outcome.fuel
    | Outcome.panic m d1 => Outcome.panic m d1
    | Outcome.fuel => Outcome.fuel

end DedicatedClusterClient

/-- What the callback of `Dedicated` does next, given the results it has
received from the session so far: call `Do`, call `DoMulti`, return an error
value (nil or not), or panic by itself. -/
inductive Action where
  | Do (cmd : Command)
  | DoMulti (multi : List Command)
  | ret (err : Option Error)
  | panic (msg : String)

/-- A callback `func(*DedicatedClusterClient) error`, as the strategy that
chooses its next action from the results of its calls so far (oldest first). -/
abbrev Callback := List (List Result) → Action

/-- The call `fn(dcc)`; each action of the callback uses one unit of fuel. -/
def runCallback (w : World) (ww : Wires) (fn : Callback) :
    Nat → List (List Result) → DedicatedClusterClient → Outcome (Option Error)
  | 0, _, _ => Outcome.fuel
  | n + 1, hist, d =>
    match fn hist with
    | Action.ret err => Outcome.ret err d
    | Action.panic msg => Outcome.panic msg d
    | Action.Do cmd =>
      match DedicatedClusterClient.Do w ww n cmd d with
      | Outcome.ret r d1 => runCallback w ww fn n (hist ++ [[r]]) d1
      | Outcome.panic m d1 => Outcome.panic m d1
      | Outcome.fuel => Outcome.fuel
    | Action.DoMulti multi =>
      match DedicatedClusterClient.DoMulti w ww n multi d with
      | Outcome.ret rs d1 => runCallback w ww fn n (hist ++ [rs]) d1
      | Outcome.panic m d1 => Outcome.panic m d1
      | Outcome.fuel => Outcome.fuel

/-- The session that `Dedicated` hands to the callback. -/
def newDedicated (c : ClusterClient) : DedicatedClusterClient :=
  ⟨c, none, none, InitSlot⟩

/-- Method `Dedicated` of the cluster client: a panic of the callback
propagates, `release` is reached only when the callback returns. -/
def Dedicated (w : World) (ww : Wires) (n : Nat) (fn : Callback) (c : ClusterClient) :
    Outcome (Option Error) :=
  match runCallback w ww fn n [] (newDedicated c) with
  | Outcome.ret err d =>
    match d.release with
    | Outcome.ret _ d1 => Outcome.ret err d1
    | Outcome.panic m d1 => Outcome.panic m d1
    | Outcome.fuel => Outcome.fuel
  | Outcome.panic m d => Outcome.panic m d
  | Outcome.fuel => Outcome.fuel

/-- The history of the client at the end of a run, when there is one. -/
def Outcome.trace {α : Type} : Outcome α → List Event
  | Outcome.ret _ d => d.client.trace
  | Outcome.panic _ d => d.client.trace
  | Outcome.fuel => []

/-- Wires of the scenarios: the wire of a connection carries ten times its
number, every submission on a wire is answered `OK`. -/
def okWires : Wires where
  Acquire := fun _ cc => ⟨10 * cc.id⟩
  Do := fun _ _ _ => okResult
  DoMulti := fun _ _ multi => multi.map fun _ => okResult

/-- A command on a key of slot `s`. -/
def cmdAt (s : Nat) : Command := ⟨["GET", "k"], s⟩

/-- A command without key. -/
def pingCmd : Command := ⟨["PING"], InitSlot⟩

/-- A callback that runs the given commands with `Do`, one after the other,
and returns nil. -/
def doEach (cmds : List Command) : Callback :=
  fun hist => match cmds[hist.length]? with
    | some cmd => Action.Do cmd
    | none => Action.ret none

/-- A client after a refresh with the small topology: `a:1` owns slots 0 to 3,
`c:3` owns slots 4 to 7, no other slot is covered. -/
def miniClient : ClusterClient :=
  ⟨["a:1", "b:2"],
    fun i => if i < 4 then some (connOf "a:1") else if i < 8 then some (connOf "c:3") else none,
    [("a:1", connOf "a:1"), ("c:3", connOf "c:3")], []⟩

/-- The session at the end of a run, when there is one. -/
def Outcome.session {α : Type} : Outcome α → Option DedicatedClusterClient
  | Outcome.ret _ d => some d
  | Outcome.panic _ d => some d
  | Outcome.fuel => none

/-- A submission on the wire `wr`, or the recycling of a command buffer. -/
def Event.onWire (wr : Wire) : Event → Bool
  | Event.WireDo wr1 _ => wr1 = wr
  | Event.WireDoMulti wr1 _ => wr1 = wr
  | Event.Put _ => true
  | _ => false

/-- The borrowing of a wire, `cc.Acquire()`. -/
def Event.isAcquire : Event → Bool
  | Event.Acquire _ _ => true
  | _ => false

/-- The return of a wire, `cc.Store(wr)`. -/
def Event.isStore : Event → Bool
  | Event.Store _ _ => true
  | _ => false

/-- A callback that calls `DoMulti` once with the given commands and returns
nil. -/
def doMultiOnce (multi : List Command) : Callback :=
  fun hist => if hist.length = 0 then Action.DoMulti multi else Action.ret none

/-- An effect that neither borrows nor returns a wire. -/
def Event.isQuiet (e : Event) : Bool := !e.isAcquire && !e.isStore

/-- The session `d'` has the wire `wr` and the connection of `d`, and its
client is the client of `d` after submissions on `wr` and recyclings only. -/
def Keeps (wr : Wire) (d d' : DedicatedClusterClient) : Prop :=
  d'.wire = some wr ∧ d'.conn = d.conn ∧ Extends (Event.onWire wr) d.client d'.client

/-- Bookkeeping of a session opened on the client `c0`: since then no wire has
been returned, and a wire has been borrowed exactly when the session holds
one, once, from the connection of the session. -/
def SessionInv (c0 : ClusterClient) (d : DedicatedClusterClient) : Prop :=
  ∃ added : List Event, d.client.trace = added ++ c0.trace ∧
    added.countP Event.isStore = 0 ∧
    ((d.wire = none ∧ added.countP Event.isAcquire = 0) ∨
     (∃ wr cc, d.wire = some wr ∧ d.conn = some cc ∧ added.countP Event.isAcquire = 1 ∧
        Event.Acquire cc wr ∈ added))

/-! ## The versioned hash repository (`om/hash_repo.go`) -/

/-- Modelled from the spec: `VersionField`, the name of the version entry,
`"_v"` in the argument list of §4.5. -/
def VersionField : String := "_v"

/-- Modelled from the spec: `Message.ToString`: the text of a string reply;
a nil reply gives the nil error, any other reply is not a string. -/
def Message.ToString (m : Message) : String × Option Error :=
  if m.typ = '$' ∨ m.typ = '+' then (m.string, none)
  else if m.IsNil then ("", some (Error.redis RedisError.nil))
  else ("", some (Error.other "redis message type is not a string"))

/-- Modelled from the spec: `Result.ToString`: the error of the result if it
has one, otherwise the text of the reply. -/
def Result.ToString : Result → String × Option Error
  | Result.val m => m.ToString
  | Result.redisErr e => ("", some (Error.redis e))
  | Result.err e => ("", some e)

/-- Modelled from the spec: `proto.IsRedisNil`: the error is the nil reply. -/
def IsRedisNil : Option Error → Bool
  | some (Error.redis e) => e.IsNil
  | _ => false

/-- Modelled from the spec: `HashConverter`, the two methods that turn an
entity into its identifier and field map and back; `New` is `reflect.New` of
the schema type.  `ToHash` hands out a map of its own, so that a write to it
does not reach the entity; `FromHash` returns the entity as it leaves it. -/
structure HashConverter (E : Type) where
  New : E
  ToHash : E → String × GoMap String
  FromHash : E → String → GoMap String → Option Error × E

/-- Interface `HashObjectAdapter` over a server state `S` (the two methods
used by `Save` and `Fetch`). -/
structure HashObjectAdapter (S : Type) where
  Save : S → String → GoMap String → Option Error × S
  Fetch : S → String → (GoMap Message × Option Error) × S

/-- Struct `HashRepository`: `pfx` is its field `prefix`, `conv` the converter
that `r.conv` and `Save` obtain for an entity, `execFn` the save script bound
to a server. -/
structure HashRepository (S E : Type) where
  pfx : String
  conv : HashConverter E
  adapter : HashObjectAdapter S
  execFn : S → List String → List String → Result × S

/-- The loop of `Save` over the fields in iteration order: every entry but
the version one appends its name and its value. -/
def saveArgsLoop : List (String × String) → List String → List String
  | [], args => args
  | (f, v) :: rest, args =>
    if f = VersionField then saveArgsLoop rest args else saveArgsLoop rest (args ++ [f, v])

/-- The argument list built by `Save`; `order` is the iteration order of the
`range` over the field map. -/
def saveArgs (order : Nat → Nat) (ver : String) (fields : GoMap String) : List String :=
  saveArgsLoop (permute order fields.length 0 fields) [VersionField, ver]

/-- Name/value pairs laid out as an argument list. -/
def flatPairs : List (String × String) → List String
  | [] => []
  | (f, v) :: rest => f :: v :: flatPairs rest

/-- The loop of `fromHash`: the text of every reply that is not nil. -/
def fromHashLoop : List (String × Message) → GoMap String → GoMap String
  | [], fields => fields
  | (k, v) :: rest, fields =>
    if !v.IsNil then fromHashLoop rest (fields.set k v.string) else fromHashLoop rest fields

namespace HashRepository

/-- Method `key`. -/
def key {S E : Type} (r : HashRepository S E) (id : String) : String :=
  r.pfx ++ ":" ++ id

/-- Method `Make`; `newId` is the identifier drawn by `id()`. -/
def Make {S E : Type} (r : HashRepository S E) (newId : String) : E :=
  (r.conv.FromHash r.conv.New newId []).2

/-- Method `fromHash`. -/
def fromHash {S E : Type} (r : HashRepository S E) (order : Nat → Nat) (id : String)
    (record : GoMap Message) : Option E × Option Error :=
  let fields := fromHashLoop (permute order record.length 0 record) []
  match r.conv.FromHash r.conv.New id fields with
  | (some err, _) => (none, some err)
  | (none, v) => (some v, none)

/-- Method `Fetch`. -/
def Fetch {S E : Type} (r : HashRepository S E) (order : Nat → Nat) (id : String) (s : S) :
    (Option E × Option Error) × S :=
  match r.adapter.Fetch s (r.key id) with
  | ((_, some err), s1) => ((none, some err), s1)
  | ((record, none), s1) => (r.fromHash order id record, s1)

/-- The end of `Save` for a versioned entity, from the result of the script:
the text of the reply is written to the version entry of `fields`, then the
error decides. -/
def saveReply {S E : Type} (r : HashRepository S E) (entity : E) (id : String)
    (fields : GoMap String) (res : Result) : Option Error × E :=
  let fields := fields.set VersionField res.ToString.1
  let err := res.ToString.2
  if IsRedisNil err then (some Error.ErrVersionMismatch, entity)
  else
    match err with
    | some e => (some e, entity)
    | none => r.conv.FromHash entity id fields

/-- Method `Save`: the error returned, the entity as it is left, and the
server state. -/
def Save {S E : Type} (r : HashRepository S E) (order : Nat → Nat) (entity : E) (s : S) :
    (Option Error × E) × S :=
  match r.conv.ToHash entity with
  | (id, fields) =>
    match fields.get? VersionField with
    | some ver =>
      match r.execFn s [r.key id] (saveArgs order ver fields) with
      | (res, s1) => (r.saveReply entity id fields res, s1)
    | none =>
      match r.adapter.Save s (r.key id) fields with
      | (err, s1) => ((err, entity), s1)

end HashRepository

/-! ## The save script on the server -/

/-- A hash on the server. -/
abbrev Hash := GoMap String

/-- The hashes of the server by key; no key of another type is stored. -/
abbrev Store := GoMap Hash

/-- Writes of `HSET` for a list `field value field value ...`; `none` when a
value is missing. -/
def hsetPairs : List String → Hash → Option Hash
  | [], h => some h
  | [_], _ => none
  | f :: v :: rest, h => hsetPairs rest (h.set f v)

namespace Store

/-- Command `HGET key field`. -/
def HGET (s : Store) (key field : String) : Option String :=
  match s.get? key with
  | none => none
  | some h => h.get? field

/-- Command `HSET key field value [field value ...]`; `none` is the error for
a wrong number of arguments. -/
def HSET (s : Store) (key : String) (args : List String) : Option Store :=
  match args with
  | [] => none
  | _ =>
    match hsetPairs args ((s.get? key).getD []) with
    | none => none
    | some h => some (s.set key h)

/-- Command `HGETALL key`. -/
def HGETALL (s : Store) (key : String) : Hash := (s.get? key).getD []

end Store

/-- A Lua number holding a non-negative integer, or positive infinity. -/
inductive LuaNumber where
  | int (n : Nat)
  | inf
  deriving DecidableEq, Repr

/-- The double nearest to `n`, ties to even: exact below `2^53`. -/
def roundDouble (n : Nat) : LuaNumber :=
  if n < 2 ^ 53 then LuaNumber.int n
  else
    let sh := Nat.log2 n + 1 - 53
    let q := n / 2 ^ sh
    let r := n % 2 ^ sh
    let q := if 2 ^ sh < 2 * r ∨ (2 * r = 2 ^ sh ∧ q % 2 = 1) then q + 1 else q
    if 2 ^ 1024 ≤ q * 2 ^ sh then LuaNumber.inf else LuaNumber.int (q * 2 ^ sh)

/-- Value of a string of decimal digits. -/
def digitsValue (cs : List Char) : Nat :=
  cs.foldl (fun a c => a * 10 + (c.toNat - 48)) 0

/-- Result of Lua `tonumber` on a string. -/
inductive Tonumber where
  | number (x : LuaNumber)
  | notNumber
  | unmodelled
  deriving DecidableEq, Repr

/-- Lua `tonumber` on a string: a string of decimal digits is the double
nearest to its value, the empty string is not a number; signs, fractions,
exponents, hexadecimal and blanks are outside the model. -/
def luaTonumber (s : String) : Tonumber :=
  if s.data = [] then Tonumber.notNumber
  else if s.data.all Char.isDigit then Tonumber.number (roundDouble (digitsValue s.data))
  else Tonumber.unmodelled

/-- Drop the zeros at the end of a digit list. -/
def dropTrailingZeros (cs : List Char) : List Char :=
  (cs.reverse.dropWhile (fun c => c = '0')).reverse

/-- C `%.14g` on an integer of at least `10^14`: fourteen significant digits,
rounded to even, zeros at the end dropped, then the exponent. -/
def fmtExp (x : Nat) : String :=
  let e := (Nat.toDigits 10 x).length - 1
  let d := 10 ^ (e - 13)
  let q := x / d
  let r := x % d
  let q := if d < 2 * r ∨ (2 * r = d ∧ q % 2 = 1) then q + 1 else q
  let e := if q = 10 ^ 14 then e + 1 else e
  let q := if q = 10 ^ 14 then 10 ^ 13 else q
  match dropTrailingZeros (Nat.toDigits 10 q) with
  | [] => ""
  | [c] => String.mk (c :: 'e' :: '+' :: Nat.toDigits 10 e)
  | c :: rest => String.mk (c :: '.' :: rest ++ 'e' :: '+' :: Nat.toDigits 10 e)

/-- Lua `tostring` on a number, which formats with `%.14g`: the decimal text
below `10^14`, exponent form from there on. -/
def luaTostring : LuaNumber → String
  | LuaNumber.inf => "inf"
  | LuaNumber.int x => if x < 10 ^ 14 then toString x else fmtExp x

/-- Lua `x + 1` on doubles. -/
def LuaNumber.addOne : LuaNumber → LuaNumber
  | LuaNumber.inf => LuaNumber.inf
  | LuaNumber.int x => roundDouble (x + 1)

/-- What the script returns to the server. -/
inductive ScriptReply where
  | str (s : String)
  | nil
  deriving DecidableEq, Repr

/-- A run of the script: its reply and the store it leaves, an error raised
(the store is as before), or a run outside the model of `tonumber`. -/
inductive ScriptRun where
  | reply (r : ScriptReply) (s : Store)
  | raise (msg : String)
  | unmodelled
  deriving DecidableEq, Repr

/-- The Lua text `saveScript`, run atomically on the store.  `HGET` of an
absent field is `false` in Lua; a missing `ARGV[2]` is `nil`; the integer
reply of `HSET` is true in Lua. -/
def saveScript (KEYS ARGV : List String) (s : Store) : ScriptRun :=
  match KEYS with
  | [] => ScriptRun.raise "Lua redis() command arguments must be strings or integers"
  | key :: _ =>
    let v := s.HGET key VersionField
    if v = none ∨ v = ARGV[1]? then
      match ARGV[1]? with
      | none => ScriptRun.raise "attempt to perform arithmetic on a nil value"
      | some a =>
        match luaTonumber a with
        | Tonumber.unmodelled => ScriptRun.unmodelled
        | Tonumber.notNumber => ScriptRun.raise "attempt to perform arithmetic on a nil value"
        | Tonumber.number x =>
          let ver := luaTostring x.addOne
          match s.HSET key (ARGV.set 1 ver) with
          | none => ScriptRun.raise "ERR wrong number of arguments for 'hset' command"
          | some s1 => ScriptRun.reply (ScriptReply.str ver) s1
    else ScriptRun.reply ScriptReply.nil s

/-- The script bound to the store as an `ExecFn`: a string reply, a nil
reply, or the error raised; a run outside the model is answered by an error. -/
def scriptExec (s : Store) (keys args : List String) : Result × Store :=
  match saveScript keys args s with
  | ScriptRun.reply (ScriptReply.str v) s1 => (Result.val (Message.str v), s1)
  | ScriptRun.reply ScriptReply.nil s1 => (Result.val Message.null, s1)
  | ScriptRun.raise msg => (Result.redisErr (RedisError.other msg), s)
  | ScriptRun.unmodelled => (Result.err (Error.other "outside the model"), s)

/-- Modelled from the spec: the adapter on the store: `Save` writes the
fields with `HSET`, `Fetch` reads the hash with `HGETALL`. -/
def storeAdapter : HashObjectAdapter Store where
  Save := fun s key fields =>
    match s.HSET key (flatPairs fields) with
    | none => (some (Error.redis (RedisError.other "ERR wrong number of arguments")), s)
    | some s1 => (none, s1)
  Fetch := fun s key => (((s.HGETALL key).map (fun p => (p.1, Message.str p.2)), none), s)

/-- A repository bound to the store. -/
def storeRepository {E : Type} (pfx : String) (conv : HashConverter E) :
    HashRepository Store E :=
  ⟨pfx, conv, storeAdapter, scriptExec⟩

/-- An entity with a version and one field, as text. -/
structure Note where
  Key : String
  Ver : String
  Text : String
  deriving DecidableEq, Repr

/-- A converter for `Note`: the version of an entity read from a map without
version is `"0"`. -/
def noteConv : HashConverter Note where
  New := ⟨"", "0", ""⟩
  ToHash := fun e => (e.Key, [(VersionField, e.Ver), ("Text", e.Text)])
  FromHash := fun _ id m =>
    (none, ⟨id, (m.get? VersionField).getD "0", (m.get? "Text").getD ""⟩)

/-- The repository of notes under the prefix `"note"`. -/
def noteRepo : HashRepository Store Note := storeRepository "note" noteConv

/-! ## Construction of the client -/

/-- Function `newClusterClient`: the client, or the error of `init` or of
`refresh`.  The shuffle of the initial addresses is a permutation chosen by
the world; the hook installed last is only stored and is left out. -/
def newClusterClient (w : World) (n : Nat) (InitAddress : List String) (ShuffleInit : Bool) :
    Exec (Option ClusterClient × Option Error) :=
  let addrs :=
    if ShuffleInit then permute (w.rangeOrder []) InitAddress.length 0 InitAddress
    else InitAddress
  let client : ClusterClient := ⟨addrs, fun _ => none, [], []⟩
  match init w client with
  | ((_, some err), _) => Exec.ret (none, some err)
  | ((_, none), c1) =>
    match refresh w n c1 with
    | Exec.ret (some err, _) => Exec.ret (none, some err)
    | Exec.ret (none, c2) => Exec.ret (some c2, none)
    | Exec.panic m => Exec.panic m
    | Exec.fuel => Exec.fuel

/-! ## Observations on seeding and on the topology query -/

/-- The connection that `init` obtains from the factory for `addr` at the
history `tr`. -/
def dialConn (w : World) (addr : String) (tr : List Event) : Conn := w.connFn tr addr

/-- The outcome of the dial of that connection. -/
def dialResult (w : World) (addr : String) (tr : List Event) : Option Error :=
  w.Dial (Event.connFn addr (dialConn w addr tr) :: tr) (dialConn w addr tr)

/-- The history after `init` has created and dialled the connection of
`addr`. -/
def dialAttempt (w : World) (addr : String) (tr : List Event) : List Event :=
  Event.Dial (dialConn w addr tr) :: Event.connFn addr (dialConn w addr tr) :: tr

/-- The history after `init` has gone through the addresses one after the
other. -/
def failedDials (w : World) : List String → List Event → List Event
  | [], tr => tr
  | addr :: rest, tr => failedDials w rest (dialAttempt w addr tr)

/-- Every address of the list refuses the dial when `init` goes through the
list from the history `tr`. -/
def allDialsFail (w : World) : List String → List Event → Bool
  | [], _ => true
  | addr :: rest, tr => (dialResult w addr tr).isSome && allDialsFail w rest (dialAttempt w addr tr)

/-- Every connection of the list fails the topology query when `_refresh`
goes through the list from the history `tr`. -/
def allQueriesFail (w : World) : List (String × Conn) → List Event → Bool
  | [], _ => true
  | (_, cc) :: rest, tr => (w.Slots tr cc).2.isSome && allQueriesFail w rest (Event.Slots cc :: tr)

/-- The history after the topology query has been put to every connection of
the list. -/
def failedQueries : List (String × Conn) → List Event → List Event
  | [], tr => tr
  | (_, cc) :: rest, tr => failedQueries rest (Event.Slots cc :: tr)

/-- The error variable of `_refresh` after the topology query has failed on
every connection of the list. -/
def lastQueryError (w : World) : List (String × Conn) → Option Error → List Event → Option Error
  | [], err, _ => err
  | (_, cc) :: rest, _, tr => lastQueryError w rest (w.Slots tr cc).2 (Event.Slots cc :: tr)

/-- A dial or the creation of a connection by the factory. -/
def Event.isDial : Event → Bool
  | Event.connFn _ _ => true
  | Event.Dial _ => true
  | _ => false

/-- The invariant of the topology cache: every populated slot refers to a
connection that is a value of `conns`. -/
def slotsInConns (c : ClusterClient) : Prop :=
  ∀ i cc, c.slots i = some cc → ∃ a, c.conns.get? a = some cc

/-- An entry of a topology reply that `parseSlots` and the slot fill can
index: at least three elements, every node array with at least two, and a
range that is empty or lies in the ring. -/
def Message.wellFormedEntry (v : Message) : Prop :=
  3 ≤ v.values.length ∧ (∀ n ∈ v.values.drop 2, 2 ≤ n.values.length) ∧
  (v.hi < v.lo ∨ (0 ≤ v.lo ∧ v.hi < 16384))

/-- A world whose servers follow the protocol: every topology reply that
comes without error has well-formed entries, and a pipeline is answered with
one result per command. -/
def World.wellFormed (w : World) : Prop :=
  (∀ tr cc, (w.Slots tr cc).2 = none → ∀ v ∈ (w.Slots tr cc).1.values, v.wellFormedEntry) ∧
  (∀ tr cc multi, (w.DoMulti tr cc multi).length = multi.length)

/-- A world whose nodes accept the dial and fail every topology query. -/
def deafWorld : World :=
  { miniWorld with
    Dial := fun _ _ => none
    Slots := fun _ _ => (Message.zero, some (Error.other "i/o timeout")) }

/-- A world whose nodes accept the dial and answer the topology query with
`miniReply` until the connection of `c:3` has been created, and fail it from
then on. -/
def flakyWorld : World :=
  { miniWorld with
    Dial := fun _ _ => none
    Slots := fun tr _ =>
      if Event.connFn "c:3" (connOf "c:3") ∈ tr then (Message.zero, some (Error.other "i/o timeout"))
      else (miniReply, none) }

/-- A world whose topology reply has an entry of two elements. -/
def shortEntryWorld : World :=
  { miniWorld with
    Slots := fun _ _ => (Message.arr [Message.arr [Message.int 0, Message.int 3]], none) }

/-- A world whose topology reply has a range that starts below the ring. -/
def outOfRingWorld : World :=
  { miniWorld with Slots := fun _ _ => (Message.arr [entry (-1) 3 "a" 1], none) }

/-- A world in which `a:1` answers `ASK e:5` and the pipeline sent to `e:5`
comes back with one result. -/
def shortPipelineWorld : World :=
  { askWorld with DoMulti := fun _ _ _ => [okResult] }

/-- A client without connections whose only seed is `a:1`. -/
def seedClient : ClusterClient := ⟨["a:1"], fun _ => none, [], []⟩

/-- A client before `init` whose only seed is `b:2`. -/
def freshClient : ClusterClient := ⟨["b:2"], fun _ => none, [], []⟩

/-- The client of the ring owned by `a:1`, with the seed `b:2`. -/
def routedSeedClient : ClusterClient := { routedClient with InitAddress := ["b:2"] }

/-! ## `lua.go` -/

/-- Calls of a script handle to its two functions of type `evalFn`. -/
inductive LuaEvent where
  | EvalSha (sha : String) (keys args : List String)
  | Eval (script : String) (keys args : List String)
  deriving DecidableEq, Repr

/-- The call sends the script body. -/
def LuaEvent.isEval : LuaEvent → Bool
  | LuaEvent.Eval _ _ _ => true
  | _ => false

/-- Struct `Lua`; the two functions receive the history of the calls made so
far (newest first). -/
structure Lua where
  script : String
  sha1 : String
  eval : List LuaEvent → String → List String → List String → Result
  evalSha : List LuaEvent → String → List String → List String → Result

/-- Function `newLuaScript`; `sha1Hex` is the hexadecimal SHA-1 sum. -/
def newLuaScript (sha1Hex : String → String) (body : String)
    (eval evalSha : List LuaEvent → String → List String → List String → Result) : Lua :=
  ⟨body, sha1Hex body, eval, evalSha⟩

/-- Method `Lua.Exec`: the result and the history of calls. -/
def Lua.Exec (s : Lua) (keys args : List String) (tr : List LuaEvent) :
    Result × List LuaEvent :=
  let r := s.evalSha tr s.sha1 keys args
  let tr1 := LuaEvent.EvalSha s.sha1 keys args :: tr
  match r.RedisError with
  | some err =>
    if err.IsNoScript then
      (s.eval tr1 s.script keys args, LuaEvent.Eval s.script keys args :: tr1)
    else (r, tr1)
  | none => (r, tr1)

/-- The result is a NOSCRIPT error. -/
def Result.isNoScript (r : Result) : Bool :=
  match r.RedisError with
  | some e => e.IsNoScript
  | none => false

/-- A server that has not cached the script: the call by hash is answered
NOSCRIPT, the call with the body `OK`. -/
def coldLua : Lua :=
  newLuaScript (fun _ => "da39a3") "return 1"
    (fun _ _ _ _ => okResult) (fun _ _ _ _ => Result.redisErr RedisError.noScript)

/-- A server that has cached the script: the call by hash is answered `OK`. -/
def warmLua : Lua :=
  newLuaScript (fun _ => "da39a3") "return 1"
    (fun _ _ _ _ => Result.err (Error.other "body sent")) (fun _ _ _ _ => okResult)

/-! ## `rueidiscompat/command.go` -/

/-- The operations on `float64` used by the commands: the zero value, the
test `x > 0`, `strconv.FormatFloat(x, 'f', -1, 64)` and
`strconv.ParseFloat(s, 64)`. -/
structure Floats (F : Type) where
  zero : F
  gtZero : F → Bool
  FormatFloat : F → String
  ParseFloat : String → F × Option Error

/-- Modelled from the spec: `RedisResult.ToArray`: the elements of an array
reply, otherwise the error of the result. -/
def Result.ToArray : Result → List Message × Option Error
  | Result.val m =>
    if m.typ = '*' ∨ m.typ = '~' then (m.values, none)
    else if m.IsNil then ([], some (Error.redis RedisError.nil))
    else ([], some (Error.other "redis message type is not an array"))
  | Result.redisErr e => ([], some (Error.redis e))
  | Result.err e => ([], some e)

/-- Modelled from the spec: `RedisMessage.AsFloat64`: the text of the reply
parsed as a float. -/
def Message.AsFloat64 {F : Type} (fl : Floats F) (m : Message) : F × Option Error :=
  match m.ToString with
  | (_, some err) => (fl.zero, some err)
  | (s, none) => fl.ParseFloat s

/-- Struct `ZWithKey`, with the embedded `Z` laid out; `Member` is `none` for
the nil interface. -/
structure ZWithKey (F : Type) where
  Score : F
  Member : Option String
  Key : String

/-- Struct `ZWithKeyCmd`. -/
structure ZWithKeyCmd (F : Type) where
  res : Result
  val : ZWithKey F
  err : Option Error

/-- Function `newZWithKeyCmd`. -/
def newZWithKeyCmd {F : Type} (fl : Floats F) (res : Result) : ZWithKeyCmd F :=
  match res.ToArray with
  | (_, some err) => ⟨res, ⟨fl.zero, none, ""⟩, some err⟩
  | (arr, none) =>
    match arr with
    | [a0, _, _] =>
      match a0.ToString with
      | (_, some err) => ⟨res, ⟨fl.zero, none, ""⟩, some err⟩
      | (key, none) =>
        match a0.ToString with
        | (_, some err) => ⟨res, ⟨fl.zero, none, ""⟩, some err⟩
        | (member, none) =>
          match a0.AsFloat64 fl with
          | (_, some err) => ⟨res, ⟨fl.zero, none, ""⟩, some err⟩
          | (score, none) => ⟨res, ⟨score, some member, key⟩, none⟩
    | _ =>
      ⟨res, ⟨fl.zero, none, ""⟩,
        some (Error.other ("got " ++ toString arr.length ++ ", wanted 3"))⟩

/-- Struct `GeoSearchQuery`; `Sort_` is its field `Sort`. -/
structure GeoSearchQuery (F : Type) where
  Member : String
  Longitude : F
  Latitude : F
  Radius : F
  RadiusUnit : String
  BoxWidth : F
  BoxHeight : F
  BoxUnit : String
  Sort_ : String
  Count : Int
  CountAny : Bool

/-- Method `GeoSearchQuery.args`: the arguments, and the query with the unit
that the method has filled in. -/
def GeoSearchQuery.args {F : Type} (fl : Floats F) (q : GeoSearchQuery F) :
    List String × GeoSearchQuery F :=
  let args :=
    if q.Member ≠ "" then ["FROMMEMBER", q.Member]
    else ["FROMLONLAT", fl.FormatFloat q.Longitude, fl.FormatFloat q.Latitude]
  let shape : List String × GeoSearchQuery F :=
    if fl.gtZero q.Radius then
      let q1 := if q.RadiusUnit = "" then { q with RadiusUnit := "KM" } else q
      (args ++ ["BYRADIUS", fl.FormatFloat q1.Radius, q1.RadiusUnit], q1)
    else
      let q1 := if q.BoxUnit = "" then { q with BoxUnit := "KM" } else q
      (args ++ ["BYXBOX", fl.FormatFloat q1.BoxWidth, fl.FormatFloat q1.BoxHeight, q1.BoxUnit],
        q1)
  let args := shape.1
  let q1 := shape.2
  let args := if q1.Sort_ ≠ "" then args ++ [q1.Sort_] else args
  let args :=
    if q1.Count > 0 then
      let args := args ++ ["COUNT", toString q1.Count]
      if q1.CountAny then args ++ ["ANY"] else args
    else args
  (args, q1)

/-- Floats that hold whole numbers, written in decimal: enough to run the
commands on examples. -/
def wholeFloats : Floats Int where
  zero := 0
  gtZero := fun x => decide (0 < x)
  FormatFloat := fun x => toString x
  ParseFloat := fun s =>
    if s.data ≠ [] ∧ s.data.all Char.isDigit = true then ((digitsValue s.data : Nat), none)
    else (0, some (Error.other "strconv.ParseFloat: invalid syntax"))

/-- Go `time.Millisecond`, in nanoseconds. -/
def Millisecond : Int := 1000000

/-- Go `time.Second`, in nanoseconds. -/
def Second : Int := 1000000000

/-- Function `formatMs` on a duration in nanoseconds; Go `/` truncates toward
zero. -/
def formatMs (dur : Int) : Int :=
  if 0 < dur ∧ dur < Millisecond then 1 else Int.tdiv dur Millisecond

/-- Function `formatSec`. -/
def formatSec (dur : Int) : Int :=
  if 0 < dur ∧ dur < Second then 1 else Int.tdiv dur Second

/-- The error variable of `init` after every address of the list has refused
the dial. -/
def lastDialError (w : World) : List String → Option Error → List Event → Option Error
  | [], err, _ => err
  | addr :: rest, _, tr => lastDialError w rest (dialResult w addr tr) (dialAttempt w addr tr)

/-- The addresses handed to the connection factory in a history, oldest
first. -/
def dialledAddrs : List Event → List String
  | [] => []
  | Event.connFn addr _ :: tr => dialledAddrs tr ++ [addr]
  | _ :: tr => dialledAddrs tr

/-- The `Close` event of the connection that `init` replaces, if any. -/
def closePrev (c : ClusterClient) (addr : String) : List Event :=
  match c.conns.get? addr with
  | some prev => [Event.Close prev]
  | none => []

/-! ## Reply parsers of `rueidiscompat/command.go` -/

/-- Outcome of the body of a reply parser: a value, an error that the command
carries (`return &Cmd{res: res, err: err}`), or a Go panic. -/
inductive Parsed (α : Type) where
  | ok (a : α)
  | err (e : Error)
  | panic (msg : String)

/-- Sequencing of parser steps: an error or a panic ends the body. -/
def Parsed.bind {α β : Type} (x : Parsed α) (f : α → Parsed β) : Parsed β :=
  match x with
  | Parsed.ok a => f a
  | Parsed.err e => Parsed.err e
  | Parsed.panic m => Parsed.panic m

instance : Monad Parsed where
  pure := Parsed.ok
  bind := Parsed.bind

/-- A Go pair `(val, err)` followed by `if err != nil { return ... }`. -/
def Parsed.lift {α : Type} (r : α × Option Error) : Parsed α :=
  match r.2 with
  | some e => Parsed.err e
  | none => Parsed.ok r.1

/-- Go `xs[i]` on a slice of messages. -/
def Parsed.index (xs : List Message) (i : Nat) : Parsed Message :=
  match xs[i]? with
  | some m => Parsed.ok m
  | none => Parsed.panic "index out of range"

/-- Modelled from the spec: `RedisMessage.ToArray`: the elements of an array
reply. -/
def Message.ToArray (m : Message) : List Message × Option Error :=
  (Result.val m).ToArray

/-- Modelled from the spec: `RedisMessage.ToInt64`: the value of an integer
reply. -/
def Message.ToInt64 (m : Message) : Int × Option Error :=
  if m.typ = ':' then (m.integer, none)
  else if m.IsNil then (0, some (Error.redis RedisError.nil))
  else (0, some (Error.other "redis message type is not a int64"))

/-- Go `strconv.ParseInt(s, 10, 64)` on an optional sign followed by decimal
digits. -/
def ParseInt (s : String) : Int × Option Error :=
  let neg := s.data.head? = some '-'
  let ds := if s.data.head? = some '-' ∨ s.data.head? = some '+' then s.data.tail else s.data
  if ds = [] ∨ ds.all Char.isDigit = false then
    (0, some (Error.other "strconv.ParseInt: invalid syntax"))
  else
    let v : Int := if neg then -(digitsValue ds : Int) else (digitsValue ds : Int)
    if v < -(2 ^ 63) then (-(2 ^ 63), some (Error.other "strconv.ParseInt: value out of range"))
    else if 2 ^ 63 ≤ v then (2 ^ 63 - 1, some (Error.other "strconv.ParseInt: value out of range"))
    else (v, none)

/-- Modelled from the spec: `RedisMessage.AsInt64`: the value of an integer
reply, or the text of a string reply parsed as an integer. -/
def Message.AsInt64 (m : Message) : Int × Option Error :=
  if m.typ = ':' then (m.integer, none)
  else
    match m.ToString with
    | (_, some err) => (0, some err)
    | (s, none) => ParseInt s

/-- The texts of a list of replies, up to the first that is not a string. -/
def strSliceLoop : List Message → List String → List String × Option Error
  | [], acc => (acc, none)
  | m :: rest, acc =>
    match m.ToString with
    | (_, some err) => ([], some err)
    | (s, none) => strSliceLoop rest (acc ++ [s])

/-- Modelled from the spec: `RedisMessage.AsStrSlice`: the texts of the
elements of an array reply. -/
def Message.AsStrSlice (m : Message) : List String × Option Error :=
  match m.ToArray with
  | (_, some err) => ([], some err)
  | (arr, none) => strSliceLoop arr []

/-- Go `net.JoinHostPort`: `host:port`, the host in brackets when it holds a
colon or a percent sign. -/
def JoinHostPort (host port : String) : String :=
  if host.data.any (fun c => c = ':' || c = '%') then "[" ++ host ++ "]:" ++ port
  else host ++ ":" ++ port

/-- Go conversion `int8(x)` of an `int64`. -/
def int8 (x : Int) : Int := (x + 128) % 256 - 128

/-- Struct `ClusterNode`. -/
structure ClusterNode where
  ID : String
  Addr : String
  deriving DecidableEq, Repr

/-- Struct `ClusterSlot`. -/
structure ClusterSlot where
  Start : Int
  End : Int
  Nodes : List ClusterNode
  deriving DecidableEq, Repr

/-- Struct `ClusterSlotsCmd`. -/
structure ClusterSlotsCmd where
  res : Result
  val : List ClusterSlot
  err : Option Error

/-- Body of the loop `for i, j := 2, 0; i < len(nodes); i, j = i+1, j+1` of
`newClusterSlotsCmd` for one `i`, with `j = i - 2`. -/
def clusterNode (slot : List Message) (i : Nat) (nodes : List ClusterNode) :
    Parsed (List ClusterNode) := do
  let si ← Parsed.index slot i
  let node ← Parsed.lift si.ToArray
  if node.length ≠ 2 ∧ node.length ≠ 3 then
    Parsed.err (Error.other ("got " ++ toString node.length ++ ", expected 2 or 3"))
  else do
    let n0 ← Parsed.index node 0
    let ip ← Parsed.lift n0.ToString
    let n1 ← Parsed.index node 1
    let port ← Parsed.lift n1.ToInt64
    let nodes1 := nodes.modify (fun n => { n with Addr := JoinHostPort ip (toString port) }) (i - 2)
    if node.length = 3 then do
      let n2 ← Parsed.index node 2
      let id ← Parsed.lift n2.ToString
      Parsed.ok (nodes1.modify (fun n => { n with ID := id }) (i - 2))
    else Parsed.ok nodes1

/-- The loop over `i`, given the values of `i` that satisfy `i < len(nodes)`
from 2 on. -/
def clusterNodesLoop (slot : List Message) : List Nat → List ClusterNode →
    Parsed (List ClusterNode)
  | [], nodes => Parsed.ok nodes
  | i :: rest, nodes =>
    match clusterNode slot i nodes with
    | Parsed.ok nodes1 => clusterNodesLoop slot rest nodes1
    | Parsed.err e => Parsed.err e
    | Parsed.panic m => Parsed.panic m

/-- Body of the loop of `newClusterSlotsCmd` over the entries of the reply. -/
def clusterSlot (v : Message) : Parsed ClusterSlot := do
  let slot ← Parsed.lift v.ToArray
  if slot.length < 2 then
    Parsed.err (Error.other ("got " ++ toString slot.length ++ ", excpected atleast 2"))
  else do
    let s0 ← Parsed.index slot 0
    let start ← Parsed.lift s0.ToInt64
    let s1 ← Parsed.index slot 1
    let stop ← Parsed.lift s1.ToInt64
    let nodes := List.replicate (slot.length - 2) (⟨"", ""⟩ : ClusterNode)
    let nodes1 ← clusterNodesLoop slot ((List.range nodes.length).drop 2) nodes
    Parsed.ok ⟨start, stop, nodes1⟩

/-- The loop of `newClusterSlotsCmd`. -/
def clusterSlotsLoop : List Message → List ClusterSlot → Parsed (List ClusterSlot)
  | [], val => Parsed.ok val
  | v :: rest, val =>
    match clusterSlot v with
    | Parsed.ok s => clusterSlotsLoop rest (val ++ [s])
    | Parsed.err e => Parsed.err e
    | Parsed.panic m => Parsed.panic m

/-- Function `newClusterSlotsCmd`. -/
def newClusterSlotsCmd (res : Result) : Exec ClusterSlotsCmd :=
  match (do let arr ← Parsed.lift res.ToArray; clusterSlotsLoop arr []) with
  | Parsed.ok val => Exec.ret ⟨res, val, none⟩
  | Parsed.err e => Exec.ret ⟨res, [], some e⟩
  | Parsed.panic m => Exec.panic m

/-- Struct `XPending`; `Consumers` is `none` for the nil map. -/
structure XPending where
  Count : Int
  Lower : String
  Higher : String
  Consumers : Option (GoMap Int)
  deriving DecidableEq, Repr

/-- Struct `XPendingCmd`. -/
structure XPendingCmd where
  res : Result
  val : XPending
  err : Option Error

/-- The loop of `newXPendingCmd` over the consumers; `arrLen` is `len(arr)`,
the length that the loop compares with 2. -/
def xpendingConsumers (arrLen : Nat) : List Message → Option (GoMap Int) →
    Parsed (Option (GoMap Int))
  | [], consumers => Parsed.ok consumers
  | v :: rest, consumers =>
    match (do
      let consumer ← Parsed.lift v.ToArray
      if arrLen ≠ 2 then
        Parsed.err (Error.other ("got " ++ toString arrLen ++ ", wanted 2"))
      else do
        let c0 ← Parsed.index consumer 0
        let consumerName ← Parsed.lift c0.ToString
        let c1 ← Parsed.index consumer 1
        let consumerPending ← Parsed.lift c1.AsInt64
        Parsed.ok (some (GoMap.set (consumers.getD []) consumerName consumerPending))) with
    | Parsed.ok consumers1 => xpendingConsumers arrLen rest consumers1
    | Parsed.err e => Parsed.err e
    | Parsed.panic m => Parsed.panic m

/-- Function `newXPendingCmd`. -/
def newXPendingCmd (res : Result) : Exec XPendingCmd :=
  match (do
    let arr ← Parsed.lift res.ToArray
    if arr.length ≠ 4 then
      Parsed.err (Error.other ("got " ++ toString arr.length ++ ", wanted 4"))
    else do
      let a0 ← Parsed.index arr 0
      let count ← Parsed.lift a0.ToInt64
      let a1 ← Parsed.index arr 1
      let lower ← Parsed.lift a1.ToString
      let a2 ← Parsed.index arr 2
      let higher ← Parsed.lift a2.ToString
      let a3 ← Parsed.index arr 3
      let consumerArr ← Parsed.lift a3.ToArray
      let consumers ← xpendingConsumers arr.length consumerArr none
      Parsed.ok (⟨count, lower, higher, consumers⟩ : XPending)) with
  | Parsed.ok val => Exec.ret ⟨res, val, none⟩
  | Parsed.err e => Exec.ret ⟨res, ⟨0, "", "", none⟩, some e⟩
  | Parsed.panic m => Exec.panic m

/-- Struct `CommandInfo`; the integer fields are `int8` values. -/
structure CommandInfo where
  Name : String
  Arity : Int
  Flags : List String
  ACLFlags : List String
  FirstKeyPos : Int
  LastKeyPos : Int
  StepCount : Int
  ReadOnly : Bool
  deriving DecidableEq, Repr

/-- Struct `CommandsInfoCmd`. -/
structure CommandsInfoCmd where
  res : Result
  val : GoMap CommandInfo
  err : Option Error

/-- The flags read with `AsStrSlice`, a nil reply giving the empty slice. -/
def flagsOf (m : Message) : Parsed (List String) :=
  match m.AsStrSlice with
  | (flags, none) => Parsed.ok flags
  | (_, some err) => if IsRedisNil (some err) then Parsed.ok [] else Parsed.err err

/-- Body of the loop of `newCommandsInfoCmd` for one entry; `arrLen` is
`len(arr)`, the length that the body compares with 6 before it reads
`info[6]`. -/
def commandInfo (arrLen : Nat) (v : Message) : Parsed CommandInfo := do
  let info ← Parsed.lift v.ToArray
  if info.length ≠ 6 ∧ info.length ≠ 7 then
    Parsed.err (Error.other ("got " ++ toString info.length ++ ", wanted 7"))
  else do
    let i0 ← Parsed.index info 0
    let name ← Parsed.lift i0.ToString
    let i1 ← Parsed.index info 1
    let arity ← Parsed.lift i1.ToInt64
    let i2 ← Parsed.index info 2
    let flags ← flagsOf i2
    let i3 ← Parsed.index info 3
    let firstKeyPos ← Parsed.lift i3.ToInt64
    let i4 ← Parsed.index info 4
    let lastKeyPos ← Parsed.lift i4.ToInt64
    let i5 ← Parsed.index info 5
    let stepCount ← Parsed.lift i5.ToInt64
    let cmd : CommandInfo :=
      ⟨name, int8 arity, flags, [], int8 firstKeyPos, int8 lastKeyPos, int8 stepCount,
        flags.any (fun flag => flag = "readonly")⟩
    if arrLen = 6 then Parsed.ok cmd
    else do
      let i6 ← Parsed.index info 6
      let acl ← flagsOf i6
      Parsed.ok { cmd with ACLFlags := acl }

/-- The loop of `newCommandsInfoCmd`. -/
def commandsInfoLoop (arrLen : Nat) : List Message → GoMap CommandInfo →
    Parsed (GoMap CommandInfo)
  | [], val => Parsed.ok val
  | v :: rest, val =>
    match commandInfo arrLen v with
    | Parsed.ok cmd => commandsInfoLoop arrLen rest (val.set cmd.Name cmd)
    | Parsed.err e => Parsed.err e
    | Parsed.panic m => Parsed.panic m

/-- Function `newCommandsInfoCmd`. -/
def newCommandsInfoCmd (res : Result) : Exec CommandsInfoCmd :=
  match (do let arr ← Parsed.lift res.ToArray; commandsInfoLoop arr.length arr []) with
  | Parsed.ok val => Exec.ret ⟨res, val, none⟩
  | Parsed.err e => Exec.ret ⟨res, [], some e⟩
  | Parsed.panic m => Exec.panic m

/-- A node array `[host, port, id]` of a cluster-slots reply. -/
def nodeEntry (host : String) (port : Int) (id : String) : Message :=
  Message.arr [Message.str host, Message.int port, Message.str id]

/-- An entry of a command-info reply with six elements. -/
def infoEntry6 (name : String) (flags : List String) : Message :=
  Message.arr [Message.str name, Message.int 2, Message.arr (flags.map Message.str),
    Message.int 1, Message.int 1, Message.int 1]

/-- An entry of a command-info reply with seven elements. -/
def infoEntry7 (name : String) (flags acl : List String) : Message :=
  Message.arr [Message.str name, Message.int 2, Message.arr (flags.map Message.str),
    Message.int 1, Message.int 1, Message.int 1, Message.arr (acl.map Message.str)]

/-! ## The pub/sub hook of the cluster client -/

/-- The connection provider that `newClusterClient` installs as pub/sub hook
(lines 62-68): `for cc == nil && err != ErrConnClosing { cc, err =
client.pick(cmds.InitSlot) }`, then `return cc`.  Each iteration uses one unit
of fuel; `n` is the fuel of `pick`. -/
def hookProvider (w : World) (n : Nat) : Nat → ClusterClient → Exec (Option Conn × ClusterClient)
  | 0, _ => Exec.fuel
  | k + 1, c =>
    match pick w n InitSlot c with
    | Exec.ret (Except.ok cc, c1) => Exec.ret (some cc, c1)
    | Exec.ret (Except.error err, c1) =>
      if err = Error.ErrConnClosing then Exec.ret (none, c1) else hookProvider w n k c1
    | Exec.panic m => Exec.panic m
    | Exec.fuel => Exec.fuel

/-- A topology query. -/
def Event.isSlots : Event → Bool
  | Event.Slots _ => true
  | _ => false

/-- A dial. -/
def Event.isDialOnly : Event → Bool
  | Event.Dial _ => true
  | _ => false

/-- One round of `_refresh` that ends in a successful re-seed: the queries end
without error, the reply is empty and `init` returns a connection.  The value
is the state at the next `retry`. -/
def reseedRound (w : World) (reply : Message) (err : Option Error) (c : ClusterClient) :
    Option (Message × Option Error × ClusterClient) :=
  let q := queryLoop w (c.range w c.conns) ⟨reply, err, []⟩ c
  let c1 := if q.1.dead.length ≠ 0 then removeDead q.1.dead q.2 else q.2
  match q.1.err with
  | some _ => none
  | none =>
    if q.1.reply.values.length = 0 then
      match init w c1 with
      | ((_, some _), _) => none
      | ((_, none), c2) => some (q.1.reply, none, c2)
    else none

/-- The state of `_refresh` at `retry` after `k` such rounds. -/
def reseedRounds (w : World) : Nat → Message → Option Error → ClusterClient →
    Option (Message × Option Error × ClusterClient)
  | 0, reply, err, c => some (reply, err, c)
  | k + 1, reply, err, c =>
    match reseedRound w reply err c with
    | none => none
    | some (reply1, err1, c1) => reseedRounds w k reply1 err1 c1

/-- A world whose nodes accept the dial and answer every topology query with
an empty list. -/
def emptyWorld : World :=
  { miniWorld with
    Dial := fun _ _ => none
    Slots := fun _ _ => (Message.arr [], none) }

/-- A world whose nodes accept the dial and answer the first two topology
queries with an empty list and the later ones with `miniReply`. -/
def emptyTwiceWorld : World :=
  { miniWorld with
    Dial := fun _ _ => none
    Slots := fun tr _ =>
      if tr.countP Event.isSlots < 2 then (Message.arr [], none) else (miniReply, none) }

/-- A world in which the first two dials fail with a network error and the
later ones succeed. -/
def retryWorld : World :=
  { miniWorld with
    Dial := fun tr _ =>
      if tr.countP Event.isDialOnly < 2 then some (Error.other "network") else none }

/-- A world whose nodes accept the dial and fail the topology query with
`ErrConnClosing`. -/
def closingWorld : World :=
  { miniWorld with
    Dial := fun _ _ => none
    Slots := fun _ _ => (Message.zero, some Error.ErrConnClosing) }

/-- A world whose nodes accept the dial, in which the connection of `a:1`
fails the topology query and every other connection answers it with
`miniReply`. -/
def halfWorld : World :=
  { miniWorld with
    Dial := fun _ _ => none
    Slots := fun _ cc =>
      if cc = ⟨1⟩ then (Message.zero, some (Error.other "i/o timeout")) else (miniReply, none) }

/-- A client with connections to `a:1`, `c:3` and `d:4` and the seed `b:2`. -/
def trioClient : ClusterClient :=
  ⟨["b:2"], fun _ => none, [("a:1", ⟨1⟩), ("c:3", ⟨3⟩), ("d:4", ⟨4⟩)], []⟩

/-! ## Connections and the history -/

/-- The connections held in `conns` are distinct, each has been created by
the factory and none has been closed; no connection has been closed twice, and
what has been closed had been created by the factory. -/
def liveConns (c : ClusterClient) : Prop :=
  c.conns.keys.Nodup ∧
  (∀ a b x, c.conns.get? a = some x → c.conns.get? b = some x → a = b) ∧
  (∀ a x, c.conns.get? a = some x →
    (∃ b, Event.connFn b x ∈ c.trace) ∧ Event.Close x ∉ c.trace) ∧
  (∀ x, c.trace.count (Event.Close x) ≤ 1) ∧
  (∀ x, Event.Close x ∈ c.trace → ∃ b, Event.connFn b x ∈ c.trace)

/-- The factory returns a connection that it has not returned before. -/
def World.freshFactory (w : World) : Prop :=
  ∀ tr a b, Event.connFn b (w.connFn tr a) ∉ tr

/-- From `c` to `c'` the history has grown by `added`; an entry of `conns`
that is gone has been closed, and an entry that is new has been created by the
factory on the way. -/
def Handover (c c' : ClusterClient) : Prop :=
  ∃ added, c'.trace = added ++ c.trace ∧
    (∀ a x, c.conns.get? a = some x → c'.conns.get? a = some x ∨ Event.Close x ∈ added) ∧
    (∀ a x, c'.conns.get? a = some x → c.conns.get? a = some x ∨ Event.connFn a x ∈ added)

/-- The handle of the connection created by an event, 0 for any other event. -/
def Event.connId : Event → Nat
  | Event.connFn _ cc => cc.id
  | _ => 0

/-- A factory that numbers its connections past every handle in the history. -/
def freshConn (tr : List Event) : Conn := ⟨1 + (tr.map Event.connId).sum⟩

/-- A topology with the single primary `a:1`. -/
def soloReply : Message := Message.arr [entry 0 7 "a" 1]

/-- A world with a factory of new connections, whose nodes accept the dial
and answer the first topology query with `miniReply` and the later ones with
`soloReply`. -/
def shrinkWorld : World :=
  { miniWorld with
    connFn := fun tr _ => freshConn tr
    Dial := fun _ _ => none
    Slots := fun tr _ =>
      if tr.countP Event.isSlots < 1 then (miniReply, none) else (soloReply, none) }

/-- A world with a factory of new connections, whose nodes accept the dial,
answer the first topology query with `miniReply` and fail the later ones. -/
def lossWorld : World :=
  { miniWorld with
    connFn := fun tr _ => freshConn tr
    Dial := fun _ _ => none
    Slots := fun tr _ =>
      if tr.countP Event.isSlots < 1 then (miniReply, none)
      else (Message.zero, some (Error.other "i/o timeout")) }

/-- The result `r` is the reply to a submission of `cmd` by the dispatcher:
the reply to `Do`, the reply to `DoCache` with `ttl`, or the second reply to
the pipeline `[ASKING, cmd]`, of some connection at some history. -/
def isReplyOf (w : World) (cmd : Command) (ttl : Nat) (r : Result) : Prop :=
  (∃ tr cc, r = w.Do tr cc cmd) ∨ (∃ tr cc, r = w.DoCache tr cc cmd ttl) ∨
  (∃ tr cc, (w.DoMulti tr cc [AskingCmd, cmd])[1]? = some r)

/-- A world whose nodes answer the topology query with the error `MOVED x:9`. -/
def movedSlotsWorld : World :=
  { miniWorld with
    Slots := fun _ _ => (Message.zero, some (Error.redis (RedisError.moved "x:9"))) }

/-- A callback that performs the given actions, one after the other, and
returns nil after the last. -/
def doScript (actions : List Action) : Callback :=
  fun hist => match actions[hist.length]? with
    | some a => a
    | none => Action.ret none

/-- The address to which the dispatcher is sent when it reads a result as
`ASK`: the result carries a server error that is not MOVED and whose `IsAsk`
gives the address. -/
def askOf : Option Result → Option String
  | some resp =>
    match resp.RedisError with
    | some err =>
      match err.IsMoved with
      | some _ => none
      | none => err.IsAsk
    | none => none
  | none => none

/-- The reply to the newest submission among the events `pre` (newest first)
recorded on top of the history `base`, a pipeline counting with its second
reply; `dflt` when `pre` holds no submission. -/
def lastReplyIn (w : World) (base : List Event) (dflt : Option Result) :
    List Event → Option Result
  | [] => dflt
  | Event.Do cc cmd :: rest => some (w.Do (rest ++ base) cc cmd)
  | Event.DoCache cc cmd ttl :: rest => some (w.DoCache (rest ++ base) cc cmd ttl)
  | Event.DoMulti cc multi :: rest => (w.DoMulti (rest ++ base) cc multi)[1]?
  | Event.connFn _ _ :: rest => lastReplyIn w base dflt rest
  | Event.Dial _ :: rest => lastReplyIn w base dflt rest
  | Event.Close _ :: rest => lastReplyIn w base dflt rest
  | Event.Slots _ :: rest => lastReplyIn w base dflt rest
  | Event.goRefresh :: rest => lastReplyIn w base dflt rest
  | Event.Gosched :: rest => lastReplyIn w base dflt rest
  | Event.Put _ :: rest => lastReplyIn w base dflt rest
  | Event.Acquire _ _ :: rest => lastReplyIn w base dflt rest
  | Event.Store _ _ :: rest => lastReplyIn w base dflt rest
  | Event.WireDo _ _ :: rest => lastReplyIn w base dflt rest
  | Event.WireDoMulti _ _ :: rest => lastReplyIn w base dflt rest

/-- The events `added` (newest first), recorded by a cached read of `cmd` on
top of `base`, respect the handling of `ASK`: every use of the cached path
`DoCache` is for `cmd` with `ttl` and does not follow a reply read as `ASK`;
every pipeline is `[ASKING, cmd]` and follows a reply read as `ASK`; the plain
path `Do` is not used.  `dflt` is the reply in hand before `added`. -/
def asksUncached (w : World) (cmd : Command) (ttl : Nat) (base : List Event)
    (dflt : Option Result) (added : List Event) : Prop :=
  ∀ post e pre, added = post ++ e :: pre →
    (∀ cc q t, e = Event.DoCache cc q t →
      q = cmd ∧ t = ttl ∧ askOf (lastReplyIn w base dflt pre) = none) ∧
    (∀ cc multi, e = Event.DoMulti cc multi →
      multi = [AskingCmd, cmd] ∧ (askOf (lastReplyIn w base dflt pre)).isSome = true) ∧
    (∀ cc q, e ≠ Event.Do cc q)

/-- The world of a cached read that is moved and then asked: `a:1` answers
`MOVED d:4`, `d:4` answers `ASK e:5`, every other node answers `OK`. -/
def movedAskWorld : World :=
  { miniWorld with
    DoCache := fun _ cc _ _ =>
      if cc = connOf "a:1" then Result.redisErr (RedisError.moved "d:4")
      else if cc = connOf "d:4" then Result.redisErr (RedisError.ask "e:5")
      else okResult }

/-- A world whose seeds refuse the dial, in which the connection of `a:1`
answers the topology query with an empty list and every other connection
answers it with `miniReply`; a map is visited in the order of its list. -/
def emptyFirstWorld : World :=
  { miniWorld with
    Dial := fun _ _ => some (Error.other "connection refused")
    Slots := fun _ cc => if cc = ⟨1⟩ then (Message.arr [], none) else (miniReply, none) }

/-- The same world, in which a map of two entries is visited second entry
first. -/
def emptyLastWorld : World :=
  { emptyFirstWorld with rangeOrder := fun _ k => if k = 0 then 1 else 0 }

/-- A client with connections to `a:1` and `c:3` and the seed `b:2`. -/
def duoClient : ClusterClient :=
  ⟨["b:2"], fun _ => none, [("a:1", ⟨1⟩), ("c:3", ⟨3⟩)], []⟩

/-! ## Lemmas: maps and iteration order -/

theorem permute_perm {α : Type} (f : Nat → Nat) :
    ∀ (n k : Nat) (l : List α), l.length = n → (permute f n k l).Perm l := by
  intro n
  induction n with
  | zero =>
    intro k l hl
    have : l = [] := List.length_eq_zero.mp hl
    subst this
    simp [permute]
  | succ n ih =>
    intro k l hl
    have hpos : 0 < l.length := by omega
    have hi : f k % l.length < l.length := Nat.mod_lt _ hpos
    simp only [permute]
    rw [List.getElem?_eq_getElem hi]
    simp only
    have hlen : (l.eraseIdx (f k % l.length)).length = n := by
      rw [List.length_eraseIdx, if_pos hi]; omega
    refine (List.Perm.cons _ (ih (k + 1) _ hlen)).trans ?_
    have h1 := List.eraseIdx_eq_take_drop_succ l (f k % l.length)
    have h2 : l = List.take (f k % l.length) l ++ l[f k % l.length] :: List.drop (f k % l.length + 1) l := by
      rw [← List.drop_eq_getElem_cons hi, List.take_append_drop]
    rw [h1]
    conv_rhs => rw [h2]
    exact List.perm_middle.symm

theorem range_perm {V : Type} (w : World) (c : ClusterClient) (m : GoMap V) :
    (c.range w m).Perm m := permute_perm _ _ _ _ rfl

namespace GoMap

theorem mem_keys_set {V : Type} (m : GoMap V) (k : String) (v : V) (a : String) :
    a ∈ (m.set k v).keys ↔ a = k ∨ a ∈ m.keys := by
  induction m with
  | nil => simp [set, keys]
  | cons x rest ih =>
    obtain ⟨k', v'⟩ := x
    simp only [set]
    split
    · rename_i h; subst h
      simp [keys]
    · simp only [keys, List.map_cons, List.mem_cons] at ih ⊢
      rw [ih]; tauto

theorem get?_set {V : Type} (m : GoMap V) (k : String) (v : V) (a : String) :
    (m.set k v).get? a = if a = k then some v else m.get? a := by
  induction m with
  | nil => simp [set, get?, eq_comm]
  | cons x rest ih =>
    obtain ⟨k', v'⟩ := x
    simp only [set]
    split
    · rename_i h; subst h
      simp only [get?]
      by_cases h : k' = a
      · simp [h]
      · have : ¬ a = k' := fun e => h e.symm
        simp [h, this]
    · rename_i h
      simp only [get?, ih]
      by_cases h2 : k' = a
      · subst h2; simp [h]
      · simp [h2]

theorem get?_isSome_iff {V : Type} (m : GoMap V) (a : String) :
    (m.get? a).isSome ↔ a ∈ m.keys := by
  induction m with
  | nil => simp [get?, keys]
  | cons x rest ih =>
    obtain ⟨k', v'⟩ := x
    simp only [get?, keys, List.map_cons, List.mem_cons]
    by_cases h : k' = a
    · simp [h]
    · have : ¬ a = k' := fun e => h e.symm
      simp only [h, if_false, this, false_or]
      exact ih

theorem nodup_set {V : Type} (m : GoMap V) (k : String) (v : V) (h : m.keys.Nodup) :
    (m.set k v).keys.Nodup := by
  induction m with
  | nil => simp [set, keys]
  | cons x rest ih =>
    obtain ⟨k', v'⟩ := x
    simp only [keys, List.map_cons, List.nodup_cons] at h
    simp only [set]
    split
    · rename_i e; subst e
      simpa [keys] using h
    · rename_i e
      have h3 := mem_keys_set rest k v k'
      simp only [keys, List.map_cons, List.nodup_cons]
      refine ⟨?_, ih h.2⟩
      intro hm
      rcases (h3.mp hm) with h4 | h4
      · exact e h4
      · exact h.1 h4

theorem mem_of_get? {V : Type} (m : GoMap V) (a : String) (v : V) (h : m.get? a = some v) :
    (a, v) ∈ m := by
  induction m with
  | nil => simp [get?] at h
  | cons x rest ih =>
    obtain ⟨k', v'⟩ := x
    simp only [get?] at h
    split at h
    · rename_i e; subst e; simp at h; subst h; simp
    · exact List.mem_cons_of_mem _ (ih h)

theorem get?_of_mem {V : Type} (m : GoMap V) (a : String) (v : V) (hn : m.keys.Nodup)
    (h : (a, v) ∈ m) : m.get? a = some v := by
  induction m with
  | nil => simp at h
  | cons x rest ih =>
    obtain ⟨k', v'⟩ := x
    simp only [keys, List.map_cons, List.nodup_cons] at hn
    simp only [get?]
    rcases List.mem_cons.mp h with h1 | h1
    · simp only [Prod.mk.injEq] at h1
      simp [h1.1, h1.2]
    · have : k' ≠ a := by
        intro e; subst e
        exact hn.1 (List.mem_map.mpr ⟨(k', v), h1, rfl⟩)
      simp only [this, if_false]
      exact ih hn.2 h1

end GoMap

/-! ## Lemmas: parseSlots -/

theorem index_ret {vs : List Message} {i : Nat} {m : Message} (h : index vs i = Exec.ret m) :
    vs.getD i Message.zero = m ∧ i < vs.length := by
  unfold index at h
  split at h
  · rename_i m' hm
    simp only [Exec.ret.injEq] at h
    subst h
    have hlt : i < vs.length := by
      by_contra hc
      rw [List.getElem?_eq_none (by omega)] at hm
      exact absurd hm (by simp)
    refine ⟨?_, hlt⟩
    rw [List.getD_eq_getElem?_getD, hm]; rfl
  · exact absurd h (by simp)

theorem nodeAddr_ret {n : Message} {s : String} (h : nodeAddr n = Exec.ret s) : s = n.addr := by
  unfold nodeAddr at h
  split at h
  · rename_i h0 e0
    split at h
    · rename_i p e1
      simp only [Exec.ret.injEq] at h
      rw [← h, Message.addr, (index_ret e0).1, (index_ret e1).1]
    · exact absurd h (by simp)
    · exact absurd h (by simp)
  · exact absurd h (by simp)
  · exact absurd h (by simp)

theorem parseSlot_ret {v : Message} {G G' : GoMap group} (h : parseSlot v G = Exec.ret G') :
    ∃ g : group, G' = G.set v.primary g ∧ g.slots = rangesOf G v.primary ++ [(v.lo, v.hi)] := by
  unfold parseSlot at h
  split at h
  · rename_i m2 e2
    split at h
    · rename_i master em
      have hm : master = v.primary := by
        rw [nodeAddr_ret em, Message.primary, (index_ret e2).1]
      subst hm
      split at h
      · rename_i g eg
        split at h
        · rename_i lo hi elo ehi
          simp only [Exec.ret.injEq] at h
          refine ⟨_, h.symm, ?_⟩
          simp only [Message.lo, Message.hi, (index_ret elo).1, (index_ret ehi).1]
          congr 1
          unfold lookupGroup at eg
          unfold rangesOf
          split at eg
          · rename_i g' eg'
            simp only [Exec.ret.injEq] at eg
            rw [eg]
          · rename_i eg'
            split at eg
            · simp only [Exec.ret.injEq] at eg
              rw [← eg]
            · exact absurd eg (by simp)
            · exact absurd eg (by simp)
        · exact absurd h (by simp)
      · exact absurd h (by simp)
      · exact absurd h (by simp)
    · exact absurd h (by simp)
    · exact absurd h (by simp)
  · exact absurd h (by simp)
  · exact absurd h (by simp)

theorem parseSlotsLoop_ret : ∀ (vs : List Message) (G G' : GoMap group),
    parseSlotsLoop vs G = Exec.ret G' →
    (∀ b, b ∈ G'.keys ↔ b ∈ G.keys ∨ ∃ v ∈ vs, v.primary = b) ∧
    (∀ b r, r ∈ rangesOf G' b ↔
      r ∈ rangesOf G b ∨ ∃ v ∈ vs, v.primary = b ∧ (v.lo, v.hi) = r) ∧
    (G.keys.Nodup → G'.keys.Nodup) := by
  intro vs
  induction vs with
  | nil =>
    intro G G' h
    simp only [parseSlotsLoop, Exec.ret.injEq] at h
    subst h
    simp
  | cons v rest ih =>
    intro G G' h
    simp only [parseSlotsLoop] at h
    split at h
    · rename_i G1 e1
      obtain ⟨g, hG1, hg⟩ := parseSlot_ret e1
      obtain ⟨ihk, ihr, ihn⟩ := ih G1 G' h
      refine ⟨?_, ?_, ?_⟩
      · intro b
        rw [ihk b, hG1, GoMap.mem_keys_set]
        simp only [List.mem_cons, exists_eq_or_imp]
        constructor
        · rintro ((h1 | h1) | h1)
          · exact Or.inr (Or.inl h1.symm)
          · exact Or.inl h1
          · exact Or.inr (Or.inr h1)
        · rintro (h1 | h1 | h1)
          · exact Or.inl (Or.inr h1)
          · exact Or.inl (Or.inl h1.symm)
          · exact Or.inr h1
      · intro b r
        rw [ihr b r]
        have hr1 : rangesOf G1 b = if b = v.primary then rangesOf G v.primary ++ [(v.lo, v.hi)]
            else rangesOf G b := by
          unfold rangesOf
          rw [hG1, GoMap.get?_set]
          by_cases hb : b = v.primary
          · simp only [hb, if_true, hg]; rfl
          · simp only [hb, if_false]
        rw [hr1]
        simp only [List.mem_cons, exists_eq_or_imp]
        by_cases hb : b = v.primary
        · subst hb
          simp only [if_true, List.mem_append, List.mem_singleton, true_and]
          constructor
          · rintro ((h1 | h1) | h1)
            · exact Or.inl h1
            · exact Or.inr (Or.inl h1.symm)
            · exact Or.inr (Or.inr h1)
          · rintro (h1 | h1 | h1)
            · exact Or.inl (Or.inl h1)
            · exact Or.inl (Or.inr h1.symm)
            · exact Or.inr h1
        · have hb' : ¬ v.primary = b := fun e => hb e.symm
          simp only [hb, if_false, hb', false_and, false_or]
      · intro hn
        exact ihn (hG1 ▸ GoMap.nodup_set G _ _ hn)
    · exact absurd h (by simp)
    · exact absurd h (by simp)

theorem parseSlots_ret {reply : Message} {G : GoMap group} (h : parseSlots reply = Exec.ret G) :
    (∀ b, b ∈ G.keys ↔ ∃ v ∈ reply.values, v.primary = b) ∧
    (∀ b r, r ∈ rangesOf G b ↔ ∃ v ∈ reply.values, v.primary = b ∧ (v.lo, v.hi) = r) ∧
    G.keys.Nodup := by
  obtain ⟨h1, h2, h3⟩ := parseSlotsLoop_ret _ _ _ h
  refine ⟨?_, ?_, h3 (by simp [GoMap.keys])⟩
  · intro b; rw [h1 b]; simp [GoMap.keys]
  · intro b r; rw [h2 b r]; simp [rangesOf, GoMap.get?]

/-! ## Lemmas: filling the slot vector -/

theorem fillRange_ret (p : Option Conn) : ∀ (n : Nat) (i : Int) (S0 S : Slots),
    fillRange p n i S0 = Exec.ret S →
    ∀ j : Nat, S j = if i ≤ (j : Int) ∧ (j : Int) < i + n then p else S0 j := by
  intro n
  induction n with
  | zero =>
    intro i S0 S h j
    simp only [fillRange, Exec.ret.injEq] at h
    subst h
    have : ¬ (i ≤ (j : Int) ∧ (j : Int) < i + (0 : Nat)) := by omega
    rw [if_neg this]
  | succ n ih =>
    intro i S0 S h j
    simp only [fillRange] at h
    split at h
    · rename_i hi
      rw [ih _ _ _ h j]
      by_cases hj : (j : Int) = i
      · have h1 : ¬ (i + 1 ≤ (j : Int) ∧ (j : Int) < i + 1 + n) := by omega
        have h2 : (i ≤ (j : Int) ∧ (j : Int) < i + ((n + 1 : Nat) : Int)) := by
          push_cast; omega
        rw [if_neg h1, if_pos h2]
        have : j = i.toNat := by omega
        simp [Slots.set, this]
      · by_cases h1 : (i + 1 ≤ (j : Int) ∧ (j : Int) < i + 1 + n)
        · have h2 : (i ≤ (j : Int) ∧ (j : Int) < i + ((n + 1 : Nat) : Int)) := by
            push_cast; omega
          rw [if_pos h1, if_pos h2]
        · have h2 : ¬ (i ≤ (j : Int) ∧ (j : Int) < i + ((n + 1 : Nat) : Int)) := by
            push_cast; omega
          rw [if_neg h1, if_neg h2]
          have : j ≠ i.toNat := by omega
          simp [Slots.set, this]
    · exact absurd h (by simp)

theorem fillGroup_ret (p : Option Conn) : ∀ (rs : List (Int × Int)) (S0 S : Slots),
    fillGroup p rs S0 = Exec.ret S →
    ∀ j : Nat, (inRanges rs j → S j = p) ∧ (¬ inRanges rs j → S j = S0 j) := by
  intro rs
  induction rs with
  | nil =>
    intro S0 S h j
    simp only [fillGroup, Exec.ret.injEq] at h
    subst h
    simp [inRanges]
  | cons r rest ih =>
    intro S0 S h j
    simp only [fillGroup] at h
    split at h
    · rename_i S1 e1
      have h1 := fillRange_ret p _ _ _ _ e1 j
      obtain ⟨ih1, ih2⟩ := ih S1 S h j
      have hcond : (r.1 ≤ (j : Int) ∧ (j : Int) < r.1 + ((r.2 - r.1 + 1).toNat : Nat)) ↔
          (r.1 ≤ (j : Int) ∧ (j : Int) ≤ r.2) := by omega
      constructor
      · intro hin
        by_cases hr : inRanges rest j
        · exact ih1 hr
        · rw [ih2 hr, h1]
          obtain ⟨r', hr', hc⟩ := hin
          rcases List.mem_cons.mp hr' with e | e
          · subst e
            rw [if_pos (hcond.mpr hc)]
          · exact absurd ⟨r', e, hc⟩ hr
      · intro hnin
        have hr : ¬ inRanges rest j := fun ⟨r', hr', hc⟩ => hnin ⟨r', List.mem_cons_of_mem _ hr', hc⟩
        have hr0 : ¬ (r.1 ≤ (j : Int) ∧ (j : Int) ≤ r.2) := fun hc => hnin ⟨r, List.mem_cons_self _ _, hc⟩
        rw [ih2 hr, h1, if_neg (fun hc => hr0 (hcond.mp hc))]
    · exact absurd h (by simp)
    · exact absurd h (by simp)

theorem fillSlots_ret (masters : GoMap Conn) : ∀ (L : List (String × group)) (S0 S : Slots),
    fillSlots masters L S0 = Exec.ret S →
    ∀ j : Nat, ((∃ x ∈ L, inRanges x.2.slots j ∧ S j = masters.get? x.1) ∨
      ((∀ x ∈ L, ¬ inRanges x.2.slots j) ∧ S j = S0 j)) := by
  intro L
  induction L with
  | nil =>
    intro S0 S h j
    simp only [fillSlots, Exec.ret.injEq] at h
    subst h
    simp
  | cons x rest ih =>
    intro S0 S h j
    obtain ⟨a, g⟩ := x
    simp only [fillSlots] at h
    split at h
    · rename_i S1 e1
      obtain ⟨g1, g2⟩ := fillGroup_ret _ _ _ _ e1 j
      rcases ih S1 S h j with ⟨x, hx, hin, hS⟩ | ⟨hno, hS⟩
      · exact Or.inl ⟨x, List.mem_cons_of_mem _ hx, hin, hS⟩
      · by_cases hg : inRanges g.slots j
        · exact Or.inl ⟨(a, g), List.mem_cons_self _ _, hg, by rw [hS, g1 hg]⟩
        · refine Or.inr ⟨?_, by rw [hS, g2 hg]⟩
          intro y hy
          rcases List.mem_cons.mp hy with e | e
          · subst e; exact hg
          · exact hno y e
    · exact absurd h (by simp)
    · exact absurd h (by simp)

/-! ## Lemmas: histories and the rebuild of the snapshot -/

theorem Extends.refl (P : Event → Bool) (c : ClusterClient) : Extends P c c :=
  ⟨[], rfl, by simp⟩

theorem Extends.of_trace_eq {P : Event → Bool} {c c' : ClusterClient} (h : c'.trace = c.trace) :
    Extends P c c' := ⟨[], by simpa using h, by simp⟩

theorem Extends.trans {P : Event → Bool} {c1 c2 c3 : ClusterClient}
    (h12 : Extends P c1 c2) (h23 : Extends P c2 c3) : Extends P c1 c3 := by
  obtain ⟨a, ha, hpa⟩ := h12
  obtain ⟨b, hb, hpb⟩ := h23
  refine ⟨b ++ a, by rw [hb, ha, List.append_assoc], ?_⟩
  intro e he
  rcases List.mem_append.mp he with h | h
  · exact hpb e h
  · exact hpa e h

theorem Extends.mono {P Q : Event → Bool} {c c' : ClusterClient} (hPQ : ∀ e, P e = true → Q e = true)
    (h : Extends P c c') : Extends Q c c' := by
  obtain ⟨a, ha, hpa⟩ := h
  exact ⟨a, ha, fun e he => hPQ e (hpa e he)⟩

theorem Extends.log {P : Event → Bool} (c : ClusterClient) (e : Event) (he : P e = true) :
    Extends P c (c.log e) :=
  ⟨[e], rfl, by simpa using he⟩

theorem isLifecycle_isRefresh (e : Event) (h : e.isLifecycle = true) : e.isRefresh = true := by
  cases e <;> simp_all [Event.isLifecycle, Event.isRefresh]

theorem lastTopology_append (w : World) : ∀ (added tr : List Event),
    (∀ e ∈ added, e.isLifecycle = true) →
    lastTopology w (added ++ tr) = lastTopology w tr := by
  intro added
  induction added with
  | nil => intro tr _; rfl
  | cons e rest ih =>
    intro tr h
    have he := h e (List.mem_cons_self _ _)
    have hr := ih tr (fun x hx => h x (List.mem_cons_of_mem _ hx))
    cases e <;> simp_all [Event.isLifecycle, lastTopology]

theorem lastTopology_extends (w : World) {c c' : ClusterClient}
    (h : Extends Event.isLifecycle c c') :
    lastTopology w c'.trace = lastTopology w c.trace := by
  obtain ⟨a, ha, hpa⟩ := h
  rw [ha]
  exact lastTopology_append w a c.trace hpa

/-! ### The loops of the rebuild -/

theorem newMasters_spec (w : World) : ∀ (L : List (String × group)) (m : GoMap Conn)
    (c : ClusterClient),
    (∀ a, a ∈ (newMasters w L m c).1.keys ↔ a ∈ m.keys ∨ a ∈ L.map Prod.fst) ∧
    (newMasters w L m c).2.slots = c.slots ∧ (newMasters w L m c).2.conns = c.conns ∧
    (newMasters w L m c).2.InitAddress = c.InitAddress ∧
    Extends Event.isLifecycle c (newMasters w L m c).2 := by
  intro L
  induction L with
  | nil =>
    intro m c
    simp [newMasters, Extends.refl]
  | cons x rest ih =>
    intro m c
    obtain ⟨a, g⟩ := x
    simp only [newMasters]
    obtain ⟨h1, h2, h3, h4, h5⟩ := ih (m.set a (w.connFn c.trace a))
      (c.log (Event.connFn a (w.connFn c.trace a)))
    refine ⟨?_, h2, h3, h4, (Extends.log c _ rfl).trans h5⟩
    intro b
    rw [h1 b, GoMap.mem_keys_set]
    simp only [List.map_cons, List.mem_cons]
    tauto

theorem reuseConns_keys : ∀ (L : List (String × Conn)) (m : GoMap Conn) (r : List Conn) (a : String),
    a ∈ (reuseConns L m r).1.keys ↔ a ∈ m.keys := by
  intro L
  induction L with
  | nil => intro m r a; simp [reuseConns]
  | cons x rest ih =>
    intro m r a
    obtain ⟨k, cc⟩ := x
    simp only [reuseConns]
    split
    · rename_i v hv
      rw [ih, GoMap.mem_keys_set]
      have hk : k ∈ m.keys := (GoMap.get?_isSome_iff m k).mp (by rw [hv]; rfl)
      constructor
      · rintro (h | h)
        · exact h ▸ hk
        · exact h
      · exact Or.inr
    · exact ih _ _ _

theorem closeAll_spec : ∀ (L : List Conn) (c : ClusterClient),
    (closeAll L c).slots = c.slots ∧ (closeAll L c).conns = c.conns ∧
    (closeAll L c).InitAddress = c.InitAddress ∧
    Extends Event.isLifecycle c (closeAll L c) := by
  intro L
  induction L with
  | nil => intro c; simp [closeAll, Extends.refl]
  | cons x rest ih =>
    intro c
    simp only [closeAll]
    obtain ⟨h1, h2, h3, h4⟩ := ih (c.log (Event.Close x))
    exact ⟨h1, h2, h3, (Extends.log c _ rfl).trans h4⟩

/-- What a completed rebuild installs. -/
theorem rebuild_ret {w : World} {reply : Message} {c c' : ClusterClient} {e : Option Error}
    (h : rebuild w reply c = Exec.ret (e, c')) :
    e = none ∧ c'.InitAddress = c.InitAddress ∧ Extends Event.isLifecycle c c' ∧
    ∃ G L, parseSlots reply = Exec.ret G ∧ L.Perm G ∧
      fillSlots c'.conns L (fun _ => none) = Exec.ret c'.slots ∧
      ∀ a, a ∈ c'.conns.keys ↔ a ∈ G.keys := by
  unfold rebuild at h
  split at h
  · rename_i G hG
    simp only at h
    split at h
    · rename_i S hS
      simp only [Exec.ret.injEq, Prod.mk.injEq] at h
      obtain ⟨he, hc⟩ := h
      have M := newMasters_spec w (c.range w G) [] c
      generalize newMasters w (c.range w G) [] c = mm at M hS hc
      obtain ⟨m1, _, _, m4, m5⟩ := M
      have R := reuseConns_keys (mm.2.range w mm.2.conns) mm.1 []
      generalize reuseConns (mm.2.range w mm.2.conns) mm.1 [] = rr at R hS hc
      have K := closeAll_spec rr.2 { mm.2 with slots := S, conns := rr.1 }
      rw [hc] at K
      simp only at K
      obtain ⟨k1, k2, k3, k4⟩ := K
      refine ⟨he.symm, by rw [k3]; exact m4, ?_, G, mm.2.range w G, hG, range_perm w _ G, ?_, ?_⟩
      · exact m5.trans (Extends.trans (Extends.of_trace_eq rfl) k4)
      · rw [k1, k2]; exact hS
      · intro a
        rw [k2, R, m1 a]
        simp only [GoMap.keys, List.map_nil, List.not_mem_nil, false_or]
        exact ((range_perm w c G).map Prod.fst).mem_iff
    · exact absurd h (by simp)
    · exact absurd h (by simp)
  · exact absurd h (by simp)
  · exact absurd h (by simp)

theorem covers_unique {l : List Message} (hd : l.Pairwise Message.disjoint) {v v' : Message}
    (hv : v ∈ l) (hv' : v' ∈ l) {j : Nat} (hc : v.covers j) (hc' : v'.covers j) : v = v' := by
  by_contra hne
  have hsym : Symmetric Message.disjoint := by
    intro a b hab
    unfold Message.disjoint at *
    exact hab.symm
  have := hd.forall hsym hv hv' hne
  unfold Message.disjoint at this
  unfold Message.covers at hc hc'
  omega

/-- The slot vector installed by a rebuild, read against the reply. -/
theorem rebuild_table {w : World} {reply : Message} {c c' : ClusterClient} {e : Option Error}
    (h : rebuild w reply c = Exec.ret (e, c'))
    (hd : reply.values.Pairwise Message.disjoint) (j : Nat) :
    (∀ v ∈ reply.values, v.covers j →
      c'.slots j = c'.conns.get? v.primary ∧ (c'.conns.get? v.primary).isSome = true) ∧
    ((∀ v ∈ reply.values, ¬ v.covers j) → c'.slots j = none) := by
  obtain ⟨_, _, _, G, L, hG, hL, hfill, hkeys⟩ := rebuild_ret h
  obtain ⟨pk, pr, pn⟩ := parseSlots_ret hG
  have toReply : ∀ x ∈ L, inRanges x.2.slots j →
      ∃ v ∈ reply.values, v.primary = x.1 ∧ v.covers j := by
    intro x hx hin
    obtain ⟨r, hr, hrj⟩ := hin
    have hxG : (x.1, x.2) ∈ G := hL.mem_iff.mp hx
    have hget := GoMap.get?_of_mem G x.1 x.2 pn hxG
    have hr' : r ∈ rangesOf G x.1 := by
      unfold rangesOf; rw [hget]; exact hr
    obtain ⟨v, hv, hp, hlh⟩ := (pr x.1 r).mp hr'
    refine ⟨v, hv, hp, ?_⟩
    unfold Message.covers
    rw [← hlh] at hrj
    exact hrj
  have fromReply : ∀ v ∈ reply.values, v.covers j → ∃ x ∈ L, inRanges x.2.slots j := by
    intro v hv hc
    have hr : (v.lo, v.hi) ∈ rangesOf G v.primary := (pr _ _).mpr ⟨v, hv, rfl, rfl⟩
    unfold rangesOf at hr
    split at hr
    · rename_i g hg
      exact ⟨(v.primary, g), hL.mem_iff.mpr (GoMap.mem_of_get? G _ _ hg), ⟨_, hr, hc⟩⟩
    · simp at hr
  constructor
  · intro v hv hc
    rcases fillSlots_ret _ _ _ _ hfill j with ⟨x, hx, hin, hS⟩ | ⟨hno, _⟩
    · obtain ⟨v', hv', hp', hc'⟩ := toReply x hx hin
      have : v = v' := covers_unique hd hv hv' hc hc'
      subst this
      rw [hS, hp']
      refine ⟨rfl, ?_⟩
      rw [GoMap.get?_isSome_iff, hkeys, pk]
      exact ⟨v, hv, hp'⟩
    · obtain ⟨x, hx, hin⟩ := fromReply v hv hc
      exact absurd hin (hno x hx)
  · intro hnone
    rcases fillSlots_ret _ _ _ _ hfill j with ⟨x, hx, hin, _⟩ | ⟨_, hS⟩
    · obtain ⟨v', hv', _, hc'⟩ := toReply x hx hin
      exact absurd hc' (hnone v' hv')
    · exact hS

/-- The addresses kept by a rebuild are the primaries of the reply. -/
theorem rebuild_keys {w : World} {reply : Message} {c c' : ClusterClient} {e : Option Error}
    (h : rebuild w reply c = Exec.ret (e, c')) (a : String) :
    a ∈ c'.conns.keys ↔ ∃ v ∈ reply.values, v.primary = a := by
  obtain ⟨_, _, _, G, L, hG, _, _, hkeys⟩ := rebuild_ret h
  rw [hkeys, (parseSlots_ret hG).1]

/-! ### The query loop, the removal of dead nodes, seeding -/

theorem queryLoop_spec (w : World) : ∀ (L : List (String × Conn)) (v0 : QueryVars)
    (c : ClusterClient),
    (queryLoop w L v0 c).2.slots = c.slots ∧ (queryLoop w L v0 c).2.conns = c.conns ∧
    (queryLoop w L v0 c).2.InitAddress = c.InitAddress ∧
    Extends Event.isRefresh c (queryLoop w L v0 c).2 ∧
    ((queryLoop w L v0 c).1.err = none →
      lastTopology w (queryLoop w L v0 c).2.trace = some ((queryLoop w L v0 c).1.reply, none) ∨
      queryLoop w L v0 c = (v0, c)) := by
  intro L
  induction L with
  | nil => intro v0 c; simp [queryLoop, Extends.refl]
  | cons x rest ih =>
    intro v0 c
    obtain ⟨addr, cc⟩ := x
    simp only [queryLoop]
    split
    · rename_i e he
      obtain ⟨h1, h2, h3, h4, h5⟩ := ih ⟨(w.Slots c.trace cc).1, some e, v0.dead ++ [addr]⟩
        (c.log (Event.Slots cc))
      refine ⟨h1, h2, h3, (Extends.log c _ rfl).trans h4, ?_⟩
      intro hn
      rcases h5 hn with h | h
      · exact Or.inl h
      · rw [h] at hn
        exact absurd hn (by simp)
    · rename_i he
      refine ⟨rfl, rfl, rfl, Extends.log c _ rfl, fun _ => Or.inl ?_⟩
      simp only [ClusterClient.log, lastTopology]
      rw [← he]

theorem removeDead_spec : ∀ (dead : List String) (c : ClusterClient),
    (removeDead dead c).slots = c.slots ∧ (removeDead dead c).InitAddress = c.InitAddress ∧
    Extends Event.isLifecycle c (removeDead dead c) := by
  intro dead
  induction dead with
  | nil => intro c; simp [removeDead, Extends.refl]
  | cons a rest ih =>
    intro c
    simp only [removeDead]
    split
    · rename_i cc hcc
      obtain ⟨h1, h2, h3⟩ := ih ({ c with conns := c.conns.delete a }.log (Event.Close cc))
      refine ⟨h1, h2, Extends.trans ?_ h3⟩
      exact ⟨[Event.Close cc], rfl, by simp [Event.isLifecycle]⟩
    · exact ih c

theorem initLoop_spec (w : World) : ∀ (L : List String) (err : Option Error) (c : ClusterClient),
    (initLoop w L err c).2.slots = c.slots ∧ (initLoop w L err c).2.InitAddress = c.InitAddress ∧
    Extends Event.isRefresh c (initLoop w L err c).2 := by
  intro L
  induction L with
  | nil => intro err c; simp [initLoop, Extends.refl]
  | cons a rest ih =>
    intro err c
    simp only [initLoop]
    have e2 : Extends Event.isRefresh c
        ((c.log (Event.connFn a (w.connFn c.trace a))).log (Event.Dial (w.connFn c.trace a))) :=
      (Extends.log c _ rfl).trans (Extends.log _ _ rfl)
    split
    · refine ⟨?_, ?_, ?_⟩
      · split <;> rfl
      · split <;> rfl
      · split
        · rename_i prev _
          exact e2.trans ⟨[Event.Close prev], rfl, by simp [Event.isRefresh]⟩
        · exact e2.trans (Extends.of_trace_eq rfl)
    · rename_i e he
      obtain ⟨h1, h2, h3⟩ := ih (some e)
        ((c.log (Event.connFn a (w.connFn c.trace a))).log (Event.Dial (w.connFn c.trace a)))
      exact ⟨h1, h2, e2.trans h3⟩

theorem init_spec (w : World) (c : ClusterClient) :
    (init w c).2.slots = c.slots ∧ (init w c).2.InitAddress = c.InitAddress ∧
    Extends Event.isRefresh c (init w c).2 := by
  unfold init
  split
  · exact ⟨rfl, rfl, Extends.refl _ _⟩
  · exact initLoop_spec w _ _ _

/-- A refresh that returns nil ended in a rebuild from the reply to its last
topology query. -/
theorem _refreshRetry_ok (w : World) : ∀ (n : Nat) (reply : Message) (err : Option Error)
    (c c' : ClusterClient), reply.values.length = 0 →
    _refreshRetry w n reply err c = Exec.ret (none, c') →
    ∃ reply' c1, rebuild w reply' c1 = Exec.ret (none, c') ∧
      lastTopology w c1.trace = some (reply', none) ∧ reply'.values.length ≠ 0 ∧
      Extends Event.isRefresh c c1 ∧ c1.InitAddress = c.InitAddress := by
  intro n
  induction n with
  | zero => intro reply err c c' _ h; simp [_refreshRetry] at h
  | succ n ih =>
    intro reply err c c' hr h
    simp only [_refreshRetry] at h
    have Q := queryLoop_spec w (c.range w c.conns) ⟨reply, err, []⟩ c
    generalize queryLoop w (c.range w c.conns) ⟨reply, err, []⟩ c = q at Q h
    obtain ⟨_, _, q3, q4, q5⟩ := Q
    have D : (if q.1.dead.length ≠ 0 then removeDead q.1.dead q.2 else q.2).InitAddress
          = q.2.InitAddress ∧
        Extends Event.isLifecycle q.2 (if q.1.dead.length ≠ 0 then removeDead q.1.dead q.2 else q.2) := by
      split
      · exact (removeDead_spec _ _).2
      · exact ⟨rfl, Extends.refl _ _⟩
    generalize (if q.1.dead.length ≠ 0 then removeDead q.1.dead q.2 else q.2) = c1 at D h
    obtain ⟨d1, d2⟩ := D
    have hc1 : Extends Event.isRefresh c c1 := q4.trans (d2.mono isLifecycle_isRefresh)
    split at h
    · simp at h
    · rename_i herr
      split at h
      · rename_i hlen
        have I := init_spec w c1
        split at h
        · simp at h
        · rename_i x y c2 hinit
          rw [hinit] at I
          obtain ⟨reply', c3, g1, g2, g3, g4, g5⟩ := ih _ none c2 c' hlen h
          exact ⟨reply', c3, g1, g2, g3, (hc1.trans I.2.2).trans g4,
            by rw [g5, I.2.1, d1, q3]⟩
      · rename_i hlen
        refine ⟨q.1.reply, c1, h, ?_, hlen, hc1, by rw [d1, q3]⟩
        rw [lastTopology_extends w d2]
        rcases q5 herr with h5 | h5
        · exact h5
        · rw [h5] at hlen
          exact absurd hr hlen

/-! ## Lemmas: a refresh that returns -/

theorem fillRange_total (p : Option Conn) : ∀ (n : Nat) (i : Int) (S0 : Slots),
    0 ≤ i → i + n ≤ 16384 → ∃ S, fillRange p n i S0 = Exec.ret S := by
  intro n
  induction n with
  | zero => intro i S0 _ _; exact ⟨S0, rfl⟩
  | succ n ih =>
    intro i S0 h0 h1
    simp only [fillRange]
    have : 0 ≤ i ∧ i < 16384 := by push_cast at h1; omega
    rw [if_pos this]
    exact ih _ _ (by omega) (by push_cast at h1 ⊢; omega)

theorem fillGroup_total (p : Option Conn) : ∀ (rs : List (Int × Int)) (S0 : Slots),
    rangesInBounds rs → ∃ S, fillGroup p rs S0 = Exec.ret S := by
  intro rs
  induction rs with
  | nil => intro S0 _; exact ⟨S0, rfl⟩
  | cons r rest ih =>
    intro S0 hb
    simp only [fillGroup]
    have hr := hb r (List.mem_cons_self _ _)
    have hrest : rangesInBounds rest := fun x hx => hb x (List.mem_cons_of_mem _ hx)
    have : ∃ S1, fillRange p (r.2 - r.1 + 1).toNat r.1 S0 = Exec.ret S1 := by
      by_cases hlt : r.2 < r.1
      · have : (r.2 - r.1 + 1).toNat = 0 := by omega
        rw [this]; exact ⟨S0, rfl⟩
      · have h : 0 ≤ r.1 ∧ r.2 < 16384 := by
          rcases hr with h | h
          · exact absurd h hlt
          · exact h
        apply fillRange_total _ _ _ _ h.1
        omega
    obtain ⟨S1, h1⟩ := this
    rw [h1]
    exact ih S1 hrest

theorem fillSlots_total (masters : GoMap Conn) : ∀ (L : List (String × group)) (S0 : Slots),
    (∀ x ∈ L, rangesInBounds x.2.slots) → ∃ S, fillSlots masters L S0 = Exec.ret S := by
  intro L
  induction L with
  | nil => intro S0 _; exact ⟨S0, rfl⟩
  | cons x rest ih =>
    intro S0 hb
    obtain ⟨a, g⟩ := x
    simp only [fillSlots]
    obtain ⟨S1, h1⟩ := fillGroup_total (masters.get? a) g.slots S0 (hb (a, g) (List.mem_cons_self _ _))
    rw [h1]
    exact ih S1 (fun y hy => hb y (List.mem_cons_of_mem _ hy))

/-- A rebuild from a reply that parses and whose ranges lie inside the slot
vector returns nil. -/
theorem rebuild_total (w : World) (reply : Message) (c : ClusterClient) (G : GoMap group)
    (hG : parseSlots reply = Exec.ret G) (hb : ∀ x ∈ G, rangesInBounds x.2.slots) :
    ∃ S, rebuild w reply c = Exec.ret (none,
      closeAll (reuseConns ((newMasters w (c.range w G) [] c).2.range w
          (newMasters w (c.range w G) [] c).2.conns) (newMasters w (c.range w G) [] c).1 []).2
        { (newMasters w (c.range w G) [] c).2 with
          slots := S
          conns := (reuseConns ((newMasters w (c.range w G) [] c).2.range w
            (newMasters w (c.range w G) [] c).2.conns)
            (newMasters w (c.range w G) [] c).1 []).1 }) := by
  have hL : ∀ x ∈ (newMasters w (c.range w G) [] c).2.range w G, rangesInBounds x.2.slots :=
    fun x hx => hb x ((range_perm w _ G).mem_iff.mp hx)
  obtain ⟨S, hS⟩ := fillSlots_total
    (reuseConns ((newMasters w (c.range w G) [] c).2.range w
      (newMasters w (c.range w G) [] c).2.conns) (newMasters w (c.range w G) [] c).1 []).1
    _ (fun _ => none) hL
  refine ⟨S, ?_⟩
  unfold rebuild
  simp only [hG, hS]

/-- A refresh whose first answering node is the first node asked, with a
non-empty reply, is the rebuild from that reply. -/
theorem _refreshRetry_of_answer (w : World) (n : Nat) (reply : Message) (err : Option Error)
    (c c1 : ClusterClient) (v : QueryVars)
    (hq : queryLoop w (c.range w c.conns) ⟨reply, err, []⟩ c = (v, c1))
    (he : v.err = none) (hd : v.dead = []) (hl : v.reply.values.length ≠ 0) :
    _refreshRetry w (n + 1) reply err c = rebuild w v.reply c1 := by
  rw [_refreshRetry]
  simp only [hq, he, hd, hl, List.length_nil, ne_eq, not_true_eq_false, if_false]

/-! ## Theorems: topology refresh -/

/-- C1.  After a refresh that returns nil, the slot table is the mapping
defined by the reply to its last topology query: when the ranges of the reply
do not overlap, a slot of the ring that lies in a range is looked up (`_pick`)
to the connection stored in `conns` under the primary of that range, and a slot
in no range is looked up to nil, whatever the table held before. -/
theorem refresh_installs_reply_mapping (w : World) (n : Nat) (c c' : ClusterClient)
    (h : _refresh w n c = Exec.ret (none, c')) :
    ∃ reply, lastTopology w c'.trace = some (reply, none) ∧
      (reply.values.Pairwise Message.disjoint → ∀ i, i < 16384 →
        (∀ v ∈ reply.values, v.covers i →
          _pick w i c' = Exec.ret (c'.conns.get? v.primary) ∧
          (c'.conns.get? v.primary).isSome = true) ∧
        ((∀ v ∈ reply.values, ¬ v.covers i) → _pick w i c' = Exec.ret none)) := by
  obtain ⟨reply, c1, hreb, hlast, _, _, _⟩ := _refreshRetry_ok w n Message.zero none c c' rfl h
  refine ⟨reply, ?_, ?_⟩
  · rw [lastTopology_extends w (rebuild_ret hreb).2.2.1]; exact hlast
  · intro hd i hi
    have hpick : _pick w i c' = Exec.ret (c'.slots i) := by
      unfold _pick
      have h1 : ¬ i = InitSlot := by unfold InitSlot; omega
      rw [if_neg h1, if_pos hi]
    obtain ⟨t1, t2⟩ := rebuild_table hreb hd i
    refine ⟨?_, ?_⟩
    · intro v hv hc
      rw [hpick, (t1 v hv hc).1]
      exact ⟨rfl, (t1 v hv hc).2⟩
    · intro hno
      rw [hpick, t2 hno]

/-- C1 on the bootstrapping scenario of §8: after seeding through `b:2` the
refresh returns nil; slot 0 is looked up to the connection of `a:1`, slot
12000 to the connection of `c:3`. -/
theorem refresh_installs_reply_mapping_witness :
    ∃ c', _refresh bootWorld 1 (init bootWorld bootClient).2 = Exec.ret (none, c') ∧
      lastTopology bootWorld c'.trace = some (bootReply, none) ∧
      bootReply.values.Pairwise Message.disjoint ∧
      _pick bootWorld 0 c' = Exec.ret (some (connOf "a:1")) ∧
      _pick bootWorld 12000 c' = Exec.ret (some (connOf "c:3")) := by
  have hG : parseSlots bootReply = Exec.ret
      [("a:1", ⟨["a:1"], [(0, 8191)]⟩), ("c:3", ⟨["c:3"], [(8192, 16383)]⟩)] := rfl
  obtain ⟨S, hS⟩ := rebuild_total bootWorld bootReply
    ((init bootWorld bootClient).2.log (Event.Slots (connOf "b:2"))) _ hG (by decide)
  have h1 : _refresh bootWorld 1 (init bootWorld bootClient).2 =
      rebuild bootWorld bootReply
        ((init bootWorld bootClient).2.log (Event.Slots (connOf "b:2"))) :=
    _refreshRetry_of_answer bootWorld 0 Message.zero none _ _ ⟨bootReply, none, []⟩ rfl rfl rfl
      (by decide)
  rw [hS] at h1
  have key : ∀ c', _refresh bootWorld 1 (init bootWorld bootClient).2 = Exec.ret (none, c') →
      lastTopology bootWorld c'.trace = some (bootReply, none) →
      c'.conns.get? "a:1" = some (connOf "a:1") → c'.conns.get? "c:3" = some (connOf "c:3") →
      _pick bootWorld 0 c' = Exec.ret (some (connOf "a:1")) ∧
      _pick bootWorld 12000 c' = Exec.ret (some (connOf "c:3")) := by
    intro c' h hl ha hc
    obtain ⟨reply, hl', hmap⟩ :=
      refresh_installs_reply_mapping bootWorld 1 (init bootWorld bootClient).2 c' h
    have hr : reply = bootReply := by
      rw [hl] at hl'
      simp only [Option.some.injEq, Prod.mk.injEq, and_true] at hl'
      exact hl'.symm
    subst hr
    have m0 := ((hmap (by decide) 0 (by decide)).1 (entry 0 8191 "a" 1)
      (by simp [bootReply, Message.arr, Message.values]) (by decide)).1
    have m1 := ((hmap (by decide) 12000 (by decide)).1 (entry 8192 16383 "c" 3)
      (by simp [bootReply, Message.arr, Message.values]) (by decide)).1
    have p0 : (entry 0 8191 "a" 1).primary = "a:1" := by decide
    have p1 : (entry 8192 16383 "c" 3).primary = "c:3" := by decide
    rw [p0, ha] at m0
    rw [p1, hc] at m1
    exact ⟨m0, m1⟩
  exact ⟨_, h1, rfl, by decide, key _ h1 rfl rfl rfl⟩

/-- C2.  After a refresh that returns nil, the addresses of `conns` are exactly
the primary addresses of the reply to its last topology query. -/
theorem refresh_conns_are_primaries (w : World) (n : Nat) (c c' : ClusterClient)
    (h : _refresh w n c = Exec.ret (none, c')) :
    ∃ reply, lastTopology w c'.trace = some (reply, none) ∧
      ∀ a, a ∈ c'.conns.keys ↔ ∃ v ∈ reply.values, v.primary = a := by
  obtain ⟨reply, c1, hreb, hlast, _, _, _⟩ := _refreshRetry_ok w n Message.zero none c c' rfl h
  refine ⟨reply, ?_, rebuild_keys hreb⟩
  rw [lastTopology_extends w (rebuild_ret hreb).2.2.1]; exact hlast

/-- C2 on the bootstrapping scenario of §8: seeds `a:1`, `b:2`, the dial of
`a:1` fails, `b:2` answers; after the refresh `conns` holds exactly `a:1` and
`c:3`, and `b:2` is dropped. -/
theorem refresh_conns_are_primaries_witness :
    (init bootWorld bootClient).2.conns.keys = ["b:2"] ∧
    ∃ c', _refresh bootWorld 1 (init bootWorld bootClient).2 = Exec.ret (none, c') ∧
      c'.conns.keys = ["a:1", "c:3"] ∧
      ∃ reply, lastTopology bootWorld c'.trace = some (reply, none) ∧
        ∀ a, a ∈ c'.conns.keys ↔ ∃ v ∈ reply.values, v.primary = a := by
  have hG : parseSlots bootReply = Exec.ret
      [("a:1", ⟨["a:1"], [(0, 8191)]⟩), ("c:3", ⟨["c:3"], [(8192, 16383)]⟩)] := rfl
  obtain ⟨S, hS⟩ := rebuild_total bootWorld bootReply
    ((init bootWorld bootClient).2.log (Event.Slots (connOf "b:2"))) _ hG (by decide)
  have h1 : _refresh bootWorld 1 (init bootWorld bootClient).2 =
      rebuild bootWorld bootReply
        ((init bootWorld bootClient).2.log (Event.Slots (connOf "b:2"))) :=
    _refreshRetry_of_answer bootWorld 0 Message.zero none _ _ ⟨bootReply, none, []⟩ rfl rfl rfl
      (by decide)
  rw [hS] at h1
  exact ⟨by decide, _, h1, rfl,
    refresh_conns_are_primaries bootWorld 1 (init bootWorld bootClient).2 _ h1⟩

/-! ### More fuel does not change a finished run -/

theorem _refreshRetry_succ (w : World) : ∀ (n : Nat) (reply : Message) (err : Option Error)
    (c : ClusterClient), _refreshRetry w n reply err c ≠ Exec.fuel →
    _refreshRetry w (n + 1) reply err c = _refreshRetry w n reply err c := by
  intro n
  induction n with
  | zero => intro reply err c h; simp [_refreshRetry] at h
  | succ n ih =>
    intro reply err c h
    rw [_refreshRetry] at h
    rw [_refreshRetry]
    conv_rhs => rw [_refreshRetry]
    generalize queryLoop w (c.range w c.conns) ⟨reply, err, []⟩ c = q at h ⊢
    generalize (if q.1.dead.length ≠ 0 then removeDead q.1.dead q.2 else q.2) = c1 at h ⊢
    cases hq : q.1.err with
    | some e => simp only [hq]
    | none =>
      simp only [hq] at h ⊢
      by_cases hlen : q.1.reply.values.length = 0
      · simp only [hlen, if_true] at h ⊢
        rcases hi : init w c1 with ⟨⟨x, e⟩, c2⟩
        cases e with
        | some e => simp only [hi]
        | none =>
          simp only [hi] at h ⊢
          exact ih _ _ _ h
      · simp only [hlen, if_false]

theorem _refreshRetry_mono (w : World) {n : Nat} {reply : Message} {err : Option Error}
    {c : ClusterClient} (h : _refreshRetry w n reply err c ≠ Exec.fuel) :
    ∀ m, n ≤ m → _refreshRetry w m reply err c = _refreshRetry w n reply err c := by
  intro m hm
  induction m with
  | zero =>
    have : n = 0 := by omega
    subst this; rfl
  | succ m ih =>
    rcases Nat.eq_or_lt_of_le hm with e | e
    · subst e; rfl
    · have h1 := ih (by omega)
      rw [← h1] at h
      rw [_refreshRetry_succ w m _ _ _ h, h1]

theorem pick_mono (w : World) {n : Nat} {slot : Nat} {c : ClusterClient}
    (h : pick w n slot c ≠ Exec.fuel) :
    ∀ m, n ≤ m → pick w m slot c = pick w n slot c := by
  intro m hm
  unfold pick at h ⊢
  split
  · rfl
  · rename_i hp
    simp only [hp] at h
    have hr : refresh w n c ≠ Exec.fuel := by
      intro e
      rw [e] at h
      exact h rfl
    have : refresh w m c = refresh w n c := _refreshRetry_mono w hr m hm
    rw [this]
  · rfl
  · rfl

theorem DoFrom_succ (w : World) (cmd : Command) : ∀ (n : Nat) (l : Label) (c : ClusterClient),
    DoFrom w cmd n l c ≠ Exec.fuel → DoFrom w cmd (n + 1) l c = DoFrom w cmd n l c := by
  intro n
  induction n with
  | zero => intro l c h; simp [DoFrom] at h
  | succ n ih =>
    intro l c h
    cases l with
    | retry =>
      rw [DoFrom] at h
      rw [DoFrom]
      conv_rhs => rw [DoFrom]
      have hp : pick w n cmd.Slot c ≠ Exec.fuel := by
        intro e; rw [e] at h; exact h rfl
      rw [pick_mono w hp (n + 1) (by omega)]
      rcases hpk : pick w n cmd.Slot c with ⟨x, c1⟩ | m | _
      · cases x with
        | error e => rfl
        | ok cc =>
          simp only [hpk] at h ⊢
          exact ih _ _ h
      · rfl
      · exact absurd hpk hp
    | process resp =>
      rw [DoFrom] at h
      rw [DoFrom]
      conv_rhs => rw [DoFrom]
      cases hre : resp.RedisError with
      | none => rfl
      | some err =>
        simp only [hre] at h ⊢
        cases hm : err.IsMoved with
        | some addr =>
          simp only [hm] at h ⊢
          exact ih _ _ h
        | none =>
          simp only [hm] at h ⊢
          cases ha : err.IsAsk with
          | some addr =>
            simp only [ha] at h ⊢
            cases hd : (w.DoMulti (pickOrNew w addr c).2.trace (pickOrNew w addr c).1
                [AskingCmd, cmd])[1]? with
            | none => rfl
            | some r1 =>
              simp only [hd] at h ⊢
              exact ih _ _ h
          | none =>
            simp only [ha] at h ⊢
            cases ht : err.IsTryAgain with
            | true =>
              simp only [ht, if_true] at h ⊢
              exact ih _ _ h
            | false => rfl

theorem DoFrom_mono (w : World) (cmd : Command) {n : Nat} {l : Label} {c : ClusterClient}
    (h : DoFrom w cmd n l c ≠ Exec.fuel) :
    ∀ m, n ≤ m → DoFrom w cmd m l c = DoFrom w cmd n l c := by
  intro m hm
  induction m with
  | zero =>
    have : n = 0 := by omega
    subst this; rfl
  | succ m ih =>
    rcases Nat.eq_or_lt_of_le hm with e | e
    · subst e; rfl
    · have h1 := ih (by omega)
      rw [← h1] at h
      rw [DoFrom_succ w cmd m _ _ h, h1]

theorem DoCacheFrom_succ (w : World) (cmd : Command) (ttl : Nat) :
    ∀ (n : Nat) (l : Label) (c : ClusterClient),
    DoCacheFrom w cmd ttl n l c ≠ Exec.fuel →
    DoCacheFrom w cmd ttl (n + 1) l c = DoCacheFrom w cmd ttl n l c := by
  intro n
  induction n with
  | zero => intro l c h; simp [DoCacheFrom] at h
  | succ n ih =>
    intro l c h
    cases l with
    | retry =>
      rw [DoCacheFrom] at h
      rw [DoCacheFrom]
      conv_rhs => rw [DoCacheFrom]
      have hp : pick w n cmd.Slot c ≠ Exec.fuel := by
        intro e; rw [e] at h; exact h rfl
      rw [pick_mono w hp (n + 1) (by omega)]
      rcases hpk : pick w n cmd.Slot c with ⟨x, c1⟩ | m | _
      · cases x with
        | error e => rfl
        | ok cc =>
          simp only [hpk] at h ⊢
          exact ih _ _ h
      · rfl
      · exact absurd hpk hp
    | process resp =>
      rw [DoCacheFrom] at h
      rw [DoCacheFrom]
      conv_rhs => rw [DoCacheFrom]
      cases hre : resp.RedisError with
      | none => rfl
      | some err =>
        simp only [hre] at h ⊢
        cases hm : err.IsMoved with
        | some addr =>
          simp only [hm] at h ⊢
          exact ih _ _ h
        | none =>
          simp only [hm] at h ⊢
          cases ha : err.IsAsk with
          | some addr =>
            simp only [ha] at h ⊢
            cases hd : (w.DoMulti (pickOrNew w addr c).2.trace (pickOrNew w addr c).1
                [AskingCmd, cmd])[1]? with
            | none => rfl
            | some r1 =>
              simp only [hd] at h ⊢
              exact ih _ _ h
          | none =>
            simp only [ha] at h ⊢
            cases ht : err.IsTryAgain with
            | true =>
              simp only [ht, if_true] at h ⊢
              exact ih _ _ h
            | false => rfl

theorem DoCacheFrom_mono (w : World) (cmd : Command) (ttl : Nat) {n : Nat} {l : Label}
    {c : ClusterClient} (h : DoCacheFrom w cmd ttl n l c ≠ Exec.fuel) :
    ∀ m, n ≤ m → DoCacheFrom w cmd ttl m l c = DoCacheFrom w cmd ttl n l c := by
  intro m hm
  induction m with
  | zero =>
    have : n = 0 := by omega
    subst this; rfl
  | succ m ih =>
    rcases Nat.eq_or_lt_of_le hm with e | e
    · subst e; rfl
    · have h1 := ih (by omega)
      rw [← h1] at h
      rw [DoCacheFrom_succ w cmd ttl m _ _ h, h1]

/-! ## Theorems: picking a connection -/

/-- C8.  For a concrete slot, `pick` returns the populated entry and leaves the
client (and so its history) untouched; on an empty entry it runs one refresh
and returns the error of the refresh, or the entry the refresh populated, or
`ErrNoSlot` when the refresh returned nil and the entry is still empty; and
every result of `pick` on an empty entry is one of these three. -/
theorem pick_concrete_slot (w : World) (n s : Nat) (c : ClusterClient) (hs : s < 16384) :
    (∀ p, c.slots s = some p → pick w n s c = Exec.ret (Except.ok p, c)) ∧
    (c.slots s = none →
      (∀ e c1, refresh w n c = Exec.ret (some e, c1) →
        pick w n s c = Exec.ret (Except.error e, c1)) ∧
      (∀ c1 p, refresh w n c = Exec.ret (none, c1) → c1.slots s = some p →
        pick w n s c = Exec.ret (Except.ok p, c1)) ∧
      (∀ c1, refresh w n c = Exec.ret (none, c1) → c1.slots s = none →
        pick w n s c = Exec.ret (Except.error Error.ErrNoSlot, c1)) ∧
      (∀ x c1, pick w n s c = Exec.ret (x, c1) →
        (∃ e, refresh w n c = Exec.ret (some e, c1) ∧ x = Except.error e) ∨
        (∃ p, refresh w n c = Exec.ret (none, c1) ∧ c1.slots s = some p ∧ x = Except.ok p) ∨
        (refresh w n c = Exec.ret (none, c1) ∧ c1.slots s = none ∧
          x = Except.error Error.ErrNoSlot))) := by
  have h1 : ¬ s = InitSlot := by unfold InitSlot; omega
  have hpick : ∀ c0 : ClusterClient, _pick w s c0 = Exec.ret (c0.slots s) := by
    intro c0
    unfold _pick
    rw [if_neg h1, if_pos hs]
  refine ⟨?_, ?_⟩
  · intro p hp
    unfold pick
    rw [hpick, hp]
  · intro hn
    refine ⟨?_, ?_, ?_, ?_⟩
    · intro e c1 hr
      unfold pick
      rw [hpick, hn]
      simp only [hr]
    · intro c1 p hr hp
      unfold pick
      rw [hpick, hn]
      simp only [hr, hpick, hp]
    · intro c1 hr hp
      unfold pick
      rw [hpick, hn]
      simp only [hr, hpick, hp]
    · intro x c1 hx
      unfold pick at hx
      rw [hpick, hn] at hx
      simp only at hx
      rcases hr : refresh w n c with ⟨e, c2⟩ | m | _
      · rw [hr] at hx
        cases e with
        | some e =>
          simp only [Exec.ret.injEq, Prod.mk.injEq] at hx
          obtain ⟨hx1, hx2⟩ := hx
          subst hx2
          exact Or.inl ⟨e, rfl, hx1.symm⟩
        | none =>
          simp only [hpick] at hx
          cases hp : c2.slots s with
          | some p =>
            simp only [hp, Exec.ret.injEq, Prod.mk.injEq] at hx
            obtain ⟨hx1, hx2⟩ := hx
            subst hx2
            exact Or.inr (Or.inl ⟨p, rfl, hp, hx1.symm⟩)
          | none =>
            simp only [hp, Exec.ret.injEq, Prod.mk.injEq] at hx
            obtain ⟨hx1, hx2⟩ := hx
            subst hx2
            exact Or.inr (Or.inr ⟨rfl, hp, hx1.symm⟩)
      · rw [hr] at hx
        exact absurd hx (by simp)
      · rw [hr] at hx
        exact absurd hx (by simp)

/-- C8 on slot 5 and slot 8 of the small topology, on a cluster that
is down, and on a populated ring: the four outcomes of `pick` all occur. -/
theorem pick_concrete_slot_witness :
    (∃ c1, pick miniWorld 1 5 (init miniWorld bootClient).2 =
      Exec.ret (Except.ok (connOf "c:3"), c1)) ∧
    (∃ c1, pick miniWorld 1 8 (init miniWorld bootClient).2 =
      Exec.ret (Except.error Error.ErrNoSlot, c1)) ∧
    (∃ c1, pick downWorld 1 5 (init miniWorld bootClient).2 =
      Exec.ret (Except.error (Error.other "connection refused"), c1)) ∧
    5 < 16384 ∧
    (∀ p, routedClient.slots 5 = some p →
      pick miniWorld 1 5 routedClient = Exec.ret (Except.ok p, routedClient)) :=
  ⟨⟨_, rfl⟩, ⟨_, rfl⟩, ⟨_, rfl⟩, by decide,
    (pick_concrete_slot miniWorld 1 5 routedClient (by decide)).1⟩

/-! ## Theorems: redirections -/

/-! ### Steps of the dispatcher -/

theorem DoFrom_final (w : World) (cmd : Command) (n : Nat) (r : Result) (c : ClusterClient)
    (hr : r.isRouting = false) :
    DoFrom w cmd (n + 1) (Label.process r) c = Exec.ret (r, c.log (Event.Put cmd.Commands)) := by
  rw [DoFrom]
  cases r with
  | val m => rfl
  | err e => rfl
  | redisErr e =>
    cases e with
    | other msg => rfl
    | noScript => rfl
    | nil => rfl
    | moved a => simp [Result.isRouting, Result.RedisError, RedisError.isRouting, RedisError.IsMoved] at hr
    | ask a => simp [Result.isRouting, Result.RedisError, RedisError.isRouting, RedisError.IsAsk, RedisError.IsMoved] at hr
    | tryAgain => simp [Result.isRouting, Result.RedisError, RedisError.isRouting, RedisError.IsTryAgain, RedisError.IsAsk, RedisError.IsMoved] at hr

theorem DoCacheFrom_final (w : World) (cmd : Command) (ttl n : Nat) (r : Result)
    (c : ClusterClient) (hr : r.isRouting = false) :
    DoCacheFrom w cmd ttl (n + 1) (Label.process r) c =
      Exec.ret (r, c.log (Event.Put cmd.Commands)) := by
  rw [DoCacheFrom]
  cases r with
  | val m => rfl
  | err e => rfl
  | redisErr e =>
    cases e with
    | other msg => rfl
    | noScript => rfl
    | nil => rfl
    | moved a => simp [Result.isRouting, Result.RedisError, RedisError.isRouting, RedisError.IsMoved] at hr
    | ask a => simp [Result.isRouting, Result.RedisError, RedisError.isRouting, RedisError.IsAsk, RedisError.IsMoved] at hr
    | tryAgain => simp [Result.isRouting, Result.RedisError, RedisError.isRouting, RedisError.IsTryAgain, RedisError.IsAsk, RedisError.IsMoved] at hr

theorem pickOrNew_spec (w : World) (addr : String) (c : ClusterClient) :
    (pickOrNew w addr c).2.slots = c.slots ∧
    (pickOrNew w addr c).2.InitAddress = c.InitAddress ∧
    (pickOrNew w addr c).2.conns.get? addr = some (pickOrNew w addr c).1 ∧
    ((∀ q, c.conns.get? addr = some q →
        (pickOrNew w addr c).1 = q ∧ (pickOrNew w addr c).2 = c) ∧
     (c.conns.get? addr = none →
        (pickOrNew w addr c).1 = w.connFn c.trace addr ∧
        (pickOrNew w addr c).2.trace =
          Event.connFn addr (w.connFn c.trace addr) :: c.trace)) := by
  unfold pickOrNew
  cases h : c.conns.get? addr with
  | some q => simp [h]
  | none => simp [h, ClusterClient.log, GoMap.get?_set]

theorem _pick_concrete (w : World) {s : Nat} (hs : s < 16384) (c : ClusterClient) :
    _pick w s c = Exec.ret (c.slots s) := by
  have h1 : ¬ s = InitSlot := by unfold InitSlot; omega
  unfold _pick
  rw [if_neg h1, if_pos hs]

theorem pick_ok_slot {w : World} {n s : Nat} {c c1 : ClusterClient} {cc : Conn}
    (h : pick w n s c = Exec.ret (Except.ok cc, c1)) (hs : s < 16384) :
    c1.slots s = some cc := by
  unfold pick at h
  rw [_pick_concrete w hs] at h
  cases hc : c.slots s with
  | some p =>
    simp only [hc, Exec.ret.injEq, Prod.mk.injEq, Except.ok.injEq] at h
    rw [← h.2, hc, h.1]
  | none =>
    simp only [hc] at h
    rcases hr : refresh w n c with ⟨e, c2⟩ | m | _
    · rw [hr] at h
      cases e with
      | some e => simp at h
      | none =>
        simp only [_pick_concrete w hs] at h
        cases hp : c2.slots s with
        | some p =>
          simp only [hp, Exec.ret.injEq, Prod.mk.injEq, Except.ok.injEq] at h
          rw [← h.2, hp, h.1]
        | none => simp [hp] at h
    · rw [hr] at h
      exact absurd h (by simp)
    · rw [hr] at h
      exact absurd h (by simp)

/-- C3.  When the first reply of the connection picked for the slot is
`MOVED addr`, `Do` spawns a refresh and submits the same command to
`pickOrNew(addr)` (the connection of `conns`, or a new one from the factory
that is stored under `addr`), then goes on with the reply to that submission;
it returns that second reply when it is not a redirection. -/
theorem Do_moved_resubmits (w : World) (n : Nat) (cmd : Command) (c c1 c2 : ClusterClient)
    (cc p : Conn) (addr : String) (r2 : Result)
    (hpick : pick w n cmd.Slot c = Exec.ret (Except.ok cc, c1))
    (h1 : w.Do c1.trace cc cmd = Result.redisErr (RedisError.moved addr))
    (hp : pickOrNew w addr ((c1.log (Event.Do cc cmd)).log Event.goRefresh) = (p, c2))
    (h2 : w.Do c2.trace p cmd = r2) :
    (∀ m, n ≤ m → Do w (m + 2) cmd c =
      DoFrom w cmd m (Label.process r2) (c2.log (Event.Do p cmd))) ∧
    (r2.isRouting = false → ∀ m, n + 3 ≤ m → Do w m cmd c =
      Exec.ret (r2, (c2.log (Event.Do p cmd)).log (Event.Put cmd.Commands))) ∧
    c2.conns.get? addr = some p ∧
    (∀ q, c1.conns.get? addr = some q →
      p = q ∧ c2.trace = Event.goRefresh :: Event.Do cc cmd :: c1.trace) ∧
    (c1.conns.get? addr = none →
      p = w.connFn (Event.goRefresh :: Event.Do cc cmd :: c1.trace) addr ∧
      c2.trace = Event.connFn addr p :: Event.goRefresh :: Event.Do cc cmd :: c1.trace) := by
  have S := pickOrNew_spec w addr ((c1.log (Event.Do cc cmd)).log Event.goRefresh)
  rw [hp] at S
  simp only at S
  obtain ⟨_, _, s3, s4, s5⟩ := S
  have step : ∀ m, n ≤ m → Do w (m + 2) cmd c =
      DoFrom w cmd m (Label.process r2) (c2.log (Event.Do p cmd)) := by
    intro m hm
    have hp2 : pick w (m + 1) cmd.Slot c = Exec.ret (Except.ok cc, c1) := by
      rw [pick_mono w (by rw [hpick]; simp) (m + 1) (by omega), hpick]
    unfold Do
    rw [DoFrom]
    simp only [hp2, h1]
    rw [DoFrom]
    simp only [Result.RedisError, RedisError.IsMoved, hp, h2]
  refine ⟨step, ?_, s3, ?_, ?_⟩
  · intro hr
    have key : Do w (n + 3) cmd c =
        Exec.ret (r2, (c2.log (Event.Do p cmd)).log (Event.Put cmd.Commands)) := by
      rw [step (n + 1) (by omega)]
      exact DoFrom_final w cmd n r2 _ hr
    intro m hm
    unfold Do at key ⊢
    rw [DoFrom_mono w cmd (by rw [key]; simp) m hm, key]
  · intro q hq
    obtain ⟨e1, e2⟩ := s4 q hq
    exact ⟨e1, by rw [e2]; rfl⟩
  · intro hq
    obtain ⟨e1, e2⟩ := s5 hq
    exact ⟨e1, by rw [e2, ← e1]; rfl⟩

/-- C3 on the MOVED scenario of §8: slot 5000 is owned by `a:1`, which answers
`MOVED d:4`; the connection to `d:4` is created and its reply returned. -/
theorem Do_moved_resubmits_witness :
    pick movedWorld 0 getCmd.Slot routedClient =
      Exec.ret (Except.ok (connOf "a:1"), routedClient) ∧
    movedWorld.Do routedClient.trace (connOf "a:1") getCmd =
      Result.redisErr (RedisError.moved "d:4") ∧
    okResult.isRouting = false ∧
    routedClient.conns.get? "d:4" = none ∧
    (∃ c', Do movedWorld 3 getCmd routedClient = Exec.ret (okResult, c') ∧
      c'.trace = [Event.Put getCmd.Commands, Event.Do (connOf "d:4") getCmd,
        Event.connFn "d:4" (connOf "d:4"), Event.goRefresh,
        Event.Do (connOf "a:1") getCmd] ∧
      c'.conns.get? "d:4" = some (connOf "d:4")) ∧
    (∀ m, 0 + 3 ≤ m → Do movedWorld m getCmd routedClient =
      Exec.ret (okResult,
        ((pickOrNew movedWorld "d:4"
          ((routedClient.log (Event.Do (connOf "a:1") getCmd)).log Event.goRefresh)).2.log
            (Event.Do (connOf "d:4") getCmd)).log (Event.Put getCmd.Commands))) :=
  ⟨rfl, rfl, rfl, rfl, ⟨_, rfl, rfl, rfl⟩,
    (Do_moved_resubmits movedWorld 0 getCmd routedClient routedClient _ (connOf "a:1")
      (connOf "d:4") "d:4" okResult rfl rfl rfl rfl).2.1 rfl⟩

/-- C4.  When the connection picked for the slot answers `ASK addr`, `Do`
submits the pipeline `[ASKING, cmd]` to `pickOrNew(addr)`, goes on with the
second result of the pipeline, and returns it when it is not a redirection;
handling the reply spawns and runs no refresh (after the pick the history
gains only the two submissions, the factory call if the connection is new,
and the recycling), and the slot vector is left as it was, so a concrete slot
is still looked up to the connection that was picked. -/
theorem Do_ask_pipelines (w : World) (n : Nat) (cmd : Command) (c c1 c2 : ClusterClient)
    (cc p : Conn) (addr : String) (r2 : Result)
    (hpick : pick w n cmd.Slot c = Exec.ret (Except.ok cc, c1))
    (h1 : w.Do c1.trace cc cmd = Result.redisErr (RedisError.ask addr))
    (hp : pickOrNew w addr (c1.log (Event.Do cc cmd)) = (p, c2))
    (h2 : (w.DoMulti c2.trace p [AskingCmd, cmd])[1]? = some r2) :
    (∀ m, n ≤ m → Do w (m + 2) cmd c =
      DoFrom w cmd m (Label.process r2) (c2.log (Event.DoMulti p [AskingCmd, cmd]))) ∧
    (r2.isRouting = false → ∀ m, n + 3 ≤ m → Do w m cmd c = Exec.ret (r2,
      (c2.log (Event.DoMulti p [AskingCmd, cmd])).log (Event.Put cmd.Commands))) ∧
    (c2.trace = Event.Do cc cmd :: c1.trace ∨
      c2.trace = Event.connFn addr p :: Event.Do cc cmd :: c1.trace) ∧
    ((c2.log (Event.DoMulti p [AskingCmd, cmd])).log (Event.Put cmd.Commands)).slots =
      c1.slots ∧
    (cmd.Slot < 16384 → _pick w cmd.Slot
      ((c2.log (Event.DoMulti p [AskingCmd, cmd])).log (Event.Put cmd.Commands)) =
        Exec.ret (some cc)) := by
  have S := pickOrNew_spec w addr (c1.log (Event.Do cc cmd))
  rw [hp] at S
  simp only at S
  obtain ⟨s1, _, s3, s4, s5⟩ := S
  have step : ∀ m, n ≤ m → Do w (m + 2) cmd c =
      DoFrom w cmd m (Label.process r2) (c2.log (Event.DoMulti p [AskingCmd, cmd])) := by
    intro m hm
    have hp2 : pick w (m + 1) cmd.Slot c = Exec.ret (Except.ok cc, c1) := by
      rw [pick_mono w (by rw [hpick]; simp) (m + 1) (by omega), hpick]
    unfold Do
    rw [DoFrom]
    simp only [hp2, h1]
    rw [DoFrom]
    simp only [Result.RedisError, RedisError.IsMoved, RedisError.IsAsk, hp, h2]
  refine ⟨step, ?_, ?_, s1, ?_⟩
  · intro hr
    have key : Do w (n + 3) cmd c = Exec.ret (r2,
        (c2.log (Event.DoMulti p [AskingCmd, cmd])).log (Event.Put cmd.Commands)) := by
      rw [step (n + 1) (by omega)]
      exact DoFrom_final w cmd n r2 _ hr
    intro m hm
    unfold Do at key ⊢
    rw [DoFrom_mono w cmd (by rw [key]; simp) m hm, key]
  · cases hq : c1.conns.get? addr with
    | some q =>
      left
      have := (s4 q hq).2
      rw [this]; rfl
    | none =>
      right
      obtain ⟨e1, e2⟩ := s5 hq
      rw [← e1] at e2
      simp only [ClusterClient.log, e2]
  · intro hs
    have hne : ¬ cmd.Slot = InitSlot := by unfold InitSlot; omega
    unfold _pick
    rw [if_neg hne, if_pos hs]
    show Exec.ret (c2.slots cmd.Slot) = _
    rw [s1]
    have hc1 : c1.slots cmd.Slot = some cc := pick_ok_slot hpick hs
    exact congrArg Exec.ret hc1

/-- C4 on the ASK scenario of §8 (slot 5000 owned by `a:1`, which answers
`ASK e:5`): the history of the call is the submission to `a:1`, the creation
of the connection to `e:5`, the pipeline, and the recycling. -/
theorem Do_ask_pipelines_witness :
    pick askWorld 0 getCmd.Slot routedClient =
      Exec.ret (Except.ok (connOf "a:1"), routedClient) ∧
    askWorld.Do routedClient.trace (connOf "a:1") getCmd =
      Result.redisErr (RedisError.ask "e:5") ∧
    okResult.isRouting = false ∧
    (∃ c', Do askWorld 3 getCmd routedClient = Exec.ret (okResult, c') ∧
      c'.trace = [Event.Put getCmd.Commands,
        Event.DoMulti (connOf "e:5") [AskingCmd, getCmd],
        Event.connFn "e:5" (connOf "e:5"), Event.Do (connOf "a:1") getCmd] ∧
      _pick askWorld getCmd.Slot c' = Exec.ret (some (connOf "a:1"))) ∧
    (∀ m, 0 + 3 ≤ m → Do askWorld m getCmd routedClient = Exec.ret (okResult,
      ((pickOrNew askWorld "e:5" (routedClient.log (Event.Do (connOf "a:1") getCmd))).2.log
        (Event.DoMulti (connOf "e:5") [AskingCmd, getCmd])).log (Event.Put getCmd.Commands))) :=
  ⟨rfl, rfl, rfl, ⟨_, rfl, rfl, rfl⟩,
    (Do_ask_pipelines askWorld 0 getCmd routedClient routedClient _ (connOf "a:1")
      (connOf "e:5") "e:5" okResult rfl rfl rfl rfl).2.1 rfl⟩

/-- The first reply of a cached read.  When the connection picked for a
cached read answers `ASK addr`,
`DoCache` retries at `pickOrNew(addr)` with the pipeline `[ASKING, cmd]`
through `DoMulti` and goes on with the second result of the pipeline; the
retry does not use the cached path `DoCache` of a connection, and the
`ASKING` preamble is sent through `DoMulti` only. -/
theorem DoCache_first_ask_pipelines (w : World) (n : Nat) (cmd : Command) (ttl : Nat)
    (c c1 c2 : ClusterClient) (cc p : Conn) (addr : String) (r2 : Result)
    (hpick : pick w n cmd.Slot c = Exec.ret (Except.ok cc, c1))
    (h1 : w.DoCache c1.trace cc cmd ttl = Result.redisErr (RedisError.ask addr))
    (hp : pickOrNew w addr (c1.log (Event.DoCache cc cmd ttl)) = (p, c2))
    (h2 : (w.DoMulti c2.trace p [AskingCmd, cmd])[1]? = some r2) :
    (∀ m, n ≤ m → DoCache w (m + 2) cmd ttl c =
      DoCacheFrom w cmd ttl m (Label.process r2)
        (c2.log (Event.DoMulti p [AskingCmd, cmd]))) ∧
    (r2.isRouting = false → ∀ m, n + 3 ≤ m → DoCache w m cmd ttl c = Exec.ret (r2,
      (c2.log (Event.DoMulti p [AskingCmd, cmd])).log (Event.Put cmd.Commands))) ∧
    (c2.trace = Event.DoCache cc cmd ttl :: c1.trace ∨
      c2.trace = Event.connFn addr p :: Event.DoCache cc cmd ttl :: c1.trace) := by
  have S := pickOrNew_spec w addr (c1.log (Event.DoCache cc cmd ttl))
  rw [hp] at S
  simp only at S
  obtain ⟨s1, _, s3, s4, s5⟩ := S
  have step : ∀ m, n ≤ m → DoCache w (m + 2) cmd ttl c =
      DoCacheFrom w cmd ttl m (Label.process r2)
        (c2.log (Event.DoMulti p [AskingCmd, cmd])) := by
    intro m hm
    have hp2 : pick w (m + 1) cmd.Slot c = Exec.ret (Except.ok cc, c1) := by
      rw [pick_mono w (by rw [hpick]; simp) (m + 1) (by omega), hpick]
    unfold DoCache
    rw [DoCacheFrom]
    simp only [hp2, h1]
    rw [DoCacheFrom]
    simp only [Result.RedisError, RedisError.IsMoved, RedisError.IsAsk, hp, h2]
  refine ⟨step, ?_, ?_⟩
  · intro hr
    have key : DoCache w (n + 3) cmd ttl c = Exec.ret (r2,
        (c2.log (Event.DoMulti p [AskingCmd, cmd])).log (Event.Put cmd.Commands)) := by
      rw [step (n + 1) (by omega)]
      exact DoCacheFrom_final w cmd ttl n r2 _ hr
    intro m hm
    unfold DoCache at key ⊢
    rw [DoCacheFrom_mono w cmd ttl (by rw [key]; simp) m hm, key]
  · cases hq : c1.conns.get? addr with
    | some q =>
      left
      have := (s4 q hq).2
      rw [this]; rfl
    | none =>
      right
      obtain ⟨e1, e2⟩ := s5 hq
      rw [← e1] at e2
      simp only [ClusterClient.log, e2]

/-- The ASK scenario for a cached read with a time-to-live of 60: the
only use of the cached path is the first submission, to `a:1`. -/
theorem DoCache_first_ask_pipelines_scenario :
    pick askWorld 0 getCmd.Slot routedClient =
      Exec.ret (Except.ok (connOf "a:1"), routedClient) ∧
    askWorld.DoCache routedClient.trace (connOf "a:1") getCmd 60 =
      Result.redisErr (RedisError.ask "e:5") ∧
    okResult.isRouting = false ∧
    (∃ c', DoCache askWorld 3 getCmd 60 routedClient = Exec.ret (okResult, c') ∧
      c'.trace = [Event.Put getCmd.Commands,
        Event.DoMulti (connOf "e:5") [AskingCmd, getCmd],
        Event.connFn "e:5" (connOf "e:5"), Event.DoCache (connOf "a:1") getCmd 60]) ∧
    (∀ m, 0 + 3 ≤ m → DoCache askWorld m getCmd 60 routedClient = Exec.ret (okResult,
      ((pickOrNew askWorld "e:5"
        (routedClient.log (Event.DoCache (connOf "a:1") getCmd 60))).2.log
          (Event.DoMulti (connOf "e:5") [AskingCmd, getCmd])).log
            (Event.Put getCmd.Commands))) :=
  ⟨rfl, rfl, rfl, ⟨_, rfl, rfl⟩,
    (DoCache_first_ask_pipelines askWorld 0 getCmd 60 routedClient routedClient _
      (connOf "a:1") (connOf "e:5") "e:5" okResult rfl rfl rfl rfl).2.1 rfl⟩

/-! ## Theorems: TRYAGAIN -/

theorem tryAgainRounds_counts (cc : Conn) (cmd : Command) : ∀ (k : Nat) (tr : List Event),
    (tryAgainRounds cc cmd k tr).count Event.Gosched = tr.count Event.Gosched + k ∧
    (tryAgainRounds cc cmd k tr).count (Event.Do cc cmd) = tr.count (Event.Do cc cmd) + k ∧
    (tryAgainRounds cc cmd k tr).countP Event.isSubmit = tr.countP Event.isSubmit + k := by
  intro k
  induction k with
  | zero => intro tr; simp [tryAgainRounds]
  | succ k ih =>
    intro tr
    obtain ⟨h1, h2, h3⟩ := ih (Event.Gosched :: Event.Do cc cmd :: tr)
    simp only [tryAgainRounds]
    rw [h1, h2, h3]
    refine ⟨?_, ?_, ?_⟩
    · simp [List.count_cons]; omega
    · simp [List.count_cons]; omega
    · simp [List.countP_cons, Event.isSubmit]; omega

theorem Do_tryAgain_rounds (w : World) (cmd : Command) (cc : Conn) (r : Result)
    (hs : cmd.Slot < 16384) (hnr : r.isRouting = false) : ∀ (n : Nat) (c : ClusterClient),
    c.slots cmd.Slot = some cc →
    (∀ k, k < n → w.Do (tryAgainRounds cc cmd k c.trace) cc cmd =
      Result.redisErr RedisError.tryAgain) →
    w.Do (tryAgainRounds cc cmd n c.trace) cc cmd = r →
    Do w (2 * n + 2) cmd c = Exec.ret (r,
      { c with trace := Event.Put cmd.Commands :: Event.Do cc cmd ::
          tryAgainRounds cc cmd n c.trace }) := by
  have hne : ¬ cmd.Slot = InitSlot := by unfold InitSlot; omega
  have hpick : ∀ (m : Nat) (c : ClusterClient), c.slots cmd.Slot = some cc →
      pick w m cmd.Slot c = Exec.ret (Except.ok cc, c) := by
    intro m c hc
    unfold pick _pick
    rw [if_neg hne, if_pos hs, hc]
  intro n
  induction n with
  | zero =>
    intro c hc _ hr
    unfold Do
    rw [DoFrom]
    simp only [hpick _ c hc]
    simp only [tryAgainRounds] at hr
    rw [hr]
    exact DoFrom_final w cmd 0 r _ hnr
  | succ n ih =>
    intro c hc ht hr
    have h0 := ht 0 (by omega)
    simp only [tryAgainRounds] at h0
    unfold Do
    have e : 2 * (n + 1) + 2 = (2 * n + 2) + 1 + 1 := by omega
    rw [e, DoFrom]
    simp only [hpick _ c hc, h0]
    rw [DoFrom]
    simp only [Result.RedisError, RedisError.IsMoved, RedisError.IsAsk, RedisError.IsTryAgain,
      if_true]
    have := ih ((c.log (Event.Do cc cmd)).log Event.Gosched) hc
      (fun k hk => ht (k + 1) (by omega)) hr
    unfold Do at this
    rw [this]
    rfl

/-- C5.  When the connection that owns the slot of the command answers
TRYAGAIN `n` times and then a result `r` that is not a redirection, `Do`
returns `r`; its history gains `n` rounds of one submission to that connection
followed by one yield, then one more submission and the recycling: `n` yields
and `n + 1` submissions, all of them of the command to that connection. -/
theorem Do_tryAgain_yields_and_retries (w : World) (cmd : Command) (cc : Conn) (r : Result)
    (n : Nat) (c : ClusterClient) (hs : cmd.Slot < 16384)
    (hslot : c.slots cmd.Slot = some cc)
    (ht : ∀ k, k < n → w.Do (tryAgainRounds cc cmd k c.trace) cc cmd =
      Result.redisErr RedisError.tryAgain)
    (hr : w.Do (tryAgainRounds cc cmd n c.trace) cc cmd = r) (hnr : r.isRouting = false) :
    ∃ c', (∀ m, 2 * n + 2 ≤ m → Do w m cmd c = Exec.ret (r, c')) ∧
      c'.trace = Event.Put cmd.Commands :: Event.Do cc cmd :: tryAgainRounds cc cmd n c.trace ∧
      c'.trace.count Event.Gosched = c.trace.count Event.Gosched + n ∧
      c'.trace.count (Event.Do cc cmd) = c.trace.count (Event.Do cc cmd) + (n + 1) ∧
      c'.trace.countP Event.isSubmit = c.trace.countP Event.isSubmit + (n + 1) := by
  have key := Do_tryAgain_rounds w cmd cc r hs hnr n c hslot ht hr
  obtain ⟨k1, k2, k3⟩ := tryAgainRounds_counts cc cmd n c.trace
  refine ⟨{ c with
    trace := Event.Put cmd.Commands :: Event.Do cc cmd :: tryAgainRounds cc cmd n c.trace },
    ?_, rfl, ?_, ?_, ?_⟩
  · intro m hm
    unfold Do at key ⊢
    rw [DoFrom_mono w cmd (by rw [key]; simp) m hm, key]
  · simp only [List.count_cons, k1]
    simp
  · simp only [List.count_cons, k2]
    simp
    omega
  · simp only [List.countP_cons, k3]
    simp [Event.isSubmit]
    omega

/-- C5 on the TRYAGAIN scenario of §8: two TRYAGAIN replies, then `OK`; one
result, two yields, three submissions. -/
theorem Do_tryAgain_yields_and_retries_witness :
    getCmd.Slot < 16384 ∧ routedClient.slots getCmd.Slot = some (connOf "a:1") ∧
    (∀ k, k < 2 → tryAgainWorld.Do (tryAgainRounds (connOf "a:1") getCmd k routedClient.trace)
      (connOf "a:1") getCmd = Result.redisErr RedisError.tryAgain) ∧
    tryAgainWorld.Do (tryAgainRounds (connOf "a:1") getCmd 2 routedClient.trace)
      (connOf "a:1") getCmd = okResult ∧
    ∃ c', (∀ m, 2 * 2 + 2 ≤ m → Do tryAgainWorld m getCmd routedClient =
        Exec.ret (okResult, c')) ∧
      c'.trace = Event.Put getCmd.Commands :: Event.Do (connOf "a:1") getCmd ::
        tryAgainRounds (connOf "a:1") getCmd 2 routedClient.trace ∧
      c'.trace.count Event.Gosched = routedClient.trace.count Event.Gosched + 2 ∧
      c'.trace.count (Event.Do (connOf "a:1") getCmd) =
        routedClient.trace.count (Event.Do (connOf "a:1") getCmd) + (2 + 1) ∧
      c'.trace.countP Event.isSubmit = routedClient.trace.countP Event.isSubmit + (2 + 1) :=
  have ht : ∀ k, k < 2 → tryAgainWorld.Do
      (tryAgainRounds (connOf "a:1") getCmd k routedClient.trace)
      (connOf "a:1") getCmd = Result.redisErr RedisError.tryAgain := by
    intro k hk
    interval_cases k <;> rfl
  ⟨by decide, rfl, ht, rfl,
    Do_tryAgain_yields_and_retries tryAgainWorld getCmd (connOf "a:1") okResult 2 routedClient
      (by decide) rfl ht rfl rfl⟩

/-! ## Theorems: what the dispatcher returns -/

/-! ### What a refresh and a pick add to the history -/

theorem _refreshRetry_extends (w : World) : ∀ (n : Nat) (reply : Message) (err : Option Error)
    (c c' : ClusterClient) (x : Option Error),
    _refreshRetry w n reply err c = Exec.ret (x, c') → Extends Event.isRefresh c c' := by
  intro n
  induction n with
  | zero => intro reply err c c' x h; simp [_refreshRetry] at h
  | succ n ih =>
    intro reply err c c' x h
    rw [_refreshRetry] at h
    have Q := queryLoop_spec w (c.range w c.conns) ⟨reply, err, []⟩ c
    generalize queryLoop w (c.range w c.conns) ⟨reply, err, []⟩ c = q at Q h
    obtain ⟨_, _, _, q4, _⟩ := Q
    have D : Extends Event.isLifecycle q.2
        (if q.1.dead.length ≠ 0 then removeDead q.1.dead q.2 else q.2) := by
      split
      · exact (removeDead_spec _ _).2.2
      · exact Extends.refl _ _
    generalize (if q.1.dead.length ≠ 0 then removeDead q.1.dead q.2 else q.2) = c1 at D h
    have hc1 : Extends Event.isRefresh c c1 := q4.trans (D.mono isLifecycle_isRefresh)
    cases hq : q.1.err with
    | some e =>
      simp only [hq, Exec.ret.injEq, Prod.mk.injEq] at h
      rw [← h.2]; exact hc1
    | none =>
      simp only [hq] at h
      by_cases hlen : q.1.reply.values.length = 0
      · simp only [hlen, if_true] at h
        have I := (init_spec w c1).2.2
        rcases hi : init w c1 with ⟨⟨y, e⟩, c2⟩
        rw [hi] at I
        cases e with
        | some e =>
          simp only [hi, Exec.ret.injEq, Prod.mk.injEq] at h
          rw [← h.2]; exact hc1.trans I
        | none =>
          simp only [hi] at h
          exact (hc1.trans I).trans (ih _ _ _ _ _ h)
      · simp only [hlen, if_false] at h
        exact hc1.trans (((rebuild_ret h).2.2.1).mono isLifecycle_isRefresh)

theorem pick_extends {w : World} {n slot : Nat} {c c1 : ClusterClient} {x : Except Error Conn}
    (h : pick w n slot c = Exec.ret (x, c1)) : Extends Event.isRefresh c c1 := by
  unfold pick at h
  split at h
  · simp only [Exec.ret.injEq, Prod.mk.injEq] at h
    rw [← h.2]; exact Extends.refl _ _
  · split at h
    · rename_i e c2 hr
      simp only [Exec.ret.injEq, Prod.mk.injEq] at h
      rw [← h.2]; exact _refreshRetry_extends w _ _ _ _ _ _ hr
    · rename_i c2 hr
      have := _refreshRetry_extends w _ _ _ _ _ _ hr
      split at h
      · simp only [Exec.ret.injEq, Prod.mk.injEq] at h
        rw [← h.2]; exact this
      · simp only [Exec.ret.injEq, Prod.mk.injEq] at h
        rw [← h.2]; exact this
      · exact absurd h (by simp)
      · exact absurd h (by simp)
    · exact absurd h (by simp)
    · exact absurd h (by simp)
  · exact absurd h (by simp)
  · exact absurd h (by simp)

theorem isRefresh_not_isPut (e : Event) (h : e.isRefresh = true) : (!e.isPut) = true := by
  cases e <;> simp_all [Event.isRefresh, Event.isPut]

theorem pickOrNew_extends (w : World) (addr : String) (c : ClusterClient) :
    Extends (fun e => !e.isPut) c (pickOrNew w addr c).2 := by
  unfold pickOrNew
  split
  · exact Extends.refl _ _
  · exact ⟨[Event.connFn addr (w.connFn c.trace addr)], rfl, by simp [Event.isPut]⟩

/-! ### Every returning run of the dispatcher -/

theorem DoFrom_ret (w : World) (cmd : Command) : ∀ (n : Nat) (l : Label) (c c' : ClusterClient)
    (r : Result), DoFrom w cmd n l c = Exec.ret (r, c') →
    r.isRouting = false ∧
    ∃ c0, Extends (fun e => !e.isPut) c c0 ∧ c' = c0.log (Event.Put cmd.Commands) := by
  intro n
  induction n with
  | zero => intro l c c' r h; simp [DoFrom] at h
  | succ n ih =>
    intro l c c' r h
    cases l with
    | retry =>
      rw [DoFrom] at h
      rcases hpk : pick w n cmd.Slot c with ⟨x, c1⟩ | m | _
      · have E := (pick_extends hpk).mono isRefresh_not_isPut
        cases x with
        | error e =>
          simp only [hpk, Exec.ret.injEq, Prod.mk.injEq] at h
          refine ⟨by rw [← h.1]; rfl, c1, E, h.2.symm⟩
        | ok cc =>
          simp only [hpk] at h
          obtain ⟨g1, c0, g2, g3⟩ := ih _ _ _ _ h
          exact ⟨g1, c0, (E.trans (Extends.log c1 (Event.Do cc cmd) rfl)).trans g2, g3⟩
      · simp [hpk] at h
      · simp [hpk] at h
    | process resp =>
      rw [DoFrom] at h
      cases hre : resp.RedisError with
      | none =>
        simp only [hre, Exec.ret.injEq, Prod.mk.injEq] at h
        refine ⟨?_, c, Extends.refl _ _, h.2.symm⟩
        rw [← h.1]; simp [Result.isRouting, hre]
      | some err =>
        simp only [hre] at h
        cases hm : err.IsMoved with
        | some addr =>
          simp only [hm] at h
          obtain ⟨g1, c0, g2, g3⟩ := ih _ _ _ _ h
          refine ⟨g1, c0, ?_, g3⟩
          exact (((Extends.log c Event.goRefresh rfl).trans (pickOrNew_extends w addr _)).trans
            (Extends.log _ (Event.Do _ cmd) rfl)).trans g2
        | none =>
          simp only [hm] at h
          cases ha : err.IsAsk with
          | some addr =>
            simp only [ha] at h
            cases hd : (w.DoMulti (pickOrNew w addr c).2.trace (pickOrNew w addr c).1
                [AskingCmd, cmd])[1]? with
            | none => simp [hd] at h
            | some r1 =>
              simp only [hd] at h
              obtain ⟨g1, c0, g2, g3⟩ := ih _ _ _ _ h
              refine ⟨g1, c0, ?_, g3⟩
              exact ((pickOrNew_extends w addr _).trans
                (Extends.log _ (Event.DoMulti _ [AskingCmd, cmd]) rfl)).trans g2
          | none =>
            simp only [ha] at h
            cases ht : err.IsTryAgain with
            | true =>
              simp only [ht, if_true] at h
              obtain ⟨g1, c0, g2, g3⟩ := ih _ _ _ _ h
              exact ⟨g1, c0, (Extends.log c Event.Gosched rfl).trans g2, g3⟩
            | false =>
              simp only [ht, Bool.false_eq_true, if_false, Exec.ret.injEq, Prod.mk.injEq] at h
              refine ⟨?_, c, Extends.refl _ _, h.2.symm⟩
              rw [← h.1]
              simp [Result.isRouting, hre, RedisError.isRouting, hm, ha, ht]

theorem DoCacheFrom_ret (w : World) (cmd : Command) (ttl : Nat) :
    ∀ (n : Nat) (l : Label) (c c' : ClusterClient)
    (r : Result), DoCacheFrom w cmd ttl n l c = Exec.ret (r, c') →
    r.isRouting = false ∧
    ∃ c0, Extends (fun e => !e.isPut) c c0 ∧ c' = c0.log (Event.Put cmd.Commands) := by
  intro n
  induction n with
  | zero => intro l c c' r h; simp [DoCacheFrom] at h
  | succ n ih =>
    intro l c c' r h
    cases l with
    | retry =>
      rw [DoCacheFrom] at h
      rcases hpk : pick w n cmd.Slot c with ⟨x, c1⟩ | m | _
      · have E := (pick_extends hpk).mono isRefresh_not_isPut
        cases x with
        | error e =>
          simp only [hpk, Exec.ret.injEq, Prod.mk.injEq] at h
          refine ⟨by rw [← h.1]; rfl, c1, E, h.2.symm⟩
        | ok cc =>
          simp only [hpk] at h
          obtain ⟨g1, c0, g2, g3⟩ := ih _ _ _ _ h
          exact ⟨g1, c0, (E.trans (Extends.log c1 (Event.DoCache cc cmd ttl) rfl)).trans g2, g3⟩
      · simp [hpk] at h
      · simp [hpk] at h
    | process resp =>
      rw [DoCacheFrom] at h
      cases hre : resp.RedisError with
      | none =>
        simp only [hre, Exec.ret.injEq, Prod.mk.injEq] at h
        refine ⟨?_, c, Extends.refl _ _, h.2.symm⟩
        rw [← h.1]; simp [Result.isRouting, hre]
      | some err =>
        simp only [hre] at h
        cases hm : err.IsMoved with
        | some addr =>
          simp only [hm] at h
          obtain ⟨g1, c0, g2, g3⟩ := ih _ _ _ _ h
          refine ⟨g1, c0, ?_, g3⟩
          exact (((Extends.log c Event.goRefresh rfl).trans (pickOrNew_extends w addr _)).trans
            (Extends.log _ (Event.DoCache _ cmd ttl) rfl)).trans g2
        | none =>
          simp only [hm] at h
          cases ha : err.IsAsk with
          | some addr =>
            simp only [ha] at h
            cases hd : (w.DoMulti (pickOrNew w addr c).2.trace (pickOrNew w addr c).1
                [AskingCmd, cmd])[1]? with
            | none => simp [hd] at h
            | some r1 =>
              simp only [hd] at h
              obtain ⟨g1, c0, g2, g3⟩ := ih _ _ _ _ h
              refine ⟨g1, c0, ?_, g3⟩
              exact ((pickOrNew_extends w addr _).trans
                (Extends.log _ (Event.DoMulti _ [AskingCmd, cmd]) rfl)).trans g2
          | none =>
            simp only [ha] at h
            cases ht : err.IsTryAgain with
            | true =>
              simp only [ht, if_true] at h
              obtain ⟨g1, c0, g2, g3⟩ := ih _ _ _ _ h
              exact ⟨g1, c0, (Extends.log c Event.Gosched rfl).trans g2, g3⟩
            | false =>
              simp only [ht, Bool.false_eq_true, if_false, Exec.ret.injEq, Prod.mk.injEq] at h
              refine ⟨?_, c, Extends.refl _ _, h.2.symm⟩
              rw [← h.1]
              simp [Result.isRouting, hre, RedisError.isRouting, hm, ha, ht]

/-! ### Where a returned result comes from -/

theorem pick_error_source {w : World} {n slot : Nat} {c c1 : ClusterClient} {e : Error}
    (h : pick w n slot c = Exec.ret (Except.error e, c1)) :
    e = Error.ErrNoSlot ∨ refresh w n c = Exec.ret (some e, c1) := by
  unfold pick at h
  cases hp : _pick w slot c with
  | panic m => simp [hp] at h
  | fuel => simp [hp] at h
  | ret o =>
    cases o with
    | some p => simp [hp] at h
    | none =>
      simp only [hp] at h
      cases hr : refresh w n c with
      | panic m => simp [hr] at h
      | fuel => simp [hr] at h
      | ret x =>
        obtain ⟨oe, c2⟩ := x
        cases oe with
        | some err =>
          simp only [hr, Exec.ret.injEq, Prod.mk.injEq, Except.error.injEq] at h
          right
          rw [← h.1, ← h.2]
        | none =>
          simp only [hr] at h
          cases hp2 : _pick w slot c2 with
          | panic m => simp [hp2] at h
          | fuel => simp [hp2] at h
          | ret o2 =>
            cases o2 with
            | some p => simp [hp2] at h
            | none =>
              simp only [hp2, Exec.ret.injEq, Prod.mk.injEq, Except.error.injEq] at h
              exact Or.inl h.1.symm

theorem DoFrom_source (w : World) (cmd : Command) (ttl : Nat) :
    ∀ (n : Nat) (l : Label) (c c' : ClusterClient) (r : Result),
    (∀ resp, l = Label.process resp → isReplyOf w cmd ttl resp) →
    DoFrom w cmd n l c = Exec.ret (r, c') →
    (∃ k c0 c1 e, pick w k cmd.Slot c0 = Exec.ret (Except.error e, c1) ∧
      r = Result.NewErrResult e ∧ c' = c1.log (Event.Put cmd.Commands)) ∨
    isReplyOf w cmd ttl r := by
  intro n
  induction n with
  | zero => intro l c c' r _ h; simp [DoFrom] at h
  | succ n ih =>
    intro l c c' r hl h
    cases l with
    | retry =>
      rw [DoFrom] at h
      rcases hpk : pick w n cmd.Slot c with ⟨x, c1⟩ | m | _
      · cases x with
        | error e =>
          simp only [hpk, Exec.ret.injEq, Prod.mk.injEq] at h
          exact Or.inl ⟨n, c, c1, e, hpk, h.1.symm, h.2.symm⟩
        | ok cc =>
          simp only [hpk] at h
          refine ih _ _ _ _ ?_ h
          intro resp hresp
          simp only [Label.process.injEq] at hresp
          exact Or.inl ⟨_, _, hresp.symm⟩
      · simp [hpk] at h
      · simp [hpk] at h
    | process resp =>
      have hrep := hl resp rfl
      rw [DoFrom] at h
      cases hre : resp.RedisError with
      | none =>
        simp only [hre, Exec.ret.injEq, Prod.mk.injEq] at h
        rw [← h.1]; exact Or.inr hrep
      | some err =>
        simp only [hre] at h
        cases hm : err.IsMoved with
        | some addr =>
          simp only [hm] at h
          refine ih _ _ _ _ ?_ h
          intro resp2 hresp
          simp only [Label.process.injEq] at hresp
          exact Or.inl ⟨_, _, hresp.symm⟩
        | none =>
          simp only [hm] at h
          cases ha : err.IsAsk with
          | some addr =>
            simp only [ha] at h
            cases hd : (w.DoMulti (pickOrNew w addr c).2.trace (pickOrNew w addr c).1
                [AskingCmd, cmd])[1]? with
            | none => simp [hd] at h
            | some r1 =>
              simp only [hd] at h
              refine ih _ _ _ _ ?_ h
              intro resp2 hresp
              simp only [Label.process.injEq] at hresp
              subst hresp
              exact Or.inr (Or.inr ⟨_, _, hd⟩)
          | none =>
            simp only [ha] at h
            cases ht : err.IsTryAgain with
            | true =>
              simp only [ht, if_true] at h
              exact ih _ _ _ _ (fun resp2 hresp => by simp at hresp) h
            | false =>
              simp only [ht, Bool.false_eq_true, if_false, Exec.ret.injEq, Prod.mk.injEq] at h
              rw [← h.1]; exact Or.inr hrep

theorem DoCacheFrom_source (w : World) (cmd : Command) (ttl : Nat) :
    ∀ (n : Nat) (l : Label) (c c' : ClusterClient) (r : Result),
    (∀ resp, l = Label.process resp → isReplyOf w cmd ttl resp) →
    DoCacheFrom w cmd ttl n l c = Exec.ret (r, c') →
    (∃ k c0 c1 e, pick w k cmd.Slot c0 = Exec.ret (Except.error e, c1) ∧
      r = Result.NewErrResult e ∧ c' = c1.log (Event.Put cmd.Commands)) ∨
    isReplyOf w cmd ttl r := by
  intro n
  induction n with
  | zero => intro l c c' r _ h; simp [DoCacheFrom] at h
  | succ n ih =>
    intro l c c' r hl h
    cases l with
    | retry =>
      rw [DoCacheFrom] at h
      rcases hpk : pick w n cmd.Slot c with ⟨x, c1⟩ | m | _
      · cases x with
        | error e =>
          simp only [hpk, Exec.ret.injEq, Prod.mk.injEq] at h
          exact Or.inl ⟨n, c, c1, e, hpk, h.1.symm, h.2.symm⟩
        | ok cc =>
          simp only [hpk] at h
          refine ih _ _ _ _ ?_ h
          intro resp hresp
          simp only [Label.process.injEq] at hresp
          exact Or.inr (Or.inl ⟨_, _, hresp.symm⟩)
      · simp [hpk] at h
      · simp [hpk] at h
    | process resp =>
      have hrep := hl resp rfl
      rw [DoCacheFrom] at h
      cases hre : resp.RedisError with
      | none =>
        simp only [hre, Exec.ret.injEq, Prod.mk.injEq] at h
        rw [← h.1]; exact Or.inr hrep
      | some err =>
        simp only [hre] at h
        cases hm : err.IsMoved with
        | some addr =>
          simp only [hm] at h
          refine ih _ _ _ _ ?_ h
          intro resp2 hresp
          simp only [Label.process.injEq] at hresp
          exact Or.inr (Or.inl ⟨_, _, hresp.symm⟩)
        | none =>
          simp only [hm] at h
          cases ha : err.IsAsk with
          | some addr =>
            simp only [ha] at h
            cases hd : (w.DoMulti (pickOrNew w addr c).2.trace (pickOrNew w addr c).1
                [AskingCmd, cmd])[1]? with
            | none => simp [hd] at h
            | some r1 =>
              simp only [hd] at h
              refine ih _ _ _ _ ?_ h
              intro resp2 hresp
              simp only [Label.process.injEq] at hresp
              subst hresp
              exact Or.inr (Or.inr ⟨_, _, hd⟩)
          | none =>
            simp only [ha] at h
            cases ht : err.IsTryAgain with
            | true =>
              simp only [ht, if_true] at h
              exact ih _ _ _ _ (fun resp2 hresp => by simp at hresp) h
            | false =>
              simp only [ht, Bool.false_eq_true, if_false, Exec.ret.injEq, Prod.mk.injEq] at h
              rw [← h.1]; exact Or.inr hrep

/-- C6, as stated, fails when `pick` fails: the error of `pick` is returned as
it is, and it is the error of the refresh.  In a world whose nodes answer the
topology query with `MOVED x:9`, `Do` and `DoCache` of a command of slot 5000,
which the client with the small topology does not cover, return the result
built from this MOVED error. -/
theorem pick_failure_surfaces_moved :
    (∃ c', Do movedSlotsWorld 3 getCmd miniClient =
      Exec.ret (Result.NewErrResult (Error.redis (RedisError.moved "x:9")), c')) ∧
    (∃ c', DoCache movedSlotsWorld 3 getCmd 60 miniClient =
      Exec.ret (Result.NewErrResult (Error.redis (RedisError.moved "x:9")), c')) ∧
    (∃ c', pick movedSlotsWorld 2 getCmd.Slot miniClient =
      Exec.ret (Except.error (Error.redis (RedisError.moved "x:9")), c')) ∧
    (RedisError.moved "x:9").isRouting = true ∧
    (RedisError.moved "x:9").IsMoved = some "x:9" :=
  ⟨⟨_, rfl⟩, ⟨_, rfl⟩, ⟨_, rfl⟩, rfl, rfl⟩

/-- C6, amended.  A result returned by `Do` or `DoCache` is never classified
as MOVED, ASK or TRYAGAIN by `RedisError`, the test on which the dispatcher
redirects.  It is either the reply to a submission of the command, which the
dispatcher has found not to be a redirection, or the result built from the
error with which `pick` failed; this error is `ErrNoSlot` or the error that
the refresh returned, and it is not examined. -/
theorem dispatcher_result_not_routing (w : World) (n : Nat) (cmd : Command) (ttl : Nat)
    (c c' : ClusterClient) (r : Result)
    (h : Do w n cmd c = Exec.ret (r, c') ∨ DoCache w n cmd ttl c = Exec.ret (r, c')) :
    r.isRouting = false ∧
    (∀ e, r.RedisError = some e →
      e.IsMoved = none ∧ e.IsAsk = none ∧ e.IsTryAgain = false) ∧
    ((∃ k c0 c1 e, pick w k cmd.Slot c0 = Exec.ret (Except.error e, c1) ∧
        (e = Error.ErrNoSlot ∨ refresh w k c0 = Exec.ret (some e, c1)) ∧
        r = Result.NewErrResult e ∧ c' = c1.log (Event.Put cmd.Commands)) ∨
      isReplyOf w cmd ttl r) := by
  have hr : r.isRouting = false := by
    rcases h with h | h
    · exact (DoFrom_ret w cmd n _ _ _ _ h).1
    · exact (DoCacheFrom_ret w cmd ttl n _ _ _ _ h).1
  have hs : (∃ k c0 c1 e, pick w k cmd.Slot c0 = Exec.ret (Except.error e, c1) ∧
      r = Result.NewErrResult e ∧ c' = c1.log (Event.Put cmd.Commands)) ∨
      isReplyOf w cmd ttl r := by
    rcases h with h | h
    · exact DoFrom_source w cmd ttl n _ _ _ _ (fun resp hresp => by simp at hresp) h
    · exact DoCacheFrom_source w cmd ttl n _ _ _ _ (fun resp hresp => by simp at hresp) h
  refine ⟨hr, ?_, ?_⟩
  · intro e he
    simp only [Result.isRouting, he, RedisError.isRouting, Bool.or_eq_false_iff] at hr
    obtain ⟨⟨h1, h2⟩, h3⟩ := hr
    refine ⟨?_, ?_, h3⟩
    · cases hm : e.IsMoved with
      | none => rfl
      | some a => rw [hm] at h1; simp at h1
    · cases ha : e.IsAsk with
      | none => rfl
      | some a => rw [ha] at h2; simp at h2
  · rcases hs with ⟨k, c0, c1, e, h1, h2, h3⟩ | hs
    · exact Or.inl ⟨k, c0, c1, e, h1, pick_error_source h1, h2, h3⟩
    · exact Or.inr hs

/-- C6 amended, on the MOVED scenario: the redirection is consumed, the caller
receives `OK`, the reply to a submission. -/
theorem dispatcher_result_not_routing_witness :
    ∃ c', (Do movedWorld 3 getCmd routedClient = Exec.ret (okResult, c') ∨
        DoCache movedWorld 3 getCmd 60 routedClient = Exec.ret (okResult, c')) ∧
      okResult.isRouting = false ∧
      (∀ e, okResult.RedisError = some e →
        e.IsMoved = none ∧ e.IsAsk = none ∧ e.IsTryAgain = false) ∧
      ((∃ k c0 c1 e, pick movedWorld k getCmd.Slot c0 = Exec.ret (Except.error e, c1) ∧
          (e = Error.ErrNoSlot ∨ refresh movedWorld k c0 = Exec.ret (some e, c1)) ∧
          okResult = Result.NewErrResult e ∧ c' = c1.log (Event.Put getCmd.Commands)) ∨
        isReplyOf movedWorld getCmd 60 okResult) :=
  ⟨_, Or.inl rfl,
    dispatcher_result_not_routing movedWorld 3 getCmd 60 routedClient _ okResult (Or.inl rfl)⟩

/-- C10.  A run of `Do` or `DoCache` that returns has handed the buffer of the
command to `Put` exactly once: the recycling is the last effect of the call
and no other effect of the call is a `Put`. -/
theorem dispatcher_puts_once (w : World) (n : Nat) (cmd : Command) (ttl : Nat)
    (c c' : ClusterClient) (r : Result)
    (h : Do w n cmd c = Exec.ret (r, c') ∨ DoCache w n cmd ttl c = Exec.ret (r, c')) :
    (∃ mid, c'.trace = Event.Put cmd.Commands :: (mid ++ c.trace) ∧
      ∀ e ∈ mid, e.isPut = false) ∧
    c'.trace.countP Event.isPut = c.trace.countP Event.isPut + 1 := by
  have hr : ∃ c0, Extends (fun e => !e.isPut) c c0 ∧ c' = c0.log (Event.Put cmd.Commands) := by
    rcases h with h | h
    · exact (DoFrom_ret w cmd n _ _ _ _ h).2
    · exact (DoCacheFrom_ret w cmd ttl n _ _ _ _ h).2
  obtain ⟨c0, ⟨mid, hmid, hp⟩, hc'⟩ := hr
  have hp' : ∀ e ∈ mid, e.isPut = false := by
    intro e he
    have := hp e he
    simpa using this
  have htr : c'.trace = Event.Put cmd.Commands :: (mid ++ c.trace) := by
    rw [hc', ← hmid]; rfl
  refine ⟨⟨mid, htr, hp'⟩, ?_⟩
  rw [htr, List.countP_cons, List.countP_append]
  have h0 : mid.countP Event.isPut = 0 := by
    rw [List.countP_eq_zero]
    intro e he
    rw [hp' e he]
    simp
  rw [h0]
  simp [Event.isPut]

/-- C10 on three paths: a pick that fails because the cluster is down, a MOVED
redirection, and a cached read that is asked elsewhere. -/
theorem dispatcher_puts_once_witness :
    (∃ r c', Do downWorld 2 getCmd bootClient = Exec.ret (r, c') ∧
      c'.trace.countP Event.isPut = bootClient.trace.countP Event.isPut + 1) ∧
    (∃ r c', DoCache askWorld 3 getCmd 60 routedClient = Exec.ret (r, c') ∧
      c'.trace.countP Event.isPut = routedClient.trace.countP Event.isPut + 1) ∧
    ∃ c', (Do movedWorld 3 getCmd routedClient = Exec.ret (okResult, c') ∨
        DoCache movedWorld 3 getCmd 60 routedClient = Exec.ret (okResult, c')) ∧
      (∃ mid, c'.trace = Event.Put getCmd.Commands :: (mid ++ routedClient.trace) ∧
        ∀ e ∈ mid, e.isPut = false) ∧
      c'.trace.countP Event.isPut = routedClient.trace.countP Event.isPut + 1 :=
  ⟨⟨_, _, rfl, by decide⟩, ⟨_, _, rfl, by decide⟩, _, Or.inl rfl,
    dispatcher_puts_once movedWorld 3 getCmd 60 routedClient _ okResult (Or.inl rfl)⟩

/-! ## Theorems: no ceiling on redirections -/

theorem DoFrom_movedLoop (cmd : Command) : ∀ (n : Nat) (c : ClusterClient),
    DoFrom movedLoopWorld cmd n (Label.process (Result.redisErr (RedisError.moved "d:4"))) c =
      Exec.fuel := by
  intro n
  induction n with
  | zero => intro c; rfl
  | succ n ih =>
    intro c
    rw [DoFrom]
    simp only [Result.RedisError, RedisError.IsMoved]
    exact ih _

theorem DoCacheFrom_askLoop (cmd : Command) (ttl : Nat) : ∀ (n : Nat) (c : ClusterClient),
    DoCacheFrom askLoopWorld cmd ttl n
      (Label.process (Result.redisErr (RedisError.ask "e:5"))) c = Exec.fuel := by
  intro n
  induction n with
  | zero => intro c; rfl
  | succ n ih =>
    intro c
    rw [DoCacheFrom]
    simp only [Result.RedisError, RedisError.IsMoved, RedisError.IsAsk]
    have : (askLoopWorld.DoMulti (pickOrNew askLoopWorld "e:5" c).2.trace
        (pickOrNew askLoopWorld "e:5" c).1 [AskingCmd, cmd])[1]? =
        some (Result.redisErr (RedisError.ask "e:5")) := rfl
    simp only [this]
    exact ih _

/-- C7, as stated, fails: against nodes that answer every submission with
MOVED, `Do` does not return whatever the fuel, and against nodes that answer
every submission with ASK neither does `DoCache`. -/
theorem dispatcher_redirects_forever :
    (¬ ∃ n r c', Do movedLoopWorld n getCmd routedClient = Exec.ret (r, c')) ∧
    (¬ ∃ n r c', DoCache askLoopWorld n getCmd 60 routedClient = Exec.ret (r, c')) := by
  constructor
  · rintro ⟨n, r, c', h⟩
    cases n with
    | zero => simp [Do, DoFrom] at h
    | succ n =>
      unfold Do at h
      rw [DoFrom] at h
      have hp : pick movedLoopWorld n getCmd.Slot routedClient =
          Exec.ret (Except.ok (connOf "a:1"), routedClient) := rfl
      simp only [hp] at h
      have hd : movedLoopWorld.Do routedClient.trace (connOf "a:1") getCmd =
          Result.redisErr (RedisError.moved "d:4") := rfl
      rw [hd, DoFrom_movedLoop] at h
      exact absurd h (by simp)
  · rintro ⟨n, r, c', h⟩
    cases n with
    | zero => simp [DoCache, DoCacheFrom] at h
    | succ n =>
      unfold DoCache at h
      rw [DoCacheFrom] at h
      have hp : pick askLoopWorld n getCmd.Slot routedClient =
          Exec.ret (Except.ok (connOf "a:1"), routedClient) := rfl
      simp only [hp] at h
      have hd : askLoopWorld.DoCache routedClient.trace (connOf "a:1") getCmd 60 =
          Result.redisErr (RedisError.ask "e:5") := rfl
      rw [hd, DoCacheFrom_askLoop] at h
      exact absurd h (by simp)

theorem DoFrom_moved_hops (w : World) (cmd : Command) (addr : String) (r : Result)
    (hnr : r.isRouting = false) : ∀ (k : Nat) (c : ClusterClient),
    (∀ j, j < k → movedReply w cmd addr (Nat.iterate (movedHop w cmd addr) j c) =
      Result.redisErr (RedisError.moved addr)) →
    movedReply w cmd addr (Nat.iterate (movedHop w cmd addr) k c) = r →
    DoFrom w cmd (k + 2) (Label.process (Result.redisErr (RedisError.moved addr))) c =
      Exec.ret (r, (Nat.iterate (movedHop w cmd addr) (k + 1) c).log (Event.Put cmd.Commands)) := by
  intro k
  induction k with
  | zero =>
    intro c _ hr
    rw [DoFrom]
    simp only [Result.RedisError, RedisError.IsMoved]
    simp only [Function.iterate_zero, id_eq, movedReply] at hr
    rw [hr]
    exact DoFrom_final w cmd 0 r _ hnr
  | succ k ih =>
    intro c hm hr
    rw [DoFrom]
    simp only [Result.RedisError, RedisError.IsMoved]
    have h0 := hm 0 (by omega)
    simp only [Function.iterate_zero, id_eq, movedReply] at h0
    rw [h0]
    exact ih (movedHop w cmd addr c) (fun j hj => hm (j + 1) (by omega)) hr

theorem DoCacheFrom_moved_hops (w : World) (cmd : Command) (ttl : Nat) (addr : String)
    (r : Result) (hnr : r.isRouting = false) : ∀ (k : Nat) (c : ClusterClient),
    (∀ j, j < k → movedReplyCache w cmd ttl addr (Nat.iterate (movedHopCache w cmd ttl addr) j c) =
      Result.redisErr (RedisError.moved addr)) →
    movedReplyCache w cmd ttl addr (Nat.iterate (movedHopCache w cmd ttl addr) k c) = r →
    DoCacheFrom w cmd ttl (k + 2) (Label.process (Result.redisErr (RedisError.moved addr))) c =
      Exec.ret (r, (Nat.iterate (movedHopCache w cmd ttl addr) (k + 1) c).log
        (Event.Put cmd.Commands)) := by
  intro k
  induction k with
  | zero =>
    intro c _ hr
    rw [DoCacheFrom]
    simp only [Result.RedisError, RedisError.IsMoved]
    simp only [Function.iterate_zero, id_eq, movedReplyCache] at hr
    rw [hr]
    exact DoCacheFrom_final w cmd ttl 0 r _ hnr
  | succ k ih =>
    intro c hm hr
    rw [DoCacheFrom]
    simp only [Result.RedisError, RedisError.IsMoved]
    have h0 := hm 0 (by omega)
    simp only [Function.iterate_zero, id_eq, movedReplyCache] at h0
    rw [h0]
    exact ih (movedHopCache w cmd ttl addr c) (fun j hj => hm (j + 1) (by omega)) hr

/-- C7, amended.  `Do` and `DoCache` put no ceiling on the number of
redirections they follow: for every `k`, when the connection picked for the
slot answers `MOVED addr`, the next `k` submissions to `pickOrNew(addr)` are
answered `MOVED addr` as well and the one after them with a result `r` that is
not a redirection, the call follows all `k + 1` redirections and returns
`r`. -/
theorem dispatcher_follows_every_redirection (w : World) (n k : Nat) (cmd : Command)
    (ttl : Nat) (c c1 : ClusterClient) (cc : Conn) (addr : String) (r : Result)
    (hpick : pick w n cmd.Slot c = Exec.ret (Except.ok cc, c1)) (hnr : r.isRouting = false) :
    (w.Do c1.trace cc cmd = Result.redisErr (RedisError.moved addr) →
      (∀ j, j < k → movedReply w cmd addr
        (Nat.iterate (movedHop w cmd addr) j (c1.log (Event.Do cc cmd))) =
          Result.redisErr (RedisError.moved addr)) →
      movedReply w cmd addr
        (Nat.iterate (movedHop w cmd addr) k (c1.log (Event.Do cc cmd))) = r →
      ∀ m, n + k + 3 ≤ m → Do w m cmd c = Exec.ret (r,
        (Nat.iterate (movedHop w cmd addr) (k + 1) (c1.log (Event.Do cc cmd))).log
          (Event.Put cmd.Commands))) ∧
    (w.DoCache c1.trace cc cmd ttl = Result.redisErr (RedisError.moved addr) →
      (∀ j, j < k → movedReplyCache w cmd ttl addr
        (Nat.iterate (movedHopCache w cmd ttl addr) j (c1.log (Event.DoCache cc cmd ttl))) =
          Result.redisErr (RedisError.moved addr)) →
      movedReplyCache w cmd ttl addr
        (Nat.iterate (movedHopCache w cmd ttl addr) k (c1.log (Event.DoCache cc cmd ttl))) = r →
      ∀ m, n + k + 3 ≤ m → DoCache w m cmd ttl c = Exec.ret (r,
        (Nat.iterate (movedHopCache w cmd ttl addr) (k + 1)
          (c1.log (Event.DoCache cc cmd ttl))).log (Event.Put cmd.Commands))) := by
  have hp2 : pick w (n + k + 2) cmd.Slot c = Exec.ret (Except.ok cc, c1) := by
    rw [pick_mono w (by rw [hpick]; simp) (n + k + 2) (by omega), hpick]
  constructor
  · intro h0 hm hr
    have key : Do w (n + k + 3) cmd c = Exec.ret (r,
        (Nat.iterate (movedHop w cmd addr) (k + 1) (c1.log (Event.Do cc cmd))).log
          (Event.Put cmd.Commands)) := by
      unfold Do
      rw [DoFrom]
      simp only [hp2, h0]
      have := DoFrom_moved_hops w cmd addr r hnr k _ hm hr
      rw [DoFrom_mono w cmd (by rw [this]; simp) (n + k + 2) (by omega), this]
    intro m hm'
    unfold Do at key ⊢
    rw [DoFrom_mono w cmd (by rw [key]; simp) m hm', key]
  · intro h0 hm hr
    have key : DoCache w (n + k + 3) cmd ttl c = Exec.ret (r,
        (Nat.iterate (movedHopCache w cmd ttl addr) (k + 1)
          (c1.log (Event.DoCache cc cmd ttl))).log (Event.Put cmd.Commands)) := by
      unfold DoCache
      rw [DoCacheFrom]
      simp only [hp2, h0]
      have := DoCacheFrom_moved_hops w cmd ttl addr r hnr k _ hm hr
      rw [DoCacheFrom_mono w cmd ttl (by rw [this]; simp) (n + k + 2) (by omega), this]
    intro m hm'
    unfold DoCache at key ⊢
    rw [DoCacheFrom_mono w cmd ttl (by rw [key]; simp) m hm', key]

/-- C7 amended, on a node that answers MOVED 34 times before `OK`: `Do`
follows all 34 redirections, more than a ceiling of 32 would allow. -/
theorem dispatcher_follows_every_redirection_witness :
    pick movedManyWorld 0 getCmd.Slot routedClient =
      Exec.ret (Except.ok (connOf "a:1"), routedClient) ∧
    okResult.isRouting = false ∧
    movedManyWorld.Do routedClient.trace (connOf "a:1") getCmd =
      Result.redisErr (RedisError.moved "d:4") ∧
    (∀ j, j < 33 → movedReply movedManyWorld getCmd "d:4"
      (Nat.iterate (movedHop movedManyWorld getCmd "d:4") j
        (routedClient.log (Event.Do (connOf "a:1") getCmd))) =
        Result.redisErr (RedisError.moved "d:4")) ∧
    (∀ m, 0 + 33 + 3 ≤ m → Do movedManyWorld m getCmd routedClient = Exec.ret (okResult,
      (Nat.iterate (movedHop movedManyWorld getCmd "d:4") (33 + 1)
        (routedClient.log (Event.Do (connOf "a:1") getCmd))).log
          (Event.Put getCmd.Commands))) :=
  have hm : ∀ j, j < 33 → movedReply movedManyWorld getCmd "d:4"
      (Nat.iterate (movedHop movedManyWorld getCmd "d:4") j
        (routedClient.log (Event.Do (connOf "a:1") getCmd))) =
        Result.redisErr (RedisError.moved "d:4") := by
    intro j hj
    interval_cases j <;> rfl
  ⟨rfl, rfl, rfl, hm,
    (dispatcher_follows_every_redirection movedManyWorld 0 33 getCmd 60 routedClient
      routedClient (connOf "a:1") "d:4" okResult rfl rfl).1 rfl hm rfl⟩

/-! ## Theorems: the dedicated session -/

/-- C11.  `Do` of the session does not return the command to the pool when
the wire cannot be acquired.  On a cluster whose topology does not cover slot 42, `Do` of a
command of slot 42 returns the error `ErrNoSlot` of `pick` and no `Put` has
been recorded, so the buffer of the command is never returned to the pool;
`DoMulti` of the same command in the same session records its `Put`.  The same
happens when every node is down. -/
theorem dedicated_Do_skips_put_on_acquire_failure :
    (∃ d, DedicatedClusterClient.Do miniWorld okWires 2 (cmdAt 42) (newDedicated miniClient) =
        Outcome.ret (Result.NewErrResult Error.ErrNoSlot) d ∧
      d.wire = none ∧ d.client.trace.countP Event.isPut = 0) ∧
    (∃ d, DedicatedClusterClient.DoMulti miniWorld okWires 2 [cmdAt 42]
        (newDedicated miniClient) =
        Outcome.ret [Result.NewErrResult Error.ErrNoSlot] d ∧
      d.wire = none ∧ d.client.trace.countP Event.isPut = 1) ∧
    (∃ d, DedicatedClusterClient.Do downWorld okWires 2 (cmdAt 42) (newDedicated miniClient) =
        Outcome.ret (Result.NewErrResult (Error.other "connection refused")) d ∧
      d.wire = none ∧ d.client.trace.countP Event.isPut = 0) :=
  ⟨⟨_, rfl, rfl, by decide⟩, ⟨_, rfl, rfl, by decide⟩, ⟨_, rfl, rfl, by decide⟩⟩

theorem checkAll_ret : ∀ (cmds : List Command) (d d' : DedicatedClusterClient),
    DedicatedClusterClient.checkAll cmds d = Outcome.ret () d' →
    d'.client = d.client ∧ d'.conn = d.conn ∧ d'.wire = d.wire ∧
    (d.slot ≠ InitSlot → d'.slot = d.slot) ∧
    (∀ cmd ∈ cmds, cmd.Slot = InitSlot ∨ cmd.Slot = d'.slot) := by
  intro cmds
  induction cmds with
  | nil =>
    intro d d' h
    simp only [DedicatedClusterClient.checkAll, Outcome.ret.injEq, true_and] at h
    subst h
    simp
  | cons cmd rest ih =>
    intro d d' h
    simp only [DedicatedClusterClient.checkAll, DedicatedClusterClient.check] at h
    by_cases h1 : cmd.Slot = InitSlot
    · simp only [h1, if_true] at h
      obtain ⟨a, b, c, e, f⟩ := ih _ _ h
      refine ⟨a, b, c, e, ?_⟩
      intro x hx
      rcases List.mem_cons.mp hx with hx | hx
      · subst hx; exact Or.inl h1
      · exact f x hx
    · simp only [h1, if_false] at h
      by_cases h2 : d.slot = InitSlot
      · simp only [h2, if_true] at h
        obtain ⟨a, b, c, e, f⟩ := ih _ _ h
        refine ⟨a, b, c, fun hc => absurd h2 hc, ?_⟩
        intro x hx
        rcases List.mem_cons.mp hx with hx | hx
        · subst hx; exact Or.inr (e h1).symm
        · exact f x hx
      · simp only [h2, if_false] at h
        by_cases h3 : d.slot = cmd.Slot
        · simp only [h3, ne_eq, not_true_eq_false, if_false] at h
          obtain ⟨a, b, c, e, f⟩ := ih _ _ h
          refine ⟨a, b, c, e, ?_⟩
          intro x hx
          rcases List.mem_cons.mp hx with hx | hx
          · subst hx; exact Or.inr (by rw [e h2, h3])
          · exact f x hx
        · simp only [ne_eq, h3, not_false_eq_true, if_true] at h
          exact absurd h (by simp)

theorem checkAll_of_consistent : ∀ (cmds : List Command) (d : DedicatedClusterClient) (s : Nat),
    (d.slot = InitSlot ∨ d.slot = s) →
    (∀ cmd ∈ cmds, cmd.Slot = InitSlot ∨ cmd.Slot = s) →
    ∃ d', DedicatedClusterClient.checkAll cmds d = Outcome.ret () d' := by
  intro cmds
  induction cmds with
  | nil => intro d s _ _; exact ⟨d, rfl⟩
  | cons cmd rest ih =>
    intro d s hd hall
    have hc := hall cmd (List.mem_cons_self _ _)
    have hrest : ∀ x ∈ rest, x.Slot = InitSlot ∨ x.Slot = s :=
      fun x hx => hall x (List.mem_cons_of_mem _ hx)
    simp only [DedicatedClusterClient.checkAll, DedicatedClusterClient.check]
    by_cases h1 : cmd.Slot = InitSlot
    · simp only [h1, if_true]
      exact ih d s hd hrest
    · simp only [h1, if_false]
      have hcs : cmd.Slot = s := by
        rcases hc with h | h
        · exact absurd h h1
        · exact h
      by_cases h2 : d.slot = InitSlot
      · simp only [h2, if_true]
        exact ih _ s (Or.inr hcs) hrest
      · simp only [h2, if_false]
        have hds : d.slot = s := by
          rcases hd with h | h
          · exact absurd h h2
          · exact h
        have h3 : d.slot = cmd.Slot := by rw [hds, hcs]
        simp only [h3, ne_eq, not_true_eq_false, if_false]
        exact ih d s (Or.inr hds) hrest

/-- C12.  The slot check of a dedicated session is a pin.  A command that
carries `ANY_SLOT` passes the check and leaves the session as it is; the first
command with a concrete slot sets the slot of the session; afterwards a
command panics in the check exactly when its slot is concrete and differs from
the pinned one, and the pinned slot does not change.  Over a run of checks: if
they all pass, every command carries `ANY_SLOT` or the slot of the session,
and a slot pinned before is kept; if all commands carry `ANY_SLOT` or one slot
`s`, they all pass.  Slot 42 then 99 panics; 42, 42, `ANY_SLOT` passes. -/
theorem check_pins_the_slot (d : DedicatedClusterClient) (s : Nat) :
    (s = InitSlot → DedicatedClusterClient.check s d = Outcome.ret () d) ∧
    (s ≠ InitSlot → d.slot = InitSlot →
      DedicatedClusterClient.check s d = Outcome.ret () { d with slot := s }) ∧
    (s ≠ InitSlot → d.slot = s → DedicatedClusterClient.check s d = Outcome.ret () d) ∧
    ((∃ m d', DedicatedClusterClient.check s d = Outcome.panic m d') ↔
      (s ≠ InitSlot ∧ d.slot ≠ InitSlot ∧ d.slot ≠ s)) ∧
    (∀ cmds d', DedicatedClusterClient.checkAll cmds d = Outcome.ret () d' →
      (d.slot ≠ InitSlot → d'.slot = d.slot) ∧
      ∀ cmd ∈ cmds, cmd.Slot = InitSlot ∨ cmd.Slot = d'.slot) ∧
    (∀ cmds, (d.slot = InitSlot ∨ d.slot = s) →
      (∀ cmd ∈ cmds, cmd.Slot = InitSlot ∨ cmd.Slot = s) →
      ∃ d', DedicatedClusterClient.checkAll cmds d = Outcome.ret () d') ∧
    DedicatedClusterClient.checkAll [cmdAt 42, cmdAt 99] (newDedicated routedClient) =
      Outcome.panic "cross slot command in Dedicated is prohibited"
        { newDedicated routedClient with slot := 42 } ∧
    DedicatedClusterClient.checkAll [cmdAt 42, cmdAt 42, pingCmd] (newDedicated routedClient) =
      Outcome.ret () { newDedicated routedClient with slot := 42 } := by
  refine ⟨?_, ?_, ?_, ?_, ?_, ?_, rfl, rfl⟩
  · intro h
    simp [DedicatedClusterClient.check, h]
  · intro h1 h2
    simp [DedicatedClusterClient.check, h1, h2]
  · intro h1 h2
    have h3 : ¬ d.slot = InitSlot := by rw [h2]; exact h1
    simp [DedicatedClusterClient.check, h1, h2, h3]
  · unfold DedicatedClusterClient.check
    by_cases h1 : s = InitSlot
    · simp [h1]
    · by_cases h2 : d.slot = InitSlot
      · simp [h1, h2]
      · by_cases h3 : d.slot = s
        · simp [h1, h2, h3]
        · simp [h1, h2, h3]
  · intro cmds d' h
    obtain ⟨_, _, _, e, f⟩ := checkAll_ret cmds d d' h
    exact ⟨e, f⟩
  · intro cmds hd hall
    exact checkAll_of_consistent cmds d s hd hall

/-- C13, as stated, fails on `DoMulti` without commands: in a fresh session,
where no command has carried a concrete slot, the call returns nil and does
not panic. -/
theorem dedicated_DoMulti_empty_returns :
    (∀ cmd ∈ ([] : List Command), cmd.Slot = InitSlot) ∧
    DedicatedClusterClient.DoMulti miniWorld okWires 1 [] (newDedicated routedClient) =
      Outcome.ret [] (newDedicated routedClient) ∧
    ¬ ∃ m d, DedicatedClusterClient.DoMulti miniWorld okWires 1 [] (newDedicated routedClient) =
      Outcome.panic m d := by
  refine ⟨by simp, rfl, ?_⟩
  rintro ⟨m, d, h⟩
  have e : DedicatedClusterClient.DoMulti miniWorld okWires 1 [] (newDedicated routedClient) =
      Outcome.ret [] (newDedicated routedClient) := rfl
  rw [e] at h
  exact absurd h (by simp)

theorem checkAll_anySlot : ∀ (cmds : List Command) (d : DedicatedClusterClient),
    (∀ cmd ∈ cmds, cmd.Slot = InitSlot) →
    DedicatedClusterClient.checkAll cmds d = Outcome.ret () d := by
  intro cmds
  induction cmds with
  | nil => intro d _; rfl
  | cons cmd rest ih =>
    intro d h
    have h1 := h cmd (List.mem_cons_self _ _)
    simp only [DedicatedClusterClient.checkAll, DedicatedClusterClient.check, h1, if_true]
    exact ih d (fun x hx => h x (List.mem_cons_of_mem _ hx))

/-- C13, amended.  While no command with a concrete slot has been seen (the
slot of the session is `ANY_SLOT` and its wire is unset), `Do` of a command
that carries `ANY_SLOT`, and `DoMulti` of at least one command, all carrying
`ANY_SLOT`, panic with the missing-initial-slot violation; at the panic the
session is as before the call: wire unset, nothing picked, nothing acquired,
no effect recorded.  `DoMulti` without commands returns nil and leaves the
session as it is. -/
theorem dedicated_needs_initial_slot (w : World) (ww : Wires) (n : Nat)
    (d : DedicatedClusterClient) (hslot : d.slot = InitSlot) (hwire : d.wire = none) :
    (∀ cmd, cmd.Slot = InitSlot → DedicatedClusterClient.Do w ww n cmd d =
      Outcome.panic "the first command in DedicatedClusterClient should contain the slot key" d) ∧
    (∀ multi, multi ≠ [] → (∀ cmd ∈ multi, cmd.Slot = InitSlot) →
      DedicatedClusterClient.DoMulti w ww n multi d =
      Outcome.panic "the first command in DedicatedClusterClient should contain the slot key" d) ∧
    DedicatedClusterClient.DoMulti w ww n [] d = Outcome.ret [] d := by
  have hacq : DedicatedClusterClient.acquire w ww n d =
      Outcome.panic "the first command in DedicatedClusterClient should contain the slot key" d := by
    unfold DedicatedClusterClient.acquire
    simp only [hwire, hslot, if_true]
  refine ⟨?_, ?_, rfl⟩
  · intro cmd hc
    unfold DedicatedClusterClient.Do DedicatedClusterClient.check
    simp only [hc, if_true, hacq]
  · intro multi hne hall
    unfold DedicatedClusterClient.DoMulti
    have : ¬ multi.length = 0 := by
      intro h; exact hne (List.length_eq_zero.mp h)
    simp only [this, if_false, checkAll_anySlot multi d hall, hacq]

/-- C13 amended, on a fresh session over a populated ring. -/
theorem dedicated_needs_initial_slot_witness :
    (newDedicated routedClient).slot = InitSlot ∧ (newDedicated routedClient).wire = none ∧
    pingCmd.Slot = InitSlot ∧
    DedicatedClusterClient.Do miniWorld okWires 5 pingCmd (newDedicated routedClient) =
      Outcome.panic "the first command in DedicatedClusterClient should contain the slot key"
        (newDedicated routedClient) :=
  ⟨rfl, rfl, rfl,
    (dedicated_needs_initial_slot miniWorld okWires 5 (newDedicated routedClient) rfl rfl).1
      pingCmd rfl⟩

/-! ## Lemmas: a session that holds a wire -/

theorem onWire_isQuiet (wr : Wire) (e : Event) (h : e.onWire wr = true) : e.isQuiet = true := by
  cases e <;> simp_all [Event.onWire, Event.isQuiet, Event.isAcquire, Event.isStore]

theorem isRefresh_isQuiet (e : Event) (h : e.isRefresh = true) : e.isQuiet = true := by
  cases e <;> simp_all [Event.isRefresh, Event.isQuiet, Event.isAcquire, Event.isStore]

theorem countP_quiet (added : List Event) (h : ∀ e ∈ added, e.isQuiet = true) :
    added.countP Event.isAcquire = 0 ∧ added.countP Event.isStore = 0 := by
  constructor
  · rw [List.countP_eq_zero]
    intro e he
    have := h e he
    simp only [Event.isQuiet, Bool.and_eq_true, Bool.not_eq_true'] at this
    simp [this.1]
  · rw [List.countP_eq_zero]
    intro e he
    have := h e he
    simp only [Event.isQuiet, Bool.and_eq_true, Bool.not_eq_true'] at this
    simp [this.2]

theorem check_session (s : Nat) (d : DedicatedClusterClient) :
    DedicatedClusterClient.check s d ≠ Outcome.fuel ∧
    ∀ d', (DedicatedClusterClient.check s d).session = some d' →
      d'.client = d.client ∧ d'.wire = d.wire ∧ d'.conn = d.conn := by
  unfold DedicatedClusterClient.check
  by_cases h1 : s = InitSlot
  · simp only [h1, if_true, Outcome.session]
    refine ⟨by simp, ?_⟩
    intro d' h
    simp only [Option.some.injEq] at h
    subst h; exact ⟨rfl, rfl, rfl⟩
  · by_cases h2 : d.slot = InitSlot
    · simp only [h1, h2, if_true, if_false, Outcome.session]
      refine ⟨by simp, ?_⟩
      intro d' h
      simp only [Option.some.injEq] at h
      subst h; exact ⟨rfl, rfl, rfl⟩
    · by_cases h3 : d.slot = s
      · simp only [h1, h2, h3, ne_eq, not_true_eq_false, if_false, Outcome.session]
        refine ⟨by simp, ?_⟩
        intro d' h
        simp only [Option.some.injEq] at h
        subst h; exact ⟨rfl, rfl, rfl⟩
      · simp only [h1, h2, h3, ne_eq, not_false_eq_true, if_true, if_false, Outcome.session]
        refine ⟨by simp, ?_⟩
        intro d' h
        simp only [Option.some.injEq] at h
        subst h; exact ⟨rfl, rfl, rfl⟩

theorem checkAll_session : ∀ (cmds : List Command) (d : DedicatedClusterClient),
    DedicatedClusterClient.checkAll cmds d ≠ Outcome.fuel ∧
    ∀ d', (DedicatedClusterClient.checkAll cmds d).session = some d' →
      d'.client = d.client ∧ d'.wire = d.wire ∧ d'.conn = d.conn := by
  intro cmds
  induction cmds with
  | nil =>
    intro d
    simp only [DedicatedClusterClient.checkAll, Outcome.session]
    refine ⟨by simp, ?_⟩
    intro d' h
    simp only [Option.some.injEq] at h
    subst h; exact ⟨rfl, rfl, rfl⟩
  | cons cmd rest ih =>
    intro d
    obtain ⟨c1, c2⟩ := check_session cmd.Slot d
    simp only [DedicatedClusterClient.checkAll]
    rcases hc : DedicatedClusterClient.check cmd.Slot d with ⟨u, d1⟩ | ⟨m, d1⟩ | _
    · rw [hc] at c2
      obtain ⟨a1, a2, a3⟩ := c2 d1 rfl
      obtain ⟨i1, i2⟩ := ih d1
      refine ⟨i1, ?_⟩
      intro d' h
      obtain ⟨b1, b2, b3⟩ := i2 d' h
      exact ⟨b1.trans a1, b2.trans a2, b3.trans a3⟩
    · rw [hc] at c2
      refine ⟨by simp, ?_⟩
      intro d' h
      simp only [Outcome.session, Option.some.injEq] at h
      subst h
      exact c2 d1 rfl
    · exact absurd hc c1

theorem putAll_spec : ∀ (cmds : List Command) (d : DedicatedClusterClient),
    (DedicatedClusterClient.putAll cmds d).wire = d.wire ∧
    (DedicatedClusterClient.putAll cmds d).conn = d.conn ∧
    (DedicatedClusterClient.putAll cmds d).slot = d.slot ∧
    (∃ added, (DedicatedClusterClient.putAll cmds d).client.trace = added ++ d.client.trace ∧
      (∀ e ∈ added, e.isPut = true) ∧ added.length = cmds.length) := by
  intro cmds
  induction cmds with
  | nil => intro d; exact ⟨rfl, rfl, rfl, [], rfl, by simp, rfl⟩
  | cons cmd rest ih =>
    intro d
    simp only [DedicatedClusterClient.putAll]
    obtain ⟨h1, h2, h3, added, h4, h5, h6⟩ := ih (d.log (Event.Put cmd.Commands))
    refine ⟨h1, h2, h3, added ++ [Event.Put cmd.Commands], ?_, ?_, ?_⟩
    · rw [h4]; simp [DedicatedClusterClient.log, ClusterClient.log]
    · intro e he
      rcases List.mem_append.mp he with h | h
      · exact h5 e h
      · simp only [List.mem_singleton] at h
        subst h; rfl
    · simp [h6]

theorem isPut_onWire (wr : Wire) (e : Event) (h : e.isPut = true) : e.onWire wr = true := by
  cases e <;> simp_all [Event.onWire, Event.isPut]

theorem putAll_extends (wr : Wire) (cmds : List Command) (d : DedicatedClusterClient) :
    Extends (Event.onWire wr) d.client (DedicatedClusterClient.putAll cmds d).client := by
  obtain ⟨_, _, _, added, h4, h5, _⟩ := putAll_spec cmds d
  exact ⟨added, h4, fun e he => isPut_onWire wr e (h5 e he)⟩

/-- With a wire in hand `acquire` returns at once. -/
theorem acquire_of_wire (w : World) (ww : Wires) (n : Nat) (d : DedicatedClusterClient)
    (wr : Wire) (h : d.wire = some wr) :
    DedicatedClusterClient.acquire w ww n d = Outcome.ret none d := by
  unfold DedicatedClusterClient.acquire
  simp only [h]

/-- Method `Do` of a session that holds a wire. -/
theorem Do_of_wire (w : World) (ww : Wires) (n : Nat) (cmd : Command)
    (d : DedicatedClusterClient) (wr : Wire) (h : d.wire = some wr) :
    DedicatedClusterClient.Do w ww n cmd d =
      match DedicatedClusterClient.check cmd.Slot d with
      | Outcome.ret _ d1 =>
        Outcome.ret (ww.Do d.client.trace wr cmd)
          ((d1.log (Event.WireDo wr cmd)).log (Event.Put cmd.Commands))
      | Outcome.panic m d1 => Outcome.panic m d1
      | Outcome.fuel => Outcome.fuel := by
  unfold DedicatedClusterClient.Do
  obtain ⟨_, c2⟩ := check_session cmd.Slot d
  rcases hc : DedicatedClusterClient.check cmd.Slot d with ⟨u, d1⟩ | ⟨m, d1⟩ | _
  · rw [hc] at c2
    obtain ⟨a1, a2, a3⟩ := c2 d1 rfl
    have hw : d1.wire = some wr := by rw [a2, h]
    simp only [acquire_of_wire w ww n d1 wr hw, hw, a1]
  · rfl
  · rfl

/-- Method `DoMulti` of a session that holds a wire. -/
theorem DoMulti_of_wire (w : World) (ww : Wires) (n : Nat) (multi : List Command)
    (d : DedicatedClusterClient) (wr : Wire) (h : d.wire = some wr) :
    DedicatedClusterClient.DoMulti w ww n multi d =
      if multi.length = 0 then Outcome.ret [] d
      else
        match DedicatedClusterClient.checkAll multi d with
        | Outcome.ret _ d1 =>
          Outcome.ret (ww.DoMulti d.client.trace wr multi)
            (DedicatedClusterClient.putAll multi (d1.log (Event.WireDoMulti wr multi)))
        | Outcome.panic m d1 => Outcome.panic m d1
        | Outcome.fuel => Outcome.fuel := by
  unfold DedicatedClusterClient.DoMulti
  by_cases h0 : multi.length = 0
  · simp only [h0, if_true]
  · simp only [h0, if_false]
    obtain ⟨_, c2⟩ := checkAll_session multi d
    rcases hc : DedicatedClusterClient.checkAll multi d with ⟨u, d1⟩ | ⟨m, d1⟩ | _
    · rw [hc] at c2
      obtain ⟨a1, a2, a3⟩ := c2 d1 rfl
      have hw : d1.wire = some wr := by rw [a2, h]
      simp only [acquire_of_wire w ww n d1 wr hw, hw, a1]
    · rfl
    · rfl

theorem Do_keeps (w : World) (ww : Wires) (n : Nat) (cmd : Command)
    (d : DedicatedClusterClient) (wr : Wire) (h : d.wire = some wr) :
    DedicatedClusterClient.Do w ww n cmd d ≠ Outcome.fuel ∧
    ∀ d', (DedicatedClusterClient.Do w ww n cmd d).session = some d' → Keeps wr d d' := by
  rw [Do_of_wire w ww n cmd d wr h]
  obtain ⟨c1, c2⟩ := check_session cmd.Slot d
  rcases hc : DedicatedClusterClient.check cmd.Slot d with ⟨u, d1⟩ | ⟨m, d1⟩ | _
  · rw [hc] at c2
    obtain ⟨a1, a2, a3⟩ := c2 d1 rfl
    refine ⟨by simp, ?_⟩
    intro d' hd
    simp only [Outcome.session, Option.some.injEq] at hd
    subst hd
    refine ⟨by rw [← h, ← a2]; rfl, a3, ?_⟩
    refine ⟨[Event.Put cmd.Commands, Event.WireDo wr cmd], ?_, ?_⟩
    · simp [DedicatedClusterClient.log, ClusterClient.log, a1]
    · intro e he
      simp only [List.mem_cons, List.mem_singleton, List.not_mem_nil, or_false] at he
      rcases he with he | he <;> subst he <;> simp [Event.onWire]
  · rw [hc] at c2
    obtain ⟨a1, a2, a3⟩ := c2 d1 rfl
    refine ⟨by simp, ?_⟩
    intro d' hd
    simp only [Outcome.session, Option.some.injEq] at hd
    subst hd
    exact ⟨by rw [a2, h], a3, Extends.of_trace_eq (by rw [a1])⟩
  · exact absurd hc c1

theorem DoMulti_keeps (w : World) (ww : Wires) (n : Nat) (multi : List Command)
    (d : DedicatedClusterClient) (wr : Wire) (h : d.wire = some wr) :
    DedicatedClusterClient.DoMulti w ww n multi d ≠ Outcome.fuel ∧
    ∀ d', (DedicatedClusterClient.DoMulti w ww n multi d).session = some d' → Keeps wr d d' := by
  rw [DoMulti_of_wire w ww n multi d wr h]
  by_cases h0 : multi.length = 0
  · simp only [h0, if_true]
    refine ⟨by simp, ?_⟩
    intro d' hd
    simp only [Outcome.session, Option.some.injEq] at hd
    subst hd
    exact ⟨h, rfl, Extends.refl _ _⟩
  · simp only [h0, if_false]
    obtain ⟨c1, c2⟩ := checkAll_session multi d
    rcases hc : DedicatedClusterClient.checkAll multi d with ⟨u, d1⟩ | ⟨m, d1⟩ | _
    · rw [hc] at c2
      obtain ⟨a1, a2, a3⟩ := c2 d1 rfl
      refine ⟨by simp, ?_⟩
      intro d' hd
      simp only [Outcome.session, Option.some.injEq] at hd
      subst hd
      obtain ⟨p1, p2, _, _⟩ := putAll_spec multi (d1.log (Event.WireDoMulti wr multi))
      refine ⟨by rw [p1]; show d1.wire = _; rw [a2, h], by rw [p2]; exact a3, ?_⟩
      have e1 : Extends (Event.onWire wr) d.client (d1.log (Event.WireDoMulti wr multi)).client :=
        ⟨[Event.WireDoMulti wr multi], by simp [DedicatedClusterClient.log, ClusterClient.log, a1],
          by simp [Event.onWire]⟩
      exact e1.trans (putAll_extends wr multi _)
    · rw [hc] at c2
      obtain ⟨a1, a2, a3⟩ := c2 d1 rfl
      refine ⟨by simp, ?_⟩
      intro d' hd
      simp only [Outcome.session, Option.some.injEq] at hd
      subst hd
      exact ⟨by rw [a2, h], a3, Extends.of_trace_eq (by rw [a1])⟩
    · exact absurd hc c1

theorem Keeps.chain {wr : Wire} {d1 d2 d3 : DedicatedClusterClient}
    (h12 : Keeps wr d1 d2) (h23 : Keeps wr d2 d3) : Keeps wr d1 d3 :=
  ⟨h23.1, h23.2.1.trans h12.2.1, h12.2.2.trans h23.2.2⟩

theorem runCallback_keeps (w : World) (ww : Wires) (fn : Callback) (wr : Wire) :
    ∀ (n : Nat) (hist : List (List Result)) (d : DedicatedClusterClient), d.wire = some wr →
    ∀ d', (runCallback w ww fn n hist d).session = some d' → Keeps wr d d' := by
  intro n
  induction n with
  | zero => intro hist d _ d' h; simp [runCallback, Outcome.session] at h
  | succ n ih =>
    intro hist d hw d' h
    rw [runCallback] at h
    have hrefl : Keeps wr d d := ⟨hw, rfl, Extends.refl _ _⟩
    cases ha : fn hist with
    | ret err =>
      simp only [ha, Outcome.session, Option.some.injEq] at h
      subst h; exact hrefl
    | panic msg =>
      simp only [ha, Outcome.session, Option.some.injEq] at h
      subst h; exact hrefl
    | Do cmd =>
      simp only [ha] at h
      obtain ⟨k1, k2⟩ := Do_keeps w ww n cmd d wr hw
      rcases hd : DedicatedClusterClient.Do w ww n cmd d with ⟨r, d1⟩ | ⟨m, d1⟩ | _
      · rw [hd] at k2 h
        have := k2 d1 rfl
        exact this.chain (ih _ d1 this.1 d' h)
      · rw [hd] at k2 h
        simp only [Outcome.session, Option.some.injEq] at h
        subst h
        exact k2 d1 rfl
      · exact absurd hd k1
    | DoMulti multi =>
      simp only [ha] at h
      obtain ⟨k1, k2⟩ := DoMulti_keeps w ww n multi d wr hw
      rcases hd : DedicatedClusterClient.DoMulti w ww n multi d with ⟨r, d1⟩ | ⟨m, d1⟩ | _
      · rw [hd] at k2 h
        have := k2 d1 rfl
        exact this.chain (ih _ d1 this.1 d' h)
      · rw [hd] at k2 h
        simp only [Outcome.session, Option.some.injEq] at h
        subst h
        exact k2 d1 rfl
      · exact absurd hd k1

theorem runCallback_world_free (w w' : World) (ww : Wires) (fn : Callback) (wr : Wire) :
    ∀ (n : Nat) (hist : List (List Result)) (d : DedicatedClusterClient), d.wire = some wr →
    runCallback w' ww fn n hist d = runCallback w ww fn n hist d := by
  intro n
  induction n with
  | zero => intro hist d _; rfl
  | succ n ih =>
    intro hist d hw
    rw [runCallback, runCallback]
    cases ha : fn hist with
    | ret err => rfl
    | panic msg => rfl
    | Do cmd =>
      simp only
      rw [Do_of_wire w' ww n cmd d wr hw, ← Do_of_wire w ww n cmd d wr hw]
      obtain ⟨_, k2⟩ := Do_keeps w ww n cmd d wr hw
      rcases hd : DedicatedClusterClient.Do w ww n cmd d with ⟨r, d1⟩ | ⟨m, d1⟩ | _
      · rw [hd] at k2
        exact ih _ d1 (k2 d1 rfl).1
      · rfl
      · rfl
    | DoMulti multi =>
      simp only
      rw [DoMulti_of_wire w' ww n multi d wr hw, ← DoMulti_of_wire w ww n multi d wr hw]
      obtain ⟨_, k2⟩ := DoMulti_keeps w ww n multi d wr hw
      rcases hd : DedicatedClusterClient.DoMulti w ww n multi d with ⟨r, d1⟩ | ⟨m, d1⟩ | _
      · rw [hd] at k2
        exact ih _ d1 (k2 d1 rfl).1
      · rfl
      · rfl

/-! ## Theorems: the scope of a session -/

theorem checkAll_same : ∀ (multi : List Command) (d : DedicatedClusterClient),
    (∀ cmd ∈ multi, cmd.Slot = InitSlot ∨ cmd.Slot = d.slot) →
    DedicatedClusterClient.checkAll multi d = Outcome.ret () d := by
  intro multi
  induction multi with
  | nil => intro d _; rfl
  | cons cmd rest ih =>
    intro d hall
    have hc := hall cmd (List.mem_cons_self _ _)
    have hck : DedicatedClusterClient.check cmd.Slot d = Outcome.ret () d := by
      unfold DedicatedClusterClient.check
      by_cases h1 : cmd.Slot = InitSlot
      · simp [h1]
      · have h2 : cmd.Slot = d.slot := by
          rcases hc with hc | hc
          · exact absurd hc h1
          · exact hc
        have h3 : ¬ d.slot = InitSlot := by rw [← h2]; exact h1
        simp [h1, h2, h3]
    simp only [DedicatedClusterClient.checkAll, hck]
    exact ih d (fun x hx => hall x (List.mem_cons_of_mem _ hx))

/-- C14.  Once the session holds a wire, whatever the callback does next with
`Do` and `DoMulti`, at every return or panic the session holds the same wire
and the same connection, and since then the client has only recorded
submissions on that wire and recyclings: no `Acquire`, no topology query.  The
run does not depend on the world, which only `pick` consults.  A command that
passes the slot check is submitted with `Do` on the wire and its reply
returned; a non-empty batch whose commands pass the slot check is submitted
with `DoMulti` on the wire, as one pipeline, and its replies returned; an
empty batch submits nothing and leaves the session as it is. -/
theorem session_keeps_its_wire (w : World) (ww : Wires) (fn : Callback) (n : Nat)
    (hist : List (List Result)) (d : DedicatedClusterClient) (wr : Wire)
    (h : d.wire = some wr) :
    (∀ d', (runCallback w ww fn n hist d).session = some d' →
      d'.wire = some wr ∧ d'.conn = d.conn ∧ Extends (Event.onWire wr) d.client d'.client) ∧
    (∀ w', runCallback w' ww fn n hist d = runCallback w ww fn n hist d) ∧
    (∀ cmd, cmd.Slot = InitSlot ∨ cmd.Slot = d.slot →
      DedicatedClusterClient.Do w ww n cmd d = Outcome.ret (ww.Do d.client.trace wr cmd)
        ((d.log (Event.WireDo wr cmd)).log (Event.Put cmd.Commands))) ∧
    (∀ multi, multi.length ≠ 0 → (∀ cmd ∈ multi, cmd.Slot = InitSlot ∨ cmd.Slot = d.slot) →
      DedicatedClusterClient.DoMulti w ww n multi d =
        Outcome.ret (ww.DoMulti d.client.trace wr multi)
          (DedicatedClusterClient.putAll multi (d.log (Event.WireDoMulti wr multi)))) ∧
    DedicatedClusterClient.DoMulti w ww n [] d = Outcome.ret [] d := by
  refine ⟨runCallback_keeps w ww fn wr n hist d h,
    fun w' => runCallback_world_free w w' ww fn wr n hist d h, ?_, ?_, rfl⟩
  · intro cmd hc
    rw [Do_of_wire w ww n cmd d wr h]
    have hck : DedicatedClusterClient.check cmd.Slot d = Outcome.ret () d := by
      unfold DedicatedClusterClient.check
      by_cases h1 : cmd.Slot = InitSlot
      · simp [h1]
      · have h2 : cmd.Slot = d.slot := by
          rcases hc with hc | hc
          · exact absurd hc h1
          · exact hc
        have h3 : ¬ d.slot = InitSlot := by rw [← h2]; exact h1
        simp [h1, h2, h3]
    rw [hck]
  · intro multi h0 hall
    rw [DoMulti_of_wire w ww n multi d wr h, if_neg h0, checkAll_same multi d hall]

/-- C14 on the scenario of §8 and on a scope that uses both methods.  After
the first command of slot 42 has acquired the wire, a second command of slot
42 and a command with `ANY_SLOT` use that wire: one `Acquire`, three
submissions on the wire, one `Store`.  In the second scope the command of slot
42 acquires the wire, and the batch of a command of slot 42 and one with
`ANY_SLOT`, as well as the command after it, are submitted on that wire. -/
theorem session_keeps_its_wire_witness :
    (∃ d0, Dedicated miniWorld okWires 10 (doEach [cmdAt 42, cmdAt 42, pingCmd]) routedClient =
        Outcome.ret none d0 ∧
      d0.client.trace = [Event.Store (connOf "a:1") ⟨10⟩,
        Event.Put pingCmd.Commands, Event.WireDo ⟨10⟩ pingCmd,
        Event.Put (cmdAt 42).Commands, Event.WireDo ⟨10⟩ (cmdAt 42),
        Event.Put (cmdAt 42).Commands, Event.WireDo ⟨10⟩ (cmdAt 42),
        Event.Acquire (connOf "a:1") ⟨10⟩]) ∧
    (∃ d0, Dedicated miniWorld okWires 10
          (doScript [Action.Do (cmdAt 42), Action.DoMulti [cmdAt 42, pingCmd],
            Action.Do pingCmd]) routedClient = Outcome.ret none d0 ∧
      d0.client.trace = [Event.Store (connOf "a:1") ⟨10⟩,
        Event.Put pingCmd.Commands, Event.WireDo ⟨10⟩ pingCmd,
        Event.Put pingCmd.Commands, Event.Put (cmdAt 42).Commands,
        Event.WireDoMulti ⟨10⟩ [cmdAt 42, pingCmd],
        Event.Put (cmdAt 42).Commands, Event.WireDo ⟨10⟩ (cmdAt 42),
        Event.Acquire (connOf "a:1") ⟨10⟩]) ∧
    ∃ d1, DedicatedClusterClient.Do miniWorld okWires 1 (cmdAt 42) (newDedicated routedClient) =
        Outcome.ret okResult d1 ∧ d1.wire = some ⟨10⟩ ∧
      (∀ d', (runCallback miniWorld okWires
            (doScript [Action.DoMulti [cmdAt 42, pingCmd], Action.Do pingCmd]) 5 [] d1).session =
          some d' →
        d'.wire = some ⟨10⟩ ∧ d'.conn = d1.conn ∧
          Extends (Event.onWire ⟨10⟩) d1.client d'.client) ∧
      DedicatedClusterClient.DoMulti miniWorld okWires 5 [cmdAt 42, pingCmd] d1 =
        Outcome.ret (okWires.DoMulti d1.client.trace ⟨10⟩ [cmdAt 42, pingCmd])
          (DedicatedClusterClient.putAll [cmdAt 42, pingCmd]
            (d1.log (Event.WireDoMulti ⟨10⟩ [cmdAt 42, pingCmd]))) := by
  refine ⟨⟨_, rfl, rfl⟩, ⟨_, rfl, rfl⟩, _, rfl, rfl, ?_, ?_⟩
  · exact (session_keeps_its_wire miniWorld okWires
      (doScript [Action.DoMulti [cmdAt 42, pingCmd], Action.Do pingCmd]) 5 [] _ ⟨10⟩ rfl).1
  · exact (session_keeps_its_wire miniWorld okWires
      (doScript [Action.DoMulti [cmdAt 42, pingCmd], Action.Do pingCmd]) 5 [] _ ⟨10⟩
      rfl).2.2.2.1 [cmdAt 42, pingCmd] (by decide) (by decide)

/-! ### Bookkeeping of borrowed wires -/

theorem SessionInv.quiet {c0 : ClusterClient} {d d' : DedicatedClusterClient}
    (h : SessionInv c0 d) (hE : Extends Event.isQuiet d.client d'.client)
    (hw : d'.wire = d.wire) (hc : d'.conn = d.conn) : SessionInv c0 d' := by
  obtain ⟨added, h1, h2, h3⟩ := h
  obtain ⟨more, m1, m2⟩ := hE
  obtain ⟨q1, q2⟩ := countP_quiet more m2
  refine ⟨more ++ added, by rw [m1, h1, List.append_assoc], ?_, ?_⟩
  · rw [List.countP_append, q2, h2]
  · rcases h3 with ⟨a, b⟩ | ⟨wr, cc, a, b, e, f⟩
    · left
      exact ⟨by rw [hw, a], by rw [List.countP_append, q1, b]⟩
    · right
      exact ⟨wr, cc, by rw [hw, a], by rw [hc, b], by rw [List.countP_append, q1, e],
        List.mem_append_right _ f⟩

theorem SessionInv.acquired {c0 c1 : ClusterClient} {d d' : DedicatedClusterClient}
    {cc : Conn} {wr : Wire}
    (h : SessionInv c0 d) (hn : d.wire = none) (hE : Extends Event.isQuiet d.client c1)
    (ht : d'.client.trace = Event.Acquire cc wr :: c1.trace)
    (hw : d'.wire = some wr) (hc : d'.conn = some cc) : SessionInv c0 d' := by
  obtain ⟨added, h1, h2, h3⟩ := h
  obtain ⟨more, m1, m2⟩ := hE
  obtain ⟨q1, q2⟩ := countP_quiet more m2
  have h0 : added.countP Event.isAcquire = 0 := by
    rcases h3 with ⟨_, b⟩ | ⟨wr', cc', a, _⟩
    · exact b
    · rw [hn] at a; exact absurd a (by simp)
  refine ⟨Event.Acquire cc wr :: (more ++ added), ?_, ?_, Or.inr ⟨wr, cc, hw, hc, ?_, ?_⟩⟩
  · rw [ht, m1, h1]; simp
  · rw [List.countP_cons, List.countP_append, q2, h2]; simp [Event.isStore]
  · rw [List.countP_cons, List.countP_append, q1, h0]; simp [Event.isAcquire]
  · exact List.mem_cons_self _ _

theorem acquire_inv (w : World) (ww : Wires) (n : Nat) (c0 : ClusterClient)
    (d : DedicatedClusterClient) (h : SessionInv c0 d) :
    ∀ d', (DedicatedClusterClient.acquire w ww n d).session = some d' → SessionInv c0 d' := by
  intro d' hd
  unfold DedicatedClusterClient.acquire at hd
  cases hw : d.wire with
  | some wr =>
    simp only [hw, Outcome.session, Option.some.injEq] at hd
    subst hd; exact h
  | none =>
    simp only [hw] at hd
    by_cases hs : d.slot = InitSlot
    · simp only [hs, if_true, Outcome.session, Option.some.injEq] at hd
      subst hd; exact h
    · simp only [hs, if_false] at hd
      rcases hp : pick w n d.slot d.client with ⟨x, c1⟩ | m | _
      · have E := (pick_extends hp).mono isRefresh_isQuiet
        cases x with
        | error e =>
          simp only [hp, Outcome.session, Option.some.injEq] at hd
          subst hd
          obtain ⟨added, h1, h2, h3⟩ := h
          obtain ⟨more, m1, m2⟩ := E
          obtain ⟨q1, q2⟩ := countP_quiet more m2
          have h0 : added.countP Event.isAcquire = 0 := by
            rcases h3 with ⟨_, b⟩ | ⟨wr', cc', a, _⟩
            · exact b
            · rw [hw] at a; exact absurd a (by simp)
          refine ⟨more ++ added, by simp only; rw [m1, h1, List.append_assoc], ?_, Or.inl ⟨rfl, ?_⟩⟩
          · rw [List.countP_append, q2, h2]
          · rw [List.countP_append, q1, h0]
        | ok cc =>
          simp only [hp, Outcome.session, Option.some.injEq] at hd
          subst hd
          exact SessionInv.acquired h hw E rfl rfl rfl
      · simp only [hp, Outcome.session, Option.some.injEq] at hd
        subst hd; exact h
      · simp [hp, Outcome.session] at hd

theorem Do_inv (w : World) (ww : Wires) (n : Nat) (cmd : Command) (c0 : ClusterClient)
    (d : DedicatedClusterClient) (h : SessionInv c0 d) :
    ∀ d', (DedicatedClusterClient.Do w ww n cmd d).session = some d' → SessionInv c0 d' := by
  intro d' hd
  unfold DedicatedClusterClient.Do at hd
  obtain ⟨c1, c2⟩ := check_session cmd.Slot d
  rcases hc : DedicatedClusterClient.check cmd.Slot d with ⟨u, d1⟩ | ⟨m, d1⟩ | _
  · rw [hc] at c2
    obtain ⟨a1, a2, a3⟩ := c2 d1 rfl
    have h1 : SessionInv c0 d1 := h.quiet (Extends.of_trace_eq (by rw [a1])) a2 a3
    simp only [hc] at hd
    have A := acquire_inv w ww n c0 d1 h1
    rcases ha : DedicatedClusterClient.acquire w ww n d1 with ⟨e, d2⟩ | ⟨m, d2⟩ | _
    · rw [ha] at A
      have h2 := A d2 rfl
      cases e with
      | some err =>
        simp only [ha, Outcome.session, Option.some.injEq] at hd
        subst hd; exact h2
      | none =>
        simp only [ha] at hd
        cases hw : d2.wire with
        | some wr =>
          simp only [hw, Outcome.session, Option.some.injEq] at hd
          subst hd
          refine h2.quiet ⟨[Event.Put cmd.Commands, Event.WireDo wr cmd], rfl, ?_⟩ rfl rfl
          intro e he
          simp only [List.mem_cons, List.mem_singleton, List.not_mem_nil, or_false] at he
          rcases he with he | he <;> subst he <;> rfl
        | none =>
          simp only [hw, Outcome.session, Option.some.injEq] at hd
          subst hd; exact h2
    · rw [ha] at A
      simp only [ha, Outcome.session, Option.some.injEq] at hd
      subst hd; exact A d2 rfl
    · simp [ha, Outcome.session] at hd
  · rw [hc] at c2
    obtain ⟨a1, a2, a3⟩ := c2 d1 rfl
    simp only [hc, Outcome.session, Option.some.injEq] at hd
    subst hd
    exact h.quiet (Extends.of_trace_eq (by rw [a1])) a2 a3
  · exact absurd hc c1

theorem putAll_quiet (cmds : List Command) (d : DedicatedClusterClient) :
    Extends Event.isQuiet d.client (DedicatedClusterClient.putAll cmds d).client := by
  obtain ⟨_, _, _, added, h4, h5, _⟩ := putAll_spec cmds d
  refine ⟨added, h4, fun e he => ?_⟩
  have := h5 e he
  cases e <;> simp_all [Event.isPut, Event.isQuiet, Event.isAcquire, Event.isStore]

theorem DoMulti_inv (w : World) (ww : Wires) (n : Nat) (multi : List Command)
    (c0 : ClusterClient) (d : DedicatedClusterClient) (h : SessionInv c0 d) :
    ∀ d', (DedicatedClusterClient.DoMulti w ww n multi d).session = some d' →
      SessionInv c0 d' := by
  intro d' hd
  unfold DedicatedClusterClient.DoMulti at hd
  by_cases h0 : multi.length = 0
  · simp only [h0, if_true, Outcome.session, Option.some.injEq] at hd
    subst hd; exact h
  · simp only [h0, if_false] at hd
    obtain ⟨c1, c2⟩ := checkAll_session multi d
    rcases hc : DedicatedClusterClient.checkAll multi d with ⟨u, d1⟩ | ⟨m, d1⟩ | _
    · rw [hc] at c2
      obtain ⟨a1, a2, a3⟩ := c2 d1 rfl
      have h1 : SessionInv c0 d1 := h.quiet (Extends.of_trace_eq (by rw [a1])) a2 a3
      simp only [hc] at hd
      have A := acquire_inv w ww n c0 d1 h1
      rcases ha : DedicatedClusterClient.acquire w ww n d1 with ⟨e, d2⟩ | ⟨m, d2⟩ | _
      · rw [ha] at A
        have h2 := A d2 rfl
        cases e with
        | some err =>
          simp only [ha, Outcome.session, Option.some.injEq] at hd
          subst hd
          obtain ⟨p1, p2, _, _⟩ := putAll_spec multi d2
          exact h2.quiet (putAll_quiet multi d2) p1 p2
        | none =>
          simp only [ha] at hd
          cases hw : d2.wire with
          | some wr =>
            simp only [hw, Outcome.session, Option.some.injEq] at hd
            subst hd
            obtain ⟨p1, p2, _, _⟩ := putAll_spec multi (d2.log (Event.WireDoMulti wr multi))
            have e1 : Extends Event.isQuiet d2.client (d2.log (Event.WireDoMulti wr multi)).client :=
              ⟨[Event.WireDoMulti wr multi], rfl, by
                intro e he
                simp only [List.mem_singleton] at he
                subst he; rfl⟩
            exact h2.quiet (e1.trans (putAll_quiet multi _)) p1 p2
          | none =>
            simp only [hw, Outcome.session, Option.some.injEq] at hd
            subst hd; exact h2
      · rw [ha] at A
        simp only [ha, Outcome.session, Option.some.injEq] at hd
        subst hd; exact A d2 rfl
      · simp [ha, Outcome.session] at hd
    · rw [hc] at c2
      obtain ⟨a1, a2, a3⟩ := c2 d1 rfl
      simp only [hc, Outcome.session, Option.some.injEq] at hd
      subst hd
      exact h.quiet (Extends.of_trace_eq (by rw [a1])) a2 a3
    · exact absurd hc c1

theorem runCallback_inv (w : World) (ww : Wires) (fn : Callback) (c0 : ClusterClient) :
    ∀ (n : Nat) (hist : List (List Result)) (d : DedicatedClusterClient), SessionInv c0 d →
    ∀ d', (runCallback w ww fn n hist d).session = some d' → SessionInv c0 d' := by
  intro n
  induction n with
  | zero => intro hist d _ d' h; simp [runCallback, Outcome.session] at h
  | succ n ih =>
    intro hist d hi d' h
    rw [runCallback] at h
    cases ha : fn hist with
    | ret err =>
      simp only [ha, Outcome.session, Option.some.injEq] at h
      subst h; exact hi
    | panic msg =>
      simp only [ha, Outcome.session, Option.some.injEq] at h
      subst h; exact hi
    | Do cmd =>
      simp only [ha] at h
      have K := Do_inv w ww n cmd c0 d hi
      rcases hd : DedicatedClusterClient.Do w ww n cmd d with ⟨r, d1⟩ | ⟨m, d1⟩ | _
      · rw [hd] at K h
        exact ih _ d1 (K d1 rfl) d' h
      · rw [hd] at K h
        simp only [Outcome.session, Option.some.injEq] at h
        subst h
        exact K d1 rfl
      · simp [hd, Outcome.session] at h
    | DoMulti multi =>
      simp only [ha] at h
      have K := DoMulti_inv w ww n multi c0 d hi
      rcases hd : DedicatedClusterClient.DoMulti w ww n multi d with ⟨r, d1⟩ | ⟨m, d1⟩ | _
      · rw [hd] at K h
        exact ih _ d1 (K d1 rfl) d' h
      · rw [hd] at K h
        simp only [Outcome.session, Option.some.injEq] at h
        subst h
        exact K d1 rfl
      · simp [hd, Outcome.session] at h

theorem newDedicated_inv (c : ClusterClient) : SessionInv c (newDedicated c) :=
  ⟨[], rfl, rfl, Or.inl ⟨rfl, rfl⟩⟩

/-- C15, as stated, fails when the callback panics: after a command of slot
42 has acquired the wire, a command of slot 99 panics in the slot check; the
panic leaves `Dedicated` with the wire still held by the session, one
`Acquire` and no `Store` recorded. -/
theorem Dedicated_panic_skips_release :
    ∃ d, Dedicated miniWorld okWires 10 (doEach [cmdAt 42, cmdAt 99]) routedClient =
        Outcome.panic "cross slot command in Dedicated is prohibited" d ∧
      d.wire = some ⟨10⟩ ∧ d.conn = some (connOf "a:1") ∧
      d.client.trace.countP Event.isAcquire = 1 ∧ d.client.trace.countP Event.isStore = 0 :=
  ⟨_, rfl, rfl, rfl, by decide, by decide⟩

/-- C15, amended.  When the callback returns, with a nil or a non-nil error,
`Dedicated` returns that error unchanged, and over the whole scope: if the
session holds no wire, no wire has been borrowed and none is returned; if it
holds one, that wire has been borrowed once, from the connection of the
session, and `Dedicated` returns it to that connection with one `Store`, its
last effect. -/
theorem Dedicated_releases_on_return (w : World) (ww : Wires) (n : Nat) (fn : Callback)
    (c : ClusterClient) (err : Option Error) (d' : DedicatedClusterClient)
    (h : Dedicated w ww n fn c = Outcome.ret err d') :
    ∃ d0 added, runCallback w ww fn n [] (newDedicated c) = Outcome.ret err d0 ∧
      d0.client.trace = added ++ c.trace ∧ added.countP Event.isStore = 0 ∧
      ((d0.wire = none ∧ d' = d0 ∧ added.countP Event.isAcquire = 0) ∨
       (∃ wr cc, d0.wire = some wr ∧ d0.conn = some cc ∧
          added.countP Event.isAcquire = 1 ∧ Event.Acquire cc wr ∈ added ∧
          d'.client.trace = Event.Store cc wr :: (added ++ c.trace))) := by
  unfold Dedicated at h
  have K := runCallback_inv w ww fn c n [] (newDedicated c) (newDedicated_inv c)
  rcases hr : runCallback w ww fn n [] (newDedicated c) with ⟨e, d0⟩ | ⟨m, d0⟩ | _
  · rw [hr] at K h
    obtain ⟨added, h1, h2, h3⟩ := K d0 rfl
    simp only at h
    unfold DedicatedClusterClient.release at h
    rcases h3 with ⟨a, b⟩ | ⟨wr, cc, a, b, e1, f⟩
    · simp only [a, Outcome.ret.injEq] at h
      refine ⟨d0, added, by rw [h.1], h1, h2, Or.inl ⟨a, h.2.symm, b⟩⟩
    · simp only [a, b, Outcome.ret.injEq] at h
      refine ⟨d0, added, by rw [h.1], h1, h2, Or.inr ⟨wr, cc, a, b, e1, f, ?_⟩⟩
      rw [← h.2, ← h1]; rfl
  · simp [hr] at h
  · simp [hr] at h

/-- C15 amended, on the scenario of §8 and on a callback that returns an
error without using the session. -/
theorem Dedicated_releases_on_return_witness :
    (∃ d, Dedicated miniWorld okWires 10 (fun _ => Action.ret (some Error.ErrConnClosing))
        routedClient = Outcome.ret (some Error.ErrConnClosing) d ∧ d.client.trace = []) ∧
    ∃ d', Dedicated miniWorld okWires 10 (doEach [cmdAt 42, cmdAt 42, pingCmd]) routedClient =
        Outcome.ret none d' ∧
      ∃ d0 added, runCallback miniWorld okWires (doEach [cmdAt 42, cmdAt 42, pingCmd]) 10 []
          (newDedicated routedClient) = Outcome.ret none d0 ∧
        d0.client.trace = added ++ routedClient.trace ∧ added.countP Event.isStore = 0 ∧
        ((d0.wire = none ∧ d' = d0 ∧ added.countP Event.isAcquire = 0) ∨
         (∃ wr cc, d0.wire = some wr ∧ d0.conn = some cc ∧
            added.countP Event.isAcquire = 1 ∧ Event.Acquire cc wr ∈ added ∧
            d'.client.trace = Event.Store cc wr :: (added ++ routedClient.trace))) :=
  ⟨⟨_, rfl, rfl⟩, _, rfl,
    Dedicated_releases_on_return miniWorld okWires 10 (doEach [cmdAt 42, cmdAt 42, pingCmd])
      routedClient none _ rfl⟩

/-! ## Lemmas: version text, argument lists and hashes -/

theorem digitChar_spec (k : Nat) (h : k < 10) :
    (Nat.digitChar k).isDigit = true ∧ (Nat.digitChar k).toNat - 48 = k := by
  interval_cases k <;> decide

theorem digitsValue_foldl (ds : List Char) :
    ∀ a : Nat, ds.foldl (fun a c => a * 10 + (c.toNat - 48)) a =
      a * 10 ^ ds.length + digitsValue ds := by
  induction ds with
  | nil => intro a; simp [digitsValue]
  | cons c rest ih =>
    intro a
    simp only [List.foldl_cons, List.length_cons, digitsValue]
    rw [ih, ih (0 * 10 + (c.toNat - 48))]
    ring

theorem digitsValue_cons (c : Char) (ds : List Char) :
    digitsValue (c :: ds) = (c.toNat - 48) * 10 ^ ds.length + digitsValue ds := by
  simp only [digitsValue, List.foldl_cons]
  rw [digitsValue_foldl]
  simp [digitsValue]

theorem toDigitsCore_spec :
    ∀ (fuel n : Nat) (ds : List Char), n < fuel → (∀ c ∈ ds, c.isDigit = true) →
      (∀ c ∈ Nat.toDigitsCore 10 fuel n ds, c.isDigit = true) ∧
      digitsValue (Nat.toDigitsCore 10 fuel n ds) = n * 10 ^ ds.length + digitsValue ds ∧
      Nat.toDigitsCore 10 fuel n ds ≠ [] := by
  intro fuel
  induction fuel with
  | zero => intro n ds h; omega
  | succ fuel ih =>
    intro n ds h hd
    have hm : n % 10 < 10 := Nat.mod_lt _ (by decide)
    obtain ⟨d1, d2⟩ := digitChar_spec (n % 10) hm
    have hd1 : ∀ c ∈ Nat.digitChar (n % 10) :: ds, c.isDigit = true := by
      intro c hc
      rcases List.mem_cons.mp hc with e | e
      · rw [e]; exact d1
      · exact hd c e
    simp only [Nat.toDigitsCore]
    by_cases h0 : n / 10 = 0
    · simp only [h0, if_true]
      refine ⟨hd1, ?_, by simp⟩
      rw [digitsValue_cons, d2]
      have : n % 10 = n := by omega
      rw [this]
    · simp only [h0, if_false]
      have hlt : n / 10 < fuel := by omega
      obtain ⟨a, b, c⟩ := ih (n / 10) (Nat.digitChar (n % 10) :: ds) hlt hd1
      refine ⟨a, ?_, c⟩
      rw [b, digitsValue_cons, d2, List.length_cons, pow_succ]
      have := Nat.div_add_mod n 10
      calc n / 10 * (10 ^ ds.length * 10) + (n % 10 * 10 ^ ds.length + digitsValue ds)
          = (10 * (n / 10) + n % 10) * 10 ^ ds.length + digitsValue ds := by ring
        _ = n * 10 ^ ds.length + digitsValue ds := by rw [this]

theorem toString_data (v : Nat) : (toString v).data = Nat.toDigits 10 v := rfl

theorem luaTonumber_toString (v : Nat) :
    luaTonumber (toString v) = Tonumber.number (roundDouble v) := by
  obtain ⟨a, b, c⟩ := toDigitsCore_spec (v + 1) v [] (Nat.lt_succ_self v) (by simp)
  unfold luaTonumber
  rw [toString_data]
  have hall : (Nat.toDigits 10 v).all Char.isDigit = true := by
    rw [List.all_eq_true]; exact a
  have hv : digitsValue (Nat.toDigits 10 v) = v := by
    have := b
    simp [digitsValue] at this
    simpa [digitsValue, Nat.toDigits] using this
  simp only [Nat.toDigits] at hall hv ⊢
  rw [if_neg c, if_pos hall, hv]

theorem luaTostring_succ (v : Nat) (h : v + 1 < 10 ^ 14) :
    luaTostring (roundDouble v).addOne = toString (v + 1) := by
  have h1 : v < 2 ^ 53 := by
    have : (10 : Nat) ^ 14 < 2 ^ 53 := by norm_num
    omega
  have h2 : v + 1 < 2 ^ 53 := by
    have : (10 : Nat) ^ 14 < 2 ^ 53 := by norm_num
    omega
  simp only [roundDouble, h1, if_true, LuaNumber.addOne, h2, luaTostring, h]

/-! ### Argument lists and hashes -/

theorem length_flatPairs (l : List (String × String)) : (flatPairs l).length = 2 * l.length := by
  induction l with
  | nil => rfl
  | cons x rest ih =>
    obtain ⟨f, v⟩ := x
    simp only [flatPairs, List.length_cons, ih]; omega

theorem flatPairs_append (l1 l2 : List (String × String)) :
    flatPairs (l1 ++ l2) = flatPairs l1 ++ flatPairs l2 := by
  induction l1 with
  | nil => rfl
  | cons x rest ih =>
    obtain ⟨f, v⟩ := x
    simp [flatPairs, ih]

theorem saveArgsLoop_spec (l : List (String × String)) :
    ∀ args, saveArgsLoop l args =
      args ++ flatPairs (l.filter (fun p => decide (p.1 ≠ VersionField))) := by
  induction l with
  | nil => intro args; simp [saveArgsLoop, flatPairs]
  | cons x rest ih =>
    intro args
    obtain ⟨f, v⟩ := x
    simp only [saveArgsLoop]
    by_cases h : f = VersionField
    · simp [h, ih]
    · simp [h, ih, flatPairs]

theorem GoMap.get?_filter_ne {V : Type} (m : GoMap V) (k a : String) (h : a ≠ k) :
    GoMap.get? (m.filter (fun p => decide (p.1 ≠ k))) a = m.get? a := by
  induction m with
  | nil => rfl
  | cons x rest ih =>
    obtain ⟨k', v'⟩ := x
    by_cases e : k' = k
    · subst e
      have : ¬ k' = a := fun e => h e.symm
      rw [List.filter_cons_of_neg (by simp)]
      simp only [GoMap.get?, this, if_false]
      exact ih
    · rw [List.filter_cons_of_pos (by simpa using e)]
      simp only [GoMap.get?]
      rw [ih]

theorem GoMap.keys_filter_sublist {V : Type} (m : GoMap V) (p : String × V → Bool) :
    (GoMap.keys (m.filter p)).Sublist m.keys := by
  unfold GoMap.keys
  exact (List.filter_sublist m).map Prod.fst

theorem GoMap.not_mem_keys_filter {V : Type} (m : GoMap V) (k : String) :
    k ∉ GoMap.keys (m.filter (fun p => decide (p.1 ≠ k))) := by
  intro h
  unfold GoMap.keys at h
  obtain ⟨p, hp, e⟩ := List.mem_map.mp h
  have := (List.mem_filter.mp hp).2
  simp at this
  exact this e

theorem GoMap.get?_perm {V : Type} (m1 m2 : GoMap V) (hp : m1.Perm m2) (hn : m2.keys.Nodup)
    (a : String) : m1.get? a = m2.get? a := by
  have hn1 : m1.keys.Nodup := (hp.map Prod.fst).nodup_iff.mpr hn
  cases h : m2.get? a with
  | some v =>
    exact GoMap.get?_of_mem m1 a v hn1 (hp.mem_iff.mpr (GoMap.mem_of_get? m2 a v h))
  | none =>
    cases h1 : m1.get? a with
    | none => rfl
    | some v =>
      have := GoMap.get?_of_mem m2 a v hn (hp.mem_iff.mp (GoMap.mem_of_get? m1 a v h1))
      rw [h] at this; exact absurd this (by simp)

theorem GoMap.length_filter_ne {V : Type} (m : GoMap V) (k : String) (v : V)
    (hn : m.keys.Nodup) (h : m.get? k = some v) :
    (m.filter (fun p => decide (p.1 ≠ k))).length + 1 = m.length := by
  induction m with
  | nil => simp [GoMap.get?] at h
  | cons x rest ih =>
    obtain ⟨k', v'⟩ := x
    simp only [GoMap.keys, List.map_cons, List.nodup_cons] at hn
    by_cases e : k' = k
    · subst e
      have hall : rest.filter (fun p => decide (p.1 ≠ k')) = rest := by
        rw [List.filter_eq_self]
        intro p hp
        have : p.1 ≠ k' := by
          intro e2
          exact hn.1 (List.mem_map.mpr ⟨p, hp, e2⟩)
        simpa using this
      rw [List.filter_cons_of_neg (by simp), hall]
      simp
    · simp only [GoMap.get?, e, if_false] at h
      rw [List.filter_cons_of_pos (by simpa using e)]
      simp only [List.length_cons]
      have := ih hn.2 h
      omega

theorem foldl_set_get? (l : List (String × String)) (hn : (GoMap.keys l).Nodup) (a : String) :
    ∀ h : Hash, GoMap.get? (l.foldl (fun h p => GoMap.set h p.1 p.2) h) a =
      match GoMap.get? l a with
      | some x => some x
      | none => GoMap.get? h a := by
  induction l with
  | nil => intro h; rfl
  | cons x rest ih =>
    intro h
    obtain ⟨k, v⟩ := x
    simp only [GoMap.keys, List.map_cons, List.nodup_cons] at hn
    simp only [List.foldl_cons, GoMap.get?]
    rw [ih hn.2, GoMap.get?_set]
    by_cases e : k = a
    · subst e
      have : GoMap.get? rest k = none := by
        cases h1 : GoMap.get? rest k with
        | none => rfl
        | some y =>
          have := (GoMap.get?_isSome_iff rest k).mp (by rw [h1]; rfl)
          exact absurd this hn.1
      simp [this]
    · have : ¬ a = k := fun e2 => e e2.symm
      simp [e, this]

theorem foldl_set_nodup (l : List (String × String)) :
    ∀ h : Hash, (GoMap.keys h).Nodup →
      (GoMap.keys (l.foldl (fun h p => GoMap.set h p.1 p.2) h)).Nodup := by
  induction l with
  | nil => intro h hh; exact hh
  | cons x rest ih =>
    intro h hh
    exact ih _ (GoMap.nodup_set h x.1 x.2 hh)

theorem hsetPairs_flatPairs (l : List (String × String)) :
    ∀ h : Hash, hsetPairs (flatPairs l) h = some (l.foldl (fun h p => GoMap.set h p.1 p.2) h) := by
  induction l with
  | nil => intro h; rfl
  | cons x rest ih =>
    intro h
    obtain ⟨k, v⟩ := x
    simp only [flatPairs, hsetPairs, List.foldl_cons, ih]

/-! ## Theorems: saving a versioned entity -/

theorem saveArgs_shape (order : Nat → Nat) (ver : String) (fields : GoMap String)
    (hn : fields.keys.Nodup) (hv : fields.get? VersionField = some ver) :
    ∃ others : List (String × String),
      saveArgs order ver fields = VersionField :: ver :: flatPairs others ∧
      (saveArgs order ver fields).length = 2 * fields.length ∧
      others.Perm (fields.filter (fun p => decide (p.1 ≠ VersionField))) ∧
      (GoMap.keys others).Nodup ∧ VersionField ∉ GoMap.keys others ∧
      (∀ f, f ≠ VersionField → GoMap.get? others f = fields.get? f) ∧
      (∀ f v, (f, v) ∈ others ↔ (f ≠ VersionField ∧ fields.get? f = some v)) := by
  have hperm := permute_perm order fields.length 0 fields rfl
  have hfp : ((permute order fields.length 0 fields).filter
      (fun p => decide (p.1 ≠ VersionField))).Perm
      (fields.filter (fun p => decide (p.1 ≠ VersionField))) := hperm.filter _
  have hnf : (GoMap.keys (fields.filter (fun p => decide (p.1 ≠ VersionField)))).Nodup :=
    (GoMap.keys_filter_sublist fields _).nodup hn
  have hno : (GoMap.keys ((permute order fields.length 0 fields).filter
      (fun p => decide (p.1 ≠ VersionField)))).Nodup :=
    (hfp.map Prod.fst).nodup_iff.mpr hnf
  have hget : ∀ f, f ≠ VersionField →
      GoMap.get? ((permute order fields.length 0 fields).filter
        (fun p => decide (p.1 ≠ VersionField))) f = fields.get? f := by
    intro f hf
    rw [GoMap.get?_perm _ _ hfp hnf f, GoMap.get?_filter_ne fields VersionField f hf]
  refine ⟨_, ?_, ?_, hfp, hno, ?_, hget, ?_⟩
  · unfold saveArgs
    rw [saveArgsLoop_spec]; rfl
  · unfold saveArgs
    rw [saveArgsLoop_spec, List.length_append, length_flatPairs, hfp.length_eq]
    have := GoMap.length_filter_ne fields VersionField ver hn hv
    simp only [List.length_cons, List.length_nil]
    omega
  · intro h
    have h2 : VersionField ∈ GoMap.keys (fields.filter (fun p => decide (p.1 ≠ VersionField))) :=
      ((hfp.map Prod.fst).mem_iff).mp h
    exact GoMap.not_mem_keys_filter fields VersionField h2
  · intro f v
    constructor
    · intro hm
      have h1 := hfp.mem_iff.mp hm
      have h2 := List.mem_filter.mp h1
      have hf : f ≠ VersionField := by simpa using h2.2
      exact ⟨hf, GoMap.get?_of_mem fields f v hn h2.1⟩
    · rintro ⟨hf, hg⟩
      have := hget f hf
      rw [hg] at this
      exact GoMap.mem_of_get? _ f v this

/-- C16.  For an entity whose field map holds the version field, `Save` runs
the script once, with the single key `prefix + ":" + id` and with an argument
list of twice as many elements as there are fields: the version field name,
the current version, then the name/value pairs of the other fields, each of
them once with its own value, the version field not among them.  What `Save`
returns is decided by the result of that call. -/
theorem Save_script_arguments {S E : Type} (r : HashRepository S E) (order : Nat → Nat)
    (entity : E) (s : S) (id : String) (fields : GoMap String) (ver : String)
    (hT : r.conv.ToHash entity = (id, fields)) (hn : fields.keys.Nodup)
    (hv : fields.get? VersionField = some ver) :
    ∃ others : List (String × String),
      r.Save order entity s =
        (r.saveReply entity id fields
          (r.execFn s [r.pfx ++ ":" ++ id] (VersionField :: ver :: flatPairs others)).1,
         (r.execFn s [r.pfx ++ ":" ++ id] (VersionField :: ver :: flatPairs others)).2) ∧
      (VersionField :: ver :: flatPairs others).length = 2 * fields.length ∧
      others.Perm (fields.filter (fun p => decide (p.1 ≠ VersionField))) ∧
      (GoMap.keys others).Nodup ∧ VersionField ∉ GoMap.keys others ∧
      (∀ f v, (f, v) ∈ others ↔ (f ≠ VersionField ∧ fields.get? f = some v)) := by
  obtain ⟨others, h1, h2, h3, h4, h5, _, h7⟩ := saveArgs_shape order ver fields hn hv
  refine ⟨others, ?_, by rw [← h1]; exact h2, h3, h4, h5, h7⟩
  unfold HashRepository.Save
  rw [hT]
  simp only [hv, h1, HashRepository.key]

/-- C16 on a note at version 3 with one field besides the version. -/
theorem Save_script_arguments_witness :
    ∃ others : List (String × String),
      (storeRepository "note" noteConv).Save (fun _ => 1) ⟨"a", "3", "hello"⟩ [] =
        ((storeRepository "note" noteConv).saveReply ⟨"a", "3", "hello"⟩ "a"
            [(VersionField, "3"), ("Text", "hello")]
            (scriptExec [] ["note:a"] (VersionField :: "3" :: flatPairs others)).1,
          (scriptExec [] ["note:a"] (VersionField :: "3" :: flatPairs others)).2) ∧
      (VersionField :: "3" :: flatPairs others).length = 2 * 2 ∧
      others.Perm ([(VersionField, "3"), ("Text", "hello")].filter
        (fun p => decide (p.1 ≠ VersionField))) ∧
      (GoMap.keys others).Nodup ∧ VersionField ∉ GoMap.keys others ∧
      (∀ f v, (f, v) ∈ others ↔
        (f ≠ VersionField ∧ GoMap.get? [(VersionField, "3"), ("Text", "hello")] f = some v)) :=
  Save_script_arguments (storeRepository "note" noteConv) (fun _ => 1)
    ⟨"a", "3", "hello"⟩ [] "a" [(VersionField, "3"), ("Text", "hello")] "3" rfl
    (by decide) rfl

/-- C17.  For a versioned entity, `Save` maps the result of the script to its
outcome.  A string reply `v` makes `Save` hand the entity to `FromHash` with
the field map in which the version entry is `v` and every other entry is as
it was, and return what `FromHash` returns.  A nil reply makes it return
`ErrVersionMismatch`, any other error is returned as it is, and in these two
cases the entity is the one passed in. -/
theorem Save_maps_script_reply {S E : Type} (r : HashRepository S E) (order : Nat → Nat)
    (entity : E) (s : S) (id : String) (fields : GoMap String) (ver : String)
    (hT : r.conv.ToHash entity = (id, fields))
    (hv : fields.get? VersionField = some ver) :
    (∀ v, (r.execFn s [r.key id] (saveArgs order ver fields)).1 = Result.val (Message.str v) →
      (r.Save order entity s).1 = r.conv.FromHash entity id (fields.set VersionField v) ∧
      (fields.set VersionField v).get? VersionField = some v ∧
      (∀ f, f ≠ VersionField → (fields.set VersionField v).get? f = fields.get? f) ∧
      (∀ entity1, r.conv.FromHash entity id (fields.set VersionField v) = (none, entity1) →
        (r.Save order entity s).1 = (none, entity1))) ∧
    ((r.execFn s [r.key id] (saveArgs order ver fields)).1 = Result.val Message.null →
      (r.Save order entity s).1 = (some Error.ErrVersionMismatch, entity)) ∧
    (∀ e, (r.execFn s [r.key id] (saveArgs order ver fields)).1.ToString.2 = some e →
      IsRedisNil (some e) = false → (r.Save order entity s).1 = (some e, entity)) ∧
    (IsRedisNil (r.execFn s [r.key id] (saveArgs order ver fields)).1.ToString.2 = true →
      (r.Save order entity s).1 = (some Error.ErrVersionMismatch, entity)) ∧
    (∀ e, (Result.err e).ToString.2 = some e) ∧
    (∀ e, (Result.redisErr e).ToString.2 = some (Error.redis e)) := by
  have hS : (r.Save order entity s).1 =
      r.saveReply entity id fields (r.execFn s [r.key id] (saveArgs order ver fields)).1 := by
    unfold HashRepository.Save
    rw [hT]
    simp only [hv]
  refine ⟨?_, ?_, ?_, ?_, fun e => rfl, fun e => rfl⟩
  · intro v hr
    have h1 : (r.Save order entity s).1 =
        r.conv.FromHash entity id (fields.set VersionField v) := by
      rw [hS, hr]; rfl
    refine ⟨h1, ?_, ?_, ?_⟩
    · rw [GoMap.get?_set]; simp
    · intro f hf
      rw [GoMap.get?_set]; simp [hf]
    · intro entity1 h2
      rw [h1, h2]
  · intro hr
    rw [hS, hr]; rfl
  · intro e he hnil
    rw [hS]
    unfold HashRepository.saveReply
    simp only [he, hnil]
    simp
  · intro hnil
    rw [hS]
    unfold HashRepository.saveReply
    simp only [hnil, if_true]

/-- C17 on the note repository: a save at the stored version 3 is answered
by the string `"4"` and the note leaves with version `"4"`, its text as it
was; a save at version 2 is answered by nil and the note is left as passed. -/
theorem Save_maps_script_reply_witness :
    (noteRepo.Save (fun _ => 0) ⟨"a", "3", "hello"⟩ [("note:a", [(VersionField, "3")])]).1 =
      (none, ⟨"a", "4", "hello"⟩) ∧
    (noteRepo.Save (fun _ => 0) ⟨"a", "2", "hello"⟩ [("note:a", [(VersionField, "3")])]).1 =
      (some Error.ErrVersionMismatch, ⟨"a", "2", "hello"⟩) :=
  ⟨((Save_maps_script_reply noteRepo (fun _ => 0) ⟨"a", "3", "hello"⟩
      [("note:a", [(VersionField, "3")])] "a" [(VersionField, "3"), ("Text", "hello")] "3"
      rfl rfl).1 "4" rfl).2.2.2 _ rfl,
   (Save_maps_script_reply noteRepo (fun _ => 0) ⟨"a", "2", "hello"⟩
      [("note:a", [(VersionField, "3")])] "a" [(VersionField, "2"), ("Text", "hello")] "2"
      rfl rfl).2.1 rfl⟩

/-! ## Lemmas: the save script -/

theorem saveArgs_version (order : Nat → Nat) (ver : String) (fields : GoMap String) :
    (saveArgs order ver fields)[1]? = some ver := by
  unfold saveArgs
  rw [saveArgsLoop_spec]
  simp

theorem saveScript_stale (key : String) (ARGV : List String) (s : Store) (cur : String)
    (hcur : s.HGET key VersionField = some cur) (hne : ARGV[1]? ≠ some cur) :
    saveScript [key] ARGV s = ScriptRun.reply ScriptReply.nil s := by
  unfold saveScript
  simp only [hcur]
  have : ¬ (some cur = none ∨ some cur = ARGV[1]?) := by
    rintro (h | h)
    · exact absurd h (by simp)
    · exact hne h.symm
  rw [if_neg this]

theorem saveScript_step (s : Store) (key : String) (v : Nat) (others : List (String × String))
    (hv : v + 1 < 10 ^ 14)
    (hcur : s.HGET key VersionField = none ∨ s.HGET key VersionField = some (toString v)) :
    saveScript [key] (VersionField :: toString v :: flatPairs others) s =
      ScriptRun.reply (ScriptReply.str (toString (v + 1)))
        (GoMap.set s key (others.foldl (fun h p => GoMap.set h p.1 p.2)
          (GoMap.set ((GoMap.get? s key).getD []) VersionField (toString (v + 1))))) := by
  unfold saveScript
  have h1 : (VersionField :: toString v :: flatPairs others)[1]? = some (toString v) := by simp
  have hc : s.HGET key VersionField = none ∨
      s.HGET key VersionField = (VersionField :: toString v :: flatPairs others)[1]? := by
    rw [h1]; exact hcur
  simp only [if_pos hc, h1, luaTonumber_toString, luaTostring_succ v hv]
  have h2 : (VersionField :: toString v :: flatPairs others).set 1 (toString (v + 1)) =
      VersionField :: toString (v + 1) :: flatPairs others := rfl
  rw [h2]
  simp only [Store.HSET, hsetPairs, hsetPairs_flatPairs]
  rw [if_pos hcur]

theorem HGET_set (s : Store) (key : String) (h : Hash) (f : String) :
    Store.HGET (GoMap.set s key h) key f = GoMap.get? h f := by
  unfold Store.HGET
  rw [GoMap.get?_set]
  simp

theorem get?_none_of_not_mem {V : Type} (m : GoMap V) (a : String) (h : a ∉ m.keys) :
    m.get? a = none := by
  cases h1 : m.get? a with
  | none => rfl
  | some y =>
    have := (GoMap.get?_isSome_iff m a).mp (by rw [h1]; rfl)
    exact absurd this h

theorem HGET_getD (s : Store) (key f : String) :
    GoMap.get? ((GoMap.get? s key).getD []) f = s.HGET key f := by
  unfold Store.HGET
  cases GoMap.get? s key <;> rfl

theorem get?_map_str (m : GoMap String) (f : String) :
    GoMap.get? (m.map (fun p => (p.1, Message.str p.2))) f = (m.get? f).map Message.str := by
  induction m with
  | nil => rfl
  | cons x rest ih =>
    obtain ⟨k, v⟩ := x
    simp only [List.map_cons, GoMap.get?]
    by_cases e : k = f
    · simp [e]
    · simp [e, ih]

theorem fromHashLoop_spec (l : List (String × Message)) (hn : (GoMap.keys l).Nodup)
    (hs : ∀ p ∈ l, p.2.IsNil = false) (f : String) :
    ∀ acc : GoMap String, (GoMap.keys acc).Nodup →
      (GoMap.keys (fromHashLoop l acc)).Nodup ∧
      GoMap.get? (fromHashLoop l acc) f =
        match GoMap.get? l f with
        | some m => some m.string
        | none => GoMap.get? acc f := by
  induction l with
  | nil => intro acc ha; exact ⟨ha, rfl⟩
  | cons x rest ih =>
    intro acc ha
    obtain ⟨k, v⟩ := x
    simp only [GoMap.keys, List.map_cons, List.nodup_cons] at hn
    have hv : v.IsNil = false := hs (k, v) (List.mem_cons_self _ _)
    have hs2 : ∀ p ∈ rest, p.2.IsNil = false := fun p hp => hs p (List.mem_cons_of_mem _ hp)
    obtain ⟨a, b⟩ := ih hn.2 hs2 (GoMap.set acc k v.string) (GoMap.nodup_set acc k v.string ha)
    simp only [fromHashLoop, hv, Bool.not_false, if_true, GoMap.get?]
    refine ⟨a, ?_⟩
    rw [b, GoMap.get?_set]
    by_cases e : k = f
    · subst e
      rw [get?_none_of_not_mem rest k hn.1]
      simp
    · have : ¬ f = k := fun e2 => e e2.symm
      simp [e, this]

/-! ## Theorems: the save script -/

/-- C18, as stated, fails at the version `99999999999999`: Lua formats the
number `10^14` with `%.14g`, so that the script stores and returns `1e+14`,
which is not the decimal text of `99999999999999 + 1`; `Save` leaves the note
with that version. -/
theorem saveScript_leaves_decimal_text :
    saveScript ["note:a"] [VersionField, toString 99999999999999, "Text", "x"] [] =
      ScriptRun.reply (ScriptReply.str "1e+14")
        [("note:a", [(VersionField, "1e+14"), ("Text", "x")])] ∧
    "1e+14" ≠ toString (99999999999999 + 1) ∧
    noteRepo.Save (fun _ => 0) ⟨"a", toString 99999999999999, "x"⟩ [] =
      ((none, ⟨"a", "1e+14", "x"⟩), [("note:a", [(VersionField, "1e+14"), ("Text", "x")])]) := by
  refine ⟨by decide, by decide, by decide⟩

/-- C18, amended.  For a submitted version that is the decimal text of `v`
with `v + 1 < 10^14`, and a stored version that is absent or equal to it, the
script returns the decimal text of `v + 1` and leaves it as the stored
version; every submitted field is stored with its value, the other fields of
the hash and the other keys are as before; the next run at the returned
version returns the decimal text of `v + 2`. -/
theorem saveScript_compare_and_set (s : Store) (key : String) (v : Nat)
    (others : List (String × String)) (hv : v + 1 < 10 ^ 14)
    (hcur : s.HGET key VersionField = none ∨ s.HGET key VersionField = some (toString v))
    (hn : (GoMap.keys others).Nodup) (hnv : VersionField ∉ GoMap.keys others) :
    ∃ s1, saveScript [key] (VersionField :: toString v :: flatPairs others) s =
        ScriptRun.reply (ScriptReply.str (toString (v + 1))) s1 ∧
      s1.HGET key VersionField = some (toString (v + 1)) ∧
      (∀ f x, (f, x) ∈ others → s1.HGET key f = some x) ∧
      (∀ f, f ≠ VersionField → f ∉ GoMap.keys others → s1.HGET key f = s.HGET key f) ∧
      (∀ k, k ≠ key → GoMap.get? s1 k = GoMap.get? s k) ∧
      (∀ others2 : List (String × String), v + 2 < 10 ^ 14 →
        ∃ s2, saveScript [key] (VersionField :: toString (v + 1) :: flatPairs others2) s1 =
            ScriptRun.reply (ScriptReply.str (toString (v + 2))) s2) := by
  refine ⟨_, saveScript_step s key v others hv hcur, ?_, ?_, ?_, ?_, ?_⟩
  · rw [HGET_set, foldl_set_get? others hn, get?_none_of_not_mem others _ hnv, GoMap.get?_set]
    simp
  · intro f x hm
    rw [HGET_set, foldl_set_get? others hn, GoMap.get?_of_mem others f x hn hm]
  · intro f hf hm
    rw [HGET_set, foldl_set_get? others hn, get?_none_of_not_mem others f hm, GoMap.get?_set]
    simp only [hf, if_false]
    exact HGET_getD s key f
  · intro k hk
    rw [GoMap.get?_set]; simp [hk]
  · intro others2 hv2
    refine ⟨_, saveScript_step _ key (v + 1) others2 hv2 (Or.inr ?_)⟩
    rw [HGET_set, foldl_set_get? others hn, get?_none_of_not_mem others _ hnv, GoMap.get?_set]
    simp

/-- C18 amended, on a hash stored at version 3: the script stores and
returns 4 with the submitted text. -/
theorem saveScript_compare_and_set_witness :
    ∃ s1, saveScript ["note:a"] (VersionField :: toString 3 :: flatPairs [("Text", "x")])
        [("note:a", [(VersionField, "3"), ("Text", "t")])] =
        ScriptRun.reply (ScriptReply.str (toString (3 + 1))) s1 ∧
      s1.HGET "note:a" VersionField = some (toString (3 + 1)) ∧
      (∀ f x, (f, x) ∈ [("Text", "x")] → s1.HGET "note:a" f = some x) ∧
      (∀ f, f ≠ VersionField → f ∉ GoMap.keys [("Text", "x")] →
        s1.HGET "note:a" f =
          Store.HGET [("note:a", [(VersionField, "3"), ("Text", "t")])] "note:a" f) ∧
      (∀ k, k ≠ "note:a" → GoMap.get? s1 k =
        GoMap.get? [("note:a", [(VersionField, "3"), ("Text", "t")])] k) ∧
      (∀ others2 : List (String × String), 3 + 2 < 10 ^ 14 →
        ∃ s2, saveScript ["note:a"] (VersionField :: toString (3 + 1) :: flatPairs others2) s1 =
            ScriptRun.reply (ScriptReply.str (toString (3 + 2))) s2) :=
  saveScript_compare_and_set [("note:a", [(VersionField, "3"), ("Text", "t")])] "note:a" 3
    [("Text", "x")] (by decide) (Or.inr rfl) (by decide) (by decide)

/-- C19.  A save at a stale version has no effect: when the stored version is
present and differs from the submitted one, the script returns nil and leaves
the store as it was, whatever the other arguments, and `Save` on a repository
bound to the store returns `ErrVersionMismatch` with the entity and the store
as they were. -/
theorem stale_save_rejected {E : Type} (pfx : String) (conv : HashConverter E)
    (order : Nat → Nat) (entity : E) (s : Store) (id : String) (fields : GoMap String)
    (ver cur : String) (hT : conv.ToHash entity = (id, fields))
    (hv : fields.get? VersionField = some ver)
    (hcur : s.HGET (pfx ++ ":" ++ id) VersionField = some cur) (hne : cur ≠ ver) :
    (∀ rest f, saveScript [pfx ++ ":" ++ id] (f :: ver :: rest) s =
      ScriptRun.reply ScriptReply.nil s) ∧
    saveScript [pfx ++ ":" ++ id] (saveArgs order ver fields) s =
      ScriptRun.reply ScriptReply.nil s ∧
    (storeRepository pfx conv).Save order entity s =
      ((some Error.ErrVersionMismatch, entity), s) := by
  have hne2 : some ver ≠ some cur := fun h => hne (Option.some.inj h).symm
  have h2 : saveScript [pfx ++ ":" ++ id] (saveArgs order ver fields) s =
      ScriptRun.reply ScriptReply.nil s :=
    saveScript_stale _ _ s cur hcur (by rw [saveArgs_version]; exact hne2)
  refine ⟨fun rest f => saveScript_stale _ _ s cur hcur (by simpa using hne2), h2, ?_⟩
  unfold HashRepository.Save
  simp only [storeRepository, hT, hv, HashRepository.key, scriptExec, h2]
  rfl

/-- C19 on two writers that fetched the note at version 3: the first save
succeeds and observes version 4, the second returns `ErrVersionMismatch`, and
the stored version is 4. -/
theorem stale_save_rejected_witness :
    noteRepo.Save (fun _ => 0) ⟨"a", "3", "first"⟩
        [("note:a", [(VersionField, "3"), ("Text", "t")])] =
      ((none, ⟨"a", "4", "first"⟩), [("note:a", [(VersionField, "4"), ("Text", "first")])]) ∧
    noteRepo.Save (fun _ => 0) ⟨"a", "3", "second"⟩
        [("note:a", [(VersionField, "4"), ("Text", "first")])] =
      ((some Error.ErrVersionMismatch, ⟨"a", "3", "second"⟩),
        [("note:a", [(VersionField, "4"), ("Text", "first")])]) ∧
    Store.HGET [("note:a", [(VersionField, "4"), ("Text", "first")])] "note:a" VersionField =
      some "4" :=
  ⟨by decide,
   (stale_save_rejected "note" noteConv (fun _ => 0) ⟨"a", "3", "second"⟩
      [("note:a", [(VersionField, "4"), ("Text", "first")])] "a"
      [(VersionField, "3"), ("Text", "second")] "3" "4" rfl rfl rfl (by decide)).2.2,
   rfl⟩

/-- C20.  Round trip of a fresh entity: when the entity has version 0 and no
hash is stored under its key, `Save` stores a hash equal field by field to
the field map of the entity with version 1, hands that field map to
`FromHash` of the entity, and `Fetch` of the same id then hands to `FromHash`
a field map equal to it field by field. -/
theorem save_fetch_round_trip {E : Type} (pfx : String) (conv : HashConverter E)
    (order order2 : Nat → Nat) (entity : E) (s : Store) (id : String)
    (fields : GoMap String) (hT : conv.ToHash entity = (id, fields))
    (hn : fields.keys.Nodup) (hv : fields.get? VersionField = some "0")
    (hs : GoMap.get? s (pfx ++ ":" ++ id) = none) :
    ∃ (s1 : Store) (m : GoMap String),
      (storeRepository pfx conv).Save order entity s =
        (conv.FromHash entity id (fields.set VersionField "1"), s1) ∧
      (∀ f, s1.HGET (pfx ++ ":" ++ id) f = (fields.set VersionField "1").get? f) ∧
      s1.HGET (pfx ++ ":" ++ id) VersionField = some "1" ∧
      (storeRepository pfx conv).Fetch order2 id s1 =
        ((match conv.FromHash conv.New id m with
          | (some err, _) => (none, some err)
          | (none, v) => (some v, none)), s1) ∧
      m.keys.Nodup ∧
      (∀ f, m.get? f = (fields.set VersionField "1").get? f) := by
  obtain ⟨others, h1, _, _, h4, h5, h6, _⟩ := saveArgs_shape order "0" fields hn hv
  have hcur : s.HGET (pfx ++ ":" ++ id) VersionField = none := by
    unfold Store.HGET; rw [hs]
  have hstep := saveScript_step s (pfx ++ ":" ++ id) 0 others (by decide) (Or.inl hcur)
  have e0 : toString 0 = "0" := rfl
  have e1 : toString (0 + 1) = "1" := rfl
  rw [e0, e1, hs] at hstep
  simp only [Option.getD_none] at hstep
  have hhash : ∀ f, GoMap.get? (others.foldl (fun h p => GoMap.set h p.1 p.2)
      (GoMap.set [] VersionField "1")) f = (fields.set VersionField "1").get? f := by
    intro f
    rw [foldl_set_get? others h4, GoMap.get?_set, GoMap.get?_set]
    by_cases e : f = VersionField
    · subst e
      rw [get?_none_of_not_mem others _ h5]; simp
    · rw [h6 f e]
      simp only [e, if_false]
      cases fields.get? f <;> rfl
  have hnod : (GoMap.keys (others.foldl (fun h p => GoMap.set h p.1 p.2)
      (GoMap.set [] VersionField "1"))).Nodup :=
    foldl_set_nodup others _ (by simp [GoMap.set, GoMap.keys])
  have hrk : GoMap.keys ((others.foldl (fun h p => GoMap.set h p.1 p.2)
      (GoMap.set [] VersionField "1")).map (fun p => (p.1, Message.str p.2))) =
      GoMap.keys (others.foldl (fun h p => GoMap.set h p.1 p.2)
        (GoMap.set [] VersionField "1")) := by
    simp [GoMap.keys, List.map_map, Function.comp_def]
  have hrn : (GoMap.keys ((others.foldl (fun h p => GoMap.set h p.1 p.2)
      (GoMap.set [] VersionField "1")).map (fun p => (p.1, Message.str p.2)))).Nodup := by
    rw [hrk]; exact hnod
  have hperm := permute_perm order2
    (others.foldl (fun h p => GoMap.set h p.1 p.2) (GoMap.set [] VersionField "1")).length 0
    ((others.foldl (fun h p => GoMap.set h p.1 p.2)
      (GoMap.set [] VersionField "1")).map (fun p => (p.1, Message.str p.2)))
    (List.length_map _ _)
  have hfrom := fun f => fromHashLoop_spec _ ((hperm.map Prod.fst).nodup_iff.mpr hrn)
    (fun p hp => by
      obtain ⟨q, _, e⟩ := List.mem_map.mp (hperm.mem_iff.mp hp)
      rw [← e]; rfl) f [] (by simp [GoMap.keys])
  refine ⟨GoMap.set s (pfx ++ ":" ++ id) (others.foldl (fun h p => GoMap.set h p.1 p.2)
      (GoMap.set [] VersionField "1")),
    fromHashLoop (permute order2 (others.foldl (fun h p => GoMap.set h p.1 p.2)
      (GoMap.set [] VersionField "1")).length 0
      ((others.foldl (fun h p => GoMap.set h p.1 p.2)
      (GoMap.set [] VersionField "1")).map (fun p => (p.1, Message.str p.2)))) [], ?_, ?_, ?_,
      ?_, ?_, ?_⟩
  · unfold HashRepository.Save
    simp only [storeRepository, hT, hv, HashRepository.key, scriptExec, h1, hstep]
    rfl
  · intro f
    rw [HGET_set]; exact hhash f
  · rw [HGET_set, hhash, GoMap.get?_set]; simp
  · unfold HashRepository.Fetch HashRepository.fromHash
    simp only [storeRepository, storeAdapter, HashRepository.key, Store.HGETALL,
      GoMap.get?_set, if_true, Option.getD_some, List.length_map]
  · exact (hfrom VersionField).1
  · intro f
    rw [(hfrom f).2, GoMap.get?_perm _ _ hperm hrn f, get?_map_str, hhash]
    cases (fields.set VersionField "1").get? f <;> rfl

/-- C20 on a note made with the identifier `a`: after `Save` the note and the
stored hash have version 1, and `Fetch` returns a note equal to the saved
one. -/
theorem save_fetch_round_trip_witness :
    noteRepo.Save (fun _ => 0) (noteRepo.Make "a") [] =
      ((none, ⟨"a", "1", ""⟩), [("note:a", [(VersionField, "1"), ("Text", "")])]) ∧
    noteRepo.Fetch (fun _ => 0) "a" [("note:a", [(VersionField, "1"), ("Text", "")])] =
      ((some ⟨"a", "1", ""⟩, none), [("note:a", [(VersionField, "1"), ("Text", "")])]) ∧
    ∃ (s1 : Store) (m : GoMap String),
      (storeRepository "note" noteConv).Save (fun _ => 0) (noteRepo.Make "a") [] =
        (noteConv.FromHash (noteRepo.Make "a") "a"
          (GoMap.set [(VersionField, "0"), ("Text", "")] VersionField "1"), s1) ∧
      (∀ f, s1.HGET ("note" ++ ":" ++ "a") f =
        GoMap.get? (GoMap.set [(VersionField, "0"), ("Text", "")] VersionField "1") f) ∧
      s1.HGET ("note" ++ ":" ++ "a") VersionField = some "1" ∧
      (storeRepository "note" noteConv).Fetch (fun _ => 1) "a" s1 =
        ((match noteConv.FromHash noteConv.New "a" m with
          | (some err, _) => (none, some err)
          | (none, v) => (some v, none)), s1) ∧
      (GoMap.keys m).Nodup ∧
      (∀ f, GoMap.get? m f =
        GoMap.get? (GoMap.set [(VersionField, "0"), ("Text", "")] VersionField "1") f) :=
  ⟨by decide, by decide,
    save_fetch_round_trip "note" noteConv (fun _ => 0) (fun _ => 1) (noteRepo.Make "a") [] "a"
      [(VersionField, "0"), ("Text", "")] rfl (by decide) rfl rfl⟩



/-! ## Theorems: the script handle -/

/-- C21.  `Lua.Exec` first calls `evalSha` with the SHA-1 sum of the script;
when the result is a NOSCRIPT error it calls `eval` once, with the script body
and the same keys and arguments, and returns that result; otherwise it returns
the result of `evalSha` and makes no other call.  In both cases the call by
hash is the first call and the body is sent once or not at all. -/
theorem Exec_reloads_on_noScript (s : Lua) (keys args : List String) (tr : List LuaEvent) :
    (s.Exec keys args tr =
      if (s.evalSha tr s.sha1 keys args).isNoScript then
        (s.eval (LuaEvent.EvalSha s.sha1 keys args :: tr) s.script keys args,
          LuaEvent.Eval s.script keys args :: LuaEvent.EvalSha s.sha1 keys args :: tr)
      else (s.evalSha tr s.sha1 keys args, LuaEvent.EvalSha s.sha1 keys args :: tr)) ∧
    (∃ added, (s.Exec keys args tr).2 = added ++ tr ∧
      added.getLast? = some (LuaEvent.EvalSha s.sha1 keys args) ∧
      added.countP LuaEvent.isEval =
        (if (s.evalSha tr s.sha1 keys args).isNoScript then 1 else 0) ∧
      ∀ e ∈ added, e = LuaEvent.EvalSha s.sha1 keys args ∨
        e = LuaEvent.Eval s.script keys args) ∧
    ((coldLua.Exec ["k"] ["a"] []).2 =
      [LuaEvent.Eval "return 1" ["k"] ["a"], LuaEvent.EvalSha "da39a3" ["k"] ["a"]]) ∧
    ((warmLua.Exec ["k"] ["a"] []).2 = [LuaEvent.EvalSha "da39a3" ["k"] ["a"]]) := by
  have key : s.Exec keys args tr =
      if (s.evalSha tr s.sha1 keys args).isNoScript then
        (s.eval (LuaEvent.EvalSha s.sha1 keys args :: tr) s.script keys args,
          LuaEvent.Eval s.script keys args :: LuaEvent.EvalSha s.sha1 keys args :: tr)
      else (s.evalSha tr s.sha1 keys args, LuaEvent.EvalSha s.sha1 keys args :: tr) := by
    unfold Lua.Exec Result.isNoScript
    simp only
    cases h : (s.evalSha tr s.sha1 keys args).RedisError with
    | none => simp
    | some e =>
      cases h2 : e.IsNoScript <;> simp [h2]
  refine ⟨key, ?_, by decide, by decide⟩
  rw [key]
  cases h : (s.evalSha tr s.sha1 keys args).isNoScript
  · refine ⟨[LuaEvent.EvalSha s.sha1 keys args], ?_⟩
    simp [LuaEvent.isEval]
  · refine ⟨[LuaEvent.Eval s.script keys args, LuaEvent.EvalSha s.sha1 keys args], ?_⟩
    simp [LuaEvent.isEval]

/-! ## Theorems: the compatibility commands -/

/-- C26.  `newZWithKeyCmd` takes the key, the member and the score all from
the first element of the reply: the value and the error it yields do not
depend on the second and the third element.  On the reply `["1", "two", "3"]`
the member is `"1"` and the score 1; on `["zset", "m", "2"]` the score does
not parse and the command carries an error.  A reply that is not of three
elements yields an error. -/
theorem newZWithKeyCmd_reads_first_element :
    (∀ (F : Type) (fl : Floats F) (k m sc m1 sc1 : Message),
      (newZWithKeyCmd fl (Result.val (Message.arr [k, m, sc]))).val =
        (newZWithKeyCmd fl (Result.val (Message.arr [k, m1, sc1]))).val ∧
      (newZWithKeyCmd fl (Result.val (Message.arr [k, m, sc]))).err =
        (newZWithKeyCmd fl (Result.val (Message.arr [k, m1, sc1]))).err) ∧
    (newZWithKeyCmd wholeFloats
        (Result.val (Message.arr [Message.str "1", Message.str "two", Message.str "3"]))).val =
      ⟨1, some "1", "1"⟩ ∧
    (newZWithKeyCmd wholeFloats
        (Result.val (Message.arr [Message.str "1", Message.str "two", Message.str "3"]))).err =
      none ∧
    (newZWithKeyCmd wholeFloats
        (Result.val (Message.arr [Message.str "zset", Message.str "m", Message.str "2"]))).err =
      some (Error.other "strconv.ParseFloat: invalid syntax") ∧
    (∀ (F : Type) (fl : Floats F) (arr : List Message), arr.length ≠ 3 →
      (newZWithKeyCmd fl (Result.val (Message.arr arr))).err =
        some (Error.other ("got " ++ toString arr.length ++ ", wanted 3"))) := by
  refine ⟨?_, rfl, rfl, rfl, ?_⟩
  · intro F fl k m sc m1 sc1
    have e1 : (Result.val (Message.arr [k, m, sc])).ToArray = ([k, m, sc], none) := rfl
    have e2 : (Result.val (Message.arr [k, m1, sc1])).ToArray = ([k, m1, sc1], none) := rfl
    unfold newZWithKeyCmd
    rw [e1, e2]
    simp only
    rcases hk : k.ToString with ⟨key, _ | err⟩
    · simp only
      rcases hf : k.AsFloat64 fl with ⟨x, _ | err⟩
      · exact ⟨rfl, rfl⟩
      · exact ⟨rfl, rfl⟩
    · exact ⟨rfl, rfl⟩
  · intro F fl arr h
    unfold newZWithKeyCmd
    have : (Result.val (Message.arr arr)).ToArray = (arr, none) := rfl
    rw [this]
    match arr, h with
    | [], _ => rfl
    | [_], _ => rfl
    | [_, _], _ => rfl
    | [_, _, _], h => exact absurd rfl h
    | _ :: _ :: _ :: _ :: _, _ => rfl

theorem trunc_mono (u : Int) (hu : 0 < u) (d1 d2 : Int) (h0 : 0 ≤ d1) (h : d1 ≤ d2) :
    (if 0 < d1 ∧ d1 < u then 1 else Int.tdiv d1 u) ≤
      (if 0 < d2 ∧ d2 < u then 1 else Int.tdiv d2 u) := by
  have h02 : 0 ≤ d2 := le_trans h0 h
  rw [Int.tdiv_eq_ediv h0 (le_of_lt hu), Int.tdiv_eq_ediv h02 (le_of_lt hu)]
  by_cases c1 : 0 < d1 ∧ d1 < u
  · rw [if_pos c1]
    by_cases c2 : 0 < d2 ∧ d2 < u
    · rw [if_pos c2]
    · rw [if_neg c2]
      have : u ≤ d2 := by
        by_contra hc
        exact c2 ⟨lt_of_lt_of_le c1.1 h, lt_of_not_le hc⟩
      exact Int.le_ediv_of_mul_le hu (by simpa using this)
  · rw [if_neg c1]
    by_cases c2 : 0 < d2 ∧ d2 < u
    · rw [if_pos c2]
      have hd : d1 < u := lt_of_le_of_lt h c2.2
      have : d1 = 0 := by
        by_contra hne
        exact c1 ⟨lt_of_le_of_ne h0 (Ne.symm hne), hd⟩
      rw [this]; simp
    · rw [if_neg c2]
      exact Int.ediv_le_ediv hu h

theorem trunc_pos (u : Int) (hu : 0 < u) (d : Int) (h : 0 < d) :
    1 ≤ (if 0 < d ∧ d < u then 1 else Int.tdiv d u) := by
  by_cases c : 0 < d ∧ d < u
  · rw [if_pos c]
  · rw [if_neg c, Int.tdiv_eq_ediv (le_of_lt h) (le_of_lt hu)]
    have : u ≤ d := by
      by_contra hc
      exact c ⟨h, lt_of_not_le hc⟩
    exact Int.le_ediv_of_mul_le hu (by simpa using this)

/-- C27.  `formatMs` returns 1 for a duration strictly between zero and one
millisecond, and otherwise the duration divided by one millisecond, truncated
toward zero; `formatSec` does the same with one second.  Both return at least
1 on every positive duration and are monotone on non-negative durations. -/
theorem format_duration_truncates (dur : Int) :
    (0 < dur → dur < Millisecond → formatMs dur = 1) ∧
    (¬ (0 < dur ∧ dur < Millisecond) → formatMs dur = Int.tdiv dur Millisecond) ∧
    (0 < dur → dur < Second → formatSec dur = 1) ∧
    (¬ (0 < dur ∧ dur < Second) → formatSec dur = Int.tdiv dur Second) ∧
    (0 < dur → 1 ≤ formatMs dur ∧ 1 ≤ formatSec dur) ∧
    (∀ d2, 0 ≤ dur → dur ≤ d2 → formatMs dur ≤ formatMs d2 ∧ formatSec dur ≤ formatSec d2) ∧
    (formatMs 999999 = 1 ∧ formatMs 1999999 = 1 ∧ formatMs 0 = 0 ∧ formatMs (-1500000) = -1 ∧
      formatSec 1 = 1 ∧ formatSec 2500000000 = 2 ∧ formatSec (-2500000000) = -2) := by
  have hm : (0 : Int) < Millisecond := by decide
  have hs : (0 : Int) < Second := by decide
  refine ⟨?_, ?_, ?_, ?_, ?_, ?_, by decide⟩
  · intro h1 h2; unfold formatMs; rw [if_pos ⟨h1, h2⟩]
  · intro h; unfold formatMs; rw [if_neg h]
  · intro h1 h2; unfold formatSec; rw [if_pos ⟨h1, h2⟩]
  · intro h; unfold formatSec; rw [if_neg h]
  · intro h
    exact ⟨trunc_pos Millisecond hm dur h, trunc_pos Second hs dur h⟩
  · intro d2 h0 h
    exact ⟨trunc_mono Millisecond hm dur d2 h0 h, trunc_mono Second hs dur d2 h0 h⟩

/-- C28.  For a query whose radius is not positive, `args` encodes the box
with the option `BYXBOX`, not `BYBOX`, followed by the width, the height and
the unit (`KM` when `BoxUnit` is empty); with a positive radius it encodes
`BYRADIUS`, the radius and the unit (`KM` when `RadiusUnit` is empty).  The
origin is `FROMMEMBER member` when `Member` is not empty and
`FROMLONLAT longitude latitude` otherwise. -/
theorem GeoSearchQuery_args_box_option :
    (∀ (F : Type) (fl : Floats F) (q : GeoSearchQuery F), fl.gtZero q.Radius = false →
      ∃ tail, (q.args fl).1 =
        (if q.Member ≠ "" then ["FROMMEMBER", q.Member]
          else ["FROMLONLAT", fl.FormatFloat q.Longitude, fl.FormatFloat q.Latitude]) ++
        ["BYXBOX", fl.FormatFloat q.BoxWidth, fl.FormatFloat q.BoxHeight,
          if q.BoxUnit = "" then "KM" else q.BoxUnit] ++ tail) ∧
    (∀ (F : Type) (fl : Floats F) (q : GeoSearchQuery F), fl.gtZero q.Radius = true →
      ∃ tail, (q.args fl).1 =
        (if q.Member ≠ "" then ["FROMMEMBER", q.Member]
          else ["FROMLONLAT", fl.FormatFloat q.Longitude, fl.FormatFloat q.Latitude]) ++
        ["BYRADIUS", fl.FormatFloat q.Radius,
          if q.RadiusUnit = "" then "KM" else q.RadiusUnit] ++ tail) ∧
    ((⟨"m", 0, 0, 0, "", 2, 3, "", "", 0, false⟩ : GeoSearchQuery Int).args wholeFloats).1 =
      ["FROMMEMBER", "m", "BYXBOX", "2", "3", "KM"] ∧
    "BYBOX" ∉ ((⟨"m", 0, 0, 0, "", 2, 3, "", "", 0, false⟩ : GeoSearchQuery Int).args
      wholeFloats).1 := by
  refine ⟨?_, ?_, by decide, by decide⟩
  · intro F fl q h
    unfold GeoSearchQuery.args
    simp only [h, Bool.false_eq_true, if_false]
    by_cases hu : q.BoxUnit = ""
    · simp only [hu, if_true]
      split <;> split <;> simp
      all_goals (try split) <;> simp
    · simp only [hu, if_false]
      split <;> split <;> simp
      all_goals (try split) <;> simp
  · intro F fl q h
    unfold GeoSearchQuery.args
    simp only [h, if_true]
    by_cases hu : q.RadiusUnit = ""
    · simp only [hu, if_true]
      split <;> split <;> simp
      all_goals (try split) <;> simp
    · simp only [hu, if_false]
      split <;> split <;> simp
      all_goals (try split) <;> simp

/-! ## Lemmas: seeding -/

theorem failedDials_append (w : World) : ∀ (L1 L2 : List String) (tr : List Event),
    failedDials w (L1 ++ L2) tr = failedDials w L2 (failedDials w L1 tr) := by
  intro L1
  induction L1 with
  | nil => intro L2 tr; rfl
  | cons a rest ih =>
    intro L2 tr
    show failedDials w (rest ++ L2) (dialAttempt w a tr) =
      failedDials w L2 (failedDials w rest (dialAttempt w a tr))
    exact ih _ _

theorem allDialsFail_append (w : World) : ∀ (L1 L2 : List String) (tr : List Event),
    allDialsFail w (L1 ++ L2) tr =
      (allDialsFail w L1 tr && allDialsFail w L2 (failedDials w L1 tr)) := by
  intro L1
  induction L1 with
  | nil => intro L2 tr; simp [allDialsFail, failedDials]
  | cons a rest ih =>
    intro L2 tr
    show ((dialResult w a tr).isSome && allDialsFail w (rest ++ L2) (dialAttempt w a tr)) =
      (((dialResult w a tr).isSome && allDialsFail w rest (dialAttempt w a tr)) &&
        allDialsFail w L2 (failedDials w rest (dialAttempt w a tr)))
    rw [ih, Bool.and_assoc]

theorem lastDialError_append (w : World) : ∀ (L : List String) (a : String) (err : Option Error)
    (tr : List Event),
    lastDialError w (L ++ [a]) err tr = dialResult w a (failedDials w L tr) := by
  intro L
  induction L with
  | nil => intro a err tr; rfl
  | cons b rest ih =>
    intro a err tr
    show lastDialError w (rest ++ [a]) (dialResult w b tr) (dialAttempt w b tr) =
      dialResult w a (failedDials w rest (dialAttempt w b tr))
    exact ih _ _ _

theorem dialledAddrs_failedDials (w : World) : ∀ (L : List String) (tr : List Event),
    dialledAddrs (failedDials w L tr) = dialledAddrs tr ++ L := by
  intro L
  induction L with
  | nil => intro tr; simp [failedDials]
  | cons a rest ih =>
    intro tr
    simp only [failedDials, ih, dialAttempt, dialledAddrs, List.append_assoc, List.singleton_append]

theorem failedDials_extends (w : World) : ∀ (L : List String) (tr : List Event),
    ∃ added, failedDials w L tr = added ++ tr ∧ ∀ e ∈ added, e.isDial = true := by
  intro L
  induction L with
  | nil => intro tr; exact ⟨[], rfl, by simp⟩
  | cons a rest ih =>
    intro tr
    obtain ⟨added, h1, h2⟩ := ih (dialAttempt w a tr)
    refine ⟨added ++ [Event.Dial (dialConn w a tr), Event.connFn a (dialConn w a tr)], ?_, ?_⟩
    · show failedDials w rest (dialAttempt w a tr) = _
      rw [h1]
      simp [dialAttempt]
    · intro e he
      rcases List.mem_append.mp he with h | h
      · exact h2 e h
      · simp only [List.mem_cons, List.mem_singleton, List.not_mem_nil, or_false] at h
        rcases h with h | h <;> subst h <;> rfl

/-- When every address refuses the dial, the loop of `init` returns the error
of the last dial and leaves the client as it was but for the history. -/
theorem initLoop_all_fail (w : World) : ∀ (L : List String) (err : Option Error)
    (c : ClusterClient), allDialsFail w L c.trace = true →
    initLoop w L err c =
      ((none, lastDialError w L err c.trace), { c with trace := failedDials w L c.trace }) := by
  intro L
  induction L with
  | nil => intro err c _; rfl
  | cons a rest ih =>
    intro err c h
    simp only [allDialsFail, Bool.and_eq_true] at h
    obtain ⟨h1, h2⟩ := h
    simp only [initLoop]
    have hd : w.Dial (c.log (Event.connFn a (w.connFn c.trace a))).trace (w.connFn c.trace a) =
        dialResult w a c.trace := rfl
    rw [hd]
    cases hr : dialResult w a c.trace with
    | none => rw [hr] at h1; exact absurd h1 (by simp)
    | some e =>
      simp only
      have := ih (some e) ((c.log (Event.connFn a (w.connFn c.trace a))).log
        (Event.Dial (w.connFn c.trace a))) h2
      rw [this]
      simp only [lastDialError, failedDials, hr]
      rfl

/-- The loop of `init` stops at the first address that accepts the dial. -/
theorem initLoop_first_ok (w : World) : ∀ (failed : List String) (addr : String)
    (rest : List String) (err : Option Error) (c : ClusterClient),
    allDialsFail w failed c.trace = true →
    dialResult w addr (failedDials w failed c.trace) = none →
    initLoop w (failed ++ addr :: rest) err c =
      ((some (dialConn w addr (failedDials w failed c.trace)), none),
        { c with
          conns := c.conns.set addr (dialConn w addr (failedDials w failed c.trace))
          trace := closePrev c addr ++ dialAttempt w addr (failedDials w failed c.trace) }) := by
  intro failed
  induction failed with
  | nil =>
    intro addr rest err c _ hok
    simp only [failedDials] at hok ⊢
    simp only [List.nil_append, initLoop]
    have hd : w.Dial (c.log (Event.connFn addr (w.connFn c.trace addr))).trace
        (w.connFn c.trace addr) = dialResult w addr c.trace := rfl
    rw [hd, hok]
    simp only [closePrev, ClusterClient.log]
    cases c.conns.get? addr <;> rfl
  | cons a more ih =>
    intro addr rest err c h hok
    simp only [allDialsFail, Bool.and_eq_true] at h
    obtain ⟨h1, h2⟩ := h
    have hd : w.Dial (c.log (Event.connFn a (w.connFn c.trace a))).trace (w.connFn c.trace a) =
        dialResult w a c.trace := rfl
    cases hr : dialResult w a c.trace with
    | none => rw [hr] at h1; exact absurd h1 (by simp)
    | some e =>
      have step : initLoop w (a :: (more ++ addr :: rest)) err c =
          initLoop w (more ++ addr :: rest) (some e)
            ((c.log (Event.connFn a (w.connFn c.trace a))).log
              (Event.Dial (w.connFn c.trace a))) := by
        rw [initLoop]
        simp only [hd, hr]
      rw [List.cons_append, step]
      have := ih addr rest (some e) ((c.log (Event.connFn a (w.connFn c.trace a))).log
        (Event.Dial (w.connFn c.trace a))) h2 hok
      rw [this]
      rfl

/-! ## Theorems: seeding -/

/-- C25.  `init` with an empty list of initial addresses returns `ErrNoNodes`
and leaves the client as it was, the factory not being called.  With a list
`failed ++ addr :: rest` in which the addresses of `failed` refuse the dial
and `addr` accepts it, `init` returns the connection of `addr` without error
and stores it in `conns` under `addr`; the factory has been called for the
addresses of `failed` and for `addr`, in this order, and for no address of
`rest`.  With the seeds `a:1`, `b:2`, `c:3`, of which `a:1` refuses the dial,
only `b:2` is added and `c:3` is not dialled; with the seeds `a:1`, `b:2`
only `b:2` is added. -/
theorem init_dials_in_order (w : World) (c : ClusterClient) :
    (c.InitAddress = [] → init w c = ((none, some Error.ErrNoNodes), c)) ∧
    (∀ failed addr rest, c.InitAddress = failed ++ addr :: rest →
      allDialsFail w failed c.trace = true →
      dialResult w addr (failedDials w failed c.trace) = none →
      ∃ c', init w c = ((some (dialConn w addr (failedDials w failed c.trace)), none), c') ∧
        c'.conns = c.conns.set addr (dialConn w addr (failedDials w failed c.trace)) ∧
        c'.slots = c.slots ∧
        c'.trace = closePrev c addr ++ dialAttempt w addr (failedDials w failed c.trace) ∧
        dialledAddrs (dialAttempt w addr (failedDials w failed c.trace)) =
          dialledAddrs c.trace ++ failed ++ [addr]) ∧
    (init miniWorld ⟨["a:1", "b:2", "c:3"], fun _ => none, [], []⟩).1 = (some ⟨2⟩, none) ∧
    (init miniWorld ⟨["a:1", "b:2", "c:3"], fun _ => none, [], []⟩).2.conns = [("b:2", ⟨2⟩)] ∧
    (init miniWorld ⟨["a:1", "b:2", "c:3"], fun _ => none, [], []⟩).2.trace =
      [Event.Dial ⟨2⟩, Event.connFn "b:2" ⟨2⟩, Event.Dial ⟨1⟩, Event.connFn "a:1" ⟨1⟩] ∧
    (init miniWorld bootClient).2.conns = [("b:2", ⟨2⟩)] := by
  refine ⟨?_, ?_, by decide, by decide, by decide, by decide⟩
  · intro h
    unfold init
    simp [h]
  · intro failed addr rest hI hf hok
    have hne : ¬ c.InitAddress.length = 0 := by rw [hI]; simp
    refine ⟨{ c with
        conns := c.conns.set addr (dialConn w addr (failedDials w failed c.trace))
        trace := closePrev c addr ++ dialAttempt w addr (failedDials w failed c.trace) },
      ?_, rfl, rfl, rfl, ?_⟩
    · unfold init
      rw [if_neg hne]
      have := initLoop_first_ok w failed addr rest none c hf hok
      rw [← hI] at this
      exact this
    · simp only [dialAttempt, dialledAddrs, dialledAddrs_failedDials]

/-! ## Lemmas: a refresh that returns an error -/

theorem GoMap.mem_delete {V : Type} (m : GoMap V) (k : String) (x : String × V)
    (h : x ∈ GoMap.delete m k) : x ∈ m := by
  induction m with
  | nil => simp [GoMap.delete] at h
  | cons y rest ih =>
    obtain ⟨k', v'⟩ := y
    simp only [GoMap.delete] at h
    split at h
    · exact List.mem_cons_of_mem _ h
    · rcases List.mem_cons.mp h with e | e
      · rw [e]; exact List.mem_cons_self _ _
      · exact List.mem_cons_of_mem _ (ih e)

theorem GoMap.mem_keys_delete {V : Type} (m : GoMap V) (k a : String) (hn : m.keys.Nodup)
    (h : a ∈ (GoMap.delete m k).keys) : a ∈ m.keys ∧ a ≠ k := by
  induction m with
  | nil => simp [GoMap.delete, GoMap.keys] at h
  | cons y rest ih =>
    obtain ⟨k', v'⟩ := y
    simp only [GoMap.keys, List.map_cons, List.nodup_cons] at hn
    simp only [GoMap.delete] at h
    split at h
    · rename_i e
      subst e
      refine ⟨List.mem_cons_of_mem _ h, ?_⟩
      intro e2; subst e2
      exact hn.1 h
    · rename_i e
      simp only [GoMap.keys, List.map_cons, List.mem_cons] at h ⊢
      rcases h with e2 | e2
      · subst e2
        exact ⟨Or.inl rfl, fun e3 => e e3⟩
      · have := ih hn.2 e2
        exact ⟨Or.inr this.1, this.2⟩

theorem GoMap.nodup_delete {V : Type} (m : GoMap V) (k : String) (hn : m.keys.Nodup) :
    (GoMap.delete m k).keys.Nodup := by
  induction m with
  | nil => simp [GoMap.delete, GoMap.keys]
  | cons y rest ih =>
    obtain ⟨k', v'⟩ := y
    simp only [GoMap.keys, List.map_cons, List.nodup_cons] at hn
    simp only [GoMap.delete]
    split
    · exact hn.2
    · simp only [GoMap.keys, List.map_cons, List.nodup_cons]
      refine ⟨?_, ih hn.2⟩
      intro hm
      have : k' ∈ GoMap.keys rest := by
        obtain ⟨p, hp, e⟩ := List.mem_map.mp hm
        exact List.mem_map.mpr ⟨p, GoMap.mem_delete rest k p hp, e⟩
      exact hn.1 this

theorem GoMap.mem_set {V : Type} (m : GoMap V) (k : String) (v : V) (x : String × V)
    (h : x ∈ GoMap.set m k v) : x ∈ m ∨ x = (k, v) := by
  induction m with
  | nil =>
    simp only [GoMap.set, List.mem_singleton] at h
    exact Or.inr h
  | cons y rest ih =>
    obtain ⟨k', v'⟩ := y
    simp only [GoMap.set] at h
    split at h
    · rcases List.mem_cons.mp h with e | e
      · exact Or.inr e
      · exact Or.inl (List.mem_cons_of_mem _ e)
    · rcases List.mem_cons.mp h with e | e
      · rw [e]; exact Or.inl (List.mem_cons_self _ _)
      · rcases ih e with e2 | e2
        · exact Or.inl (List.mem_cons_of_mem _ e2)
        · exact Or.inr e2

theorem failedQueries_extends : ∀ (L : List (String × Conn)) (tr : List Event),
    ∃ added, failedQueries L tr = added ++ tr ∧ ∀ e ∈ added, ∃ cc, e = Event.Slots cc := by
  intro L
  induction L with
  | nil => intro tr; exact ⟨[], rfl, by simp⟩
  | cons x rest ih =>
    intro tr
    obtain ⟨a, cc⟩ := x
    obtain ⟨added, h1, h2⟩ := ih (Event.Slots cc :: tr)
    refine ⟨added ++ [Event.Slots cc], ?_, ?_⟩
    · show failedQueries rest (Event.Slots cc :: tr) = _
      rw [h1]; simp
    · intro e he
      rcases List.mem_append.mp he with h | h
      · exact h2 e h
      · exact ⟨cc, by simpa using h⟩

/-- When every connection fails the topology query, the query loop ends with
the error of the last query, every address in `dead`, and the client as it
was but for the history. -/
theorem queryLoop_all_fail (w : World) : ∀ (L : List (String × Conn)) (v : QueryVars)
    (c : ClusterClient), allQueriesFail w L c.trace = true →
    (queryLoop w L v c).1.err = lastQueryError w L v.err c.trace ∧
    (queryLoop w L v c).1.dead = v.dead ++ L.map Prod.fst ∧
    (queryLoop w L v c).2 = { c with trace := failedQueries L c.trace } := by
  intro L
  induction L with
  | nil => intro v c _; simp [queryLoop, lastQueryError, failedQueries]
  | cons x rest ih =>
    intro v c h
    obtain ⟨a, cc⟩ := x
    simp only [allQueriesFail, Bool.and_eq_true] at h
    obtain ⟨h1, h2⟩ := h
    rw [queryLoop]
    cases hr : (w.Slots c.trace cc).2 with
    | none => rw [hr] at h1; exact absurd h1 (by simp)
    | some e =>
      simp only [hr]
      obtain ⟨i1, i2, i3⟩ := ih ⟨(w.Slots c.trace cc).1, some e, v.dead ++ [a]⟩
        (c.log (Event.Slots cc)) h2
      refine ⟨?_, ?_, ?_⟩
      · rw [i1]; simp only [lastQueryError, hr]; rfl
      · rw [i2]; simp
      · rw [i3]; rfl

theorem lastQueryError_isSome (w : World) : ∀ (L : List (String × Conn)) (err : Option Error)
    (tr : List Event), L ≠ [] → allQueriesFail w L tr = true →
    (lastQueryError w L err tr).isSome = true := by
  intro L
  induction L with
  | nil => intro err tr h; exact absurd rfl h
  | cons x rest ih =>
    intro err tr _ h
    obtain ⟨a, cc⟩ := x
    simp only [allQueriesFail, Bool.and_eq_true] at h
    simp only [lastQueryError]
    cases rest with
    | nil => simpa [lastQueryError] using h.1
    | cons y more => exact ih _ _ (by simp) h.2

theorem removeDead_closes : ∀ (dead : List String) (c : ClusterClient),
    (∃ added, (removeDead dead c).trace = added ++ c.trace ∧
      ∀ e ∈ added, ∃ cc, e = Event.Close cc) ∧
    (∀ x ∈ (removeDead dead c).conns, x ∈ c.conns) := by
  intro dead
  induction dead with
  | nil => intro c; exact ⟨⟨[], rfl, by simp⟩, fun x hx => hx⟩
  | cons a rest ih =>
    intro c
    simp only [removeDead]
    split
    · rename_i cc hcc
      obtain ⟨⟨added, h1, h2⟩, h3⟩ :=
        ih ({ c with conns := c.conns.delete a }.log (Event.Close cc))
      refine ⟨⟨added ++ [Event.Close cc], ?_, ?_⟩, ?_⟩
      · rw [h1]; simp [ClusterClient.log]
      · intro e he
        rcases List.mem_append.mp he with h | h
        · exact h2 e h
        · exact ⟨cc, by simpa using h⟩
      · intro x hx
        exact GoMap.mem_delete c.conns a x (h3 x hx)
    · exact ih c

theorem removeDead_all : ∀ (dead : List String) (c : ClusterClient),
    c.conns.keys.Nodup → (∀ a ∈ c.conns.keys, a ∈ dead) → (removeDead dead c).conns = [] := by
  intro dead
  induction dead with
  | nil =>
    intro c _ h
    simp only [removeDead]
    cases hc : c.conns with
    | nil => rfl
    | cons x rest =>
      have := h x.1 (by rw [hc]; simp [GoMap.keys])
      simp at this
  | cons a rest ih =>
    intro c hn h
    simp only [removeDead]
    split
    · rename_i cc hcc
      apply ih
      · exact GoMap.nodup_delete c.conns a hn
      · intro b hb
        obtain ⟨b1, b2⟩ := GoMap.mem_keys_delete c.conns a b hn hb
        rcases List.mem_cons.mp (h b b1) with e | e
        · exact absurd e b2
        · exact e
    · rename_i hcc
      apply ih c hn
      intro b hb
      rcases List.mem_cons.mp (h b hb) with e | e
      · subst e
        have := (GoMap.get?_isSome_iff c.conns b).mpr hb
        rw [hcc] at this
        simp at this
      · exact e

theorem initLoop_step_fail (w : World) (a : String) (rest : List String) (err : Option Error)
    (c : ClusterClient) (e : Error) (h : dialResult w a c.trace = some e) :
    initLoop w (a :: rest) err c =
      initLoop w rest (some e) { c with trace := dialAttempt w a c.trace } := by
  have hd : w.Dial (c.log (Event.connFn a (w.connFn c.trace a))).trace (w.connFn c.trace a) =
      dialResult w a c.trace := rfl
  rw [initLoop]
  simp only [hd, h]
  rfl

theorem initLoop_conns (w : World) : ∀ (L : List String) (err : Option Error)
    (c : ClusterClient),
    ∃ added, (initLoop w L err c).2.trace = added ++ c.trace ∧
      (∀ e ∈ added, e.isRefresh = true) ∧
      ∀ x ∈ (initLoop w L err c).2.conns, x ∈ c.conns ∨ Event.connFn x.1 x.2 ∈ added := by
  intro L
  induction L with
  | nil => intro err c; exact ⟨[], rfl, by simp, fun x hx => Or.inl hx⟩
  | cons a rest ih =>
    intro err c
    cases hr : dialResult w a c.trace with
    | none =>
      have := initLoop_first_ok w [] a rest err c rfl hr
      simp only [List.nil_append, failedDials] at this
      rw [this]
      refine ⟨closePrev c a ++ [Event.Dial (dialConn w a c.trace),
        Event.connFn a (dialConn w a c.trace)], ?_, ?_, ?_⟩
      · simp [dialAttempt]
      · intro e he
        unfold closePrev at he
        cases h : c.conns.get? a <;> rw [h] at he <;>
          simp only [List.nil_append, List.cons_append, List.mem_cons, List.mem_singleton,
            List.not_mem_nil, or_false] at he
        · rcases he with he | he <;> subst he <;> rfl
        · rcases he with he | he | he <;> subst he <;> rfl
      · intro x hx
        rcases GoMap.mem_set _ _ _ _ hx with e | e
        · exact Or.inl e
        · right
          rw [e]
          simp
    | some e =>
      rw [initLoop_step_fail w a rest err c e hr]
      obtain ⟨added, h1, h2, h3⟩ := ih (some e) { c with trace := dialAttempt w a c.trace }
      refine ⟨added ++ [Event.Dial (dialConn w a c.trace),
        Event.connFn a (dialConn w a c.trace)], ?_, ?_, ?_⟩
      · rw [h1]; simp [dialAttempt]
      · intro ev hev
        rcases List.mem_append.mp hev with h | h
        · exact h2 ev h
        · simp only [List.mem_cons, List.mem_singleton, List.not_mem_nil, or_false] at h
          rcases h with h | h <;> subst h <;> rfl
      · intro x hx
        rcases h3 x hx with h | h
        · exact Or.inl h
        · exact Or.inr (List.mem_append_left _ h)

theorem init_conns (w : World) (c : ClusterClient) :
    ∃ added, (init w c).2.trace = added ++ c.trace ∧ (∀ e ∈ added, e.isRefresh = true) ∧
      ∀ x ∈ (init w c).2.conns, x ∈ c.conns ∨ Event.connFn x.1 x.2 ∈ added := by
  unfold init
  split
  · exact ⟨[], rfl, by simp, fun x hx => Or.inl hx⟩
  · exact initLoop_conns w _ _ c

/-- A refresh that returns an error leaves the slot vector and the initial
addresses as they were; every entry of `conns` was there before or has been
created by the factory during the call. -/
theorem _refreshRetry_error (w : World) : ∀ (n : Nat) (reply : Message) (err : Option Error)
    (c c' : ClusterClient) (e : Error),
    _refreshRetry w n reply err c = Exec.ret (some e, c') →
    c'.slots = c.slots ∧ c'.InitAddress = c.InitAddress ∧
    ∃ added, c'.trace = added ++ c.trace ∧ (∀ ev ∈ added, ev.isRefresh = true) ∧
      ∀ x ∈ c'.conns, x ∈ c.conns ∨ Event.connFn x.1 x.2 ∈ added := by
  intro n
  induction n with
  | zero => intro reply err c c' e h; simp [_refreshRetry] at h
  | succ n ih =>
    intro reply err c c' e h
    rw [_refreshRetry] at h
    have Q := queryLoop_spec w (c.range w c.conns) ⟨reply, err, []⟩ c
    generalize queryLoop w (c.range w c.conns) ⟨reply, err, []⟩ c = q at Q h
    obtain ⟨q1, q2, q3, ⟨qa, qt, qp⟩, _⟩ := Q
    have D : (if q.1.dead.length ≠ 0 then removeDead q.1.dead q.2 else q.2).slots = q.2.slots ∧
        (if q.1.dead.length ≠ 0 then removeDead q.1.dead q.2 else q.2).InitAddress =
          q.2.InitAddress ∧
        (∃ added, (if q.1.dead.length ≠ 0 then removeDead q.1.dead q.2 else q.2).trace =
            added ++ q.2.trace ∧ ∀ ev ∈ added, ev.isRefresh = true) ∧
        (∀ x ∈ (if q.1.dead.length ≠ 0 then removeDead q.1.dead q.2 else q.2).conns,
          x ∈ q.2.conns) := by
      split
      · obtain ⟨s1, s2, _⟩ := removeDead_spec q.1.dead q.2
        obtain ⟨⟨added, t1, t2⟩, t3⟩ := removeDead_closes q.1.dead q.2
        refine ⟨s1, s2, ⟨added, t1, ?_⟩, t3⟩
        intro ev hev
        obtain ⟨cc, hcc⟩ := t2 ev hev
        rw [hcc]; rfl
      · exact ⟨rfl, rfl, ⟨[], rfl, by simp⟩, fun x hx => hx⟩
    generalize (if q.1.dead.length ≠ 0 then removeDead q.1.dead q.2 else q.2) = c1 at D h
    obtain ⟨d1, d2, ⟨da, dt, dp⟩, d4⟩ := D
    have base : c1.slots = c.slots ∧ c1.InitAddress = c.InitAddress ∧
        ∃ added, c1.trace = added ++ c.trace ∧ (∀ ev ∈ added, ev.isRefresh = true) ∧
          ∀ x ∈ c1.conns, x ∈ c.conns ∨ Event.connFn x.1 x.2 ∈ added := by
      refine ⟨by rw [d1, q1], by rw [d2, q3], da ++ qa, by rw [dt, qt, List.append_assoc], ?_, ?_⟩
      · intro ev hev
        rcases List.mem_append.mp hev with h1 | h1
        · exact dp ev h1
        · exact qp ev h1
      · intro x hx
        left
        rw [← q2]; exact d4 x hx
    cases hq : q.1.err with
    | some e1 =>
      simp only [hq, Exec.ret.injEq, Prod.mk.injEq] at h
      rw [← h.2]; exact base
    | none =>
      simp only [hq] at h
      obtain ⟨b1, b2, ba, bt, bp, bc⟩ := base
      by_cases hlen : q.1.reply.values.length = 0
      · simp only [hlen, if_true] at h
        obtain ⟨i1, i2, _⟩ := init_spec w c1
        obtain ⟨ia, it, ip, ic⟩ := init_conns w c1
        have mid : (init w c1).2.slots = c.slots ∧ (init w c1).2.InitAddress = c.InitAddress ∧
            ∃ added, (init w c1).2.trace = added ++ c.trace ∧
              (∀ ev ∈ added, ev.isRefresh = true) ∧
              ∀ x ∈ (init w c1).2.conns, x ∈ c.conns ∨ Event.connFn x.1 x.2 ∈ added := by
          refine ⟨by rw [i1, b1], by rw [i2, b2], ia ++ ba,
            by rw [it, bt, List.append_assoc], ?_, ?_⟩
          · intro ev hev
            rcases List.mem_append.mp hev with h1 | h1
            · exact ip ev h1
            · exact bp ev h1
          · intro x hx
            rcases ic x hx with h1 | h1
            · rcases bc x h1 with h2 | h2
              · exact Or.inl h2
              · exact Or.inr (List.mem_append_right _ h2)
            · exact Or.inr (List.mem_append_left _ h1)
        rcases hi : init w c1 with ⟨⟨y, e2⟩, c2⟩
        rw [hi] at mid
        simp only at mid
        cases e2 with
        | some e2 =>
          simp only [hi, Exec.ret.injEq, Prod.mk.injEq] at h
          rw [← h.2]; exact mid
        | none =>
          simp only [hi] at h
          obtain ⟨m1, m2, ma, mt, mp, mc⟩ := mid
          obtain ⟨r1, r2, ra, rt, rp, rc⟩ := ih _ _ c2 c' e h
          refine ⟨by rw [r1, m1], by rw [r2, m2], ra ++ ma,
            by rw [rt, mt, List.append_assoc], ?_, ?_⟩
          · intro ev hev
            rcases List.mem_append.mp hev with h1 | h1
            · exact rp ev h1
            · exact mp ev h1
          · intro x hx
            rcases rc x hx with h1 | h1
            · rcases mc x h1 with h2 | h2
              · exact Or.inl h2
              · exact Or.inr (List.mem_append_right _ h2)
            · exact Or.inr (List.mem_append_left _ h1)
      · simp only [hlen, if_false] at h
        have := (rebuild_ret h).1
        exact absurd this (by simp)

theorem initLoop_cases (w : World) : ∀ (L : List String) (err : Option Error)
    (c : ClusterClient),
    (allDialsFail w L c.trace = true ∧
      initLoop w L err c =
        ((none, lastDialError w L err c.trace), { c with trace := failedDials w L c.trace })) ∨
    (∃ failed addr rest, L = failed ++ addr :: rest ∧ allDialsFail w failed c.trace = true ∧
      dialResult w addr (failedDials w failed c.trace) = none ∧
      initLoop w L err c =
        ((some (dialConn w addr (failedDials w failed c.trace)), none),
          { c with
            conns := c.conns.set addr (dialConn w addr (failedDials w failed c.trace))
            trace := closePrev c addr ++ dialAttempt w addr (failedDials w failed c.trace) })) := by
  intro L err c
  by_cases h : allDialsFail w L c.trace = true
  · exact Or.inl ⟨h, initLoop_all_fail w L err c h⟩
  · right
    have : ∀ (L : List String) (tr : List Event), allDialsFail w L tr ≠ true →
        ∃ failed addr rest, L = failed ++ addr :: rest ∧ allDialsFail w failed tr = true ∧
          dialResult w addr (failedDials w failed tr) = none := by
      intro L
      induction L with
      | nil => intro tr h; exact absurd rfl h
      | cons a rest ih =>
        intro tr h
        cases hr : dialResult w a tr with
        | none => exact ⟨[], a, rest, rfl, rfl, hr⟩
        | some e =>
          have h2 : allDialsFail w rest (dialAttempt w a tr) ≠ true := by
            intro h3
            apply h
            simp [allDialsFail, hr, h3]
          obtain ⟨failed, addr, more, e1, e2, e3⟩ := ih _ h2
          refine ⟨a :: failed, addr, more, by rw [e1]; rfl, ?_, e3⟩
          simp [allDialsFail, hr, e2]
    obtain ⟨failed, addr, rest, e1, e2, e3⟩ := this L c.trace h
    refine ⟨failed, addr, rest, e1, e2, e3, ?_⟩
    rw [e1]
    exact initLoop_first_ok w failed addr rest err c e2 e3

/-! ## Theorems: a refresh that fails -/

/-- C24, as stated, fails when the initial addresses are configured and none
can be dialled: on a client without connections whose seed `a:1` refuses the
dial, `refresh` returns the error of the dial, not `ErrNoNodes`. -/
theorem refresh_reseed_dial_error :
    ∃ c', _refresh downWorld 3 seedClient =
        Exec.ret (some (Error.other "connection refused"), c') ∧
      Error.other "connection refused" ≠ Error.ErrNoNodes ∧
      c'.trace = [Event.Dial ⟨1⟩, Event.connFn "a:1" ⟨1⟩] ∧ c'.conns = [] :=
  ⟨_, rfl, by decide, rfl, rfl⟩

/-- C24, amended.  When a round of `_refresh` ends its queries without error
and with an empty reply, and `init` then fails, `_refresh` returns the error of
`init`: `ErrNoNodes` when the list of initial addresses is empty, and otherwise
the error of the dial of the last address, every address having refused the
dial. -/
theorem refresh_returns_seeding_error (w : World) (n : Nat) (reply : Message)
    (err : Option Error) (c c0 : ClusterClient) (v : QueryVars) (e : Error)
    (hq : queryLoop w (c.range w c.conns) ⟨reply, err, []⟩ c = (v, c0))
    (he : v.err = none) (hl : v.reply.values.length = 0)
    (hi : (init w (if v.dead.length ≠ 0 then removeDead v.dead c0 else c0)).1.2 = some e) :
    _refreshRetry w (n + 1) reply err c =
      Exec.ret (some e, (init w (if v.dead.length ≠ 0 then removeDead v.dead c0 else c0)).2) ∧
    (c.InitAddress = [] → e = Error.ErrNoNodes) ∧
    (∀ L a, c.InitAddress = L ++ [a] →
      allDialsFail w (L ++ [a])
        (if v.dead.length ≠ 0 then removeDead v.dead c0 else c0).trace = true ∧
      some e = dialResult w a (failedDials w L
        (if v.dead.length ≠ 0 then removeDead v.dead c0 else c0).trace)) := by
  have Q := queryLoop_spec w (c.range w c.conns) ⟨reply, err, []⟩ c
  rw [hq] at Q
  obtain ⟨_, _, q3, _, _⟩ := Q
  have hI : (if v.dead.length ≠ 0 then removeDead v.dead c0 else c0).InitAddress =
      c.InitAddress := by
    split
    · rw [(removeDead_spec _ _).2.1]; exact q3
    · exact q3
  have part1 : _refreshRetry w (n + 1) reply err c =
      Exec.ret (some e,
        (init w (if v.dead.length ≠ 0 then removeDead v.dead c0 else c0)).2) := by
    rw [_refreshRetry]
    simp only [hq, he, hl, if_true]
    generalize (if v.dead.length ≠ 0 then removeDead v.dead c0 else c0) = c1 at hi ⊢
    rcases hx : init w c1 with ⟨⟨y, e2⟩, c2⟩
    rw [hx] at hi
    simp only at hi
    subst hi
    rfl
  refine ⟨part1, ?_, ?_⟩
  all_goals generalize (if v.dead.length ≠ 0 then removeDead v.dead c0 else c0) = c1 at hi hI ⊢
  · intro h0
    unfold init at hi
    rw [hI, h0] at hi
    simpa using hi.symm
  · intro L a hLa
    have hne : ¬ c1.InitAddress.length = 0 := by rw [hI, hLa]; simp
    unfold init at hi
    rw [if_neg hne, hI, hLa] at hi
    rcases initLoop_cases w (L ++ [a]) none c1 with ⟨h1, h2⟩ | ⟨failed, addr, rest, _, _, _, h2⟩
    · rw [h2] at hi
      simp only at hi
      exact ⟨h1, by rw [← hi, lastDialError_append]⟩
    · rw [h2] at hi
      exact absurd hi (by simp)

/-- C24 amended, on the client without connections whose seed refuses the
dial. -/
theorem refresh_returns_seeding_error_witness :
    _refreshRetry downWorld (0 + 1) Message.zero none seedClient =
      Exec.ret (some (Error.other "connection refused"),
        (init downWorld (if ([] : List String).length ≠ 0 then removeDead [] seedClient
          else seedClient)).2) ∧
    (seedClient.InitAddress = [] → Error.other "connection refused" = Error.ErrNoNodes) ∧
    (∀ L a, seedClient.InitAddress = L ++ [a] →
      allDialsFail downWorld (L ++ [a])
        (if ([] : List String).length ≠ 0 then removeDead [] seedClient
          else seedClient).trace = true ∧
      some (Error.other "connection refused") = dialResult downWorld a (failedDials downWorld L
        (if ([] : List String).length ≠ 0 then removeDead [] seedClient
          else seedClient).trace)) :=
  refresh_returns_seeding_error downWorld 0 Message.zero none seedClient seedClient
    ⟨Message.zero, none, []⟩ (Error.other "connection refused") rfl rfl rfl rfl

/-- C30, as stated, fails: on a client whose only connection fails the
topology query, `refresh` returns the error of the query, although the seed
`b:2` would accept the dial; it has closed the connection and has neither
called the factory nor dialled. -/
theorem refresh_skips_reseed_on_query_error :
    ∃ c', _refresh deafWorld 5 routedSeedClient =
        Exec.ret (some (Error.other "i/o timeout"), c') ∧
      c'.trace = [Event.Close ⟨1⟩, Event.Slots ⟨1⟩] ∧ c'.conns = [] ∧
      c'.InitAddress = ["b:2"] ∧ dialResult deafWorld "b:2" c'.trace = none :=
  ⟨_, rfl, rfl, rfl, rfl, rfl⟩

/-- C30, amended.  When `conns` is not empty and every connection in it fails
the topology query, `_refresh` returns the error of the last query: it has
removed every connection from `conns`, has left the slot vector as it was and
has neither called the factory nor dialled.  It re-seeds only in a round whose
queries end without error and with an empty reply; when `init` then succeeds
it goes back to the topology query on the re-seeded client. -/
theorem refresh_returns_query_error (w : World) (n : Nat) (reply : Message)
    (err : Option Error) (c : ClusterClient) (hne : c.conns ≠ [])
    (hn : c.conns.keys.Nodup)
    (hall : allQueriesFail w (c.range w c.conns) c.trace = true) :
    (∃ e c', _refreshRetry w (n + 1) reply err c = Exec.ret (some e, c') ∧
      some e = lastQueryError w (c.range w c.conns) err c.trace ∧
      c'.slots = c.slots ∧ c'.conns = [] ∧
      ∃ added, c'.trace = added ++ c.trace ∧ ∀ ev ∈ added, ev.isDial = false) ∧
    (∀ (cB c0 c2 : ClusterClient) (replyB : Message) (errB : Option Error) (v : QueryVars)
      (y : Option Conn),
      queryLoop w (cB.range w cB.conns) ⟨replyB, errB, []⟩ cB = (v, c0) →
      v.err = none → v.reply.values.length = 0 →
      init w (if v.dead.length ≠ 0 then removeDead v.dead c0 else c0) = ((y, none), c2) →
      _refreshRetry w (n + 1) replyB errB cB = _refreshRetry w n v.reply none c2) := by
  constructor
  · have hperm := range_perm w c c.conns
    have hL : c.range w c.conns ≠ [] := by
      intro h0
      rw [h0] at hperm
      exact hne (List.Perm.eq_nil hperm.symm)
    obtain ⟨q1, q2, q3⟩ := queryLoop_all_fail w (c.range w c.conns) ⟨reply, err, []⟩ c hall
    have hsome := lastQueryError_isSome w (c.range w c.conns) err c.trace hL hall
    rcases hle : lastQueryError w (c.range w c.conns) err c.trace with _ | e
    · rw [hle] at hsome; exact absurd hsome (by simp)
    · have hdead : (queryLoop w (c.range w c.conns) ⟨reply, err, []⟩ c).1.dead.length ≠ 0 := by
        rw [q2]
        simp only [List.nil_append, List.length_map]
        intro h0
        exact hL (List.length_eq_zero.mp h0)
      refine ⟨e, removeDead (queryLoop w (c.range w c.conns) ⟨reply, err, []⟩ c).1.dead
        (queryLoop w (c.range w c.conns) ⟨reply, err, []⟩ c).2, ?_, rfl, ?_, ?_, ?_⟩
      · rw [_refreshRetry]
        simp only [if_pos hdead]
        rw [q1] at *
        simp only [hle]
      · rw [(removeDead_spec _ _).1, q3]
      · apply removeDead_all
        · rw [q3]; exact hn
        · intro a ha
          rw [q3] at ha
          rw [q2]
          simp only [List.nil_append]
          obtain ⟨p, hp, hpa⟩ := List.mem_map.mp ha
          exact List.mem_map.mpr ⟨p, hperm.mem_iff.mpr hp, hpa⟩
      · obtain ⟨⟨a1, t1, t2⟩, _⟩ := removeDead_closes
          (queryLoop w (c.range w c.conns) ⟨reply, err, []⟩ c).1.dead
          (queryLoop w (c.range w c.conns) ⟨reply, err, []⟩ c).2
        obtain ⟨a2, u1, u2⟩ := failedQueries_extends (c.range w c.conns) c.trace
        refine ⟨a1 ++ a2, ?_, ?_⟩
        · rw [t1, q3]
          simp only
          rw [u1, List.append_assoc]
        · intro ev hev
          rcases List.mem_append.mp hev with h | h
          · obtain ⟨cc, hcc⟩ := t2 ev h
            rw [hcc]; rfl
          · obtain ⟨cc, hcc⟩ := u2 ev h
            rw [hcc]; rfl
  · intro cB c0 c2 replyB errB v y hq he hl hi
    rw [_refreshRetry]
    simp only [hq, he, hl, if_true, hi]

/-- C30 amended, on the client whose only connection fails the query. -/
theorem refresh_returns_query_error_witness :
    (∃ e c', _refreshRetry deafWorld (4 + 1) Message.zero none routedSeedClient =
        Exec.ret (some e, c') ∧
      some e = lastQueryError deafWorld (routedSeedClient.range deafWorld routedSeedClient.conns)
        none routedSeedClient.trace ∧
      c'.slots = routedSeedClient.slots ∧ c'.conns = [] ∧
      ∃ added, c'.trace = added ++ routedSeedClient.trace ∧ ∀ ev ∈ added, ev.isDial = false) ∧
    (∀ (cB c0 c2 : ClusterClient) (replyB : Message) (errB : Option Error) (v : QueryVars)
      (y : Option Conn),
      queryLoop deafWorld (cB.range deafWorld cB.conns) ⟨replyB, errB, []⟩ cB = (v, c0) →
      v.err = none → v.reply.values.length = 0 →
      init deafWorld (if v.dead.length ≠ 0 then removeDead v.dead c0 else c0) =
        ((y, none), c2) →
      _refreshRetry deafWorld (4 + 1) replyB errB cB =
        _refreshRetry deafWorld 4 v.reply none c2) :=
  refresh_returns_query_error deafWorld 4 Message.zero none routedSeedClient (by decide)
    (by decide) rfl

/-- C23, as stated, fails on the connection map: on the client whose ring is
owned by `a:1`, when `a:1` fails the topology query `refresh` returns the
error with the slot vector as before and with `conns` emptied. -/
theorem refresh_error_drops_connections :
    ∃ c', _refresh downWorld 5 routedClient =
        Exec.ret (some (Error.other "connection refused"), c') ∧
      routedClient.conns = [("a:1", ⟨1⟩)] ∧ c'.conns = [] ∧ c'.conns ≠ routedClient.conns ∧
      c'.slots 0 = some ⟨1⟩ :=
  ⟨_, rfl, rfl, rfl, by decide, rfl⟩

/-- C23, amended.  Whenever `_refresh` returns an error, the slot vector and
the initial addresses are exactly what they were before the call.  The
connection map may have changed: every entry it holds was there before or was
created by the factory during the call, the connections that failed the query
having been deleted. -/
theorem refresh_error_keeps_slots (w : World) (n : Nat) (c c' : ClusterClient) (e : Error)
    (h : _refresh w n c = Exec.ret (some e, c')) :
    c'.slots = c.slots ∧ c'.InitAddress = c.InitAddress ∧
    ∃ added, c'.trace = added ++ c.trace ∧ (∀ ev ∈ added, ev.isRefresh = true) ∧
      ∀ x ∈ c'.conns, x ∈ c.conns ∨ Event.connFn x.1 x.2 ∈ added :=
  _refreshRetry_error w n Message.zero none c c' e h

/-- C23 amended, on the client whose ring is owned by `a:1`, every node being
down. -/
theorem refresh_error_keeps_slots_witness :
    ∃ c', _refresh downWorld 5 routedClient =
        Exec.ret (some (Error.other "connection refused"), c') ∧
      c'.slots = routedClient.slots ∧ c'.InitAddress = routedClient.InitAddress ∧
      ∃ added, c'.trace = added ++ routedClient.trace ∧ (∀ ev ∈ added, ev.isRefresh = true) ∧
        ∀ x ∈ c'.conns, x ∈ routedClient.conns ∨ Event.connFn x.1 x.2 ∈ added :=
  ⟨_, rfl, refresh_error_keeps_slots downWorld 5 routedClient _
    (Error.other "connection refused") rfl⟩

/-! ## Theorems: the invariant of the topology cache -/

theorem rebuild_slotsInConns {w : World} {reply : Message} {c c' : ClusterClient}
    {e : Option Error} (h : rebuild w reply c = Exec.ret (e, c')) : slotsInConns c' := by
  obtain ⟨_, _, _, G, L, _, _, hfill, _⟩ := rebuild_ret h
  intro i cc hi
  rcases fillSlots_ret c'.conns L (fun _ => none) c'.slots hfill i with ⟨x, _, _, hx⟩ | ⟨_, hx⟩
  · exact ⟨x.1, by rw [← hx]; exact hi⟩
  · rw [hx] at hi; exact absurd hi (by simp)

theorem slotsInConns_set (c c' : ClusterClient) (addr : String) (cc : Conn)
    (hs : c'.slots = c.slots) (hc : c'.conns = c.conns.set addr cc)
    (hnone : c.conns.get? addr = none) (h : slotsInConns c) : slotsInConns c' := by
  intro i p hi
  rw [hs] at hi
  obtain ⟨a, ha⟩ := h i p hi
  refine ⟨a, ?_⟩
  rw [hc, GoMap.get?_set]
  have : ¬ a = addr := by
    intro e; subst e
    rw [hnone] at ha; exact absurd ha (by simp)
  simp only [this, if_false]
  exact ha

/-- C29, as stated, fails after a refresh that fails.  The client is seeded
with `b:2` and refreshed, which populates the first eight slots with the
connections of `a:1` and `c:3`; at the next refresh both fail the topology
query: they are deleted from `conns`, while slot 0 still refers to the
connection of `a:1`. -/
theorem failed_refresh_leaves_dangling_slots :
    ∃ c1 c2 e, _refresh flakyWorld 3 (init flakyWorld freshClient).2 = Exec.ret (none, c1) ∧
      c1.conns = [("a:1", ⟨1⟩), ("c:3", ⟨3⟩)] ∧ c1.slots 0 = some ⟨1⟩ ∧
      _refresh flakyWorld 3 c1 = Exec.ret (some e, c2) ∧
      c2.slots 0 = some ⟨1⟩ ∧ c2.conns = [] ∧ ¬ slotsInConns c2 := by
  refine ⟨_, _, _, rfl, rfl, rfl, rfl, rfl, rfl, ?_⟩
  intro h
  obtain ⟨a, ha⟩ := h 0 ⟨1⟩ rfl
  exact absurd ha (by simp [GoMap.get?])

/-- C29, amended.  After every refresh that returns nil, every populated
slot refers to a connection that is a value of `conns`; `pickOrNew` keeps this
property, and so does `init` when no initial address has a connection in
`conns`, as on a client that has just been created, on which the property
holds.  A refresh that fails and an `init` that replaces a connection leave
the slot vector as it is and can break the property. -/
theorem refresh_restores_slotsInConns (w : World) :
    (∀ n c c', _refresh w n c = Exec.ret (none, c') → slotsInConns c') ∧
    (∀ addr c, slotsInConns c → slotsInConns (pickOrNew w addr c).2) ∧
    (∀ c, slotsInConns c → (∀ a ∈ c.InitAddress, c.conns.get? a = none) →
      slotsInConns (init w c).2) ∧
    (∀ L, slotsInConns ⟨L, fun _ => none, [], []⟩) ∧
    (∀ c, (init w c).2.slots = c.slots) := by
  refine ⟨?_, ?_, ?_, ?_, fun c => (init_spec w c).1⟩
  · intro n c c' h
    obtain ⟨reply, c1, hreb, _⟩ := _refreshRetry_ok w n Message.zero none c c' rfl h
    exact rebuild_slotsInConns hreb
  · intro addr c h
    cases hg : c.conns.get? addr with
    | some q =>
      have := ((pickOrNew_spec w addr c).2.2.2.1 q hg).2
      rw [this]; exact h
    | none =>
      apply slotsInConns_set c _ addr (w.connFn c.trace addr) (pickOrNew_spec w addr c).1 ?_ hg h
      unfold pickOrNew
      simp only [hg]
      rfl
  · intro c h hnone
    unfold init
    split
    · exact h
    · rcases initLoop_cases w c.InitAddress none c with ⟨_, h2⟩ | ⟨failed, addr, rest, e1, _, _, h2⟩
      · rw [h2]
        intro i p hi
        exact h i p hi
      · rw [h2]
        exact slotsInConns_set c
          { c with
            conns := c.conns.set addr (dialConn w addr (failedDials w failed c.trace))
            trace := closePrev c addr ++ dialAttempt w addr (failedDials w failed c.trace) }
          addr _ rfl rfl (hnone addr (by rw [e1]; simp)) h
  · intro L i cc hi
    exact absurd hi (by simp)

/-- C29 amended, on the client seeded with `b:2`: after `init` and after the
refresh that returns nil every populated slot refers to a value of `conns`,
and `pickOrNew` of a new address keeps it so. -/
theorem refresh_restores_slotsInConns_witness :
    slotsInConns (init flakyWorld freshClient).2 ∧
    ∃ c1, _refresh flakyWorld 3 (init flakyWorld freshClient).2 = Exec.ret (none, c1) ∧
      slotsInConns c1 ∧ slotsInConns (pickOrNew flakyWorld "d:4" c1).2 := by
  refine ⟨(refresh_restores_slotsInConns flakyWorld).2.2.1 freshClient
      ((refresh_restores_slotsInConns flakyWorld).2.2.2.1 ["b:2"]) (by decide), _, rfl, ?_, ?_⟩
  · exact (refresh_restores_slotsInConns flakyWorld).1 3 (init flakyWorld freshClient).2 _ rfl
  · exact (refresh_restores_slotsInConns flakyWorld).2.1 "d:4" _
      ((refresh_restores_slotsInConns flakyWorld).1 3 (init flakyWorld freshClient).2 _ rfl)

/-! ## Lemmas: replies that follow the protocol -/

theorem index_total (vs : List Message) (i : Nat) (h : i < vs.length) :
    index vs i = Exec.ret (vs.getD i Message.zero) := by
  unfold index
  rw [List.getElem?_eq_getElem h]
  simp [List.getD, List.getElem?_eq_getElem h]

theorem nodeAddr_total (n : Message) (h : 2 ≤ n.values.length) :
    ∃ a, nodeAddr n = Exec.ret a := by
  unfold nodeAddr
  rw [index_total n.values 0 (by omega), index_total n.values 1 (by omega)]
  exact ⟨_, rfl⟩

theorem parseNodes_total : ∀ (ns : List Message) (acc : List String),
    (∀ n ∈ ns, 2 ≤ n.values.length) → ∃ r, parseNodes ns acc = Exec.ret r := by
  intro ns
  induction ns with
  | nil => intro acc _; exact ⟨acc, rfl⟩
  | cons n rest ih =>
    intro acc h
    obtain ⟨a, ha⟩ := nodeAddr_total n (h n (List.mem_cons_self _ _))
    simp only [parseNodes, ha]
    exact ih _ (fun x hx => h x (List.mem_cons_of_mem _ hx))

theorem parseSlot_total (v : Message) (h : v.wellFormedEntry) (G : GoMap group) :
    ∃ G1, parseSlot v G = Exec.ret G1 := by
  obtain ⟨h3, hn, _⟩ := h
  have hm2 : v.values.getD 2 Message.zero ∈ v.values.drop 2 := by
    have h1 : (v.values.drop 2)[0]? = some (v.values.getD 2 Message.zero) := by
      rw [List.getElem?_drop]
      simp [List.getD, List.getElem?_eq_getElem (show 2 < v.values.length by omega)]
    obtain ⟨hlt, he⟩ := List.getElem?_eq_some_iff.mp h1
    rw [← he]
    exact List.getElem_mem hlt
  obtain ⟨a, ha⟩ := nodeAddr_total _ (hn _ hm2)
  unfold parseSlot
  rw [index_total v.values 2 (by omega)]
  simp only [ha]
  have hl : ∃ g, lookupGroup v G a = Exec.ret g := by
    unfold lookupGroup
    cases G.get? a with
    | some g => exact ⟨g, rfl⟩
    | none =>
      obtain ⟨r, hr⟩ := parseNodes_total (v.values.drop 2) [] hn
      simp only [hr]
      exact ⟨_, rfl⟩
  obtain ⟨g, hg⟩ := hl
  simp only [hg]
  rw [index_total v.values 0 (by omega), index_total v.values 1 (by omega)]
  exact ⟨_, rfl⟩

theorem parseSlotsLoop_total : ∀ (vs : List Message) (G : GoMap group),
    (∀ v ∈ vs, v.wellFormedEntry) → ∃ G1, parseSlotsLoop vs G = Exec.ret G1 := by
  intro vs
  induction vs with
  | nil => intro G _; exact ⟨G, rfl⟩
  | cons v rest ih =>
    intro G h
    obtain ⟨G1, h1⟩ := parseSlot_total v (h v (List.mem_cons_self _ _)) G
    simp only [parseSlotsLoop, h1]
    exact ih _ (fun x hx => h x (List.mem_cons_of_mem _ hx))

/-- A rebuild from a reply with well-formed entries returns nil. -/
theorem rebuild_wellFormed (w : World) (reply : Message) (c : ClusterClient)
    (h : ∀ v ∈ reply.values, v.wellFormedEntry) :
    ∃ c', rebuild w reply c = Exec.ret (none, c') := by
  obtain ⟨G, hG⟩ := parseSlotsLoop_total reply.values [] h
  have hG2 : parseSlots reply = Exec.ret G := hG
  obtain ⟨_, pr, pn⟩ := parseSlots_ret hG2
  have hb : ∀ x ∈ G, rangesInBounds x.2.slots := by
    intro x hx r hr
    have hget : G.get? x.1 = some x.2 := GoMap.get?_of_mem G x.1 x.2 pn hx
    have hr2 : r ∈ rangesOf G x.1 := by
      unfold rangesOf
      rw [hget]; exact hr
    obtain ⟨v, hv, _, hvr⟩ := (pr x.1 r).mp hr2
    have := (h v hv).2.2
    rw [← hvr]
    exact this
  obtain ⟨S, hS⟩ := rebuild_total w reply c G hG2 hb
  exact ⟨_, hS⟩

theorem lastTopology_answer (w : World) : ∀ (tr : List Event) (x : Message × Option Error),
    lastTopology w tr = some x → ∃ tr1 cc, w.Slots tr1 cc = x := by
  intro tr
  induction tr with
  | nil => intro x h; simp [lastTopology] at h
  | cons e rest ih =>
    intro x h
    cases e <;> simp only [lastTopology] at h
    case Slots cc =>
      simp only [Option.some.injEq] at h
      exact ⟨rest, cc, h⟩
    all_goals exact ih x h

/-- In a world that follows the protocol, `_refresh` does not panic. -/
theorem _refreshRetry_no_panic (w : World) (hw : w.wellFormed) : ∀ (n : Nat) (reply : Message)
    (err : Option Error) (c : ClusterClient) (m : String), reply.values.length = 0 →
    _refreshRetry w n reply err c ≠ Exec.panic m := by
  intro n
  induction n with
  | zero => intro reply err c m _; simp [_refreshRetry]
  | succ n ih =>
    intro reply err c m hr
    rw [_refreshRetry]
    have Q := queryLoop_spec w (c.range w c.conns) ⟨reply, err, []⟩ c
    generalize queryLoop w (c.range w c.conns) ⟨reply, err, []⟩ c = q at Q
    obtain ⟨_, _, _, _, q5⟩ := Q
    have D : Extends Event.isLifecycle q.2
        (if q.1.dead.length ≠ 0 then removeDead q.1.dead q.2 else q.2) := by
      split
      · exact (removeDead_spec _ _).2.2
      · exact Extends.refl _ _
    generalize (if q.1.dead.length ≠ 0 then removeDead q.1.dead q.2 else q.2) = c1 at D
    cases hq : q.1.err with
    | some e => simp
    | none =>
      simp only
      by_cases hlen : q.1.reply.values.length = 0
      · simp only [hlen, if_true]
        rcases hi : init w c1 with ⟨⟨y, e⟩, c2⟩
        cases e with
        | some e => simp
        | none =>
          simp only
          exact ih _ _ _ _ hlen
      · simp only [hlen, if_false]
        rcases q5 hq with h5 | h5
        · obtain ⟨tr1, cc, hs⟩ := lastTopology_answer w _ _ h5
          have hwf : ∀ v ∈ q.1.reply.values, v.wellFormedEntry := by
            have := hw.1 tr1 cc (by rw [hs])
            rw [hs] at this
            exact this
          obtain ⟨c', hc'⟩ := rebuild_wellFormed w q.1.reply c1 hwf
          rw [hc']
          simp
        · rw [h5] at hlen
          exact absurd hr hlen

theorem pick_no_panic (w : World) (hw : w.wellFormed) (n slot : Nat) (c : ClusterClient)
    (hs : slot ≤ InitSlot) (m : String) : pick w n slot c ≠ Exec.panic m := by
  have hp : ∀ c0 : ClusterClient, ∃ p, _pick w slot c0 = Exec.ret p := by
    intro c0
    unfold _pick
    by_cases h1 : slot = InitSlot
    · rw [if_pos h1]
      cases c0.range w c0.conns with
      | nil => exact ⟨none, rfl⟩
      | cons x rest => exact ⟨some x.2, rfl⟩
    · rw [if_neg h1]
      have : slot < 16384 := by
        unfold InitSlot at hs h1
        omega
      rw [if_pos this]
      exact ⟨_, rfl⟩
  unfold pick
  obtain ⟨p, hp1⟩ := hp c
  rw [hp1]
  cases p with
  | some p => simp
  | none =>
    simp only
    have R := _refreshRetry_no_panic w hw n Message.zero none c
    unfold refresh _refresh
    rcases hr : _refreshRetry w n Message.zero none c with ⟨e, c1⟩ | m1 | _
    · cases e with
      | some e => simp
      | none =>
        simp only
        obtain ⟨p2, hp2⟩ := hp c1
        rw [hp2]
        cases p2 <;> simp
    · exact absurd hr (R m1 rfl)
    · simp

theorem askReply_some (w : World) (hw : w.wellFormed) (tr : List Event) (cc : Conn)
    (cmd : Command) : ∃ r, (w.DoMulti tr cc [AskingCmd, cmd])[1]? = some r := by
  have h := hw.2 tr cc [AskingCmd, cmd]
  have h1 : 1 < (w.DoMulti tr cc [AskingCmd, cmd]).length := by rw [h]; simp
  exact ⟨_, List.getElem?_eq_getElem h1⟩

theorem DoFrom_no_panic (w : World) (hw : w.wellFormed) (cmd : Command)
    (hs : cmd.Slot ≤ InitSlot) : ∀ (n : Nat) (l : Label) (c : ClusterClient) (m : String),
    DoFrom w cmd n l c ≠ Exec.panic m := by
  intro n
  induction n with
  | zero => intro l c m; simp [DoFrom]
  | succ n ih =>
    intro l c m
    cases l with
    | retry =>
      rw [DoFrom]
      rcases hp : pick w n cmd.Slot c with ⟨x, c1⟩ | m1 | _
      · cases x with
        | error e => simp
        | ok cc => simp only; exact ih _ _ _
      · exact absurd hp (pick_no_panic w hw n cmd.Slot c hs m1)
      · simp
    | process resp =>
      rw [DoFrom]
      cases resp.RedisError with
      | none => simp
      | some err =>
        simp only
        cases err.IsMoved with
        | some addr => simp only; exact ih _ _ _
        | none =>
          simp only
          cases err.IsAsk with
          | some addr =>
            simp only
            obtain ⟨r, hr⟩ := askReply_some w hw (pickOrNew w addr c).2.trace
              (pickOrNew w addr c).1 cmd
            rw [hr]
            simp only
            exact ih _ _ _
          | none =>
            simp only
            split
            · exact ih _ _ _
            · simp

theorem DoCacheFrom_no_panic (w : World) (hw : w.wellFormed) (cmd : Command) (ttl : Nat)
    (hs : cmd.Slot ≤ InitSlot) : ∀ (n : Nat) (l : Label) (c : ClusterClient) (m : String),
    DoCacheFrom w cmd ttl n l c ≠ Exec.panic m := by
  intro n
  induction n with
  | zero => intro l c m; simp [DoCacheFrom]
  | succ n ih =>
    intro l c m
    cases l with
    | retry =>
      rw [DoCacheFrom]
      rcases hp : pick w n cmd.Slot c with ⟨x, c1⟩ | m1 | _
      · cases x with
        | error e => simp
        | ok cc => simp only; exact ih _ _ _
      · exact absurd hp (pick_no_panic w hw n cmd.Slot c hs m1)
      · simp
    | process resp =>
      rw [DoCacheFrom]
      cases resp.RedisError with
      | none => simp
      | some err =>
        simp only
        cases err.IsMoved with
        | some addr => simp only; exact ih _ _ _
        | none =>
          simp only
          cases err.IsAsk with
          | some addr =>
            simp only
            obtain ⟨r, hr⟩ := askReply_some w hw (pickOrNew w addr c).2.trace
              (pickOrNew w addr c).1 cmd
            rw [hr]
            simp only
            exact ih _ _ _
          | none =>
            simp only
            split
            · exact ih _ _ _
            · simp

theorem miniWorld_wellFormed : miniWorld.wellFormed := by
  constructor
  · intro tr cc _ v hv
    have hv2 : v = entry 0 3 "a" 1 ∨ v = entry 4 7 "c" 3 := by
      simpa [miniWorld, miniReply, Message.arr, Message.values] using hv
    rcases hv2 with e | e <;> subst e <;>
      refine ⟨by decide, ?_, by decide⟩ <;> intro n hn <;>
      simp only [entry, Message.arr, Message.values, List.drop, List.mem_singleton] at hn <;>
      subst hn <;> decide
  · intro tr cc multi
    simp [miniWorld]

/-! ## Theorems: panics of the cluster client -/

/-- C22, as stated, fails on replies that do not follow the protocol: a
topology reply with an entry of two elements and a topology reply with a range
that starts below the ring make `_refresh` panic with an index out of range,
and so does `Do` when the pipeline of an ASK retry comes back with one
result. -/
theorem malformed_reply_panics :
    _refresh shortEntryWorld 2 routedClient = Exec.panic "index out of range" ∧
    _refresh outOfRingWorld 2 routedClient = Exec.panic "index out of range" ∧
    Do shortPipelineWorld 5 getCmd routedClient = Exec.panic "index out of range" ∧
    DoCache shortPipelineWorld 5 getCmd 60 routedClient = Exec.panic "index out of range" :=
  ⟨rfl, rfl, rfl, rfl⟩

/-- C22, amended.  In a world whose servers follow the protocol (every entry
of a topology reply has at least three elements, node arrays of at least two,
and a range that is empty or inside the ring; a pipeline is answered with one
result per command), no operation of the cluster client panics: neither the
construction, nor `refresh`, nor `Do` or `DoCache` of a command whose slot is
a slot of the ring or `InitSlot`. -/
theorem wellFormed_world_never_panics (w : World) (hw : w.wellFormed) (n : Nat)
    (c : ClusterClient) (cmd : Command) (ttl : Nat) (hs : cmd.Slot ≤ InitSlot) (m : String) :
    refresh w n c ≠ Exec.panic m ∧ Do w n cmd c ≠ Exec.panic m ∧
    DoCache w n cmd ttl c ≠ Exec.panic m ∧
    (∀ L sh, newClusterClient w n L sh ≠ Exec.panic m) := by
  refine ⟨_refreshRetry_no_panic w hw n _ _ c m rfl, DoFrom_no_panic w hw cmd hs n _ c m,
    DoCacheFrom_no_panic w hw cmd ttl hs n _ c m, ?_⟩
  intro L sh
  unfold newClusterClient
  simp only
  split
  · simp
  · rename_i c1 _
    have R := _refreshRetry_no_panic w hw n Message.zero none c1
    unfold refresh _refresh
    rcases hr : _refreshRetry w n Message.zero none c1 with ⟨e, c2⟩ | m1 | _
    · cases e <;> simp
    · exact absurd hr (R m1 rfl)
    · simp

/-- C22 amended, on the world of the small topology: the refresh, `Do` and
`DoCache` of `GET k` and the construction from the seeds `a:1`, `b:2` do not
panic. -/
theorem wellFormed_world_never_panics_witness :
    refresh miniWorld 5 routedClient ≠ Exec.panic "index out of range" ∧
    Do miniWorld 5 getCmd routedClient ≠ Exec.panic "index out of range" ∧
    DoCache miniWorld 5 getCmd 60 routedClient ≠ Exec.panic "index out of range" ∧
    (∀ L sh, newClusterClient miniWorld 5 L sh ≠ Exec.panic "index out of range") :=
  wellFormed_world_never_panics miniWorld miniWorld_wellFormed 5 routedClient getCmd 60
    (by decide) "index out of range"



/-! ## Theorems: the reply parsers -/

/-- C38.  `newClusterSlotsCmd` bounds its loop over the node arrays by
`len(nodes)`, which is `len(slot) - 2`, while the index starts at 2: for an
entry with one or two node arrays the loop body does not run and the nodes
are left zero, whatever the node arrays hold; for an entry with three node
arrays only the first is read.  On the entry `[0, 5460, [127.0.0.1, 7000,
id1]]` the slot comes back with one node whose `Addr` and `ID` are empty. -/
theorem newClusterSlotsCmd_skips_nodes :
    (∀ (start stop : Int) (ns : List Message), ns.length ≤ 2 →
      ∃ cmd, newClusterSlotsCmd
          (Result.val (Message.arr [Message.arr (Message.int start :: Message.int stop :: ns)])) =
          Exec.ret cmd ∧
        cmd.val = [⟨start, stop, List.replicate ns.length ⟨"", ""⟩⟩] ∧ cmd.err = none) ∧
    (∃ cmd, newClusterSlotsCmd (Result.val (Message.arr
          [Message.arr [Message.int 0, Message.int 5460, nodeEntry "127.0.0.1" 7000 "id1"]])) =
        Exec.ret cmd ∧
      cmd.val = [⟨0, 5460, [⟨"", ""⟩]⟩] ∧ cmd.err = none) ∧
    (∃ cmd, newClusterSlotsCmd (Result.val (Message.arr
          [Message.arr [Message.int 0, Message.int 5460, nodeEntry "h1" 1 "a",
            nodeEntry "h2" 2 "b", nodeEntry "h3" 3 "c"]])) = Exec.ret cmd ∧
      cmd.val = [⟨0, 5460, [⟨"a", "h1:1"⟩, ⟨"", ""⟩, ⟨"", ""⟩]⟩] ∧ cmd.err = none) := by
  refine ⟨?_, ⟨_, rfl, by decide, rfl⟩, ⟨_, rfl, by decide, rfl⟩⟩
  intro start stop ns h
  have hr : (List.range ns.length).drop 2 = [] := by
    apply List.drop_eq_nil_of_le
    simp only [List.length_range]
    exact h
  have hs : clusterSlot (Message.arr (Message.int start :: Message.int stop :: ns)) =
      Parsed.ok ⟨start, stop, List.replicate ns.length ⟨"", ""⟩⟩ := by
    have e1 : (Message.arr (Message.int start :: Message.int stop :: ns)).ToArray =
        (Message.int start :: Message.int stop :: ns, none) := rfl
    unfold clusterSlot
    rw [e1]
    have hl : ¬ (Message.int start :: Message.int stop :: ns).length < 2 := by simp
    simp only [Parsed.lift, bind, Parsed.bind, hl, if_false, Parsed.index,
      List.getElem?_cons_zero, List.getElem?_cons_succ, Message.ToInt64, Message.int,
      Message.typ, Message.integer, if_true, List.length_cons, Nat.add_sub_cancel,
      List.length_replicate, hr, clusterNodesLoop]
    have h2 : ns.length + 1 + 1 - 2 = ns.length := by omega
    have h3 : ¬ ns.length + 1 + 1 < 2 := by omega
    simp only [h2, h3, hr, clusterNodesLoop, if_false]
  refine ⟨⟨Result.val (Message.arr
      [Message.arr (Message.int start :: Message.int stop :: ns)]),
    [⟨start, stop, List.replicate ns.length ⟨"", ""⟩⟩], none⟩, ?_, rfl, rfl⟩
  have e0 : (Result.val (Message.arr
      [Message.arr (Message.int start :: Message.int stop :: ns)])).ToArray =
      ([Message.arr (Message.int start :: Message.int stop :: ns)], none) := rfl
  unfold newClusterSlotsCmd
  simp only [e0, Parsed.lift, bind, Parsed.bind, clusterSlotsLoop, hs, List.nil_append]

/-- C39.  `newXPendingCmd` compares `len(arr)`, which is 4 at that point,
with 2 inside the loop over the consumers: a summary with at least one
consumer yields the error `got 4, wanted 2`, the consumer not being read.  On
`[5, 1-0, 2-0, [[alice, 3]]]` the command carries that error and no value;
with an empty consumer list it carries the summary with a nil `Consumers`. -/
theorem newXPendingCmd_rejects_consumers :
    (∀ (count : Int) (lower higher : String) (name : Message) (pending : Message)
      (more : List Message),
      ∃ cmd, newXPendingCmd (Result.val (Message.arr [Message.int count, Message.str lower,
          Message.str higher, Message.arr (Message.arr [name, pending] :: more)])) =
          Exec.ret cmd ∧
        cmd.err = some (Error.other "got 4, wanted 2") ∧ cmd.val = ⟨0, "", "", none⟩) ∧
    (∃ cmd, newXPendingCmd (Result.val (Message.arr [Message.int 5, Message.str "1-0",
          Message.str "2-0", Message.arr [Message.arr [Message.str "alice", Message.str "3"]]])) =
        Exec.ret cmd ∧
      cmd.err = some (Error.other "got 4, wanted 2") ∧ cmd.val.Consumers = none ∧
      cmd.val.Count = 0) ∧
    (∃ cmd, newXPendingCmd (Result.val (Message.arr [Message.int 0, Message.str "1-0",
          Message.str "2-0", Message.arr []])) = Exec.ret cmd ∧
      cmd.err = none ∧ cmd.val = ⟨0, "1-0", "2-0", none⟩) := by
  refine ⟨?_, ⟨_, rfl, by decide, rfl, rfl⟩, ⟨_, rfl, rfl, by decide⟩⟩
  intro count lower higher name pending more
  refine ⟨_, rfl, ?_, rfl⟩
  show some (Error.other ("got " ++ toString (4 : Nat) ++ ", wanted 2")) = _
  decide

/-- C40.  `newCommandsInfoCmd` compares `len(arr)`, the number of entries,
with 6 before it reads `info[6]`: a reply with one entry of six elements makes
it panic with an index out of range, and in a reply of six entries the
`ACLFlags` of an entry of seven elements are left empty.  A reply of one
entry of seven elements is read as the claim says. -/
theorem newCommandsInfoCmd_confuses_lengths :
    newCommandsInfoCmd (Result.val (Message.arr [infoEntry6 "get" ["readonly"]])) =
      Exec.panic "index out of range" ∧
    (∃ cmd, newCommandsInfoCmd (Result.val (Message.arr
          [infoEntry7 "c1" [] ["@read"], infoEntry7 "c2" [] ["@read"],
            infoEntry7 "c3" [] ["@read"], infoEntry7 "c4" [] ["@read"],
            infoEntry7 "c5" [] ["@read"], infoEntry7 "c6" [] ["@read"]])) = Exec.ret cmd ∧
      cmd.err = none ∧
      GoMap.get? cmd.val "c1" = some ⟨"c1", 2, [], [], 1, 1, 1, false⟩) ∧
    (∃ cmd, newCommandsInfoCmd (Result.val (Message.arr
          [infoEntry7 "get" ["readonly"] ["@read"]])) = Exec.ret cmd ∧
      cmd.err = none ∧
      cmd.val = [("get", ⟨"get", 2, ["readonly"], ["@read"], 1, 1, 1, true⟩)]) ∧
    (∃ cmd, newCommandsInfoCmd (Result.val (Message.arr
          [Message.arr [Message.str "get", Message.int 2]])) = Exec.ret cmd ∧
      cmd.err = some (Error.other "got 2, wanted 7")) :=
  ⟨rfl, ⟨_, rfl, rfl, by decide⟩, ⟨_, rfl, rfl, by decide⟩, ⟨_, rfl, by decide⟩⟩

/-! ## Theorems: `pickOrNew` -/

/-- C35.  `pickOrNew` returns the connection stored under the address and
leaves the client as it is, the factory not being called; when the address
has no connection it calls the factory once, stores the new connection under
the address and leaves every other entry of `conns` and the slot vector as
they were.  A second call with the same address returns the connection of
the first and changes nothing. -/
theorem pickOrNew_idempotent (w : World) (addr : String) (c : ClusterClient) :
    (∀ q, c.conns.get? addr = some q → pickOrNew w addr c = (q, c)) ∧
    (c.conns.get? addr = none →
      (pickOrNew w addr c).1 = w.connFn c.trace addr ∧
      (pickOrNew w addr c).2.trace = Event.connFn addr (w.connFn c.trace addr) :: c.trace ∧
      (pickOrNew w addr c).2.conns = c.conns.set addr (w.connFn c.trace addr) ∧
      (pickOrNew w addr c).2.conns.get? addr = some (w.connFn c.trace addr) ∧
      (∀ a, a ≠ addr → (pickOrNew w addr c).2.conns.get? a = c.conns.get? a)) ∧
    (pickOrNew w addr c).2.slots = c.slots ∧
    (pickOrNew w addr c).2.InitAddress = c.InitAddress ∧
    pickOrNew w addr (pickOrNew w addr c).2 = ((pickOrNew w addr c).1, (pickOrNew w addr c).2) ∧
    (pickOrNew miniWorld "a:1" routedClient = (⟨1⟩, routedClient)) ∧
    ((pickOrNew miniWorld "d:4" routedClient).2.conns = [("a:1", ⟨1⟩), ("d:4", ⟨4⟩)] ∧
      (pickOrNew miniWorld "d:4" routedClient).2.trace = [Event.connFn "d:4" ⟨4⟩]) := by
  have S := pickOrNew_spec w addr c
  refine ⟨?_, ?_, S.1, S.2.1, ?_, rfl, rfl, rfl⟩
  · intro q hq
    unfold pickOrNew
    simp only [hq]
  · intro hn
    have hc : (pickOrNew w addr c).2.conns = c.conns.set addr (w.connFn c.trace addr) := by
      unfold pickOrNew
      simp only [hn]
      rfl
    refine ⟨(S.2.2.2.2 hn).1, (S.2.2.2.2 hn).2, hc, ?_, ?_⟩
    · rw [hc, GoMap.get?_set]; simp
    · intro a ha
      rw [hc, GoMap.get?_set]; simp [ha]
  · have h2 := S.2.2.1
    generalize pickOrNew w addr c = p at h2
    unfold pickOrNew
    simp only [h2]

/-! ## Theorems: the pub/sub hook -/

theorem pick_InitSlot_mem {w : World} {n : Nat} {c c1 : ClusterClient} {cc : Conn}
    (h : pick w n InitSlot c = Exec.ret (Except.ok cc, c1)) : ∃ a, (a, cc) ∈ c1.conns := by
  have key : ∀ (d : ClusterClient) (p : Conn), _pick w InitSlot d = Exec.ret (some p) →
      ∃ a, (a, p) ∈ d.conns := by
    intro d p hp
    unfold _pick at hp
    simp only [if_true] at hp
    split at hp
    · simp at hp
    · rename_i a q rest hr
      simp only [Exec.ret.injEq, Option.some.injEq] at hp
      refine ⟨a, (range_perm w d d.conns).mem_iff.mp ?_⟩
      rw [hr, ← hp]
      exact List.mem_cons_self _ _
  unfold pick at h
  split at h
  · rename_i p hp
    simp only [Exec.ret.injEq, Prod.mk.injEq, Except.ok.injEq] at h
    rw [← h.1, ← h.2]
    exact key c p hp
  · split at h
    · simp at h
    · split at h
      · rename_i p hp
        simp only [Exec.ret.injEq, Prod.mk.injEq, Except.ok.injEq] at h
        rw [← h.1, ← h.2]
        exact key _ p hp
      · simp at h
      · exact absurd h (by simp)
      · exact absurd h (by simp)
    · exact absurd h (by simp)
    · exact absurd h (by simp)
  · exact absurd h (by simp)
  · exact absurd h (by simp)

theorem hookProvider_ret (w : World) (n : Nat) : ∀ (k : Nat) (c : ClusterClient)
    (r : Option Conn) (c' : ClusterClient), hookProvider w n k c = Exec.ret (r, c') →
    ∃ c0, Extends Event.isRefresh c c0 ∧
      ((∃ cc a, r = some cc ∧ pick w n InitSlot c0 = Exec.ret (Except.ok cc, c') ∧
          (a, cc) ∈ c'.conns) ∨
       (r = none ∧ pick w n InitSlot c0 = Exec.ret (Except.error Error.ErrConnClosing, c'))) := by
  intro k
  induction k with
  | zero => intro c r c' h; simp [hookProvider] at h
  | succ k ih =>
    intro c r c' h
    rw [hookProvider] at h
    split at h
    · rename_i cc c1 hp
      simp only [Exec.ret.injEq, Prod.mk.injEq] at h
      obtain ⟨h1, h2⟩ := h
      subst h1; subst h2
      obtain ⟨a, ha⟩ := pick_InitSlot_mem hp
      exact ⟨c, Extends.refl _ _, Or.inl ⟨cc, a, rfl, hp, ha⟩⟩
    · rename_i err c1 hp
      split at h
      · rename_i he
        simp only [Exec.ret.injEq, Prod.mk.injEq] at h
        obtain ⟨h1, h2⟩ := h
        subst h1; subst h2; subst he
        exact ⟨c, Extends.refl _ _, Or.inr ⟨rfl, hp⟩⟩
      · obtain ⟨c0, e0, h0⟩ := ih c1 r c' h
        exact ⟨c0, (pick_extends hp).trans e0, h0⟩
    · exact absurd h (by simp)
    · exact absurd h (by simp)

/-- C37.  The connection provider installed as pub/sub hook calls
`pick(InitSlot)` until a call yields a connection or fails with
`ErrConnClosing`.  Whenever it returns, its result comes from the last call of
`pick`: either the connection that this call returned, which is a value of
`conns`, or none, and none only when this call failed with `ErrConnClosing`.
A call of `pick` that fails with any other error is followed by a further call
of `pick`; one that fails with `ErrConnClosing` ends the provider with none,
and one that yields a connection ends it with this connection. -/
theorem hookProvider_conn_or_closing (w : World) (n k : Nat) (c c' : ClusterClient)
    (r : Option Conn) (h : hookProvider w n k c = Exec.ret (r, c')) :
    (∃ c0, Extends Event.isRefresh c c0 ∧
      ((∃ cc a, r = some cc ∧ pick w n InitSlot c0 = Exec.ret (Except.ok cc, c') ∧
          (a, cc) ∈ c'.conns) ∨
       (r = none ∧
          pick w n InitSlot c0 = Exec.ret (Except.error Error.ErrConnClosing, c')))) ∧
    (∀ j c2 e c3, pick w n InitSlot c2 = Exec.ret (Except.error e, c3) →
      e ≠ Error.ErrConnClosing → hookProvider w n (j + 1) c2 = hookProvider w n j c3) ∧
    (∀ j c2 c3, pick w n InitSlot c2 = Exec.ret (Except.error Error.ErrConnClosing, c3) →
      hookProvider w n (j + 1) c2 = Exec.ret (none, c3)) ∧
    (∀ j c2 cc c3, pick w n InitSlot c2 = Exec.ret (Except.ok cc, c3) →
      hookProvider w n (j + 1) c2 = Exec.ret (some cc, c3)) := by
  refine ⟨hookProvider_ret w n k c r c' h, ?_, ?_, ?_⟩
  · intro j c2 e c3 hp he
    rw [hookProvider]
    simp only [hp, he, if_false]
  · intro j c2 c3 hp
    rw [hookProvider]
    simp only [hp, if_true]
  · intro j c2 cc c3 hp
    rw [hookProvider]
    simp only [hp]

/-- C37 on two runs from the client seeded with `b:2`.  When the first two
dials fail with a network error, the provider calls `pick` three times and
returns the connection of `a:1`; when the topology query fails with
`ErrConnClosing`, it returns none after one call. -/
theorem hookProvider_conn_or_closing_witness :
    (∃ c', hookProvider retryWorld 3 5 freshClient = Exec.ret (some ⟨1⟩, c') ∧
      c'.trace.countP Event.isDialOnly = 3 ∧
      ∃ c0, Extends Event.isRefresh freshClient c0 ∧
        ((∃ cc a, some (⟨1⟩ : Conn) = some cc ∧
            pick retryWorld 3 InitSlot c0 = Exec.ret (Except.ok cc, c') ∧ (a, cc) ∈ c'.conns) ∨
         (some (⟨1⟩ : Conn) = none ∧
            pick retryWorld 3 InitSlot c0 =
              Exec.ret (Except.error Error.ErrConnClosing, c')))) ∧
    (∃ c', hookProvider closingWorld 3 5 freshClient = Exec.ret (none, c') ∧
      c'.trace.countP Event.isDialOnly = 1) :=
  ⟨⟨_, rfl, by decide,
    (hookProvider_conn_or_closing retryWorld 3 5 freshClient _ (some ⟨1⟩) rfl).1⟩,
   ⟨_, rfl, by decide⟩⟩

/-! ## Theorems: the retry after an empty topology reply -/

theorem emptyWorld_never_returns : ∀ (n : Nat) (reply : Message) (c : ClusterClient),
    reply.values.length = 0 → c.InitAddress = ["b:2"] →
    _refreshRetry emptyWorld n reply none c = Exec.fuel := by
  intro n
  induction n with
  | zero => intro reply c _ _; rfl
  | succ n ih =>
    intro reply c hr hi
    rw [_refreshRetry]
    cases hL : c.range emptyWorld c.conns with
    | nil =>
      simp only [queryLoop, List.length_nil, ne_eq, not_true_eq_false, if_false, hr, if_true]
      simp only [init, hi, List.length_singleton, one_ne_zero, if_false, initLoop]
      exact ih _ _ hr (by split <;> exact hi)
    | cons x rest =>
      obtain ⟨a, cc⟩ := x
      have hs : ∀ tr q, emptyWorld.Slots tr q = (Message.arr [], none) := fun _ _ => rfl
      simp only [queryLoop, hs, List.length_nil, ne_eq, not_true_eq_false, if_false]
      have hv : (Message.arr []).values.length = 0 := rfl
      simp only [hv, if_true]
      simp only [init, ClusterClient.log, hi, List.length_singleton, one_ne_zero, if_false,
        initLoop]
      exact ih _ _ hv (by split <;> rfl)

/-- C31, as stated, fails: the jump back to `retry` after an empty reply is
unconditional.  In a world whose nodes answer every topology query with an
empty list and whose seed `b:2` accepts every dial, `_refresh` returns for no
amount of fuel.  In a world whose nodes answer the first two queries with an
empty list, `_refresh` puts the query a third time, after three re-seedings,
and installs the topology of the third answer. -/
theorem refresh_reseeds_without_bound :
    (¬ ∃ n x c', _refresh emptyWorld n freshClient = Exec.ret (x, c')) ∧
    (∃ c', _refresh emptyTwiceWorld 5 freshClient = Exec.ret (none, c') ∧
      c'.slots 0 = some ⟨1⟩ ∧ c'.trace.countP Event.isSlots = 3 ∧
      c'.trace.countP Event.isDialOnly = 3) := by
  refine ⟨?_, _, rfl, rfl, by decide, by decide⟩
  rintro ⟨n, x, c', h⟩
  have := emptyWorld_never_returns n Message.zero freshClient rfl rfl
  unfold _refresh at h
  rw [this] at h
  exact absurd h (by simp)

theorem reseedRound_step (w : World) (n : Nat) (reply : Message) (err : Option Error)
    (c : ClusterClient) (s : Message × Option Error × ClusterClient)
    (h : reseedRound w reply err c = some s) :
    _refreshRetry w (n + 1) reply err c = _refreshRetry w n s.1 s.2.1 s.2.2 := by
  rw [_refreshRetry]
  unfold reseedRound at h
  generalize queryLoop w (c.range w c.conns) ⟨reply, err, []⟩ c = q at h ⊢
  cases he : q.1.err with
  | some e =>
    simp only [he] at h
    exact absurd h (by simp)
  | none =>
    simp only [he] at h ⊢
    by_cases hl : q.1.reply.values.length = 0
    · simp only [hl, if_true] at h ⊢
      generalize init w (if q.1.dead.length ≠ 0 then removeDead q.1.dead q.2 else q.2) = r at h ⊢
      obtain ⟨⟨x, e⟩, c2⟩ := r
      cases e with
      | some e => exact absurd h (by simp)
      | none =>
        simp only [Option.some.injEq] at h
        subst h
        rfl
    · simp only [hl, if_false] at h
      exact absurd h (by simp)

/-- C31, amended.  `_refresh` re-seeds and repeats the round of topology
queries after every round that ends without error and with an empty reply,
as long as `init` returns a connection: there is no limit on the number of
rounds.  After `k` such rounds it is at the label `retry` again, in the state
that the `k` rounds have produced, and what it returns is what the run from
there returns. -/
theorem refresh_retries_after_every_empty_reply (w : World) (k : Nat) (reply : Message)
    (err : Option Error) (c : ClusterClient) (s : Message × Option Error × ClusterClient)
    (h : reseedRounds w k reply err c = some s) (n : Nat) :
    _refreshRetry w (n + k) reply err c = _refreshRetry w n s.1 s.2.1 s.2.2 := by
  induction k generalizing reply err c with
  | zero =>
    simp only [reseedRounds, Option.some.injEq] at h
    subst h
    rfl
  | succ k ih =>
    rw [reseedRounds] at h
    cases hr : reseedRound w reply err c with
    | none => rw [hr] at h; simp at h
    | some s1 =>
      rw [hr] at h
      obtain ⟨r1, e1, c1⟩ := s1
      simp only at h
      have := reseedRound_step w (n + k) reply err c _ hr
      rw [show n + (k + 1) = n + k + 1 from rfl, this]
      exact ih r1 e1 c1 h

/-- C31 amended, in the world that answers the first two topology queries
with an empty list: from the client seeded with `b:2`, three rounds end in a
re-seeding, and the refresh continues with a fourth round, which installs the
topology. -/
theorem refresh_retries_after_every_empty_reply_witness :
    ∃ s c', reseedRounds emptyTwiceWorld 3 Message.zero none freshClient = some s ∧
      _refreshRetry emptyTwiceWorld (2 + 3) Message.zero none freshClient =
        _refreshRetry emptyTwiceWorld 2 s.1 s.2.1 s.2.2 ∧
      _refreshRetry emptyTwiceWorld 2 s.1 s.2.1 s.2.2 = Exec.ret (none, c') ∧
      c'.slots 4 = some ⟨3⟩ :=
  ⟨_, _, rfl,
    refresh_retries_after_every_empty_reply emptyTwiceWorld 3 Message.zero none freshClient _
      rfl 2, rfl, rfl⟩

/-! ## Lemmas: a refresh with failing and answering nodes -/

theorem GoMap.get?_delete {V : Type} (m : GoMap V) (k a : String) (hn : m.keys.Nodup) :
    (GoMap.delete m k).get? a = if a = k then none else m.get? a := by
  induction m with
  | nil => simp [GoMap.delete, GoMap.get?]
  | cons y rest ih =>
    obtain ⟨k', v'⟩ := y
    simp only [GoMap.keys, List.map_cons, List.nodup_cons] at hn
    simp only [GoMap.delete]
    by_cases e : k' = k
    · subst e
      simp only [if_true]
      by_cases e2 : a = k'
      · subst e2
        simp only [if_true]
        exact get?_none_of_not_mem rest a hn.1
      · have : ¬ k' = a := fun h => e2 h.symm
        simp only [e2, if_false, GoMap.get?, this]
    · simp only [e, if_false, GoMap.get?]
      by_cases e2 : k' = a
      · subst e2
        simp only [if_true, e, if_false]
      · simp only [e2, if_false]
        exact ih hn.2

theorem queryLoop_answer (w : World) : ∀ (failed : List (String × Conn)) (v : QueryVars)
    (c : ClusterClient) (a : String) (cc : Conn) (rest : List (String × Conn)),
    allQueriesFail w failed c.trace = true →
    (w.Slots (failedQueries failed c.trace) cc).2 = none →
    queryLoop w (failed ++ (a, cc) :: rest) v c =
      (⟨(w.Slots (failedQueries failed c.trace) cc).1, none, v.dead ++ failed.map Prod.fst⟩,
        { c with trace := Event.Slots cc :: failedQueries failed c.trace }) := by
  intro failed
  induction failed with
  | nil =>
    intro v c a cc rest _ hs
    simp only [failedQueries] at hs
    simp only [List.nil_append, queryLoop, hs, failedQueries, List.map_nil, List.append_nil]
    rfl
  | cons x more ih =>
    intro v c a cc rest hf hs
    obtain ⟨b, cb⟩ := x
    simp only [allQueriesFail, Bool.and_eq_true] at hf
    obtain ⟨h1, h2⟩ := hf
    simp only [failedQueries] at hs
    rw [List.cons_append, queryLoop]
    cases hr : (w.Slots c.trace cb).2 with
    | none => rw [hr] at h1; exact absurd h1 (by simp)
    | some e =>
      simp only [hr]
      rw [ih ⟨(w.Slots c.trace cb).1, some e, v.dead ++ [b]⟩ (c.log (Event.Slots cb)) a cc rest h2 hs]
      simp [failedQueries, ClusterClient.log]

theorem removeDead_exact : ∀ (failed : List (String × Conn)) (c : ClusterClient),
    c.conns.keys.Nodup → (failed.map Prod.fst).Nodup →
    (∀ p ∈ failed, c.conns.get? p.1 = some p.2) →
    (removeDead (failed.map Prod.fst) c).trace =
      (failed.map fun p => Event.Close p.2).reverse ++ c.trace ∧
    (∀ b, (removeDead (failed.map Prod.fst) c).conns.get? b =
      if b ∈ failed.map Prod.fst then none else c.conns.get? b) ∧
    (removeDead (failed.map Prod.fst) c).conns.keys.Nodup := by
  intro failed
  induction failed with
  | nil => intro c hn _ _; simp [removeDead, hn]
  | cons x more ih =>
    intro c hn hd hm
    obtain ⟨a, cc⟩ := x
    simp only [List.map_cons, List.nodup_cons] at hd
    have ha : c.conns.get? a = some cc := hm (a, cc) (List.mem_cons_self _ _)
    simp only [List.map_cons, removeDead, ha]
    have hm2 : ∀ p ∈ more, ({ c with conns := c.conns.delete a }.log (Event.Close cc)).conns.get? p.1
        = some p.2 := by
      intro p hp
      show (GoMap.delete c.conns a).get? p.1 = some p.2
      rw [GoMap.get?_delete c.conns a p.1 hn]
      have : ¬ p.1 = a := by
        intro e
        exact hd.1 (e ▸ List.mem_map_of_mem Prod.fst hp)
      simp only [this, if_false]
      exact hm p (List.mem_cons_of_mem _ hp)
    obtain ⟨i1, i2, i3⟩ := ih ({ c with conns := c.conns.delete a }.log (Event.Close cc))
      (GoMap.nodup_delete c.conns a hn) hd.2 hm2
    refine ⟨?_, ?_, i3⟩
    · rw [i1]; simp [ClusterClient.log]
    · intro b
      rw [i2 b]
      show (if b ∈ more.map Prod.fst then none else (GoMap.delete c.conns a).get? b) = _
      rw [GoMap.get?_delete c.conns a b hn]
      by_cases e : b = a
      · simp [e]
      · simp only [e, if_false, List.mem_cons, false_or]

/-- The state of `_refresh` at the rebuild when some queries fail and the
next one is answered with a non-empty reply. -/
theorem _refreshRetry_answer (w : World) (n : Nat) (reply0 : Message) (err0 : Option Error)
    (c : ClusterClient) (failed : List (String × Conn)) (a : String) (cc : Conn)
    (rest : List (String × Conn)) (reply : Message)
    (hr : c.range w c.conns = failed ++ (a, cc) :: rest)
    (hf : allQueriesFail w failed c.trace = true)
    (hs : w.Slots (failedQueries failed c.trace) cc = (reply, none))
    (hl : reply.values.length ≠ 0) :
    _refreshRetry w (n + 1) reply0 err0 c =
      rebuild w reply (removeDead (failed.map Prod.fst)
        { c with trace := Event.Slots cc :: failedQueries failed c.trace }) := by
  have hs2 : (w.Slots (failedQueries failed c.trace) cc).2 = none := by rw [hs]
  rw [_refreshRetry, hr, queryLoop_answer w failed ⟨reply0, err0, []⟩ c a cc rest hf hs2, hs]
  simp only [List.nil_append, hl, if_false]
  cases failed with
  | nil => simp [removeDead]
  | cons x more => simp

/-! ## Theorems: a refresh with failing and answering nodes -/

/-- C32, as stated, fails: the order in which the connections are tried
matters when a connection answers with an empty list.  The client holds
connections to `a:1`, which answers the topology query with an empty list, and
to `c:3`, which answers it with the non-empty, well-formed `miniReply`; the
seed `b:2` refuses the dial.  When `a:1` is tried first, the loop stops at its
answer, the refresh re-seeds and returns the dial error; when `c:3` is tried
first, the refresh returns nil. -/
theorem refresh_order_decides_outcome :
    (∀ tr, emptyFirstWorld.Slots tr ⟨3⟩ = (miniReply, none)) ∧
    (∀ tr, emptyLastWorld.Slots tr ⟨3⟩ = (miniReply, none)) ∧
    duoClient.conns.get? "c:3" = some ⟨3⟩ ∧
    miniReply.values.length ≠ 0 ∧ (∀ v ∈ miniReply.values, v.wellFormedEntry) ∧
    duoClient.range emptyFirstWorld duoClient.conns = [("a:1", ⟨1⟩), ("c:3", ⟨3⟩)] ∧
    (∃ c', _refresh emptyFirstWorld 3 duoClient =
        Exec.ret (some (Error.other "connection refused"), c') ∧
      c'.trace = [Event.Dial ⟨2⟩, Event.connFn "b:2" ⟨2⟩, Event.Slots ⟨1⟩]) ∧
    duoClient.range emptyLastWorld duoClient.conns = [("c:3", ⟨3⟩), ("a:1", ⟨1⟩)] ∧
    (∃ c', _refresh emptyLastWorld 3 duoClient = Exec.ret (none, c') ∧
      c'.slots 0 = some ⟨1⟩ ∧ c'.slots 4 = some ⟨3⟩) := by
  refine ⟨fun _ => rfl, fun _ => rfl, rfl, by decide, ?_, rfl, ⟨_, rfl, rfl⟩, rfl,
    ⟨_, rfl, rfl, rfl⟩⟩
  exact miniWorld_wellFormed.1 [] ⟨0⟩ rfl

/-- C32, amended.  Let `_refresh` try the connections of `conns` in the order
`failed ++ (a, cc) :: rest`, whatever this order is: the connections of `failed`,
however many, fail the topology query and `cc`, the first that answers without
error, answers it with a non-empty reply whose entries are well formed.  Then `_refresh` returns nil: it is the rebuild
from this reply.  At the rebuild the addresses of `failed`, and only these, have
been removed from `conns`, each of their connections has been closed, once, and
the connection that answered and those that were not tried are in place. -/
theorem refresh_tolerates_failed_queries (w : World) (n : Nat) (c : ClusterClient)
    (failed : List (String × Conn)) (a : String) (cc : Conn) (rest : List (String × Conn))
    (reply : Message) (hn : c.conns.keys.Nodup)
    (hr : c.range w c.conns = failed ++ (a, cc) :: rest)
    (hf : allQueriesFail w failed c.trace = true)
    (hs : w.Slots (failedQueries failed c.trace) cc = (reply, none))
    (hl : reply.values.length ≠ 0) (hwf : ∀ v ∈ reply.values, v.wellFormedEntry) :
    ∃ c1 c', _refresh w (n + 1) c = Exec.ret (none, c') ∧
      rebuild w reply c1 = Exec.ret (none, c') ∧
      c1.slots = c.slots ∧ c1.InitAddress = c.InitAddress ∧
      c1.trace = (failed.map fun p => Event.Close p.2).reverse ++
        Event.Slots cc :: failedQueries failed c.trace ∧
      (∀ b, c1.conns.get? b = if b ∈ failed.map Prod.fst then none else c.conns.get? b) ∧
      c1.conns.get? a = some cc ∧ (∀ p ∈ rest, c1.conns.get? p.1 = some p.2) := by
  have hp := range_perm w c c.conns
  rw [hr] at hp
  have hkn : ((failed ++ (a, cc) :: rest).map Prod.fst).Nodup :=
    (hp.map Prod.fst).nodup_iff.mpr hn
  have hmem : ∀ p ∈ failed ++ (a, cc) :: rest, c.conns.get? p.1 = some p.2 :=
    fun p h => GoMap.get?_of_mem c.conns p.1 p.2 hn (hp.mem_iff.mp h)
  rw [List.map_append, List.nodup_append] at hkn
  obtain ⟨k1, k2, k3⟩ := hkn
  obtain ⟨e1, e2, _⟩ := removeDead_exact failed
    { c with trace := Event.Slots cc :: failedQueries failed c.trace } hn k1
    (fun p h => hmem p (List.mem_append_left _ h))
  obtain ⟨s1, s2, _⟩ := removeDead_spec (failed.map Prod.fst)
    { c with trace := Event.Slots cc :: failedQueries failed c.trace }
  obtain ⟨c', hc'⟩ := rebuild_wellFormed w reply (removeDead (failed.map Prod.fst)
    { c with trace := Event.Slots cc :: failedQueries failed c.trace }) hwf
  have keep : ∀ p ∈ (a, cc) :: rest, (removeDead (failed.map Prod.fst)
      { c with trace := Event.Slots cc :: failedQueries failed c.trace }).conns.get? p.1
        = some p.2 := by
    intro p h
    rw [e2 p.1]
    have : p.1 ∉ failed.map Prod.fst := fun h2 => k3 h2 (List.mem_map_of_mem Prod.fst h)
    simp only [this, if_false]
    exact hmem p (List.mem_append_right _ h)
  refine ⟨_, c', ?_, hc', s1, s2, e1, e2, keep (a, cc) (List.mem_cons_self _ _),
    fun p h => keep p (List.mem_cons_of_mem _ h)⟩
  unfold _refresh
  rw [_refreshRetry_answer w n Message.zero none c failed a cc rest reply hr hf hs hl]
  exact hc'

/-- C32 amended, on the client with connections to `a:1`, `c:3` and `d:4`, tried in
this order: `a:1` fails the query and `c:3` answers it.  The refresh returns
nil; at the rebuild `a:1` has been removed and its connection closed, and the
connections of `c:3` and `d:4` are in place. -/
theorem refresh_tolerates_failed_queries_witness :
    ∃ c1 c', _refresh halfWorld (0 + 1) trioClient = Exec.ret (none, c') ∧
      rebuild halfWorld miniReply c1 = Exec.ret (none, c') ∧
      c1.slots = trioClient.slots ∧ c1.InitAddress = trioClient.InitAddress ∧
      c1.trace = ([("a:1", (⟨1⟩ : Conn))].map fun p => Event.Close p.2).reverse ++
        Event.Slots ⟨3⟩ :: failedQueries [("a:1", ⟨1⟩)] trioClient.trace ∧
      (∀ b, c1.conns.get? b =
        if b ∈ [("a:1", (⟨1⟩ : Conn))].map Prod.fst then none else trioClient.conns.get? b) ∧
      c1.conns.get? "c:3" = some ⟨3⟩ ∧
      (∀ p ∈ [("d:4", (⟨4⟩ : Conn))], c1.conns.get? p.1 = some p.2) :=
  refresh_tolerates_failed_queries halfWorld 0 trioClient [("a:1", ⟨1⟩)] "c:3" ⟨3⟩
    [("d:4", ⟨4⟩)] miniReply (by decide) rfl rfl rfl (by decide)
    (by
      intro v hv
      simp only [miniReply, Message.arr, Message.values, List.mem_cons, List.mem_singleton,
        List.not_mem_nil, or_false] at hv
      rcases hv with e | e <;> subst e <;>
        refine ⟨by decide, ?_, Or.inr ⟨by decide, by decide⟩⟩ <;>
        intro m hm <;>
        simp only [entry, Message.arr, Message.values, List.drop, List.mem_singleton] at hm <;>
        subst hm <;> decide)

/-! ## Lemmas: the connections kept, created and closed by a rebuild -/

theorem reuseConns_spec : ∀ (L : List (String × Conn)) (m : GoMap Conn) (r : List Conn),
    (L.map Prod.fst).Nodup →
    (∀ a, (reuseConns L m r).1.get? a =
      match m.get? a with
      | none => none
      | some y => some ((GoMap.get? L a).getD y)) ∧
    (reuseConns L m r).2 = r ++ (L.filter fun p => (m.get? p.1).isNone).map Prod.snd := by
  intro L
  induction L with
  | nil =>
    intro m r _
    refine ⟨?_, by simp [reuseConns]⟩
    intro a
    simp only [reuseConns, GoMap.get?]
    cases m.get? a <;> rfl
  | cons x rest ih =>
    intro m r hn
    obtain ⟨k, cc⟩ := x
    simp only [List.map_cons, List.nodup_cons] at hn
    simp only [reuseConns]
    cases hk : m.get? k with
    | none =>
      obtain ⟨i1, i2⟩ := ih m (r ++ [cc]) hn.2
      refine ⟨?_, ?_⟩
      · intro a
        rw [i1 a]
        by_cases e : k = a
        · subst e
          simp only [hk]
        · simp only [GoMap.get?, e, if_false]
      · rw [i2]
        simp [List.filter_cons, hk]
    | some y0 =>
      obtain ⟨i1, i2⟩ := ih (m.set k cc) r hn.2
      refine ⟨?_, ?_⟩
      · intro a
        simp only
        rw [i1 a, GoMap.get?_set]
        by_cases e : a = k
        · subst e
          simp only [if_true, hk, GoMap.get?, get?_none_of_not_mem rest a hn.1, Option.getD]
        · have e2 : ¬ k = a := fun h => e h.symm
          simp only [e, if_false, GoMap.get?, e2]
      · simp only
        rw [i2]
        have : (rest.filter fun p => ((m.set k cc).get? p.1).isNone) =
            rest.filter fun p => (m.get? p.1).isNone := by
          apply List.filter_congr
          intro p hp
          have : ¬ p.1 = k := fun e => hn.1 (e ▸ List.mem_map_of_mem Prod.fst hp)
          rw [GoMap.get?_set]
          simp only [this, if_false]
        rw [this]
        simp [List.filter_cons, hk]

theorem reuseConns_nodup : ∀ (L : List (String × Conn)) (m : GoMap Conn) (r : List Conn),
    m.keys.Nodup → (reuseConns L m r).1.keys.Nodup := by
  intro L
  induction L with
  | nil => intro m r h; exact h
  | cons x rest ih =>
    intro m r h
    obtain ⟨k, cc⟩ := x
    simp only [reuseConns]
    cases m.get? k with
    | none => exact ih m _ h
    | some y => exact ih _ _ (GoMap.nodup_set m k cc h)

theorem closeAll_trace : ∀ (L : List Conn) (c : ClusterClient),
    (closeAll L c).trace = (L.map Event.Close).reverse ++ c.trace := by
  intro L
  induction L with
  | nil => intro c; rfl
  | cons x rest ih =>
    intro c
    simp only [closeAll]
    rw [ih]
    simp [ClusterClient.log]

theorem newMasters_created (w : World) : ∀ (L : List (String × group)) (m : GoMap Conn)
    (c : ClusterClient),
    ∃ creates, (newMasters w L m c).2.trace = creates ++ c.trace ∧
      (∀ e ∈ creates, ∃ b y, e = Event.connFn b y) ∧
      (∀ a x, (newMasters w L m c).1.get? a = some x →
        m.get? a = some x ∨ Event.connFn a x ∈ creates) ∧
      (m.keys.Nodup → (newMasters w L m c).1.keys.Nodup) := by
  intro L
  induction L with
  | nil => intro m c; exact ⟨[], rfl, by simp, fun a x h => Or.inl h, fun h => h⟩
  | cons p rest ih =>
    intro m c
    obtain ⟨k, g⟩ := p
    simp only [newMasters]
    obtain ⟨creates, h1, h2, h3, h4⟩ := ih (m.set k (w.connFn c.trace k))
      (c.log (Event.connFn k (w.connFn c.trace k)))
    refine ⟨creates ++ [Event.connFn k (w.connFn c.trace k)], ?_, ?_, ?_, ?_⟩
    · rw [h1]; simp [ClusterClient.log]
    · intro e he
      rcases List.mem_append.mp he with h | h
      · exact h2 e h
      · exact ⟨k, _, by simpa using h⟩
    · intro a x hx
      rcases h3 a x hx with h | h
      · rw [GoMap.get?_set] at h
        by_cases e : a = k
        · subst e
          simp only [if_true, Option.some.injEq] at h
          subst h
          exact Or.inr (List.mem_append_right _ (List.mem_singleton_self _))
        · simp only [e, if_false] at h
          exact Or.inl h
      · exact Or.inr (List.mem_append_left _ h)
    · intro hm
      exact h4 (GoMap.nodup_set m _ _ hm)

/-- The address-to-connection map and the history after a rebuild: `M0` is the
map of the factory connections, one per primary, `L` the order in which the
connections of `conns` are visited. -/
theorem rebuild_conns {w : World} {reply : Message} {c c' : ClusterClient} {e : Option Error}
    (h : rebuild w reply c = Exec.ret (e, c')) (hn : c.conns.keys.Nodup) :
    ∃ G M0 creates, ∃ L : List (String × Conn), parseSlots reply = Exec.ret G ∧
      newMasters w (c.range w G) [] c = (M0, { c with trace := creates ++ c.trace }) ∧
      L.Perm c.conns ∧
      c'.trace = ((L.filter fun p => (M0.get? p.1).isNone).map fun p =>
        Event.Close p.2).reverse ++ creates ++ c.trace ∧
      (∀ a, c'.conns.get? a =
        match M0.get? a with
        | none => none
        | some y => some ((c.conns.get? a).getD y)) ∧
      c'.conns.keys.Nodup ∧
      (∀ a, (M0.get? a).isSome ↔ ∃ v ∈ reply.values, v.primary = a) ∧
      (∀ a x, M0.get? a = some x → Event.connFn a x ∈ creates) ∧
      (∀ e ∈ creates, ∃ b y, e = Event.connFn b y) := by
  cases hG : parseSlots reply with
  | panic m => simp [rebuild, hG] at h
  | fuel => simp [rebuild, hG] at h
  | ret G =>
    simp only [rebuild, hG] at h
    obtain ⟨m1, m2, m3, m4, _⟩ := newMasters_spec w (c.range w G) [] c
    obtain ⟨creates, n1, n2, n3, n4⟩ := newMasters_created w (c.range w G) [] c
    generalize hmm : newMasters w (c.range w G) [] c = mm at h m1 m2 m3 m4 n1 n2 n3 n4
    have hc1 : mm.2 = { c with trace := creates ++ c.trace } := by
      obtain ⟨M, c1⟩ := mm
      obtain ⟨i, s, cn, t⟩ := c1
      simp only at m2 m3 m4 n1
      subst m2; subst m3; subst m4; subst n1
      rfl
    generalize hS : fillSlots (reuseConns (mm.2.range w mm.2.conns) mm.1 []).1
      (mm.2.range w G) (fun _ => none) = fs at h
    cases fs with
    | panic m => simp at h
    | fuel => simp at h
    | ret S =>
      simp only [Exec.ret.injEq, Prod.mk.injEq] at h
      obtain ⟨_, hc⟩ := h
      have hkn : ((mm.2.range w mm.2.conns).map Prod.fst).Nodup := by
        rw [m3]
        exact (((range_perm w mm.2 c.conns)).map Prod.fst).nodup_iff.mpr hn
      obtain ⟨r1, r2⟩ := reuseConns_spec (mm.2.range w mm.2.conns) mm.1 [] hkn
      have rk := reuseConns_keys (mm.2.range w mm.2.conns) mm.1 []
      refine ⟨G, mm.1, creates, mm.2.range w c.conns, rfl, ?_, range_perm w _ _, ?_, ?_, ?_,
        ?_, ?_, n2⟩
      · rw [← hc1, hmm]
      · rw [← hc, closeAll_trace, r2, m3, n1]
        simp [List.map_map, List.append_assoc]
      · intro a
        rw [← hc, (closeAll_spec _ _).2.1]
        show (reuseConns (mm.2.range w mm.2.conns) mm.1 []).1.get? a = _
        rw [r1 a, m3, GoMap.get?_perm _ _ (range_perm w mm.2 c.conns) hn a]
      · rw [← hc, (closeAll_spec _ _).2.1]
        show (reuseConns (mm.2.range w mm.2.conns) mm.1 []).1.keys.Nodup
        exact reuseConns_nodup _ _ _ (n4 (by simp [GoMap.keys]))
      · intro a
        rw [GoMap.get?_isSome_iff, m1 a, ← (parseSlots_ret hG).1 a]
        simp only [GoMap.keys, List.map_nil, List.not_mem_nil, false_or]
        exact ((range_perm w c G).map Prod.fst).mem_iff
      · intro a x hx
        rcases n3 a x hx with h0 | h0
        · simp [GoMap.get?] at h0
        · exact h0


theorem removeDead_nodup : ∀ (dead : List String) (c : ClusterClient),
    c.conns.keys.Nodup → (removeDead dead c).conns.keys.Nodup := by
  intro dead
  induction dead with
  | nil => intro c h; exact h
  | cons a rest ih =>
    intro c h
    simp only [removeDead]
    cases c.conns.get? a with
    | none => exact ih c h
    | some cc => exact ih _ (GoMap.nodup_delete c.conns a h)

theorem initLoop_nodup (w : World) : ∀ (L : List String) (err : Option Error)
    (c : ClusterClient), c.conns.keys.Nodup → (initLoop w L err c).2.conns.keys.Nodup := by
  intro L
  induction L with
  | nil => intro err c h; exact h
  | cons a rest ih =>
    intro err c h
    simp only [initLoop]
    cases w.Dial (c.log (Event.connFn a (w.connFn c.trace a))).trace (w.connFn c.trace a) with
    | none =>
      simp only
      cases ((c.log (Event.connFn a (w.connFn c.trace a))).log
          (Event.Dial (w.connFn c.trace a))).conns.get? a with
      | none => exact GoMap.nodup_set _ _ _ h
      | some prev => exact GoMap.nodup_set _ _ _ h
    | some e => exact ih _ _ h

theorem init_nodup (w : World) (c : ClusterClient) (h : c.conns.keys.Nodup) :
    (init w c).2.conns.keys.Nodup := by
  unfold init
  split
  · exact h
  · exact initLoop_nodup w _ _ c h

/-- Induction over the rounds of `_refresh`: a property of the client that
the query loop, the removal of dead nodes and `init` preserve holds of the
client that is returned with an error, and of the client at the rebuild. -/
theorem _refreshRetry_inv (w : World) (I : ClusterClient → Prop)
    (hq : ∀ L v c, I c → I (queryLoop w L v c).2)
    (hd : ∀ dead c, I c → I (removeDead dead c))
    (hi : ∀ c, I c → I (init w c).2) :
    ∀ (n : Nat) (reply : Message) (err : Option Error) (c : ClusterClient) (x : Option Error)
      (c' : ClusterClient), reply.values.length = 0 → I c →
      _refreshRetry w n reply err c = Exec.ret (x, c') →
      (∃ e, x = some e ∧ I c') ∨
      (x = none ∧ ∃ reply' c1, I c1 ∧ rebuild w reply' c1 = Exec.ret (none, c') ∧
        lastTopology w c1.trace = some (reply', none) ∧ reply'.values.length ≠ 0 ∧
        Extends Event.isRefresh c c1) := by
  intro n
  induction n with
  | zero => intro reply err c x c' _ _ h; simp [_refreshRetry] at h
  | succ n ih =>
    intro reply err c x c' hr hI h
    rw [_refreshRetry] at h
    have Q := queryLoop_spec w (c.range w c.conns) ⟨reply, err, []⟩ c
    have QI := hq (c.range w c.conns) ⟨reply, err, []⟩ c hI
    generalize queryLoop w (c.range w c.conns) ⟨reply, err, []⟩ c = q at Q QI h
    obtain ⟨_, _, _, q4, q5⟩ := Q
    have D : I (if q.1.dead.length ≠ 0 then removeDead q.1.dead q.2 else q.2) ∧
        Extends Event.isLifecycle q.2
          (if q.1.dead.length ≠ 0 then removeDead q.1.dead q.2 else q.2) := by
      split
      · exact ⟨hd _ _ QI, (removeDead_spec _ _).2.2⟩
      · exact ⟨QI, Extends.refl _ _⟩
    generalize (if q.1.dead.length ≠ 0 then removeDead q.1.dead q.2 else q.2) = c1 at D h
    obtain ⟨d1, d2⟩ := D
    have hc1 : Extends Event.isRefresh c c1 := q4.trans (d2.mono isLifecycle_isRefresh)
    cases herr : q.1.err with
    | some e =>
      simp only [herr, Exec.ret.injEq, Prod.mk.injEq] at h
      obtain ⟨h1, h2⟩ := h
      subst h1; subst h2
      exact Or.inl ⟨e, rfl, d1⟩
    | none =>
      simp only [herr] at h
      by_cases hlen : q.1.reply.values.length = 0
      · simp only [hlen, if_true] at h
        have II := hi c1 d1
        have IS := (init_spec w c1).2.2
        generalize init w c1 = r at h II IS
        obtain ⟨⟨y, e⟩, c2⟩ := r
        cases e with
        | some e =>
          simp only [Exec.ret.injEq, Prod.mk.injEq] at h
          obtain ⟨h1, h2⟩ := h
          subst h1; subst h2
          exact Or.inl ⟨e, rfl, II⟩
        | none =>
          simp only at h
          rcases ih _ none c2 x c' hlen II h with g | ⟨g0, reply', c3, g1, g2, g3, g4, g5⟩
          · exact Or.inl g
          · exact Or.inr ⟨g0, reply', c3, g1, g2, g3, g4, (hc1.trans IS).trans g5⟩
      · simp only [hlen, if_false] at h
        have hx := (rebuild_ret h).1
        subst hx
        refine Or.inr ⟨rfl, q.1.reply, c1, d1, h, ?_, hlen, hc1⟩
        rw [lastTopology_extends w d2]
        rcases q5 herr with h5 | h5
        · exact h5
        · rw [h5] at hlen
          exact absurd hr hlen

/-! ## Theorems: the connections reused by a refresh -/

/-- C33.  A refresh that returns nil ends in the rebuild from the reply to
its last topology query; let `c1` be the client at this rebuild, whose `conns`
holds what has not failed the query.  For every address of `c1.conns` that is
a primary of the reply, `conns` after the refresh holds the identical
connection.  The connections closed by the rebuild are those stored in
`c1.conns` under an address that is not a primary, and no other.  Every entry
of `conns` after the refresh is under a primary; it is the entry of `c1.conns`
when there is one, and a connection that the factory created during the
rebuild only when `c1.conns` has no entry under this address. -/
theorem refresh_reuses_connections (w : World) (n : Nat) (c c' : ClusterClient)
    (hn : c.conns.keys.Nodup) (h : _refresh w n c = Exec.ret (none, c')) :
    ∃ reply c1 added, rebuild w reply c1 = Exec.ret (none, c') ∧
      lastTopology w c1.trace = some (reply, none) ∧ Extends Event.isRefresh c c1 ∧
      c'.trace = added ++ c1.trace ∧
      (∀ a cc, c1.conns.get? a = some cc → (∃ v ∈ reply.values, v.primary = a) →
        c'.conns.get? a = some cc) ∧
      (∀ x, Event.Close x ∈ added ↔
        ∃ b, c1.conns.get? b = some x ∧ ¬ ∃ v ∈ reply.values, v.primary = b) ∧
      (∀ a x, c'.conns.get? a = some x → (∃ v ∈ reply.values, v.primary = a) ∧
        (c1.conns.get? a = some x ∨
          (c1.conns.get? a = none ∧ Event.connFn a x ∈ added))) := by
  rcases _refreshRetry_inv w (fun d => d.conns.keys.Nodup)
      (fun L v d hd => by
        show (queryLoop w L v d).2.conns.keys.Nodup
        rw [(queryLoop_spec w L v d).2.1]; exact hd)
      (fun dead d hd => removeDead_nodup dead d hd)
      (fun d hd => init_nodup w d hd) n Message.zero none c none c' rfl hn h with
    ⟨e, he, _⟩ | ⟨_, reply, c1, hn1, hreb, hlast, _, hext⟩
  · exact absurd he (by simp)
  obtain ⟨G, M0, creates, L, _, _, hperm, htr, hget, _, hprim, hcre, hcr2⟩ :=
    rebuild_conns hreb hn1
  refine ⟨reply, c1, _, hreb, hlast, hext, by rw [htr, List.append_assoc], ?_, ?_, ?_⟩
  · intro a cc ha hp
    rw [hget a]
    have := (hprim a).mpr hp
    cases hm : M0.get? a with
    | none => rw [hm] at this; exact absurd this (by simp)
    | some y => simp only [ha, Option.getD]
  · intro x
    constructor
    · intro hx
      rcases List.mem_append.mp hx with hx | hx
      · rw [List.mem_reverse, List.mem_map] at hx
        obtain ⟨p, hp, hpx⟩ := hx
        rw [List.mem_filter] at hp
        simp only [Event.Close.injEq] at hpx
        refine ⟨p.1, ?_, ?_⟩
        · rw [← hpx]
          exact GoMap.get?_of_mem c1.conns p.1 p.2 hn1 (hperm.mem_iff.mp hp.1)
        · intro hq
          have := (hprim p.1).mpr hq
          have h2 := hp.2
          cases hm : M0.get? p.1 with
          | none => rw [hm] at this; exact absurd this (by simp)
          | some y => rw [hm] at h2; exact absurd h2 (by simp)
      · obtain ⟨b, y, hb⟩ := hcr2 _ hx
        exact absurd hb (by simp)
    · rintro ⟨b, hb, hnp⟩
      apply List.mem_append_left
      rw [List.mem_reverse, List.mem_map]
      refine ⟨(b, x), ?_, rfl⟩
      rw [List.mem_filter]
      refine ⟨hperm.mem_iff.mpr (GoMap.mem_of_get? c1.conns b x hb), ?_⟩
      cases hm : M0.get? b with
      | none => rfl
      | some y =>
        exact absurd ((hprim b).mp (by rw [hm]; rfl)) hnp
  · intro a x hx
    rw [hget a] at hx
    cases hm : M0.get? a with
    | none => rw [hm] at hx; exact absurd hx (by simp)
    | some y =>
      rw [hm] at hx
      simp only [Option.some.injEq] at hx
      refine ⟨(hprim a).mp (by rw [hm]; rfl), ?_⟩
      cases hc : c1.conns.get? a with
      | none =>
        rw [hc] at hx
        simp only [Option.getD] at hx
        subst hx
        exact Or.inr ⟨rfl, List.mem_append_right _ (hcre a y hm)⟩
      | some z =>
        rw [hc] at hx
        simp only [Option.getD] at hx
        subst hx
        exact Or.inl rfl

/-- C33 on the client with connections to `a:1`, `c:3` and `d:4`, where `a:1`
fails the query and `c:3` answers `miniReply`: after the refresh `conns` holds
the connection of `c:3` that it held before and a factory connection for the
primary `a:1`; the connection of `d:4`, which is not a primary, is closed. -/
theorem refresh_reuses_connections_witness :
    ∃ c', _refresh halfWorld 1 trioClient = Exec.ret (none, c') ∧
      c'.conns.get? "c:3" = some ⟨3⟩ ∧ Event.Close ⟨4⟩ ∈ c'.trace ∧
      Event.Close ⟨3⟩ ∉ c'.trace ∧
      ∃ reply c1 added, rebuild halfWorld reply c1 = Exec.ret (none, c') ∧
        lastTopology halfWorld c1.trace = some (reply, none) ∧
        Extends Event.isRefresh trioClient c1 ∧
        c'.trace = added ++ c1.trace ∧
        (∀ a cc, c1.conns.get? a = some cc → (∃ v ∈ reply.values, v.primary = a) →
          c'.conns.get? a = some cc) ∧
        (∀ x, Event.Close x ∈ added ↔
          ∃ b, c1.conns.get? b = some x ∧ ¬ ∃ v ∈ reply.values, v.primary = b) ∧
        (∀ a x, c'.conns.get? a = some x → (∃ v ∈ reply.values, v.primary = a) ∧
          (c1.conns.get? a = some x ∨
            (c1.conns.get? a = none ∧ Event.connFn a x ∈ added))) :=
  ⟨_, rfl, rfl, by decide, by decide,
    refresh_reuses_connections halfWorld 1 trioClient _ (by decide) rfl⟩



/-! ## Lemmas: connections that are closed stay out of the snapshot -/

theorem Handover.same (c : ClusterClient) : Handover c c :=
  ⟨[], rfl, fun _ _ h => Or.inl h, fun _ _ h => Or.inl h⟩

theorem Handover.compose {c1 c2 c3 : ClusterClient} (h12 : Handover c1 c2)
    (h23 : Handover c2 c3) : Handover c1 c3 := by
  obtain ⟨a1, t1, g1, n1⟩ := h12
  obtain ⟨a2, t2, g2, n2⟩ := h23
  refine ⟨a2 ++ a1, by rw [t2, t1, List.append_assoc], ?_, ?_⟩
  · intro a x h
    rcases g1 a x h with h1 | h1
    · rcases g2 a x h1 with h2 | h2
      · exact Or.inl h2
      · exact Or.inr (List.mem_append_left _ h2)
    · exact Or.inr (List.mem_append_right _ h1)
  · intro a x h
    rcases n2 a x h with h1 | h1
    · rcases n1 a x h1 with h2 | h2
      · exact Or.inl h2
      · exact Or.inr (List.mem_append_right _ h2)
    · exact Or.inr (List.mem_append_left _ h1)

/-- One step of the client: what keeps `liveConns`. -/
theorem liveConns_step (c c' : ClusterClient) (added : List Event) (hl : liveConns c)
    (ht : c'.trace = added ++ c.trace) (hk : c'.conns.keys.Nodup)
    (hnew : ∀ b x, c'.conns.get? b = some x → c.conns.get? b = some x ∨
      (Event.connFn b x ∈ added ∧ ∀ b', Event.connFn b' x ∉ c.trace))
    (hinj : ∀ a b x, c'.conns.get? a = some x → c'.conns.get? b = some x →
      (∀ b', Event.connFn b' x ∉ c.trace) → a = b)
    (hclose : ∀ x, Event.Close x ∈ added →
      (∃ a, c.conns.get? a = some x) ∧ ∀ b, c'.conns.get? b ≠ some x)
    (hcount : ∀ x, added.count (Event.Close x) ≤ 1) : liveConns c' := by
  obtain ⟨_, l2, l3, l4, l5⟩ := hl
  refine ⟨hk, ?_, ?_, ?_, ?_⟩
  · intro a b x ha hb
    by_cases hx : ∀ b', Event.connFn b' x ∉ c.trace
    · exact hinj a b x ha hb hx
    · rcases hnew a x ha with h1 | h1
      · rcases hnew b x hb with h2 | h2
        · exact l2 a b x h1 h2
        · exact absurd h2.2 hx
      · exact absurd h1.2 hx
  · intro a x ha
    constructor
    · rcases hnew a x ha with h1 | h1
      · obtain ⟨b, hb⟩ := (l3 a x h1).1
        exact ⟨b, by rw [ht]; exact List.mem_append_right _ hb⟩
      · exact ⟨a, by rw [ht]; exact List.mem_append_left _ h1.1⟩
    · rw [ht]
      intro hm
      rcases List.mem_append.mp hm with h | h
      · exact (hclose x h).2 a ha
      · rcases hnew a x ha with h1 | h1
        · exact (l3 a x h1).2 h
        · obtain ⟨b, hb⟩ := l5 x h
          exact h1.2 b hb
  · intro x
    rw [ht, List.count_append]
    by_cases hx : Event.Close x ∈ added
    · obtain ⟨a, ha⟩ := (hclose x hx).1
      rw [List.count_eq_zero_of_not_mem (l3 a x ha).2]
      exact hcount x
    · rw [List.count_eq_zero_of_not_mem hx, Nat.zero_add]
      exact l4 x
  · intro x hx
    rw [ht] at hx ⊢
    rcases List.mem_append.mp hx with h | h
    · obtain ⟨a, ha⟩ := (hclose x h).1
      obtain ⟨b, hb⟩ := (l3 a x ha).1
      exact ⟨b, List.mem_append_right _ hb⟩
    · obtain ⟨b, hb⟩ := l5 x h
      exact ⟨b, List.mem_append_right _ hb⟩

/-- A step that leaves `conns` as it is and closes nothing. -/
theorem liveConns_quiet (c c' : ClusterClient) (added : List Event) (hl : liveConns c)
    (ht : c'.trace = added ++ c.trace) (hc : c'.conns = c.conns)
    (hq : ∀ x, Event.Close x ∉ added) : liveConns c' ∧ Handover c c' := by
  refine ⟨liveConns_step c c' added hl ht (by rw [hc]; exact hl.1) ?_ ?_ ?_ ?_,
    added, ht, fun a x h => Or.inl (by rw [hc]; exact h), fun a x h => Or.inl (by rw [← hc]; exact h)⟩
  · intro b x h
    exact Or.inl (by rw [← hc]; exact h)
  · intro a b x ha _ hx
    rw [hc] at ha
    obtain ⟨b', hb'⟩ := (hl.2.2.1 a x ha).1
    exact absurd hb' (hx b')
  · intro x hx
    exact absurd hx (hq x)
  · intro x
    rw [List.count_eq_zero_of_not_mem (hq x)]
    exact Nat.zero_le _

theorem queryLoop_trace (w : World) : ∀ (L : List (String × Conn)) (v : QueryVars)
    (c : ClusterClient), ∃ added, (queryLoop w L v c).2.trace = added ++ c.trace ∧
      ∀ e ∈ added, ∃ cc, e = Event.Slots cc := by
  intro L
  induction L with
  | nil => intro v c; exact ⟨[], rfl, by simp⟩
  | cons p rest ih =>
    intro v c
    obtain ⟨a, cc⟩ := p
    simp only [queryLoop]
    cases hr : (w.Slots c.trace cc).2 with
    | none => exact ⟨[Event.Slots cc], rfl, by simp⟩
    | some e =>
      simp only
      obtain ⟨added, h1, h2⟩ := ih ⟨(w.Slots c.trace cc).1, some e, v.dead ++ [a]⟩
        (c.log (Event.Slots cc))
      refine ⟨added ++ [Event.Slots cc], by rw [h1]; simp [ClusterClient.log], ?_⟩
      intro ev hev
      rcases List.mem_append.mp hev with h | h
      · exact h2 ev h
      · exact ⟨cc, by simpa using h⟩

theorem queryLoop_live (w : World) (L : List (String × Conn)) (v : QueryVars)
    (c : ClusterClient) (hl : liveConns c) :
    liveConns (queryLoop w L v c).2 ∧ Handover c (queryLoop w L v c).2 := by
  obtain ⟨added, h1, h2⟩ := queryLoop_trace w L v c
  refine liveConns_quiet c _ added hl h1 (queryLoop_spec w L v c).2.1 ?_
  intro x hx
  obtain ⟨cc, hcc⟩ := h2 _ hx
  exact absurd hcc (by simp)

theorem removeDead_live : ∀ (dead : List String) (c : ClusterClient), liveConns c →
    liveConns (removeDead dead c) ∧ Handover c (removeDead dead c) := by
  intro dead
  induction dead with
  | nil => intro c hl; exact ⟨hl, Handover.same c⟩
  | cons a rest ih =>
    intro c hl
    simp only [removeDead]
    cases hc : c.conns.get? a with
    | none => exact ih c hl
    | some cc =>
      simp only
      have hget : ∀ b, ({ c with conns := c.conns.delete a }.log (Event.Close cc)).conns.get? b =
          if b = a then none else c.conns.get? b :=
        fun b => GoMap.get?_delete c.conns a b hl.1
      have hstep : liveConns ({ c with conns := c.conns.delete a }.log (Event.Close cc)) := by
        refine liveConns_step c _ [Event.Close cc] hl rfl (GoMap.nodup_delete c.conns a hl.1)
          ?_ ?_ ?_ ?_
        · intro b x h
          rw [hget b] at h
          by_cases e : b = a
          · simp [e] at h
          · simp only [e, if_false] at h
            exact Or.inl h
        · intro b1 b2 x h1 _ hx
          rw [hget b1] at h1
          by_cases e : b1 = a
          · simp [e] at h1
          · simp only [e, if_false] at h1
            obtain ⟨b', hb'⟩ := (hl.2.2.1 b1 x h1).1
            exact absurd hb' (hx b')
        · intro x hx
          simp only [List.mem_singleton, Event.Close.injEq] at hx
          subst hx
          refine ⟨⟨a, hc⟩, ?_⟩
          intro b h
          rw [hget b] at h
          by_cases e : b = a
          · simp [e] at h
          · simp only [e, if_false] at h
            exact e (hl.2.1 b a x h hc)
        · intro x
          simp only [List.count_cons, List.count_nil]
          split <;> omega
      have hho : Handover c ({ c with conns := c.conns.delete a }.log (Event.Close cc)) := by
        refine ⟨[Event.Close cc], rfl, ?_, ?_⟩
        · intro b x h
          by_cases e : b = a
          · subst e
            rw [hc] at h
            simp only [Option.some.injEq] at h
            subst h
            exact Or.inr (List.mem_singleton_self _)
          · left
            rw [hget b]
            simp only [e, if_false]
            exact h
        · intro b x h
          rw [hget b] at h
          by_cases e : b = a
          · simp [e] at h
          · simp only [e, if_false] at h
            exact Or.inl h
      obtain ⟨i1, i2⟩ := ih _ hstep
      exact ⟨i1, hho.compose i2⟩

theorem initLoop_live (w : World) (hw : w.freshFactory) : ∀ (L : List String)
    (err : Option Error) (c : ClusterClient), liveConns c →
    liveConns (initLoop w L err c).2 ∧ Handover c (initLoop w L err c).2 := by
  intro L
  induction L with
  | nil => intro err c hl; exact ⟨hl, Handover.same c⟩
  | cons a rest ih =>
    intro err c hl
    simp only [initLoop]
    have hfresh : ∀ b, Event.connFn b (w.connFn c.trace a) ∉ c.trace := fun b => hw c.trace a b
    generalize w.connFn c.trace a = cc at hfresh
    cases hD : w.Dial (c.log (Event.connFn a cc)).trace cc with
    | some e =>
      simp only
      obtain ⟨q1, q2⟩ := liveConns_quiet c ((c.log (Event.connFn a cc)).log (Event.Dial cc))
        [Event.Dial cc, Event.connFn a cc] hl rfl rfl (by simp)
      obtain ⟨i1, i2⟩ := ih (some e) _ q1
      exact ⟨i1, q2.compose i2⟩
    | none =>
      simp only
      have hconn : ((c.log (Event.connFn a cc)).log (Event.Dial cc)).conns.get? a =
          c.conns.get? a := rfl
      rw [hconn]
      cases hp : c.conns.get? a with
      | none =>
        simp only
        have hget : ∀ b, (c.conns.set a cc).get? b = if b = a then some cc else c.conns.get? b :=
          fun b => GoMap.get?_set c.conns a cc b
        constructor
        · refine liveConns_step c _ [Event.Dial cc, Event.connFn a cc] hl rfl
            (GoMap.nodup_set c.conns a cc hl.1) ?_ ?_ ?_ ?_
          · intro b x h
            have h' : (c.conns.set a cc).get? b = some x := h
            rw [hget b] at h'
            by_cases e : b = a
            · simp only [e, if_true, Option.some.injEq] at h'
              subst h'; subst e
              exact Or.inr ⟨by simp, hfresh⟩
            · simp only [e, if_false] at h'
              exact Or.inl h'
          · intro b1 b2 x h1 h2 hx
            have h1' : (c.conns.set a cc).get? b1 = some x := h1
            have h2' : (c.conns.set a cc).get? b2 = some x := h2
            rw [hget b1] at h1'
            rw [hget b2] at h2'
            by_cases e1 : b1 = a
            · by_cases e2 : b2 = a
              · rw [e1, e2]
              · simp only [e2, if_false] at h2'
                obtain ⟨b', hb'⟩ := (hl.2.2.1 b2 x h2').1
                exact absurd hb' (hx b')
            · simp only [e1, if_false] at h1'
              obtain ⟨b', hb'⟩ := (hl.2.2.1 b1 x h1').1
              exact absurd hb' (hx b')
          · intro x hx
            simp at hx
          · intro x
            simp [List.count_cons]
        · refine ⟨[Event.Dial cc, Event.connFn a cc], rfl, ?_, ?_⟩
          · intro b x h
            left
            show (c.conns.set a cc).get? b = some x
            rw [hget b]
            by_cases e : b = a
            · subst e; rw [hp] at h; exact absurd h (by simp)
            · simp only [e, if_false]; exact h
          · intro b x h
            have h' : (c.conns.set a cc).get? b = some x := h
            rw [hget b] at h'
            by_cases e : b = a
            · simp only [e, if_true, Option.some.injEq] at h'
              subst h'; subst e
              exact Or.inr (by simp)
            · simp only [e, if_false] at h'
              exact Or.inl h'
      | some prev =>
        simp only
        have hget : ∀ b, (c.conns.set a cc).get? b = if b = a then some cc else c.conns.get? b :=
          fun b => GoMap.get?_set c.conns a cc b
        have hne : cc ≠ prev := by
          intro e
          subst e
          obtain ⟨b', hb'⟩ := (hl.2.2.1 a cc hp).1
          exact hfresh b' hb'
        constructor
        · refine liveConns_step c _ [Event.Close prev, Event.Dial cc, Event.connFn a cc] hl rfl
            (GoMap.nodup_set c.conns a cc hl.1) ?_ ?_ ?_ ?_
          · intro b x h
            have h' : (c.conns.set a cc).get? b = some x := h
            rw [hget b] at h'
            by_cases e : b = a
            · simp only [e, if_true, Option.some.injEq] at h'
              subst h'; subst e
              exact Or.inr ⟨by simp, hfresh⟩
            · simp only [e, if_false] at h'
              exact Or.inl h'
          · intro b1 b2 x h1 h2 hx
            have h1' : (c.conns.set a cc).get? b1 = some x := h1
            have h2' : (c.conns.set a cc).get? b2 = some x := h2
            rw [hget b1] at h1'
            rw [hget b2] at h2'
            by_cases e1 : b1 = a
            · by_cases e2 : b2 = a
              · rw [e1, e2]
              · simp only [e2, if_false] at h2'
                obtain ⟨b', hb'⟩ := (hl.2.2.1 b2 x h2').1
                exact absurd hb' (hx b')
            · simp only [e1, if_false] at h1'
              obtain ⟨b', hb'⟩ := (hl.2.2.1 b1 x h1').1
              exact absurd hb' (hx b')
          · intro x hx
            simp only [List.mem_cons, Event.Close.injEq, List.mem_singleton, or_false,
              List.not_mem_nil] at hx
            have hx' : x = prev := by
              rcases hx with h | h | h
              · exact h
              · exact absurd h (by simp)
              · exact absurd h (by simp)
            subst hx'
            refine ⟨⟨a, hp⟩, ?_⟩
            intro b h
            have h' : (c.conns.set a cc).get? b = some x := h
            rw [hget b] at h'
            by_cases e : b = a
            · simp only [e, if_true, Option.some.injEq] at h'
              exact hne h'
            · simp only [e, if_false] at h'
              exact e (hl.2.1 b a x h' hp)
          · intro x
            simp only [List.count_cons, List.count_nil]
            simp
            split <;> omega
        · refine ⟨[Event.Close prev, Event.Dial cc, Event.connFn a cc], rfl, ?_, ?_⟩
          · intro b x h
            by_cases e : b = a
            · subst e
              rw [hp] at h
              simp only [Option.some.injEq] at h
              subst h
              exact Or.inr (by simp)
            · left
              show (c.conns.set a cc).get? b = some x
              rw [hget b]
              simp only [e, if_false]; exact h
          · intro b x h
            have h' : (c.conns.set a cc).get? b = some x := h
            rw [hget b] at h'
            by_cases e : b = a
            · simp only [e, if_true, Option.some.injEq] at h'
              subst h'; subst e
              exact Or.inr (by simp)
            · simp only [e, if_false] at h'
              exact Or.inl h'

theorem init_live (w : World) (hw : w.freshFactory) (c : ClusterClient) (hl : liveConns c) :
    liveConns (init w c).2 ∧ Handover c (init w c).2 := by
  unfold init
  split
  · exact ⟨hl, Handover.same c⟩
  · exact initLoop_live w hw _ _ c hl

theorem GoMap.values_nodup (m : GoMap Conn) (hn : m.keys.Nodup)
    (hinj : ∀ a b x, m.get? a = some x → m.get? b = some x → a = b) :
    (m.map Prod.snd).Nodup := by
  induction m with
  | nil => simp
  | cons p rest ih =>
    obtain ⟨k, v⟩ := p
    have hn' := hn
    simp only [GoMap.keys, List.map_cons, List.nodup_cons] at hn'
    have hrest : ∀ a x, GoMap.get? rest a = some x → GoMap.get? ((k, v) :: rest) a = some x := by
      intro a x h
      have hak : ¬ k = a := by
        intro e
        subst e
        exact hn'.1 ((GoMap.get?_isSome_iff rest k).mp (by rw [h]; rfl))
      simp only [GoMap.get?, hak, if_false]
      exact h
    simp only [List.map_cons, List.nodup_cons]
    constructor
    · intro hv
      obtain ⟨q, hq, hqv⟩ := List.mem_map.mp hv
      obtain ⟨k', v'⟩ := q
      simp only at hqv
      subst hqv
      have h1 : GoMap.get? ((k, v') :: rest) k' = some v' :=
        hrest k' v' (GoMap.get?_of_mem rest k' v' hn'.2 hq)
      have h2 : GoMap.get? ((k, v') :: rest) k = some v' := by simp [GoMap.get?]
      have := hinj k' k v' h1 h2
      subst this
      exact hn'.1 (List.mem_map_of_mem Prod.fst hq)
    · exact ih hn'.2 (fun a b x ha hb => hinj a b x (hrest a x ha) (hrest b x hb))

theorem newMasters_fresh (w : World) (hw : w.freshFactory) (base : List Event) :
    ∀ (L : List (String × group)) (m : GoMap Conn) (c : ClusterClient),
    (∃ pre, c.trace = pre ++ base) →
    (∀ a b x, m.get? a = some x → m.get? b = some x → a = b) →
    (∀ a y, m.get? a = some y →
      (∀ b', Event.connFn b' y ∉ base) ∧ ∃ b', Event.connFn b' y ∈ c.trace) →
    (∀ a b x, (newMasters w L m c).1.get? a = some x →
      (newMasters w L m c).1.get? b = some x → a = b) ∧
    (∀ a y, (newMasters w L m c).1.get? a = some y → ∀ b', Event.connFn b' y ∉ base) := by
  intro L
  induction L with
  | nil =>
    intro m c _ hinj hval
    exact ⟨hinj, fun a y h => (hval a y h).1⟩
  | cons p rest ih =>
    intro m c hpre hinj hval
    obtain ⟨k, g⟩ := p
    obtain ⟨pre, hpre⟩ := hpre
    simp only [newMasters]
    have hfresh : ∀ b, Event.connFn b (w.connFn c.trace k) ∉ c.trace := fun b => hw c.trace k b
    generalize w.connFn c.trace k = cc at hfresh
    have hget : ∀ b, (m.set k cc).get? b = if b = k then some cc else m.get? b :=
      fun b => GoMap.get?_set m k cc b
    apply ih (m.set k cc) (c.log (Event.connFn k cc))
    · exact ⟨Event.connFn k cc :: pre, by simp [ClusterClient.log, hpre]⟩
    · intro a b x ha hb
      rw [hget a] at ha
      rw [hget b] at hb
      by_cases e1 : a = k
      · by_cases e2 : b = k
        · rw [e1, e2]
        · simp only [e1, if_true, Option.some.injEq] at ha
          simp only [e2, if_false] at hb
          subst ha
          obtain ⟨b', hb'⟩ := (hval b cc hb).2
          exact absurd hb' (hfresh b')
      · simp only [e1, if_false] at ha
        by_cases e2 : b = k
        · simp only [e2, if_true, Option.some.injEq] at hb
          subst hb
          obtain ⟨b', hb'⟩ := (hval a cc ha).2
          exact absurd hb' (hfresh b')
        · simp only [e2, if_false] at hb
          exact hinj a b x ha hb
    · intro a y ha
      rw [hget a] at ha
      by_cases e : a = k
      · simp only [e, if_true, Option.some.injEq] at ha
        subst ha
        refine ⟨?_, k, List.mem_cons_self _ _⟩
        intro b' hb'
        exact hfresh b' (by rw [hpre]; exact List.mem_append_right _ hb')
      · simp only [e, if_false] at ha
        obtain ⟨v1, b', hb'⟩ := hval a y ha
        exact ⟨v1, b', List.mem_cons_of_mem _ hb'⟩

theorem rebuild_live (w : World) (hw : w.freshFactory) {reply : Message}
    {c c' : ClusterClient} {e : Option Error} (h : rebuild w reply c = Exec.ret (e, c'))
    (hl : liveConns c) : liveConns c' ∧ Handover c c' := by
  obtain ⟨G, M0, creates, L, _, hnm, hperm, htr, hget, hk, _, hcre, hcr2⟩ :=
    rebuild_conns h hl.1
  have hF := newMasters_fresh w hw c.trace (c.range w G) [] c ⟨[], rfl⟩
    (by intro a b x ha; simp [GoMap.get?] at ha) (by intro a y ha; simp [GoMap.get?] at ha)
  rw [hnm] at hF
  obtain ⟨injM, freshM⟩ := hF
  have htr2 : c'.trace = (((L.filter fun p => (M0.get? p.1).isNone).map fun p =>
      Event.Close p.2).reverse ++ creates) ++ c.trace := by
    rw [htr, List.append_assoc]
  have hmemL : ∀ a x, (a, x) ∈ L ↔ c.conns.get? a = some x := by
    intro a x
    rw [hperm.mem_iff]
    exact ⟨GoMap.get?_of_mem c.conns a x hl.1, GoMap.mem_of_get? c.conns a x⟩
  have hnew : ∀ b x, c'.conns.get? b = some x → c.conns.get? b = some x ∨
      (M0.get? b = some x ∧ c.conns.get? b = none) := by
    intro b x hx
    rw [hget b] at hx
    cases hm : M0.get? b with
    | none => rw [hm] at hx; exact absurd hx (by simp)
    | some y =>
      rw [hm] at hx
      simp only [Option.some.injEq] at hx
      cases hc : c.conns.get? b with
      | none =>
        rw [hc] at hx
        simp only [Option.getD] at hx
        subst hx
        exact Or.inr ⟨rfl, rfl⟩
      | some z =>
        rw [hc] at hx
        simp only [Option.getD] at hx
        subst hx
        exact Or.inl rfl
  have hclosed : ∀ x, Event.Close x ∈ ((L.filter fun p => (M0.get? p.1).isNone).map fun p =>
      Event.Close p.2).reverse ++ creates →
      ∃ a, c.conns.get? a = some x ∧ M0.get? a = none := by
    intro x hx
    rcases List.mem_append.mp hx with hx | hx
    · rw [List.mem_reverse, List.mem_map] at hx
      obtain ⟨p, hp, hpx⟩ := hx
      rw [List.mem_filter] at hp
      simp only [Event.Close.injEq] at hpx
      subst hpx
      refine ⟨p.1, (hmemL p.1 p.2).mp hp.1, ?_⟩
      have h2 := hp.2
      cases hm : M0.get? p.1 with
      | none => rfl
      | some y => rw [hm] at h2; exact absurd h2 (by simp)
    · obtain ⟨b, y, hb⟩ := hcr2 _ hx
      exact absurd hb (by simp)
  constructor
  · refine liveConns_step c c' _ hl htr2 hk ?_ ?_ ?_ ?_
    · intro b x hx
      rcases hnew b x hx with h1 | ⟨h1, _⟩
      · exact Or.inl h1
      · exact Or.inr ⟨List.mem_append_right _ (hcre b x h1), freshM b x h1⟩
    · intro a b x ha hb hx
      have old : ∀ d, c.conns.get? d = some x → False := by
        intro d hd
        obtain ⟨b', hb'⟩ := (hl.2.2.1 d x hd).1
        exact hx b' hb'
      rcases hnew a x ha with h1 | ⟨h1, _⟩
      · exact absurd h1 (fun h => old a h)
      · rcases hnew b x hb with h2 | ⟨h2, _⟩
        · exact absurd h2 (fun h => old b h)
        · exact injM a b x h1 h2
    · intro x hx
      obtain ⟨a, ha, hma⟩ := hclosed x hx
      refine ⟨⟨a, ha⟩, ?_⟩
      intro b hb
      rcases hnew b x hb with h1 | ⟨h1, _⟩
      · have := hl.2.1 b a x h1 ha
        subst this
        rw [hget b, hma] at hb
        exact absurd hb (by simp)
      · obtain ⟨b', hb'⟩ := (hl.2.2.1 a x ha).1
        exact freshM b x h1 b' hb'
    · intro x
      rw [List.count_append]
      have h0 : creates.count (Event.Close x) = 0 := by
        apply List.count_eq_zero_of_not_mem
        intro hx
        obtain ⟨b, y, hb⟩ := hcr2 _ hx
        exact absurd hb (by simp)
      rw [h0, Nat.add_zero]
      have hv : (L.map Prod.snd).Nodup :=
        (hperm.map Prod.snd).nodup_iff.mpr (GoMap.values_nodup c.conns hl.1 hl.2.1)
      have hfv : ((L.filter fun p => (M0.get? p.1).isNone).map Prod.snd).Nodup :=
        hv.sublist ((List.filter_sublist L).map Prod.snd)
      have hcl : (((L.filter fun p => (M0.get? p.1).isNone).map fun p =>
          Event.Close p.2).reverse).Nodup := by
        rw [List.nodup_reverse]
        have : ((L.filter fun p => (M0.get? p.1).isNone).map fun p => Event.Close p.2) =
            ((L.filter fun p => (M0.get? p.1).isNone).map Prod.snd).map Event.Close := by
          rw [List.map_map]; rfl
        rw [this]
        exact hfv.map (fun a b hab => by simpa using hab)
      exact List.nodup_iff_count_le_one.mp hcl _
  · refine ⟨_, htr2, ?_, ?_⟩
    · intro a x ha
      cases hm : M0.get? a with
      | some y =>
        left
        rw [hget a, hm, ha]
        rfl
      | none =>
        right
        apply List.mem_append_left
        rw [List.mem_reverse, List.mem_map]
        refine ⟨(a, x), ?_, rfl⟩
        rw [List.mem_filter]
        exact ⟨(hmemL a x).mpr ha, by rw [hm]; rfl⟩
    · intro a x hx
      rcases hnew a x hx with h1 | ⟨h1, _⟩
      · exact Or.inl h1
      · exact Or.inr (List.mem_append_right _ (hcre a x h1))

/-- With a factory of new connections, `_refresh` keeps `liveConns`, hands
over `conns` by closing what it drops and creating what it adds, and when it
returns nil every populated slot refers to a value of `conns`. -/
theorem _refresh_live (w : World) (hw : w.freshFactory) (n : Nat) (c c' : ClusterClient)
    (x : Option Error) (hl : liveConns c) (h : _refresh w n c = Exec.ret (x, c')) :
    liveConns c' ∧ Handover c c' ∧ (x = none → slotsInConns c') := by
  rcases _refreshRetry_inv w (fun d => liveConns d ∧ Handover c d)
      (fun L v d hd => ⟨(queryLoop_live w L v d hd.1).1,
        hd.2.compose (queryLoop_live w L v d hd.1).2⟩)
      (fun dead d hd => ⟨(removeDead_live dead d hd.1).1,
        hd.2.compose (removeDead_live dead d hd.1).2⟩)
      (fun d hd => ⟨(init_live w hw d hd.1).1, hd.2.compose (init_live w hw d hd.1).2⟩)
      n Message.zero none c x c' rfl ⟨hl, Handover.same c⟩ h with
    ⟨e, he, h1, h2⟩ | ⟨hx, reply, c1, ⟨h1, h2⟩, hreb, _⟩
  · exact ⟨h1, h2, fun hn => by rw [he] at hn; exact absurd hn (by simp)⟩
  · obtain ⟨r1, r2⟩ := rebuild_live w hw hreb h1
    exact ⟨r1, h2.compose r2, fun _ => rebuild_slotsInConns hreb⟩

theorem sum_connId_le : ∀ (tr : List Event) (e : Event), e ∈ tr →
    e.connId ≤ (tr.map Event.connId).sum := by
  intro tr
  induction tr with
  | nil => intro e h; simp at h
  | cons x rest ih =>
    intro e h
    simp only [List.map_cons, List.sum_cons]
    rcases List.mem_cons.mp h with h1 | h1
    · subst h1; omega
    · have := ih e h1; omega

theorem freshConn_fresh (tr : List Event) (b : String) :
    Event.connFn b (freshConn tr) ∉ tr := by
  intro h
  have := sum_connId_le tr _ h
  simp only [Event.connId, freshConn] at this
  omega

theorem shrinkWorld_fresh : shrinkWorld.freshFactory := fun tr _ b => freshConn_fresh tr b

theorem lossWorld_fresh : lossWorld.freshFactory := fun tr _ b => freshConn_fresh tr b

theorem liveConns_empty (L : List String) (S : Slots) : liveConns ⟨L, S, [], []⟩ := by
  refine ⟨by simp [GoMap.keys], ?_, ?_, ?_, ?_⟩
  · intro a b x h; simp [GoMap.get?] at h
  · intro a x h; simp [GoMap.get?] at h
  · intro x; simp
  · intro x h; simp at h

/-! ## Theorems: the connections closed by a refresh -/

/-- C34, as stated, fails when the refresh returns an error.  With a factory
of new connections, the client seeded with `b:2` is refreshed: `conns` holds
the distinct connections 2 of `a:1` and 4 of `c:3`, slots 0 to 3 refer to 2.
At the next refresh both fail the topology query: they are removed from
`conns` and closed, once, the refresh returns the error, and slot 0 still
refers to the closed connection 2. -/
theorem failed_refresh_keeps_closed_in_slots :
    lossWorld.freshFactory ∧
    ∃ c1 c2 e, _refresh lossWorld 3 freshClient = Exec.ret (none, c1) ∧ liveConns c1 ∧
      c1.conns.get? "a:1" = some ⟨2⟩ ∧
      _refresh lossWorld 3 c1 = Exec.ret (some e, c2) ∧
      c2.conns.get? "a:1" = none ∧ c2.trace.count (Event.Close ⟨2⟩) = 1 ∧
      c2.slots 0 = some ⟨2⟩ := by
  refine ⟨lossWorld_fresh, _, _, _, rfl, ?_, rfl, rfl, rfl, by decide, rfl⟩
  exact (_refresh_live lossWorld lossWorld_fresh 3 freshClient _ none
    (liveConns_empty _ _) rfl).1

/-- C34, amended.  Let the factory return a new connection at every call,
and let the connections of `conns` be distinct, created by the factory and
not closed, with no connection closed twice so far (`liveConns`).  After a
refresh, whatever it returns, this holds again.  Every entry of `conns` from
before the refresh is still there or its connection has been closed during the
refresh: then it has been closed exactly once and is under no address of
`conns`.  Every entry of `conns` was there before or has been created by the
factory during the refresh.  No closed connection is a value of `conns`, also
after any later refresh; and when the refresh returns nil, no closed
connection is reachable through `slots`. -/
theorem refresh_closes_removed_once (w : World) (hw : w.freshFactory) (n : Nat)
    (c c' : ClusterClient) (x : Option Error) (hl : liveConns c)
    (h : _refresh w n c = Exec.ret (x, c')) :
    liveConns c' ∧
    (∃ added, c'.trace = added ++ c.trace ∧
      (∀ a cc, c.conns.get? a = some cc → c'.conns.get? a = some cc ∨
        (Event.Close cc ∈ added ∧ c'.trace.count (Event.Close cc) = 1 ∧
          ∀ b, c'.conns.get? b ≠ some cc)) ∧
      (∀ a cc, c'.conns.get? a = some cc →
        c.conns.get? a = some cc ∨ Event.connFn a cc ∈ added)) ∧
    (∀ cc, Event.Close cc ∈ c'.trace → ∀ a, c'.conns.get? a ≠ some cc) ∧
    (∀ n2 x2 c2, _refresh w n2 c' = Exec.ret (x2, c2) →
      ∀ cc, Event.Close cc ∈ c'.trace → ∀ a, c2.conns.get? a ≠ some cc) ∧
    (x = none → ∀ cc, Event.Close cc ∈ c'.trace → ∀ i, c'.slots i ≠ some cc) := by
  obtain ⟨l', ⟨added, ht, hgone, hnew⟩, hs⟩ := _refresh_live w hw n c c' x hl h
  have hout : ∀ cc, Event.Close cc ∈ c'.trace → ∀ a, c'.conns.get? a ≠ some cc :=
    fun cc hcc a ha => (l'.2.2.1 a cc ha).2 hcc
  refine ⟨l', ⟨added, ht, ?_, hnew⟩, hout, ?_, ?_⟩
  · intro a cc ha
    rcases hgone a cc ha with h1 | h1
    · exact Or.inl h1
    · have hm : Event.Close cc ∈ c'.trace := by rw [ht]; exact List.mem_append_left _ h1
      refine Or.inr ⟨h1, ?_, hout cc hm⟩
      have h2 := l'.2.2.2.1 cc
      have h3 : 0 < c'.trace.count (Event.Close cc) := List.count_pos_iff.mpr hm
      omega
  · intro n2 x2 c2 h2 cc hcc a ha
    obtain ⟨l2, ⟨added2, ht2, _, _⟩, _⟩ := _refresh_live w hw n2 c' c2 x2 l' h2
    exact (l2.2.2.1 a cc ha).2 (by rw [ht2]; exact List.mem_append_right _ hcc)
  · intro hx cc hcc i hi
    obtain ⟨a, ha⟩ := hs hx i cc hi
    exact hout cc hcc a ha

/-- C34 amended, in a world whose second topology reply no longer has the
primary `c:3`: the first refresh of the client seeded with `b:2` installs the
connections 2 of `a:1` and 4 of `c:3`; the second keeps 2 and removes 4, which
is closed once and is reachable neither through `conns` nor through `slots`. -/
theorem refresh_closes_removed_once_witness :
    ∃ c1 c2, _refresh shrinkWorld 3 freshClient = Exec.ret (none, c1) ∧
      c1.conns.get? "c:3" = some ⟨4⟩ ∧
      _refresh shrinkWorld 3 c1 = Exec.ret (none, c2) ∧
      c2.conns.get? "a:1" = some ⟨2⟩ ∧ c2.conns.get? "c:3" = none ∧
      Event.Close ⟨4⟩ ∈ c2.trace ∧
      liveConns c2 ∧
      (∃ added, c2.trace = added ++ c1.trace ∧
        (∀ a cc, c1.conns.get? a = some cc → c2.conns.get? a = some cc ∨
          (Event.Close cc ∈ added ∧ c2.trace.count (Event.Close cc) = 1 ∧
            ∀ b, c2.conns.get? b ≠ some cc)) ∧
        (∀ a cc, c2.conns.get? a = some cc →
          c1.conns.get? a = some cc ∨ Event.connFn a cc ∈ added)) ∧
      (∀ cc, Event.Close cc ∈ c2.trace → ∀ a, c2.conns.get? a ≠ some cc) ∧
      (∀ n2 x2 c3, _refresh shrinkWorld n2 c2 = Exec.ret (x2, c3) →
        ∀ cc, Event.Close cc ∈ c2.trace → ∀ a, c3.conns.get? a ≠ some cc) ∧
      ((none : Option Error) = none → ∀ cc, Event.Close cc ∈ c2.trace →
        ∀ i, c2.slots i ≠ some cc) := by
  refine ⟨_, _, rfl, rfl, rfl, rfl, rfl, by decide, ?_⟩
  exact refresh_closes_removed_once shrinkWorld shrinkWorld_fresh 3 _ _ none
    (refresh_closes_removed_once shrinkWorld shrinkWorld_fresh 3 freshClient _ none
      (liveConns_empty _ _) rfl).1 rfl

/-! ## Theorems: every `ASK` of a cached read -/

theorem lastReplyIn_quiet (w : World) (base : List Event) (dflt : Option Result) :
    ∀ (pre : List Event), (∀ e ∈ pre, e.isSubmit = false) →
    lastReplyIn w base dflt pre = dflt := by
  intro pre
  induction pre with
  | nil => intro _; rfl
  | cons e rest ih =>
    intro h
    have he := h e (List.mem_cons_self _ _)
    have hr := ih (fun x hx => h x (List.mem_cons_of_mem _ hx))
    cases e <;> simp_all [lastReplyIn, Event.isSubmit]

theorem lastReplyIn_append (w : World) (base : List Event) (dflt : Option Result)
    (mid : List Event) : ∀ (pre : List Event),
    lastReplyIn w base dflt (pre ++ mid) =
      lastReplyIn w (mid ++ base) (lastReplyIn w base dflt mid) pre := by
  intro pre
  induction pre with
  | nil => rfl
  | cons e rest ih =>
    cases e <;> simp [lastReplyIn, ih]

theorem lastReplyIn_default (w : World) (base : List Event) : ∀ (pre : List Event),
    (∀ d, lastReplyIn w base d pre = d) ∨
    (∀ d d', lastReplyIn w base d pre = lastReplyIn w base d' pre) := by
  intro pre
  induction pre with
  | nil => exact Or.inl (fun d => rfl)
  | cons e rest ih =>
    cases e <;> first
      | exact Or.inr (fun d d' => rfl)
      | (rcases ih with h | h
         · exact Or.inl (fun d => by simp only [lastReplyIn]; exact h d)
         · exact Or.inr (fun d d' => by simp only [lastReplyIn]; exact h d d'))

theorem asksUncached_quiet (w : World) (cmd : Command) (ttl : Nat) (base : List Event)
    (dflt : Option Result) (added : List Event) (h : ∀ e ∈ added, e.isSubmit = false) :
    asksUncached w cmd ttl base dflt added := by
  intro post e pre hs
  have he : e.isSubmit = false := h e (by rw [hs]; simp)
  refine ⟨?_, ?_, ?_⟩
  · intro cc q t heq; subst heq; simp [Event.isSubmit] at he
  · intro cc multi heq; subst heq; simp [Event.isSubmit] at he
  · intro cc q heq; subst heq; simp [Event.isSubmit] at he

theorem asksUncached_append (w : World) (cmd : Command) (ttl : Nat) (base : List Event)
    (dflt : Option Result) (a1 a2 : List Event)
    (h1 : asksUncached w cmd ttl base dflt a1)
    (h2 : asksUncached w cmd ttl (a1 ++ base) (lastReplyIn w base dflt a1) a2) :
    asksUncached w cmd ttl base dflt (a2 ++ a1) := by
  intro post e pre hs
  rcases List.append_eq_append_iff.mp hs with ⟨m, hm1, hm2⟩ | ⟨m, hm1, hm2⟩
  · -- a2 ++ m = post, a1 = m ++ e :: pre
    exact h1 m e pre hm2
  · -- post ++ m = a2, e :: pre = m ++ a1
    cases m with
    | nil =>
      simp only [List.nil_append] at hm2
      simp only [List.append_nil] at hm1
      exact h1 [] e pre (by rw [← hm2]; rfl)
    | cons x m' =>
      simp only [List.cons_append, List.cons.injEq] at hm2
      obtain ⟨hx, hpre⟩ := hm2
      subst hx
      have := h2 post e m' hm1
      rw [hpre, lastReplyIn_append]
      exact this

theorem asksUncached_default (w : World) (cmd : Command) (ttl : Nat) (base : List Event)
    (dflt : Option Result) (added : List Event) (hd : askOf dflt = none)
    (h : asksUncached w cmd ttl base none added) :
    asksUncached w cmd ttl base dflt added := by
  intro post e pre hs
  obtain ⟨g1, g2, g3⟩ := h post e pre hs
  refine ⟨?_, ?_, g3⟩
  · intro cc q t heq
    obtain ⟨k1, k2, k3⟩ := g1 cc q t heq
    refine ⟨k1, k2, ?_⟩
    rcases lastReplyIn_default w base pre with h0 | h0
    · rw [h0 dflt]; exact hd
    · rw [h0 dflt none]; exact k3
  · intro cc multi heq
    obtain ⟨k1, k2⟩ := g2 cc multi heq
    refine ⟨k1, ?_⟩
    rcases lastReplyIn_default w base pre with h0 | h0
    · rw [h0 none] at k2
      simp [askOf] at k2
    · rw [h0 dflt none]; exact k2

theorem pickOrNew_quiet (w : World) (addr : String) (c : ClusterClient) :
    ∃ a, (pickOrNew w addr c).2.trace = a ++ c.trace ∧ ∀ e ∈ a, e.isSubmit = false := by
  have S := pickOrNew_spec w addr c
  cases hg : c.conns.get? addr with
  | some q =>
    refine ⟨[], ?_, by simp⟩
    rw [(S.2.2.2.1 q hg).2]; rfl
  | none =>
    refine ⟨[Event.connFn addr (w.connFn c.trace addr)], ?_, by simp [Event.isSubmit]⟩
    rw [(S.2.2.2.2 hg).2]; rfl

theorem isRefresh_not_isSubmit (e : Event) (h : e.isRefresh = true) : e.isSubmit = false := by
  cases e <;> simp_all [Event.isRefresh, Event.isSubmit]

/-- The label of `DoCache` as the reply in hand. -/
theorem DoCacheFrom_asks (w : World) (cmd : Command) (ttl : Nat) :
    ∀ (n : Nat) (l : Label) (c c' : ClusterClient) (r : Result),
    DoCacheFrom w cmd ttl n l c = Exec.ret (r, c') →
    ∃ added, c'.trace = added ++ c.trace ∧
      asksUncached w cmd ttl c.trace
        (match l with
          | Label.retry => none
          | Label.process resp => some resp) added := by
  intro n
  induction n with
  | zero => intro l c c' r h; simp [DoCacheFrom] at h
  | succ n ih =>
    intro l c c' r h
    cases l with
    | retry =>
      rw [DoCacheFrom] at h
      rcases hpk : pick w n cmd.Slot c with ⟨x, c1⟩ | m | _
      · obtain ⟨a1, ht1, hq1⟩ := pick_extends hpk
        have hq : ∀ e ∈ a1, e.isSubmit = false := fun e he => isRefresh_not_isSubmit e (hq1 e he)
        cases x with
        | error e =>
          simp only [hpk, Exec.ret.injEq, Prod.mk.injEq] at h
          refine ⟨Event.Put cmd.Commands :: a1, ?_, ?_⟩
          · rw [← h.2]; simp [ClusterClient.log, ht1]
          · apply asksUncached_quiet
            intro x hx
            rcases List.mem_cons.mp hx with hx | hx
            · subst hx; rfl
            · exact hq x hx
        | ok cc =>
          simp only [hpk] at h
          obtain ⟨a2, ht2, g2⟩ := ih _ _ _ _ h
          refine ⟨a2 ++ (Event.DoCache cc cmd ttl :: a1), ?_, ?_⟩
          · rw [ht2]; simp [ClusterClient.log, ht1]
          · apply asksUncached_append
            · intro post e pre hs
              cases post with
              | nil =>
                simp only [List.nil_append, List.cons.injEq] at hs
                obtain ⟨he, hpre⟩ := hs
                subst he; subst hpre
                refine ⟨?_, ?_, ?_⟩
                · intro cc' q t heq
                  simp only [Event.DoCache.injEq] at heq
                  refine ⟨heq.2.1.symm, heq.2.2.symm, ?_⟩
                  rw [lastReplyIn_quiet w c.trace none a1 hq]; rfl
                · intro cc' multi heq; simp at heq
                · intro cc' q heq; simp at heq
              | cons x post' =>
                simp only [List.cons_append, List.cons.injEq] at hs
                exact asksUncached_quiet w cmd ttl c.trace none a1 hq post' e pre hs.2
            · have e1 : lastReplyIn w c.trace none (Event.DoCache cc cmd ttl :: a1) =
                  some (w.DoCache c1.trace cc cmd ttl) := by
                simp only [lastReplyIn, ht1]
              rw [e1]
              have e2 : (Event.DoCache cc cmd ttl :: a1) ++ c.trace =
                  (c1.log (Event.DoCache cc cmd ttl)).trace := by
                simp [ClusterClient.log, ht1]
              rw [e2]
              exact g2
      · simp [hpk] at h
      · simp [hpk] at h
    | process resp =>
      rw [DoCacheFrom] at h
      have fin : ∀ (c2 : ClusterClient), c2 = c.log (Event.Put cmd.Commands) →
          ∃ added, c2.trace = added ++ c.trace ∧
            asksUncached w cmd ttl c.trace (some resp) added := by
        intro c2 hc2
        refine ⟨[Event.Put cmd.Commands], by rw [hc2]; rfl, ?_⟩
        apply asksUncached_quiet
        intro x hx
        simp only [List.mem_singleton] at hx
        subst hx; rfl
      cases hre : resp.RedisError with
      | none =>
        simp only [hre, Exec.ret.injEq, Prod.mk.injEq] at h
        exact fin c' h.2.symm
      | some err =>
        simp only [hre] at h
        cases hm : err.IsMoved with
        | some addr =>
          simp only [hm] at h
          obtain ⟨a2, ht2, g2⟩ := ih _ _ _ _ h
          obtain ⟨a0, ht0, hq0⟩ := pickOrNew_quiet w addr (c.log Event.goRefresh)
          have htr : (pickOrNew w addr (c.log Event.goRefresh)).2.trace =
              (a0 ++ [Event.goRefresh]) ++ c.trace := by
            rw [ht0]; simp [ClusterClient.log]
          have hq : ∀ e ∈ a0 ++ [Event.goRefresh], e.isSubmit = false := by
            intro e he
            rcases List.mem_append.mp he with he | he
            · exact hq0 e he
            · simp only [List.mem_singleton] at he
              subst he; rfl
          generalize a0 ++ [Event.goRefresh] = a1 at htr hq
          generalize pickOrNew w addr (c.log Event.goRefresh) = p at htr ht2 g2
          refine ⟨a2 ++ (Event.DoCache p.1 cmd ttl :: a1), ?_, ?_⟩
          · rw [ht2]; simp [ClusterClient.log, htr]
          · apply asksUncached_append
            · intro post e pre hs
              cases post with
              | nil =>
                simp only [List.nil_append, List.cons.injEq] at hs
                obtain ⟨he, hpre⟩ := hs
                subst he; subst hpre
                refine ⟨?_, ?_, ?_⟩
                · intro cc' q t heq
                  simp only [Event.DoCache.injEq] at heq
                  refine ⟨heq.2.1.symm, heq.2.2.symm, ?_⟩
                  rw [lastReplyIn_quiet w c.trace (some resp) a1 hq]
                  simp only [askOf, hre, hm]
                · intro cc' multi heq; simp at heq
                · intro cc' q heq; simp at heq
              | cons x post' =>
                simp only [List.cons_append, List.cons.injEq] at hs
                exact asksUncached_quiet w cmd ttl c.trace (some resp) a1 hq post' e pre hs.2
            · have e1 : lastReplyIn w c.trace (some resp) (Event.DoCache p.1 cmd ttl :: a1) =
                  some (w.DoCache p.2.trace p.1 cmd ttl) := by
                simp only [lastReplyIn, htr]
              rw [e1]
              have e2 : (Event.DoCache p.1 cmd ttl :: a1) ++ c.trace =
                  (p.2.log (Event.DoCache p.1 cmd ttl)).trace := by
                simp [ClusterClient.log, htr]
              rw [e2]
              exact g2
        | none =>
          simp only [hm] at h
          cases ha : err.IsAsk with
          | some addr =>
            simp only [ha] at h
            cases hd : (w.DoMulti (pickOrNew w addr c).2.trace (pickOrNew w addr c).1
                [AskingCmd, cmd])[1]? with
            | none => simp [hd] at h
            | some r1 =>
              simp only [hd] at h
              obtain ⟨a2, ht2, g2⟩ := ih _ _ _ _ h
              obtain ⟨a1, htr, hq⟩ := pickOrNew_quiet w addr c
              generalize pickOrNew w addr c = p at htr ht2 g2 hd
              refine ⟨a2 ++ (Event.DoMulti p.1 [AskingCmd, cmd] :: a1), ?_, ?_⟩
              · rw [ht2]; simp [ClusterClient.log, htr]
              · apply asksUncached_append
                · intro post e pre hs
                  cases post with
                  | nil =>
                    simp only [List.nil_append, List.cons.injEq] at hs
                    obtain ⟨he, hpre⟩ := hs
                    subst he; subst hpre
                    refine ⟨?_, ?_, ?_⟩
                    · intro cc' q t heq; simp at heq
                    · intro cc' multi heq
                      simp only [Event.DoMulti.injEq] at heq
                      refine ⟨heq.2.symm, ?_⟩
                      rw [lastReplyIn_quiet w c.trace (some resp) a1 hq]
                      simp only [askOf, hre, hm, ha]
                      rfl
                    · intro cc' q heq; simp at heq
                  | cons x post' =>
                    simp only [List.cons_append, List.cons.injEq] at hs
                    exact asksUncached_quiet w cmd ttl c.trace (some resp) a1 hq post' e pre hs.2
                · have e1 : lastReplyIn w c.trace (some resp)
                      (Event.DoMulti p.1 [AskingCmd, cmd] :: a1) = some r1 := by
                    simp only [lastReplyIn, ← htr, hd]
                  rw [e1]
                  have e2 : (Event.DoMulti p.1 [AskingCmd, cmd] :: a1) ++ c.trace =
                      (p.2.log (Event.DoMulti p.1 [AskingCmd, cmd])).trace := by
                    simp [ClusterClient.log, htr]
                  rw [e2]
                  exact g2
          | none =>
            simp only [ha] at h
            cases ht : err.IsTryAgain with
            | true =>
              simp only [ht, if_true] at h
              obtain ⟨a2, ht2, g2⟩ := ih _ _ _ _ h
              refine ⟨a2 ++ [Event.Gosched], ?_, ?_⟩
              · rw [ht2]; simp [ClusterClient.log]
              · apply asksUncached_append
                · apply asksUncached_quiet
                  intro x hx
                  simp only [List.mem_singleton] at hx
                  subst hx; rfl
                · have e1 : lastReplyIn w c.trace (some resp) [Event.Gosched] = some resp := rfl
                  rw [e1]
                  apply asksUncached_default
                  · simp only [askOf, hre, hm, ha]
                  · exact g2
            | false =>
              simp only [ht, Bool.false_eq_true, if_false, Exec.ret.injEq, Prod.mk.injEq] at h
              exact fin c' h.2.symm

theorem DoCacheFrom_ask_step (w : World) (cmd : Command) (ttl : Nat) (m : Nat)
    (resp : Result) (addr : String) (d : ClusterClient) (h : askOf (some resp) = some addr) :
    DoCacheFrom w cmd ttl (m + 1) (Label.process resp) d =
      match (w.DoMulti (pickOrNew w addr d).2.trace (pickOrNew w addr d).1
          [AskingCmd, cmd])[1]? with
      | some resp1 =>
        DoCacheFrom w cmd ttl m (Label.process resp1)
          ((pickOrNew w addr d).2.log (Event.DoMulti (pickOrNew w addr d).1 [AskingCmd, cmd]))
      | none => Exec.panic "index out of range" := by
  simp only [askOf] at h
  cases hre : resp.RedisError with
  | none => rw [hre] at h; simp at h
  | some err =>
    rw [hre] at h
    simp only at h
    cases hm : err.IsMoved with
    | some a => rw [hm] at h; simp at h
    | none =>
      rw [hm] at h
      simp only at h
      rw [DoCacheFrom]
      simp only [hre, hm, h]

/-- C9.  Every `ASK` that a cached read receives is retried outside the
cached path.  Whenever `DoCache` is at `process` with a result read as
`ASK addr`, whichever submission has produced it (the first one, one that
followed a MOVED, or an earlier pipeline), it submits the pipeline
`[ASKING, cmd]` with `DoMulti` to `pickOrNew(addr)` and goes on with the second
reply.  In the history of every run that returns, each use of the cached path
`DoCache` is for the command itself, never for `ASKING`, and does not follow a
reply read as `ASK`; each pipeline is `[ASKING, cmd]` and follows a reply read
as `ASK`; the plain path `Do` is not used. -/
theorem DoCache_ask_retries_uncached (w : World) (n : Nat) (cmd : Command) (ttl : Nat)
    (c c' : ClusterClient) (r : Result) (h : DoCache w n cmd ttl c = Exec.ret (r, c')) :
    (∃ added, c'.trace = added ++ c.trace ∧
      ∀ post e pre, added = post ++ e :: pre →
        (∀ cc q t, e = Event.DoCache cc q t →
          q = cmd ∧ t = ttl ∧ askOf (lastReplyIn w c.trace none pre) = none) ∧
        (∀ cc multi, e = Event.DoMulti cc multi →
          multi = [AskingCmd, cmd] ∧
            (askOf (lastReplyIn w c.trace none pre)).isSome = true) ∧
        (∀ cc q, e ≠ Event.Do cc q)) ∧
    (∀ m resp addr d, askOf (some resp) = some addr →
      DoCacheFrom w cmd ttl (m + 1) (Label.process resp) d =
        match (w.DoMulti (pickOrNew w addr d).2.trace (pickOrNew w addr d).1
            [AskingCmd, cmd])[1]? with
        | some resp1 =>
          DoCacheFrom w cmd ttl m (Label.process resp1)
            ((pickOrNew w addr d).2.log
              (Event.DoMulti (pickOrNew w addr d).1 [AskingCmd, cmd]))
        | none => Exec.panic "index out of range") :=
  ⟨DoCacheFrom_asks w cmd ttl n Label.retry c c' r h,
    fun m resp addr d hr => DoCacheFrom_ask_step w cmd ttl m resp addr d hr⟩

/-- C9 on a cached read that is moved and then asked: `a:1` answers
`MOVED d:4`, the cached submission to `d:4` is answered `ASK e:5`, and the
retry at `e:5` is the pipeline; the cached path is used for `a:1` and `d:4`
only. -/
theorem DoCache_ask_retries_uncached_witness :
    ∃ c', DoCache movedAskWorld 5 getCmd 60 routedClient = Exec.ret (okResult, c') ∧
      c'.trace = [Event.Put getCmd.Commands,
        Event.DoMulti (connOf "e:5") [AskingCmd, getCmd],
        Event.connFn "e:5" (connOf "e:5"),
        Event.DoCache (connOf "d:4") getCmd 60,
        Event.connFn "d:4" (connOf "d:4"), Event.goRefresh,
        Event.DoCache (connOf "a:1") getCmd 60] ∧
      (∃ added, c'.trace = added ++ routedClient.trace ∧
        ∀ post e pre, added = post ++ e :: pre →
          (∀ cc q t, e = Event.DoCache cc q t →
            q = getCmd ∧ t = 60 ∧
              askOf (lastReplyIn movedAskWorld routedClient.trace none pre) = none) ∧
          (∀ cc multi, e = Event.DoMulti cc multi →
            multi = [AskingCmd, getCmd] ∧
              (askOf (lastReplyIn movedAskWorld routedClient.trace none pre)).isSome = true) ∧
          (∀ cc q, e ≠ Event.Do cc q)) :=
  ⟨_, rfl, rfl,
    (DoCache_ask_retries_uncached movedAskWorld 5 getCmd 60 routedClient _ okResult rfl).1⟩

end Rueidis
